import Mathlib

set_option autoImplicit false

/-!
# FAT32 shell: a shallow embedding of `fat32.c`

The image file is a byte map from absolute offsets to bytes, the boot sector is a record of
the BPB fields the core reads, and the process-wide globals of the C program (`disk`,
`directory_stack`, `directory_stack_count`, standard output) are threaded through a `Session`.
C integer arithmetic is written on naturals with the truncation of the C type made explicit.
Loops whose trip count the source does not bound (`while (next_cluster != END_OF_CHAIN)`)
take a fuel argument and return `none` when it is exhausted.
-/

namespace Fat32

/-! ## fat32.h -/

def ATTR_READ_ONLY : Nat := 0x01
def ATTR_HIDDEN : Nat := 0x02
def ATTR_SYSTEM : Nat := 0x04
def ATTR_VOLUME_ID : Nat := 0x08
def ATTR_DIRECTORY : Nat := 0x10
def ATTR_ARCHIVE : Nat := 0x20
def ATTR_LONG_NAME : Nat := 0x0F
def ATTR_LONG_NAME_MASK : Nat := 0x3F
def FREE_CLUSTER : Nat := 0x00000000
def END_OF_CHAIN : Nat := 0x0FFFFFF8
def AVAILABLE_ENTRY_POINTER : Nat := 0xE5

/-- The fields of `struct boot_sector` that the core reads. Their C types are
`uint16_t` (BytsPerSec, RsvdSecCnt), `uint8_t` (SecPerClus, NumFATs) and
`uint32_t` (TotSec32, FATSz32, RootClus). -/
structure boot_sector where
  BPB_BytsPerSec : Nat
  BPB_SecPerClus : Nat
  BPB_RsvdSecCnt : Nat
  BPB_NumFATs : Nat
  BPB_TotSec32 : Nat
  BPB_FATSz32 : Nat
  BPB_RootClus : Nat

/-- The fields of a boot sector lie in the ranges of their C types. -/
def boot_sector.typed (bs : boot_sector) : Prop :=
  bs.BPB_BytsPerSec < 2 ^ 16 ∧ bs.BPB_SecPerClus < 2 ^ 8 ∧ bs.BPB_RsvdSecCnt < 2 ^ 16 ∧
  bs.BPB_NumFATs < 2 ^ 8 ∧ bs.BPB_TotSec32 < 2 ^ 32 ∧ bs.BPB_FATSz32 < 2 ^ 32 ∧
  bs.BPB_RootClus < 2 ^ 32

/-- The image file: the byte stored at every absolute offset. -/
abbrev Disk := Nat → Nat

/-- A raw 32-byte directory slot (`DirEntry`), indexed by byte offset inside the slot. -/
abbrev DirEntry := Nat → Nat

/-! ## Image I/O (`fseek` followed by `fread` / `fwrite`) -/

/-- Little-endian byte `k` of the integer `v`. -/
def le_byte (v k : Nat) : Nat := v / 256 ^ k % 256

/-- The bytes `fread(&value, sizeof(uint32_t), 1, disk)` assembles after `fseek(disk, pos)`. -/
def fread32 (disk : Disk) (pos : Nat) : Nat :=
  disk pos % 256 + 256 * (disk (pos + 1) % 256) + 65536 * (disk (pos + 2) % 256)
    + 16777216 * (disk (pos + 3) % 256)

/-- The image after `fseek(disk, pos)` and `fwrite(buf, 1, len, disk)`. -/
def fwrite (disk : Disk) (pos len : Nat) (buf : Nat → Nat) : Disk :=
  fun a => if pos ≤ a ∧ a < pos + len then buf (a - pos) % 256 else disk a

/-- The object representation of a `uint32_t`. -/
def le32 (v : Nat) : Nat → Nat := fun k => le_byte v k

/-- One directory slot read by `fread` at `pos`. -/
def fread_entry (disk : Disk) (pos : Nat) : DirEntry := fun k => disk (pos + k) % 256

/-! ## Directory slots -/

def zero_entry : DirEntry := fun _ => 0

/-- A `uint16_t` field of the packed struct at byte offset `off`. -/
def get16 (e : DirEntry) (off : Nat) : Nat := e off % 256 + 256 * (e (off + 1) % 256)

/-- A `uint32_t` field of the packed struct at byte offset `off`. -/
def get32 (e : DirEntry) (off : Nat) : Nat :=
  e off % 256 + 256 * (e (off + 1) % 256) + 65536 * (e (off + 2) % 256)
    + 16777216 * (e (off + 3) % 256)

def set8 (e : DirEntry) (off v : Nat) : DirEntry :=
  fun k => if k = off then v % 256 else e k

def set16 (e : DirEntry) (off v : Nat) : DirEntry :=
  fun k => if k = off then le_byte v 0 else if k = off + 1 then le_byte v 1 else e k

def set32 (e : DirEntry) (off v : Nat) : DirEntry :=
  fun k => if off ≤ k ∧ k < off + 4 then le_byte v (k - off) else e k

/-- The effect of `memcpy(e.short_dir.DIR_Name, name, 11)`. -/
def set_name (e : DirEntry) (name : Nat → Nat) : DirEntry :=
  fun k => if k < 11 then name k else e k

def DIR_Attr (e : DirEntry) : Nat := e 11
def DIR_NTRes (e : DirEntry) : Nat := e 12
def DIR_CrtTimeTenth (e : DirEntry) : Nat := e 13
def DIR_CrtTime (e : DirEntry) : Nat := get16 e 14
def DIR_CrtDate (e : DirEntry) : Nat := get16 e 16
def DIR_LstAccDate (e : DirEntry) : Nat := get16 e 18
def DIR_FstClusHI (e : DirEntry) : Nat := get16 e 20
def DIR_WrtTime (e : DirEntry) : Nat := get16 e 22
def DIR_WrtDate (e : DirEntry) : Nat := get16 e 24
def DIR_FstClusLO (e : DirEntry) : Nat := get16 e 26
def DIR_FileSize (e : DirEntry) : Nat := get32 e 28

/-- The test `!memcmp(name, e.short_dir.DIR_Name, 11)`. -/
def name_matches (name : Nat → Nat) (e : DirEntry) : Bool :=
  (List.range 11).all fun k => name k == e k

/-- The test `(DIR_Attr & ATTR_LONG_NAME_MASK) == ATTR_LONG_NAME`. -/
def is_long_name (e : DirEntry) : Bool :=
  DIR_Attr e &&& ATTR_LONG_NAME_MASK == ATTR_LONG_NAME

/-- The test `(DIR_Attr & ATTR_DIRECTORY) == ATTR_DIRECTORY`. -/
def is_directory (e : DirEntry) : Bool :=
  DIR_Attr e &&& ATTR_DIRECTORY == ATTR_DIRECTORY

/-- The value `(DIR_FstClusHI << 16) | DIR_FstClusLO` stored into a `uint32_t`. -/
def first_cluster (e : DirEntry) : Nat :=
  ((DIR_FstClusHI e <<< 16) ||| DIR_FstClusLO e) % 2 ^ 32

/-! ## Geometry -/

/-- The global `first_data_sector`, as `read_disk` computes it (32-bit unsigned arithmetic,
widened to `uint64_t`). -/
def first_data_sector (bs : boot_sector) : Nat :=
  (bs.BPB_RsvdSecCnt + bs.BPB_NumFATs * bs.BPB_FATSz32 % 2 ^ 32) % 2 ^ 32

/-- The sector number `get_cluster_offset` returns (`uint64_t` arithmetic). -/
def get_cluster_offset (bs : boot_sector) (sector : Nat) : Nat :=
  ((sector + 2 ^ 64 - 2) % 2 ^ 64 * bs.BPB_SecPerClus + first_data_sector bs) % 2 ^ 64

/-- The byte offset `get_fat_address` returns; argument and result are `uint32_t`. -/
def get_fat_address (bs : boot_sector) (sector : Nat) : Nat :=
  (bs.BPB_RsvdSecCnt * bs.BPB_BytsPerSec + sector % 2 ^ 32 * 4) % 2 ^ 32

/-- The FAT entry of `sector`, clamped to `END_OF_CHAIN`. -/
def get_cluster_info (bs : boot_sector) (disk : Disk) (sector : Nat) : Nat :=
  let value := fread32 disk (get_fat_address bs sector)
  if value ≥ END_OF_CHAIN then END_OF_CHAIN else value

/-- The image after `write_in_fat(cluster, &value)`: the value goes to `fat_address` and to
`fat2_address = fat_address + BPB_FATSz32 * BPB_BytsPerSec` (a `uint32_t`). -/
def write_in_fat (bs : boot_sector) (disk : Disk) (cluster value : Nat) : Disk :=
  let fat_address := get_fat_address bs cluster
  let fat2_address := (fat_address + bs.BPB_FATSz32 * bs.BPB_BytsPerSec % 2 ^ 32) % 2 ^ 32
  fwrite (fwrite disk fat_address 4 (le32 value)) fat2_address 4 (le32 value)

/-- The number of bytes of a cluster as the source computes it,
`bs.BPB_BytsPerSec * bs.BPB_SecPerClus`. -/
def cluster_bytes (bs : boot_sector) : Nat := bs.BPB_BytsPerSec * bs.BPB_SecPerClus

/-- The value `get_entry_disk_position(cluster, entry_pos)` returns (a `uint32_t`). -/
def get_entry_disk_position (bs : boot_sector) (disk : Disk) (cluster entry_pos : Nat) : Nat :=
  let offset_from_cluster_begining := entry_pos * 32 % cluster_bytes bs
  let file_cluster := entry_pos * 32 / cluster_bytes bs
  let cluster := (get_cluster_info bs disk)^[file_cluster] cluster
  (get_cluster_offset bs cluster * bs.BPB_SecPerClus * bs.BPB_BytsPerSec
    + offset_from_cluster_begining) % 2 ^ 32

/-! ## Name codec -/

/-- The list `prohibited` without its terminating NUL: + , ; = [ ] . and space. -/
def prohibited : List Nat := [43, 44, 59, 61, 91, 93, 46, 32]

/-- The C-locale `toupper` on a byte. -/
def toupper (c : Nat) : Nat := if 97 ≤ c ∧ c ≤ 122 then c - 32 else c

/-- The store `name[i] = v`. -/
def store (name : Nat → Nat) (i v : Nat) : Nat → Nat :=
  fun k => if k = i then v else name k

/-- The first loop of `create_formated_name`, from index `i` with the dot position found so
far (`none` stands for -1). The outer `none` is the early `return`. -/
def find_dot : List Nat → Nat → Option Nat → Option (Option Nat)
  | [], _, dot_pos => some dot_pos
  | c :: rest, i, dot_pos =>
    if c = 46 ∧ dot_pos ≠ none then none
    else
      let dot_pos := if c = 46 ∧ dot_pos = none then some i else dot_pos
      if dot_pos = some 0 then none else find_dot rest (i + 1) dot_pos

/-- The inner loop over `prohibited`: a member is replaced by an underscore. -/
def replace_prohibited (c : Nat) : Nat := if c ∈ prohibited then 95 else c

/-- The buffer `name` after `create_formated_name(name, unformatted_name)`. The string is
the list of its bytes before the terminating NUL. Indices 11 and above of the result lie
outside the `char[11]` every caller passes. -/
def create_formated_name (name : Nat → Nat) (unformatted_name : List Nat) : Nat → Nat :=
  let name := store name 0 0
  let len := unformatted_name.length
  match find_dot unformatted_name 0 none with
  | none => name
  | some dot_pos =>
    if len > 13 then name
    else if len = 13 ∧ dot_pos = none then name
    else
      match dot_pos with
      | some dp =>
        if len - (dp + 1) > 3 then name
        else
          let name := (List.range dp).foldl
            (fun nm i => store nm i (replace_prohibited (toupper (unformatted_name.getD i 0)))) name
          let name := (List.range' dp (8 - dp)).foldl (fun nm i => store nm i 0x20) name
          let ext := len - (dp + 1)
          let name := (List.range ext).foldl
            (fun nm k => store nm (8 + k) (toupper (unformatted_name.getD (dp + 1 + k) 0))) name
          (List.range' (8 + ext) (11 - (8 + ext))).foldl (fun nm j => store nm j 0x20) name
      | none =>
        let name := (List.range len).foldl
          (fun nm i => store nm i (toupper (unformatted_name.getD i 0))) name
        (List.range' len (11 - len)).foldl (fun nm i => store nm i 0x20) name

/-- The 11-byte buffer a caller declares before `create_formated_name`; its indeterminate
initial content is taken to be zero (byte 0 is always stored first, and the callers read the
other bytes only on the accepting paths, which store all of them). -/
def formated (unformatted_name : List Nat) : Nat → Nat :=
  create_formated_name (fun _ => 0) unformatted_name

/-- The bytes `print_name(name)` sends to the output, in order: the base up to the first
0x20 among bytes 0 to 7, then, unless byte 8 is 0x20 or 0x00, a dot and the bytes 8 to 10 up
to the first byte equal to 20 (the source compares with decimal 20 in this loop). -/
def print_name (name : Nat → Nat) : List Nat :=
  let base := ((List.range 8).map name).takeWhile fun c => c != 0x20
  if name 8 = 0x20 ∨ name 8 = 0x00 then base
  else base ++ [46] ++ ((List.range' 8 3).map name).takeWhile fun c => c != 20

/-! ## Session state -/

/-- The state of the pointer `directory_t.entries`: `NULL`, the array obtained from `malloc`,
or an array already passed to `free`. -/
inductive Pointer where
  | null
  | allocated
  | freed
  deriving DecidableEq, Repr

/-- One frame of the directory stack (`directory_t`); the `previous` pointer is the
position in `Session.previous`. The field `entries` holds the slots of the array and
`entries_ptr` the state of the pointer to it. -/
structure directory_t where
  entries : List DirEntry
  quantity : Nat
  name : List Nat
  cluster : Nat
  entries_ptr : Pointer

/-- The command word passed to the message formats. -/
inductive Command where
  | cd
  | rm
  | rmdir
  | touch
  | mkdir
  deriving DecidableEq, Repr

/-- The lines the core prints, one constructor per `printf` format. -/
inductive Msg where
  /-- The line "%s: %s: Invalid folder name". -/
  | invalid_folder_name (command : Command) (folder : List Nat)
  /-- The line "%s: %s: No such directory". -/
  | no_such_directory (command : Command) (folder : List Nat)
  /-- The line "%s: %s: Invalid name". -/
  | invalid_name (command : Command) (file_name : List Nat)
  /-- The line "%s: '%s': Already exists". -/
  | already_exists (command : Command) (file_name : List Nat)
  /-- The line "%s: '%s': Unable to alocate new cluster, disk is full?". -/
  | unable_to_alocate (command : Command) (file_name : List Nat)
  /-- The line "rm: %s: Invalid entry name" (or with rmdir). -/
  | invalid_entry_name (command : Command) (entry_name : List Nat)
  /-- The line "rm: '%s': No such file" (or with rmdir). -/
  | no_such_file (command : Command) (entry_name : List Nat)
  /-- The line "rm: '%s': Can't remove a folder". -/
  | cant_remove_folder (entry_name : List Nat)
  /-- The line "rmdir: '%s': Can't remove a file". -/
  | cant_remove_file (entry_name : List Nat)
  /-- The line "rmdir: '%s': Directory not empty". -/
  | directory_not_empty (entry_name : List Nat)
  /-- The line "rename: %s: Invalid entry name". -/
  | rename_invalid_entry_name (entry_name : List Nat)
  /-- The line "rename: %s: Invalid new name". -/
  | rename_invalid_new_name (new_name : List Nat)
  /-- The line "rename: '%s': No such file or directory". -/
  | rename_no_such_file (entry_name : List Nat)
  /-- The line "rename: '%s': Already exists". -/
  | rename_already_exists (new_name : List Nat)
  deriving DecidableEq, Repr

/-- The globals of the program: the image, the top frame `directory_stack`, the frames
reached through `previous` (parent first), `directory_stack_count`, and what has been
printed so far. -/
structure Session where
  disk : Disk
  directory_stack : directory_t
  previous : List directory_t
  directory_stack_count : Nat
  out : List Msg

def Session.print (s : Session) (m : Msg) : Session := { s with out := s.out ++ [m] }

/-- The slot `directory_stack->entries[i]`. -/
def Session.entry (s : Session) (i : Nat) : DirEntry :=
  s.directory_stack.entries.getD i zero_entry

/-- The frame `create_directory_struct(previous, name)` allocates: the name is copied up
to the first NUL or space among its first 11 bytes. -/
def create_directory_struct (name : Nat → Nat) : directory_t :=
  { entries := []
    quantity := 0
    name := ((List.range 11).map name).takeWhile fun c => c != 0 && c != 0x20
    cluster := 0
    entries_ptr := Pointer.null }

/-! ## Directory cache -/

/-- The value `max_dir_entry_per_cluster` of `read_dir`. -/
def max_dir_entry_per_cluster (bs : boot_sector) : Nat :=
  bs.BPB_BytsPerSec * bs.BPB_SecPerClus / 32

/-- The byte offset `read_dir` seeks to for `next_cluster`: `currsec` is a `uint32_t` and the
product `currsec * BPB_SecPerClus * BPB_BytsPerSec` is taken in 32-bit unsigned arithmetic. -/
def read_dir_position (bs : boot_sector) (next_cluster : Nat) : Nat :=
  get_cluster_offset bs next_cluster % 2 ^ 32 * bs.BPB_SecPerClus * bs.BPB_BytsPerSec % 2 ^ 32

/-- The `while (next_cluster != END_OF_CHAIN)` loop of `read_dir`; `acc` is the array read
so far. -/
def read_dir_loop (bs : boot_sector) (disk : Disk) : Nat → Nat → List DirEntry → Option (List DirEntry)
  | 0, _, _ => none
  | fuel + 1, next_cluster, acc =>
    if next_cluster = END_OF_CHAIN then some acc
    else
      let pos := read_dir_position bs next_cluster
      let acc := acc ++ (List.range (max_dir_entry_per_cluster bs)).map
        fun j => fread_entry disk (pos + 32 * j)
      read_dir_loop bs disk fuel (get_cluster_info bs disk next_cluster) acc

/-- The session after `read_dir()`. The function starts with
`if (directory_stack->entries != NULL) free(directory_stack->entries)` and leaves the pointer
as it is; each pass of the loop allocates the larger array, copies the slots read so far,
calls `free(directory_stack->entries)` and stores the new pointer.

On a fresh frame (pointer `NULL`) the top frame ends up with the slots of every cluster of
its chain, and `quantity` is their number. On a frame whose array is allocated the first
pass of the loop frees the pointer that the first line has freed already: the result is
`none`; with an empty chain only the first line runs and the frame is left with the freed
pointer and `quantity` 0. On a frame whose array was freed before, the first line frees it a
second time: `none`. -/
def read_dir (fuel : Nat) (bs : boot_sector) (s : Session) : Option Session :=
  match s.directory_stack.entries_ptr with
  | Pointer.null =>
    (read_dir_loop bs s.disk fuel s.directory_stack.cluster []).map fun es =>
      { s with
        directory_stack :=
          { s.directory_stack with
            entries := es
            quantity := es.length
            entries_ptr :=
              if s.directory_stack.cluster = END_OF_CHAIN then Pointer.null
              else Pointer.allocated } }
  | Pointer.allocated =>
    if s.directory_stack.cluster = END_OF_CHAIN then
      some
        { s with
          directory_stack :=
            { s.directory_stack with entries := [], quantity := 0, entries_ptr := Pointer.freed } }
    else none
  | Pointer.freed => none

/-! ## Path stack -/

/-- The search loop of `cd_wrapper` over slots `i, i+1, ...` (`n` slots remain): the index
of the directory slot whose name matches, if the loop reaches one. -/
def cd_search (folder_name : Nat → Nat) (entries : List DirEntry) : Nat → Nat → Option Nat
  | 0, _ => none
  | n + 1, i =>
    let e := entries.getD i zero_entry
    if e 0 = 0x00 then none
    else if e 0 = 0xE5 then cd_search folder_name entries n (i + 1)
    else if is_long_name e then cd_search folder_name entries n (i + 1)
    else if !is_directory e then cd_search folder_name entries n (i + 1)
    else if name_matches folder_name e then some i
    else cd_search folder_name entries n (i + 1)

/-- The result of `cd_wrapper(folder, command)`: its return value and the session. -/
def cd_wrapper (fuel : Nat) (bs : boot_sector) (s : Session) (folder : List Nat)
    (command : Command) : Option (Nat × Session) :=
  if folder = [46] then some (1, s)
  else if folder = [46, 46] then
    if s.directory_stack_count = 0 then some (1, s)
    else
      match s.previous with
      | [] => none
      | parent :: rest =>
        (read_dir fuel bs
          { s with
            directory_stack := parent
            previous := rest
            directory_stack_count := s.directory_stack_count - 1 }).map fun s => (1, s)
  else
    let folder_name := formated folder
    if folder_name 0 = 0 then some (0, s.print (Msg.invalid_folder_name command folder))
    else
      match cd_search folder_name s.directory_stack.entries s.directory_stack.quantity 0 with
      | some i =>
        let e := s.entry i
        let new_directory := { (create_directory_struct e) with cluster := first_cluster e }
        (read_dir fuel bs
          { s with
            directory_stack := new_directory
            previous := s.directory_stack :: s.previous
            directory_stack_count := (s.directory_stack_count + 1) % 2 ^ 32 }).map fun s => (1, s)
      | none => some (0, s.print (Msg.no_such_directory command folder))

def cd (fuel : Nat) (bs : boot_sector) (s : Session) (folder : List Nat) : Option Session :=
  (cd_wrapper fuel bs s folder Command.cd).map fun r => r.2

/-! ## FAT manager -/

/-- The value `fat_addresses` of `allocate_clusters_wrapped` (32-bit unsigned arithmetic). -/
def fat_addresses (bs : boot_sector) : Nat :=
  (bs.BPB_TotSec32 + 2 ^ 32 - (bs.BPB_RsvdSecCnt + 2 * bs.BPB_FATSz32 % 2 ^ 32) % 2 ^ 32) % 2 ^ 32

/-- The scan loop of `allocate_clusters_wrapped` standing at index `i` with `n` indices left
below `fat_addresses`; the recursive call of the source starts its own loop at `i + 1`.
Returns the function result and the image. -/
def allocate_scan (bs : boot_sector) : Nat → Nat → Nat → Disk → Nat × Disk
  | 0, _, _, disk => (FREE_CLUSTER, disk)
  | n + 1, cluster_count, i, disk =>
    if get_cluster_info bs disk i = FREE_CLUSTER then
      let r :=
        if (cluster_count + 2 ^ 32 - 1) % 2 ^ 32 ≠ 0 then
          allocate_scan bs n ((cluster_count + 2 ^ 32 - 1) % 2 ^ 32) (i + 1) disk
        else (END_OF_CHAIN, disk)
      (i, write_in_fat bs r.2 i r.1)
    else allocate_scan bs n cluster_count (i + 1) disk

def allocate_clusters_wrapped (bs : boot_sector) (disk : Disk) (cluster_count last_cluster : Nat) :
    Nat × Disk :=
  allocate_scan bs (fat_addresses bs - last_cluster) cluster_count last_cluster disk

def allocate_clusters (bs : boot_sector) (disk : Disk) (cluster_count : Nat) : Nat × Disk :=
  allocate_clusters_wrapped bs disk cluster_count 2

/-- The `while (next_cluster != END_OF_CHAIN)` loop of `get_last_cluster_in_chain`. -/
def last_cluster_loop (bs : boot_sector) (disk : Disk) : Nat → Nat → Nat → Option Nat
  | 0, _, _ => none
  | fuel + 1, next_cluster, curr_cluster =>
    if next_cluster = END_OF_CHAIN then some curr_cluster
    else last_cluster_loop bs disk fuel (get_cluster_info bs disk next_cluster) next_cluster

def get_last_cluster_in_chain (fuel : Nat) (bs : boot_sector) (disk : Disk) (chain_start : Nat) :
    Option Nat :=
  last_cluster_loop bs disk fuel (get_cluster_info bs disk chain_start) chain_start

/-! ## Wall clock -/

/-- The fields of `struct tm` the core reads from `localtime`. -/
structure tm where
  tm_sec : Nat
  tm_min : Nat
  tm_hour : Nat
  tm_mday : Nat
  tm_mon : Nat
  tm_year : Nat

/-- The `uint16_t date` word built from the broken-down time. -/
def fat_date (now : tm) : Nat :=
  let date := 0
  let date := (date ||| now.tm_mday) % 2 ^ 16
  let date := (date ||| ((now.tm_mon + 1) <<< 5)) % 2 ^ 16
  (date ||| ((now.tm_year - 80) <<< 9)) % 2 ^ 16

/-- The `uint16_t time` word built from the broken-down time, seconds clamped to 58. -/
def fat_time (now : tm) : Nat :=
  let tm_sec := if now.tm_sec ≥ 58 then 58 else now.tm_sec
  let time := 0
  let time := (time ||| (tm_sec >>> 1)) % 2 ^ 16
  let time := (time ||| (now.tm_min <<< 5)) % 2 ^ 16
  (time ||| (now.tm_hour <<< 11)) % 2 ^ 16

/-! ## Entry operations: create -/

/-- The search loop of `touch_wrapper` over slots `i, i+1, ...` (`n` slots remain) with the
slot chosen so far (`none` stands for -1). The outer `none` is the "Already exists" return. -/
def touch_search (new_entry_name : Nat → Nat) (entries : List DirEntry) :
    Nat → Nat → Option Nat → Option (Option Nat)
  | 0, _, entry_pos => some entry_pos
  | n + 1, i, entry_pos =>
    let e := entries.getD i zero_entry
    if is_long_name e then touch_search new_entry_name entries n (i + 1) entry_pos
    else if e 0 = 0x00 then some (if entry_pos = none then some i else entry_pos)
    else if e 0 = 0xE5 ∧ entry_pos = none then
      touch_search new_entry_name entries n (i + 1) (some i)
    else if name_matches new_entry_name e then none
    else touch_search new_entry_name entries n (i + 1) entry_pos

/-- The slot `touch_wrapper` builds in `directory_stack->entries[entry_pos]` when
`created_entry` is NULL: `memset`, the name, then the field stores in source order. -/
def new_entry (new_entry_name : Nat → Nat) (attr new_entry_cluster date time : Nat) : DirEntry :=
  let e := set_name zero_entry new_entry_name
  let e := set16 e 26 (new_entry_cluster &&& 0x0000FFFF)
  let e := set16 e 20 ((new_entry_cluster &&& 0xFFFF0000) >>> 16)
  let e := set32 e 28 0
  let e := set8 e 11 attr
  let e := set16 e 16 date
  let e := set16 e 14 time
  let e := set16 e 24 date
  let e := set16 e 22 time
  set16 e 18 date

/-- The name bytes of the array `dot`. -/
def dot : Nat → Nat := fun k => if k = 0 then 46 else 0x20

/-- The name bytes of the array `dotdot`. -/
def dotdot : Nat → Nat := fun k => if k < 2 then 46 else 0x20

/-- The local `dotEntry` (and `dotdotEntry`, with the other name and cluster). -/
def dot_entry (name : Nat → Nat) (attr cluster date time : Nat) : DirEntry :=
  let e := set_name zero_entry name
  let e := set16 e 26 (cluster &&& 0x0000FFFF)
  let e := set16 e 20 ((cluster &&& 0xFFFF0000) >>> 16)
  let e := set8 e 11 attr
  let e := set16 e 16 date
  let e := set16 e 14 time
  let e := set16 e 24 date
  let e := set16 e 22 time
  set16 e 18 date

/-- The tail of `touch_wrapper` from the clock read on: the slot is filled in the cache,
flushed to its disk position, and for a directory the two dot entries are written at the
start of the new cluster (`write_dotpos` is a `uint64_t`). -/
def touch_store (bs : boot_sector) (now : tm) (s : Session) (new_entry_name : Nat → Nat)
    (attr new_entry_cluster entry_pos : Nat) : Session :=
  let date := fat_date now
  let time := fat_time now
  let e := new_entry new_entry_name attr new_entry_cluster date time
  let disk := fwrite s.disk
    (get_entry_disk_position bs s.disk s.directory_stack.cluster entry_pos) 32 e
  let disk :=
    if attr = ATTR_DIRECTORY then
      let write_dotpos :=
        get_cluster_offset bs new_entry_cluster * bs.BPB_SecPerClus * bs.BPB_BytsPerSec % 2 ^ 64
      let disk := fwrite disk write_dotpos 32 (dot_entry dot attr new_entry_cluster date time)
      fwrite disk (write_dotpos + 32) 32 (dot_entry dotdot attr s.directory_stack.cluster date time)
    else disk
  { s with
    disk := disk
    directory_stack :=
      { s.directory_stack with entries := s.directory_stack.entries.set entry_pos e } }

/-- The result of `touch_wrapper(file_name, attr, NULL)`: its return value and the session.
Both callers in the program pass NULL for `created_entry`; the other branch serves only the
`mv` code that the source keeps inside a comment. `now` is what `localtime` returns. -/
def touch_wrapper (fuel : Nat) (bs : boot_sector) (now : tm) (s : Session) (file_name : List Nat)
    (attr : Nat) : Option (Nat × Session) :=
  if attr ≠ ATTR_ARCHIVE ∧ attr ≠ ATTR_DIRECTORY then some (0, s)
  else
    let command_name := if attr = ATTR_ARCHIVE then Command.touch else Command.mkdir
    let new_entry_name := formated file_name
    if new_entry_name 0 = 0 then some (0, s.print (Msg.invalid_name command_name file_name))
    else
      match touch_search new_entry_name s.directory_stack.entries s.directory_stack.quantity 0 none with
      | none => some (0, s.print (Msg.already_exists command_name file_name))
      | some entry_pos =>
        let a := allocate_clusters bs s.disk 1
        let new_entry_cluster := a.1
        let s := { s with disk := a.2 }
        if new_entry_cluster = FREE_CLUSTER then
          some (0, s.print (Msg.unable_to_alocate command_name file_name))
        else
          match entry_pos with
          | some entry_pos =>
            some (1, touch_store bs now s new_entry_name attr new_entry_cluster entry_pos)
          | none =>
            match get_last_cluster_in_chain fuel bs s.disk s.directory_stack.cluster with
            | none => none
            | some last_cluster_currfolder =>
              let b := allocate_clusters bs s.disk 1
              let extra_entries_start := b.1
              let s := { s with disk := b.2 }
              let entry_pos := s.directory_stack.quantity
              if extra_entries_start = FREE_CLUSTER then
                let s := s.print (Msg.unable_to_alocate command_name file_name)
                let address_to_free_cluster := get_cluster_offset bs new_entry_cluster % 2 ^ 32
                some (0, { s with disk := write_in_fat bs s.disk address_to_free_cluster FREE_CLUSTER })
              else
                let s := { s with
                  disk := write_in_fat bs s.disk last_cluster_currfolder extra_entries_start }
                match read_dir fuel bs s with
                | none => none
                | some s =>
                  some (1, touch_store bs now s new_entry_name attr new_entry_cluster entry_pos)

def touch (fuel : Nat) (bs : boot_sector) (now : tm) (s : Session) (file_name : List Nat) :
    Option Session :=
  (touch_wrapper fuel bs now s file_name ATTR_ARCHIVE).map fun r => r.2

def mkdir (fuel : Nat) (bs : boot_sector) (now : tm) (s : Session) (entry_name : List Nat) :
    Option Session :=
  (touch_wrapper fuel bs now s entry_name ATTR_DIRECTORY).map fun r => r.2

/-! ## Entry operations: remove -/

/-- The chain-freeing `while (next_cluster != END_OF_CHAIN)` loop of `rm_wrapped`. -/
def rm_free_loop (bs : boot_sector) : Nat → Disk → Nat → Nat → Option Disk
  | 0, _, _, _ => none
  | fuel + 1, disk, next_cluster, curr_cluster =>
    if next_cluster = END_OF_CHAIN then some disk
    else
      let next_cluster := get_cluster_info bs disk curr_cluster
      rm_free_loop bs fuel (write_in_fat bs disk curr_cluster FREE_CLUSTER) next_cluster next_cluster

/-- The search loop of `rm_wrapped` standing at slot `entry_pos` with `n` slots left. -/
def rm_loop (fuel : Nat) (bs : boot_sector) (s : Session) (entry_name : List Nat)
    (rm_entry_name : Nat → Nat) (is_folder : Nat) : Nat → Nat → Option Session
  | 0, _ => some s
  | n + 1, entry_pos =>
    let e := s.entry entry_pos
    let command := if is_folder ≠ 0 then Command.rmdir else Command.rm
    if e 0 = 0xE5 then rm_loop fuel bs s entry_name rm_entry_name is_folder n (entry_pos + 1)
    else if is_long_name e then
      rm_loop fuel bs s entry_name rm_entry_name is_folder n (entry_pos + 1)
    else if e 0 = 0x00 then some (s.print (Msg.no_such_file command entry_name))
    else if name_matches rm_entry_name e then
      if is_directory e ∧ is_folder = 0 then some (s.print (Msg.cant_remove_folder entry_name))
      else if ¬ is_directory e ∧ is_folder ≠ 0 then
        some (s.print (Msg.cant_remove_file entry_name))
      else
        let e := store e 0 AVAILABLE_ENTRY_POINTER
        let disk := fwrite s.disk
          (get_entry_disk_position bs s.disk s.directory_stack.cluster entry_pos) 1
          (fun _ => AVAILABLE_ENTRY_POINTER)
        (rm_free_loop bs fuel disk 0 (first_cluster e)).map fun disk =>
          { s with
            disk := disk
            directory_stack :=
              { s.directory_stack with entries := s.directory_stack.entries.set entry_pos e } }
    else rm_loop fuel bs s entry_name rm_entry_name is_folder n (entry_pos + 1)

def rm_wrapped (fuel : Nat) (bs : boot_sector) (s : Session) (entry_name : List Nat)
    (is_folder : Nat) : Option Session :=
  let rm_entry_name := formated entry_name
  if rm_entry_name 0 = 0 then
    some (s.print (Msg.invalid_entry_name (if is_folder ≠ 0 then Command.rmdir else Command.rm)
      entry_name))
  else rm_loop fuel bs s entry_name rm_entry_name is_folder s.directory_stack.quantity 0

def rm (fuel : Nat) (bs : boot_sector) (s : Session) (entry_name : List Nat) : Option Session :=
  rm_wrapped fuel bs s entry_name 0

/-- The counting loop of `rmdir` over the slots of the directory entered: true when a
third live slot is met ("Directory not empty"). -/
def rmdir_count (entries : List DirEntry) : Nat → Nat → Nat → Bool
  | 0, _, _ => false
  | n + 1, entry, total_entries =>
    let e := entries.getD entry zero_entry
    if e 0 = 0x00 then false
    else if e 0 = 0xE5 then rmdir_count entries n (entry + 1) total_entries
    else if is_long_name e then rmdir_count entries n (entry + 1) total_entries
    else if total_entries + 1 > 2 then true
    else rmdir_count entries n (entry + 1) (total_entries + 1)

/-- The search loop of `rmdir` standing at slot `entry_pos` with `n` slots left, followed by
the call `rm_wrapped(entry_name, 1)` that ends the function. -/
def rmdir_loop (fuel : Nat) (bs : boot_sector) (s : Session) (entry_name : List Nat)
    (rm_entry_name : Nat → Nat) : Nat → Nat → Option Session
  | 0, _ => rm_wrapped fuel bs s entry_name 1
  | n + 1, entry_pos =>
    let e := s.entry entry_pos
    if e 0 = 0xE5 then rmdir_loop fuel bs s entry_name rm_entry_name n (entry_pos + 1)
    else if is_long_name e then rmdir_loop fuel bs s entry_name rm_entry_name n (entry_pos + 1)
    else if e 0 = 0x00 then some (s.print (Msg.no_such_file Command.rmdir entry_name))
    else if name_matches rm_entry_name e then
      if !is_directory e then some (s.print (Msg.cant_remove_file entry_name))
      else
        match cd fuel bs s entry_name with
        | none => none
        | some s =>
          if rmdir_count s.directory_stack.entries s.directory_stack.quantity 0 0 then
            cd fuel bs (s.print (Msg.directory_not_empty entry_name)) [46, 46]
          else
            match cd fuel bs s [46, 46] with
            | none => none
            | some s => rm_wrapped fuel bs s entry_name 1
    else rmdir_loop fuel bs s entry_name rm_entry_name n (entry_pos + 1)

def rmdir (fuel : Nat) (bs : boot_sector) (s : Session) (entry_name : List Nat) : Option Session :=
  let rm_entry_name := formated entry_name
  if rm_entry_name 0 = 0 then some (s.print (Msg.invalid_entry_name Command.rmdir entry_name))
  else rmdir_loop fuel bs s entry_name rm_entry_name s.directory_stack.quantity 0

/-! ## Entry operations: rename -/

/-- The search loop of `rename_dir_entry` standing at slot `i` with `n` slots left and the
position found so far (`none` stands for -1). The result is the line printed by an error
return, or the value of `entry_pos` when the loop ends. -/
def rename_search (entry_name new_name : List Nat) (old_entry_name new_entry_name : Nat → Nat)
    (entries : List DirEntry) : Nat → Nat → Option Nat → Msg ⊕ Option Nat
  | 0, _, entry_pos => Sum.inr entry_pos
  | n + 1, i, entry_pos =>
    let e := entries.getD i zero_entry
    if e 0 = 0xE5 then
      rename_search entry_name new_name old_entry_name new_entry_name entries n (i + 1) entry_pos
    else if is_long_name e then
      rename_search entry_name new_name old_entry_name new_entry_name entries n (i + 1) entry_pos
    else if e 0 = 0x00 ∧ entry_pos = none then Sum.inl (Msg.rename_no_such_file entry_name)
    else
      let entry_pos := if name_matches old_entry_name e then some i else entry_pos
      if name_matches new_entry_name e then Sum.inl (Msg.rename_already_exists new_name)
      else
        rename_search entry_name new_name old_entry_name new_entry_name entries n (i + 1)
          entry_pos

/-- The slot `rename_dir_entry` leaves in `entries[entry_pos]`: the new name, then the write
date and the write time. -/
def renamed_entry (e : DirEntry) (new_entry_name : Nat → Nat) (date time : Nat) : DirEntry :=
  let e := set_name e new_entry_name
  let e := set16 e 24 date
  set16 e 22 time

/-- The session after `rename_dir_entry(entry_name, new_name)`; `now` is what `localtime`
returns. The result is `none` when the loop ends with `entry_pos == -1`: the stores that
follow go through `directory_stack->entries[-1]`, outside the array, and the function has
printed nothing. -/
def rename_dir_entry (bs : boot_sector) (now : tm) (s : Session) (entry_name new_name : List Nat) :
    Option Session :=
  let old_entry_name := formated entry_name
  if old_entry_name 0 = 0 then some (s.print (Msg.rename_invalid_entry_name entry_name))
  else
    let new_entry_name := formated new_name
    if new_entry_name 0 = 0 then some (s.print (Msg.rename_invalid_new_name new_name))
    else if name_matches old_entry_name new_entry_name then some s
    else
      match rename_search entry_name new_name old_entry_name new_entry_name
          s.directory_stack.entries s.directory_stack.quantity 0 none with
      | Sum.inl m => some (s.print m)
      | Sum.inr none => none
      | Sum.inr (some entry_pos) =>
        let e := renamed_entry (s.entry entry_pos) new_entry_name (fat_date now) (fat_time now)
        some
          { s with
            disk := fwrite s.disk
              (get_entry_disk_position bs s.disk s.directory_stack.cluster entry_pos) 32 e
            directory_stack :=
              { s.directory_stack with entries := s.directory_stack.entries.set entry_pos e } }

/-! ## Mount -/

/-- The session `read_disk` leaves: the root frame, named "/", with the slots of the root
directory loaded. The boot sector is passed already decoded. -/
def read_disk (fuel : Nat) (bs : boot_sector) (disk : Disk) : Option Session :=
  read_dir fuel bs
    { disk := disk
      directory_stack :=
        { (create_directory_struct fun k => if k = 0 then 47 else 0) with
          cluster := bs.BPB_RootClus }
      previous := []
      directory_stack_count := 0
      out := [] }

/-! ## Read-only commands -/

/-- The three numbers `print_date(date)` formats with "%02d/%02d/%d": day, month and year
(each a `uint16_t`). -/
def print_date (date : Nat) : List Nat :=
  [date &&& 0b11111, (date >>> 5) &&& 0b1111, (1980 + ((date >>> 9) &&& 0b1111111)) % 2 ^ 16]

/-- The three numbers `print_time(time)` formats with "%02d:%02d:%02d": hour, minutes and
seconds (each a `uint16_t`). -/
def print_time (time : Nat) : List Nat :=
  [(time >>> 11) &&& 0b11111, (time >>> 5) &&& 0b111111, ((time &&& 0b11111) <<< 1) % 2 ^ 16]

/-- One line of the output of `ls`: the header, or the line of an entry with the values
its `printf` calls format, in order, the `d`/`-` flag and the bytes of `print_name`. -/
inductive LsLine where
  | header
  | entry (CrtDate CrtTime WrtDate WrtTime LstAccDate : List Nat) (FileSize : Nat)
      (is_directory : Bool) (name : List Nat)
  deriving DecidableEq, Repr

/-- The `for` loop of `ls` over slots `i, i+1, ...` (`n` slots remain). -/
def ls_loop (entries : List DirEntry) : Nat → Nat → List LsLine
  | 0, _ => []
  | n + 1, i =>
    let e := entries.getD i zero_entry
    if e 0 = 0x00 then []
    else if e 0 = 0xE5 then ls_loop entries n (i + 1)
    else if is_long_name e then ls_loop entries n (i + 1)
    else
      LsLine.entry (print_date (DIR_CrtDate e)) (print_time (DIR_CrtTime e))
        (print_date (DIR_WrtDate e)) (print_time (DIR_WrtTime e))
        (print_date (DIR_LstAccDate e)) (DIR_FileSize e)
        (DIR_Attr e &&& (ATTR_DIRECTORY ||| ATTR_VOLUME_ID) == ATTR_DIRECTORY)
        (print_name e) :: ls_loop entries n (i + 1)

/-- The lines `ls()` prints. -/
def ls (s : Session) : List LsLine :=
  LsLine.header :: ls_loop s.directory_stack.entries s.directory_stack.quantity 0

/-- The character `cluster` prints in the text column for a byte: line feed, 0x08 to 0x0D
become a space and NUL becomes a dot. -/
def cluster_char (c : Nat) : Nat :=
  let c := if c ≠ 10 then c else 32
  let c := if c ≠ 0x08 then c else 32
  let c := if c ≠ 0x09 then c else 32
  let c := if c ≠ 0x0A then c else 32
  let c := if c ≠ 0x0B then c else 32
  let c := if c ≠ 0x0C then c else 32
  let c := if c ≠ 0x0D then c else 32
  if c ≠ 0 then c else 46

/-- The lines `cluster(i)` prints for `i ≥ 0`: each line is the 16 bytes shown in
hexadecimal and the 16 characters of the text column. The bytes are read from offset
`i * bs.BPB_SecPerClus * bs.BPB_BytsPerSec` (an `int` product, taken here without
overflow). -/
def cluster (bs : boot_sector) (disk : Disk) (i : Nat) : List (List Nat × List Nat) :=
  let pos := i * bs.BPB_SecPerClus * bs.BPB_BytsPerSec
  let cluster_size := bs.BPB_SecPerClus * bs.BPB_BytsPerSec % 2 ^ 32
  let cluster_data := fun k => disk (pos + k) % 256
  (List.range (cluster_size / 16)).map fun linha =>
    ((List.range 16).map fun coluna => cluster_data (linha * 16 + coluna),
      (List.range 16).map fun coluna => cluster_char (cluster_data (linha * 16 + coluna)))

/-- The bytes `pwd_r(pos, curr)` prints. The list is `curr` followed by the frames reached
through `previous`, and is empty for a NULL `curr`; `none` stands for the read through a
NULL pointer. The `name` buffer of a frame is zero after the copied characters. -/
def pwd_r : Nat → List directory_t → Option (List Nat)
  | 0, _ => some []
  | _ + 1, [] => none
  | pos + 1, curr :: previous =>
    (pwd_r pos previous).map fun out => out ++ [47] ++ print_name fun k => curr.name.getD k 0

/-- The bytes `pwd()` prints. -/
def pwd (s : Session) : Option (List Nat) :=
  if s.directory_stack_count ≠ 0 then
    (pwd_r s.directory_stack_count (s.directory_stack :: s.previous)).map fun out => out ++ [10]
  else some [47, 10]


/-! ## The recursion of the allocator -/

/-- The `for` loop of `allocate_clusters_wrapped` at index `i` with `n` indices left below
`fat_addresses`; `call` stands for the recursive call (`none` when it does not return). -/
def allocate_loop (bs : boot_sector) (call : Nat → Nat → Disk → Option (Nat × Disk)) :
    Nat → Nat → Nat → Disk → Option (Nat × Disk)
  | 0, _, _, disk => some (FREE_CLUSTER, disk)
  | n + 1, cluster_count, i, disk =>
    if get_cluster_info bs disk i = FREE_CLUSTER then
      let r :=
        if (cluster_count + 2 ^ 32 - 1) % 2 ^ 32 ≠ 0 then
          call ((cluster_count + 2 ^ 32 - 1) % 2 ^ 32) (i + 1) disk
        else some (END_OF_CHAIN, disk)
      r.map fun r => (i, write_in_fat bs r.2 i r.1)
    else allocate_loop bs call n cluster_count (i + 1) disk

/-- The call `allocate_clusters_wrapped(cluster_count, last_cluster)` run with room for
`depth` nested recursive calls: each call computes `fat_addresses` and runs its own loop
from `last_cluster`; `none` when a call beyond the allowed depth would be needed. -/
def allocate_clusters_nested (bs : boot_sector) : Nat → Nat → Nat → Disk → Option (Nat × Disk)
  | 0, cluster_count, last_cluster, disk =>
    allocate_loop bs (fun _ _ _ => none) (fat_addresses bs - last_cluster) cluster_count
      last_cluster disk
  | depth + 1, cluster_count, last_cluster, disk =>
    allocate_loop bs (fun cc l d => allocate_clusters_nested bs depth cc l d)
      (fat_addresses bs - last_cluster) cluster_count last_cluster disk


/-! ## Specification vocabulary -/

/-- Byte offset of the first FAT copy, `reserved_sectors × bytes_per_sector`. -/
def fat_start (bs : boot_sector) : Nat := bs.BPB_RsvdSecCnt * bs.BPB_BytsPerSec

/-- Size in bytes of one FAT copy, `fat_size_sectors × bytes_per_sector`. -/
def fat_bytes (bs : boot_sector) : Nat := bs.BPB_FATSz32 * bs.BPB_BytsPerSec

/-- The spec's `fat_entry_offset(cluster) = reserved_sectors × bytes_per_sector + cluster × 4`. -/
def fat_entry_offset (bs : boot_sector) (cluster : Nat) : Nat := fat_start bs + 4 * cluster

/-- The spec's `fat2_entry_offset(cluster) = fat_entry_offset(cluster) + fat_size_sectors ×
bytes_per_sector`. -/
def fat2_entry_offset (bs : boot_sector) (cluster : Nat) : Nat :=
  fat_entry_offset bs cluster + fat_bytes bs

/-- The 4-byte entry of `cluster` lies inside the first FAT copy. -/
@[reducible] def in_fat (bs : boot_sector) (cluster : Nat) : Prop := 4 * cluster + 4 ≤ fat_bytes bs

/-- The value `get_cluster_info` reports for a stored 32-bit value. -/
def clamp (v : Nat) : Nat := if v < END_OF_CHAIN then v else END_OF_CHAIN

/-- A small volume: 512-byte sectors, one sector per cluster, 32 reserved sectors, two FATs
of one sector (128 entries) and 126 data sectors. -/
def bs_small : boot_sector :=
  { BPB_BytsPerSec := 512, BPB_SecPerClus := 1, BPB_RsvdSecCnt := 32, BPB_NumFATs := 2,
    BPB_TotSec32 := 160, BPB_FATSz32 := 1, BPB_RootClus := 2 }

/-- A geometry whose mirrored FAT starts 4 GiB after the first copy (512 × 8388608 = 2^32). -/
def bs_wrap : boot_sector :=
  { BPB_BytsPerSec := 512, BPB_SecPerClus := 1, BPB_RsvdSecCnt := 32, BPB_NumFATs := 2,
    BPB_TotSec32 := 4294967295, BPB_FATSz32 := 8388608, BPB_RootClus := 2 }

/-- The raw 32-bit entry of `cluster` in the first FAT copy. -/
def fat_entry (bs : boot_sector) (disk : Disk) (cluster : Nat) : Nat :=
  fread32 disk (fat_entry_offset bs cluster)

/-- The raw 32-bit entry of `cluster` in the second FAT copy. -/
def fat2_entry (bs : boot_sector) (disk : Disk) (cluster : Nat) : Nat :=
  fread32 disk (fat2_entry_offset bs cluster)

/-- Both FAT copies end at or below byte offset 2^32. -/
@[reducible] def fats_addressable (bs : boot_sector) : Prop := fat_start bs + 2 * fat_bytes bs ≤ 2 ^ 32

/-- The indices among `i, ..., i + n - 1` whose entry `get_cluster_info` reports free, in
ascending order. -/
def free_from (bs : boot_sector) (disk : Disk) (i n : Nat) : List Nat :=
  (List.range' i n).filter fun j => get_cluster_info bs disk j == FREE_CLUSTER

/-- The free entries among the scanned cluster indices `2 ≤ i < fat_addresses`, ascending. -/
def free_clusters (bs : boot_sector) (disk : Disk) : List Nat :=
  free_from bs disk 2 (fat_addresses bs - 2)

/-- The image in which each cluster of the list points to the next one and the final one
holds `last`; the entries are written from the end of the list backwards. -/
def link_chain (bs : boot_sector) (last : Nat) : List Nat → Disk → Disk
  | [], disk => disk
  | [c], disk => write_in_fat bs disk c last
  | c :: c' :: rest, disk => write_in_fat bs (link_chain bs last (c' :: rest) disk) c c'

/-- A volume with two sectors per cluster: 512-byte sectors, 32 reserved sectors, two FATs
of one sector (128 entries) and 252 data sectors (126 clusters). -/
def bs_spc2 : boot_sector :=
  { BPB_BytsPerSec := 512, BPB_SecPerClus := 2, BPB_RsvdSecCnt := 32, BPB_NumFATs := 2,
    BPB_TotSec32 := 286, BPB_FATSz32 := 1, BPB_RootClus := 2 }

/-- An image for `bs_spc2` whose two FAT copies are identical: every entry holds the
end-of-chain marker except entry 5, which is free. All other bytes are zero. -/
def img_spc2 : Disk := fun a =>
  if 16384 ≤ a ∧ a < 17408 then
    if (a - 16384) % 512 / 4 = 5 then 0 else le_byte 0x0FFFFFF8 (a % 4)
  else 0

/-- An image for `bs_small` whose two FAT copies are identical: every entry holds the
end-of-chain marker except entries 5 and 9, which are free. All other bytes are zero. -/
def img_two_free : Disk := fun a =>
  if 16384 ≤ a ∧ a < 17408 then
    if (a - 16384) % 512 / 4 = 5 ∨ (a - 16384) % 512 / 4 = 9 then 0
    else le_byte 0x0FFFFFF8 (a % 4)
  else 0


/-- An image for `bs_small` whose two FAT copies are identical: every entry holds the
end-of-chain marker except entry 96, which is free. The root directory (cluster 2, at byte
17408) is full: its 16 slots are live files named A to P with the archive attribute. -/
def img_full_dir : Disk := fun a =>
  if 16384 ≤ a ∧ a < 17408 then
    if (a - 16384) % 512 / 4 = 96 then 0 else le_byte 0x0FFFFFF8 (a % 4)
  else if 17408 ≤ a ∧ a < 17920 then
    if a % 32 = 0 then 65 + (a - 17408) / 32
    else if a % 32 < 11 then 0x20
    else if a % 32 = 11 then 0x20
    else 0
  else 0

/-- Noon on 1 January 2026. -/
def noon : tm :=
  { tm_sec := 0, tm_min := 0, tm_hour := 12, tm_mday := 1, tm_mon := 0, tm_year := 126 }


/-- A slot at which the scans of `touch`, `rm` and `rmdir` stop: a slot that is not a
long-name slot and whose status byte is 0x00. -/
def terminator (e : DirEntry) : Bool := !is_long_name e && e 0 == 0x00

/-- A live short entry: not a long-name slot, status byte neither 0x00 nor 0xE5. -/
def live (e : DirEntry) : Bool := !is_long_name e && e 0 != 0x00 && e 0 != 0xE5

/-- The list is a cluster chain of the FAT: the entry of each cluster names the next one
and the entry of the last one reads as end-of-chain. -/
def linked (bs : boot_sector) (disk : Disk) : List Nat → Bool
  | [] => false
  | [c] => get_cluster_info bs disk c == END_OF_CHAIN
  | c :: c' :: rest =>
    get_cluster_info bs disk c == c' && c' != END_OF_CHAIN && linked bs disk (c' :: rest)

/-- The image after the entries of the listed clusters are set to free, first to last. -/
def free_chain (bs : boot_sector) (cs : List Nat) (disk : Disk) : Disk :=
  cs.foldl (fun d c => write_in_fat bs d c FREE_CLUSTER) disk

/-- The offset `a` lies in one of the two copies of the FAT entry of cluster `c`. -/
@[reducible] def in_entry (bs : boot_sector) (c a : Nat) : Prop :=
  (fat_entry_offset bs c ≤ a ∧ a < fat_entry_offset bs c + 4) ∨
  (fat2_entry_offset bs c ≤ a ∧ a < fat2_entry_offset bs c + 4)

/-- An image for `bs_small`: the FAT holds the root directory (cluster 2) and the chain
3 → 4 of a file; the root directory has a live file B without clusters in slot 0, the live
file A whose first cluster is 3 in slot 1, and zero bytes after them. -/
def img_file : Disk := fun a =>
  if 16384 ≤ a ∧ a < 17408 then
    let i := (a - 16384) % 512 / 4
    le_byte (if i < 3 then 0x0FFFFFF8 else if i = 3 then 4 else if i = 4 then 0x0FFFFFF8 else 0)
      (a % 4)
  else if 17408 ≤ a ∧ a < 17472 then
    let o := (a - 17408) % 32
    if o = 0 then (if a < 17440 then 66 else 65)
    else if o < 11 then 0x20
    else if o = 11 then 0x20
    else if 17440 ≤ a ∧ o = 26 then 3
    else 0
  else 0

/-- The session after mounting `img_file` on `bs_small`: the root frame with its 16 slots. -/
def session_file : Session :=
  { disk := img_file
    directory_stack :=
      { entries := (List.range 16).map fun j => fread_entry img_file (17408 + 32 * j)
        quantity := 16
        name := [47]
        cluster := 2
        entries_ptr := Pointer.allocated }
    previous := []
    directory_stack_count := 0
    out := [] }


/-- A slot `touch` and `mkdir` may take: not a long-name slot, status byte 0xE5 or 0x00. -/
def usable (e : DirEntry) : Bool := !is_long_name e && (e 0 == 0xE5 || e 0 == 0x00)

/-- The string is accepted by the name codec, and its encoding does not start with the
deleted-slot marker 0xE5. -/
@[reducible] def valid_name (unformatted_name : List Nat) : Prop :=
  formated unformatted_name 0 ≠ 0x00 ∧ formated unformatted_name 0 ≠ 0xE5

/-- No live short entry before the terminator of the cached directory carries the name. -/
@[reducible] def absent (s : Session) (name : Nat → Nat) : Prop :=
  ∀ i, i < s.directory_stack.quantity → (∀ j, j < i → terminator (s.entry j) = false) →
    live (s.entry i) = true → name_matches name (s.entry i) = false

/-- Slot `p` is the first usable slot of the cached directory, in index order. -/
@[reducible] def first_usable (s : Session) (p : Nat) : Prop :=
  p < s.directory_stack.quantity ∧ usable (s.entry p) = true ∧
  ∀ i, i < p → usable (s.entry i) = false

/-- The FAT hops `get_entry_disk_position` makes to reach slot `entry_pos` start from
clusters that are allocated (their entry is not free) and have their entry inside the
first FAT; so does the cluster reached. -/
@[reducible] def walk_ok (bs : boot_sector) (disk : Disk) (cluster entry_pos : Nat) : Prop :=
  ∀ i, i ≤ entry_pos * 32 / cluster_bytes bs →
    in_fat bs ((get_cluster_info bs disk)^[i] cluster) ∧
    get_cluster_info bs disk ((get_cluster_info bs disk)^[i] cluster) ≠ FREE_CLUSTER


/-- An image for `bs_small`: the FAT holds only the root directory (cluster 2); in the root
directory slot 0 is a live file B, slot 1 is a deleted slot, and zero bytes follow. -/
def img_slot : Disk := fun a =>
  if 16384 ≤ a ∧ a < 17408 then
    le_byte (if (a - 16384) % 512 / 4 < 3 then 0x0FFFFFF8 else 0) (a % 4)
  else if 17408 ≤ a ∧ a < 17472 then
    let o := (a - 17408) % 32
    if o = 0 then (if a < 17440 then 66 else 0xE5)
    else if o < 11 then 0x20
    else if o = 11 then 0x20
    else 0
  else 0

/-- The session after mounting `img_slot` on `bs_small`: the root frame with its 16 slots. -/
def session_slot : Session :=
  { disk := img_slot
    directory_stack :=
      { entries := (List.range 16).map fun j => fread_entry img_slot (17408 + 32 * j)
        quantity := 16
        name := [47]
        cluster := 2
        entries_ptr := Pointer.allocated }
    previous := []
    directory_stack_count := 0
    out := [] }


/-- The live short entries of a cached directory, in slot order: the live slots before the
first terminator. -/
def live_entries (d : directory_t) : List DirEntry :=
  ((d.entries.take d.quantity).takeWhile fun e => !terminator e).filter live

/-- Invariant 4 of the data model on the cached directory: every slot after a slot whose
status byte is 0x00 also has status byte 0x00. -/
@[reducible] def unused_after_terminator (s : Session) : Prop :=
  ∀ j, j < s.directory_stack.quantity → ∀ i, i < j → s.entry i 0 = 0x00 → s.entry j 0 = 0x00

/-- An image for `bs_small` whose two FAT copies are identical: every entry holds the
end-of-chain marker except entries 96 and 97, which are free. The root directory (cluster
2, at byte 17408) is full: its 16 slots are live files named A to P. All other bytes are
zero. -/
def img_full_two : Disk := fun a =>
  if 16384 ≤ a ∧ a < 17408 then
    if (a - 16384) % 512 / 4 = 96 ∨ (a - 16384) % 512 / 4 = 97 then 0
    else le_byte 0x0FFFFFF8 (a % 4)
  else if 17408 ≤ a ∧ a < 17920 then
    if a % 32 = 0 then 65 + (a - 17408) / 32
    else if a % 32 < 11 then 0x20
    else if a % 32 = 11 then 0x20
    else 0
  else 0

/-- An image for `bs_small`: the FAT holds only the root directory (cluster 2); slot 0 of
the root directory is the 0x00 terminator and slot 1, after it, holds the stale bytes of a
file Z. -/
def img_stale : Disk := fun a =>
  if 16384 ≤ a ∧ a < 17408 then
    le_byte (if (a - 16384) % 512 / 4 < 3 then 0x0FFFFFF8 else 0) (a % 4)
  else if 17440 ≤ a ∧ a < 17472 then
    if a = 17440 then 90 else if a < 17451 then 0x20 else if a = 17451 then 0x20 else 0
  else 0


/-- The byte offset at which `touch_wrapper` writes the dot entries of the new directory
whose first cluster is `cluster` (`write_dotpos`, a `uint64_t`). -/
def write_dotpos (bs : boot_sector) (cluster : Nat) : Nat :=
  get_cluster_offset bs cluster * bs.BPB_SecPerClus * bs.BPB_BytsPerSec % 2 ^ 64

/-- The slots `read_dir` loads from one cluster of a directory. -/
def cluster_slots (bs : boot_sector) (disk : Disk) (cluster : Nat) : List DirEntry :=
  (List.range (max_dir_entry_per_cluster bs)).map fun j =>
    fread_entry disk (read_dir_position bs cluster + 32 * j)

/-- The bytes the program uses for `cluster` start at or after the end of the second FAT
copy and end at or below 4 GiB. -/
@[reducible] def data_cluster (bs : boot_sector) (cluster : Nat) : Prop :=
  fat_start bs + 2 * fat_bytes bs
    ≤ get_cluster_offset bs cluster * bs.BPB_SecPerClus * bs.BPB_BytsPerSec ∧
  get_cluster_offset bs cluster * bs.BPB_SecPerClus * bs.BPB_BytsPerSec + cluster_bytes bs
    ≤ 2 ^ 32


/-- The slots `read_dir` loads for a directory whose cluster chain is the list, in order. -/
def chain_slots (bs : boot_sector) (disk : Disk) : List Nat → List DirEntry
  | [] => []
  | c :: cs => cluster_slots bs disk c ++ chain_slots bs disk cs

/-- The cached directory is what `read_dir` loads from the image along the chain `cs`: it has
one slot for every slot of the chain and each slot holds the 32 bytes stored on disk. -/
@[reducible] def coherent (bs : boot_sector) (s : Session) (cs : List Nat) : Prop :=
  s.directory_stack.quantity = s.directory_stack.entries.length ∧
  s.directory_stack.quantity = cs.length * max_dir_entry_per_cluster bs ∧
  ∀ i, i < s.directory_stack.quantity → ∀ k, k < 32 →
    s.entry i k = (chain_slots bs s.disk cs).getD i zero_entry k

/-- The list is the cluster chain of a directory in use: it is linked in the FAT without
repetition, and each cluster is at least 2, allocated, has its entry inside the first FAT
copy and its bytes in the data region. -/
@[reducible] def directory_chain (bs : boot_sector) (disk : Disk) (cs : List Nat) : Prop :=
  linked bs disk cs = true ∧ cs.Nodup ∧
  ∀ x ∈ cs, 2 ≤ x ∧ x ≠ END_OF_CHAIN ∧ in_fat bs x ∧ data_cluster bs x ∧
    get_cluster_info bs disk x ≠ FREE_CLUSTER


/-- A volume of a little over 4 GiB: 512-byte sectors, one sector per cluster, 32 reserved
sectors, two FATs of 65540 sectors (8389120 entries); the data region starts at sector
131112 (byte 67129344). -/
def bs_4g : boot_sector :=
  { BPB_BytsPerSec := 512, BPB_SecPerClus := 1, BPB_RsvdSecCnt := 32, BPB_NumFATs := 2,
    BPB_TotSec32 := 8520000, BPB_FATSz32 := 65540, BPB_RootClus := 2 }

/-- An image for `bs_4g` whose two FAT copies (at bytes 16384 and 33572864) are identical:
entries 0 to 8388610 hold the end-of-chain marker and the others are free. Every other
byte, the root directory (cluster 2) included, is zero. -/
def img_4g : Disk := fun a =>
  if 16384 ≤ a ∧ a < 67129344 then
    le_byte (if (a - 16384) % 33556480 / 4 < 8388611 then 0x0FFFFFF8 else 0) (a % 4)
  else 0

/-- The session after mounting `img_4g` on `bs_4g`: the root frame with the 16 slots of
cluster 2. -/
def session_4g : Session :=
  { disk := img_4g
    directory_stack :=
      { entries := cluster_slots bs_4g img_4g 2
        quantity := 16
        name := [47]
        cluster := 2
        entries_ptr := Pointer.allocated }
    previous := []
    directory_stack_count := 0
    out := [] }


/-- The base portion of a name: the characters before the first dot, or the whole string
when there is no dot. -/
def base_part (s : List Nat) : List Nat := s.takeWhile fun c => c != 46

/-- The extension of a name: the characters after the first dot (empty without a dot). -/
def ext_part (s : List Nat) : List Nat := (s.dropWhile fun c => c != 46).drop 1

/-- A valid 8.3 name: at most one dot, a base of 1 to 8 characters (so the dot is not
leading) and an extension of 0 to 3 characters. -/
@[reducible] def valid_8_3 (s : List Nat) : Prop :=
  s.count 46 ≤ 1 ∧ 1 ≤ (base_part s).length ∧ (base_part s).length ≤ 8 ∧
  (ext_part s).length ≤ 3

/-- An image for `bs_small`: the FAT holds only the root directory (cluster 2); slot 0 of
the root directory is the live file A, slot 1 is the 0x00 terminator, and slot 2, after
the terminator, holds the stale bytes of a former file A (first cluster 5). -/
def img_twin : Disk := fun a =>
  if 16384 ≤ a ∧ a < 17408 then
    le_byte (if (a - 16384) % 512 / 4 < 3 then 0x0FFFFFF8 else 0) (a % 4)
  else if (17408 ≤ a ∧ a < 17440) ∨ (17472 ≤ a ∧ a < 17504) then
    let o := (a - 17408) % 32
    if o = 0 then 65
    else if o < 11 then 0x20
    else if o = 11 then 0x20
    else if 17472 ≤ a ∧ o = 26 then 5
    else 0
  else 0


/-- The number of entries a directory holds: the slots before the first slot with status
byte 0x00 that are neither deleted (0xE5) nor long-name slots. -/
def live_before_zero (entries : List DirEntry) : Nat :=
  ((entries.takeWhile fun e => e 0 != 0x00).filter
    fun e => e 0 != 0xE5 && !is_long_name e).length

/-- Byte `o` of a short slot whose name is the characters `c0`, `c1` padded with spaces,
with attribute `attr`, first-cluster low word `clus` and zero elsewhere. -/
def slot_byte (c0 c1 attr clus o : Nat) : Nat :=
  if o = 0 then c0 else if o = 1 then c1 else if o < 11 then 0x20
  else if o = 11 then attr else if o = 26 then clus else 0

/-- An image for `bs_small`: FAT entries 0 to 4 hold end-of-chain. The root directory
(cluster 2, byte 17408) holds the file F, the directory D (cluster 3) and the directory E
(cluster 4). D (byte 17920) holds ".", ".." and a file X; E (byte 18432) holds "." and
".." only. Every other byte is zero. -/
def img_tree : Disk := fun a =>
  if 16384 ≤ a ∧ a < 17408 then
    le_byte (if (a - 16384) % 512 / 4 < 5 then 0x0FFFFFF8 else 0) (a % 4)
  else if 17408 ≤ a ∧ a < 17440 then slot_byte 70 0x20 0x20 0 (a - 17408)
  else if 17440 ≤ a ∧ a < 17472 then slot_byte 68 0x20 0x10 3 (a - 17440)
  else if 17472 ≤ a ∧ a < 17504 then slot_byte 69 0x20 0x10 4 (a - 17472)
  else if 17920 ≤ a ∧ a < 17952 then slot_byte 46 0x20 0x10 3 (a - 17920)
  else if 17952 ≤ a ∧ a < 17984 then slot_byte 46 46 0x10 2 (a - 17952)
  else if 17984 ≤ a ∧ a < 18016 then slot_byte 88 0x20 0x20 0 (a - 17984)
  else if 18432 ≤ a ∧ a < 18464 then slot_byte 46 0x20 0x10 4 (a - 18432)
  else if 18464 ≤ a ∧ a < 18496 then slot_byte 46 46 0x10 2 (a - 18464)
  else 0

/-- The session after mounting `img_tree` on `bs_small`: the root frame with its 16 slots. -/
def session_tree : Session :=
  { disk := img_tree
    directory_stack :=
      { entries := (List.range 16).map fun j => fread_entry img_tree (17408 + 32 * j)
        quantity := 16
        name := [47]
        cluster := 2
        entries_ptr := Pointer.allocated }
    previous := []
    directory_stack_count := 0
    out := [] }


/-- An image for `bs_small`: the FAT holds only the root directory (cluster 2), whose slot 0
is a volume label L (attribute 0x08); every other byte is zero. -/
def img_label : Disk := fun a =>
  if 16384 ≤ a ∧ a < 17408 then
    le_byte (if (a - 16384) % 512 / 4 < 3 then 0x0FFFFFF8 else 0) (a % 4)
  else if 17408 ≤ a ∧ a < 17440 then slot_byte 76 0x20 0x08 0 (a - 17408)
  else 0

/-- The spec's byte offset of data cluster `N`: `(N − 2) × sectors_per_cluster ×
bytes_per_sector + data_region_start_in_bytes`, the data region beginning at sector
`reserved_sectors + num_fats × fat_size_sectors`. -/
def data_cluster_offset (bs : boot_sector) (N : Nat) : Nat :=
  (N - 2) * bs.BPB_SecPerClus * bs.BPB_BytsPerSec
    + (bs.BPB_RsvdSecCnt + bs.BPB_NumFATs * bs.BPB_FATSz32) * bs.BPB_BytsPerSec

/-- The spec's `cluster_byte_offset(cluster) = ((cluster − 2) × sectors_per_cluster +
data_region_start_sector) × bytes_per_sector`. -/
def cluster_byte_offset (bs : boot_sector) (cluster : Nat) : Nat :=
  ((cluster - 2) * bs.BPB_SecPerClus + (bs.BPB_RsvdSecCnt + bs.BPB_NumFATs * bs.BPB_FATSz32))
    * bs.BPB_BytsPerSec

/-- Slot `i` of the cached directory is an entry `cd` enters under the encoded name: it lies
before the first slot with status byte 0x00, is not deleted, is not a long-name slot, has the
directory bit set and carries the 11 name bytes. -/
@[reducible] def cd_target (s : Session) (name : Nat → Nat) (i : Nat) : Prop :=
  i < s.directory_stack.quantity ∧ (∀ j, j < i → s.entry j 0 ≠ 0x00) ∧
  s.entry i 0 ≠ 0x00 ∧ s.entry i 0 ≠ 0xE5 ∧ is_long_name (s.entry i) = false ∧
  is_directory (s.entry i) = true ∧ name_matches name (s.entry i) = true

/-- The session after mounting `img_full_two` on `bs_small`: the root frame with its 16
slots. -/
def session_full_two : Session :=
  { disk := img_full_two
    directory_stack :=
      { entries := (List.range 16).map fun j => fread_entry img_full_two (17408 + 32 * j)
        quantity := 16
        name := [47]
        cluster := 2
        entries_ptr := Pointer.allocated }
    previous := []
    directory_stack_count := 0
    out := [] }


/-- Invariant 4 of the data model on a list of slots: every slot after a slot whose status
byte is 0x00 also has status byte 0x00. -/
@[reducible] def unused_after_zero (l : List DirEntry) : Prop :=
  ∀ j, j < l.length → ∀ i, i < j → l.getD i zero_entry 0 = 0x00 → l.getD j zero_entry 0 = 0x00

/-- An image for `bs_small`: the FAT holds only the root directory (cluster 2), which is
empty; the free cluster 3 (at byte 17920) holds stale bytes: its third slot is zero and its
fourth slot (byte 18016) looks like a live file Z. -/
def img_gap : Disk := fun a =>
  if 16384 ≤ a ∧ a < 17408 then
    le_byte (if (a - 16384) % 512 / 4 < 3 then 0x0FFFFFF8 else 0) (a % 4)
  else if 18016 ≤ a ∧ a < 18048 then
    if a = 18016 then 90 else if a < 18027 then 0x20 else if a = 18027 then 0x20 else 0
  else 0

/-- A volume with two sectors per cluster and 50 data clusters (2 to 51): 512-byte sectors,
32 reserved sectors, two FATs of one sector and 100 data sectors; the image has 134 sectors
(68608 bytes). -/
def bs_pad : boot_sector :=
  { BPB_BytsPerSec := 512, BPB_SecPerClus := 2, BPB_RsvdSecCnt := 32, BPB_NumFATs := 2,
    BPB_TotSec32 := 134, BPB_FATSz32 := 1, BPB_RootClus := 2 }

/-- A full volume for `bs_pad` whose two FAT copies are identical: the entries 0 to 51 hold
the end-of-chain marker, and the entries 52 to 127, which belong to no cluster, are zero.
All other bytes are zero. -/
def img_pad : Disk := fun a =>
  if 16384 ≤ a ∧ a < 17408 then
    le_byte (if (a - 16384) % 512 / 4 < 52 then 0x0FFFFFF8 else 0) (a % 4)
  else 0

/-- An image for `bs_small`: FAT entries 0 to 2 hold end-of-chain and the others are free;
slot 0 of the root directory is a live file G whose first cluster is 5, a free cluster. -/
def img_dangling : Disk := fun a =>
  if 16384 ≤ a ∧ a < 17408 then
    le_byte (if (a - 16384) % 512 / 4 < 3 then 0x0FFFFFF8 else 0) (a % 4)
  else if 17408 ≤ a ∧ a < 17440 then slot_byte 71 0x20 0x20 5 (a - 17408)
  else 0

/-- The local time 23:59:60 on 31 December 2107. -/
def last_instant : tm :=
  { tm_sec := 60, tm_min := 59, tm_hour := 23, tm_mday := 31, tm_mon := 11, tm_year := 207 }


/-- Slot `i` holds a live short entry of the cached directory: it is not a long-name slot,
its status byte is neither 0x00 nor 0xE5, and no terminator slot comes before it. -/
@[reducible] def in_directory (s : Session) (i : Nat) : Prop :=
  i < s.directory_stack.quantity ∧ live (s.entry i) = true ∧
  ∀ m, m < i → terminator (s.entry m) = false

/-- No two live short entries of the cached directory have the same 11 name bytes: for
slots `i < j` with no terminator slot before `j`, both live, the names differ. -/
@[reducible] def unique_names (s : Session) : Prop :=
  ∀ j, j < s.directory_stack.quantity → ∀ i, i < j →
    (∀ m, m < j → terminator (s.entry m) = false) →
    live (s.entry i) = true → live (s.entry j) = true →
    name_matches (s.entry i) (s.entry j) = false

/-- An image for `bs_small`: the FAT holds only the root directory (cluster 2), whose slots 0
and 1 are deleted entries (status byte 0xE5); the second byte of their names is 'A' in slot 0
and 0xA4 in slot 1. Every other byte is zero. -/
def img_deleted : Disk := fun a =>
  if 16384 ≤ a ∧ a < 17408 then
    le_byte (if (a - 16384) % 512 / 4 < 3 then 0x0FFFFFF8 else 0) (a % 4)
  else if 17408 ≤ a ∧ a < 17440 then slot_byte 0xE5 65 0x20 0 (a - 17408)
  else if 17440 ≤ a ∧ a < 17472 then slot_byte 0xE5 0xA4 0x20 0 (a - 17440)
  else 0

/-- The session after mounting `img_label` on `bs_small`: the root frame with its 16 slots. -/
def session_label : Session :=
  { disk := img_label
    directory_stack :=
      { entries := (List.range 16).map fun j => fread_entry img_label (17408 + 32 * j)
        quantity := 16
        name := [47]
        cluster := 2
        entries_ptr := Pointer.allocated }
    previous := []
    directory_stack_count := 0
    out := [] }

/-- An image for `bs_small`: the FAT holds only the root directory (cluster 2), whose slot 0
has the long-name attribute 0x0F and the status byte 0x00; every later slot is zero. -/
def img_long_zero : Disk := fun a =>
  if 16384 ≤ a ∧ a < 17408 then
    le_byte (if (a - 16384) % 512 / 4 < 3 then 0x0FFFFFF8 else 0) (a % 4)
  else if 17408 ≤ a ∧ a < 17440 then slot_byte 0 0 0x0F 0 (a - 17408)
  else 0

/-! ## Theorems -/

theorem le_byte_lt (v k : Nat) : le_byte v k < 256 := by
  unfold le_byte; omega

theorem fwrite_apply (disk : Disk) (pos len : Nat) (buf : Nat → Nat) (a : Nat) :
    fwrite disk pos len buf a = if pos ≤ a ∧ a < pos + len then buf (a - pos) % 256 else disk a :=
  rfl

theorem fwrite_outside (disk : Disk) (pos len : Nat) (buf : Nat → Nat) (a : Nat)
    (h : a < pos ∨ pos + len ≤ a) : fwrite disk pos len buf a = disk a := by
  rw [fwrite_apply, if_neg]; omega

theorem fwrite_inside (disk : Disk) (pos len : Nat) (buf : Nat → Nat) (k : Nat) (h : k < len) :
    fwrite disk pos len buf (pos + k) = buf k % 256 := by
  rw [fwrite_apply, if_pos (by omega)]; simp

theorem fread32_congr (d d' : Disk) (p : Nat) (h : ∀ k, k < 4 → d' (p + k) = d (p + k)) :
    fread32 d' p = fread32 d p := by
  unfold fread32
  have h0 := h 0 (by omega)
  rw [h 1 (by omega), h 2 (by omega), h 3 (by omega)]
  simp only [Nat.add_zero] at h0
  rw [h0]

theorem fread32_le32 (d : Disk) (p v : Nat) (hv : v < 2 ^ 32)
    (h : ∀ k, k < 4 → d (p + k) = le_byte v k) : fread32 d p = v := by
  unfold fread32
  have h0 := h 0 (by omega)
  rw [h 1 (by omega), h 2 (by omega), h 3 (by omega)]
  simp only [Nat.add_zero] at h0
  rw [h0]
  unfold le_byte
  norm_num
  omega

theorem get_fat_address_eq (bs : boot_sector) (c : Nat) (h : fat_entry_offset bs c < 2 ^ 32) :
    get_fat_address bs c = fat_entry_offset bs c := by
  unfold get_fat_address fat_entry_offset fat_start at *
  have hc : c % 2 ^ 32 = c := Nat.mod_eq_of_lt (by omega)
  rw [hc, Nat.mod_eq_of_lt (by omega)]; omega

theorem write_in_fat_eq (bs : boot_sector) (disk : Disk) (c v : Nat)
    (h : fat2_entry_offset bs c < 2 ^ 32) :
    write_in_fat bs disk c v =
      fwrite (fwrite disk (fat_entry_offset bs c) 4 (le32 v)) (fat2_entry_offset bs c) 4 (le32 v) := by
  have h1 : fat_entry_offset bs c < 2 ^ 32 := by unfold fat2_entry_offset at h; omega
  unfold write_in_fat
  simp only [get_fat_address_eq bs c h1]
  have h2 : (fat_entry_offset bs c + bs.BPB_FATSz32 * bs.BPB_BytsPerSec % 2 ^ 32) % 2 ^ 32
      = fat2_entry_offset bs c := by
    unfold fat2_entry_offset fat_bytes at *
    rw [Nat.mod_eq_of_lt (a := bs.BPB_FATSz32 * bs.BPB_BytsPerSec) (by omega),
      Nat.mod_eq_of_lt h]
  rw [h2]

theorem le32_mod (v k : Nat) : le32 v k % 256 = le_byte v k := by
  unfold le32; exact Nat.mod_eq_of_lt (le_byte_lt v k)

/-- C2 (amended): for a cluster index whose entry lies inside the first FAT and whose
mirrored entry starts below 2^32, `write_in_fat` stores the value at both mirrored offsets,
a following `get_cluster_info` returns it clamped to the end-of-chain sentinel, and no other
byte of the image changes. -/
theorem write_in_fat_mirrors (bs : boot_sector) (disk : Disk) (c v : Nat) (hv : v < 2 ^ 32)
    (hin : in_fat bs c) (hfit : fat2_entry_offset bs c < 2 ^ 32) :
    (∀ k, k < 4 → write_in_fat bs disk c v (fat_entry_offset bs c + k) = le_byte v k) ∧
    (∀ k, k < 4 → write_in_fat bs disk c v (fat2_entry_offset bs c + k) = le_byte v k) ∧
    get_cluster_info bs (write_in_fat bs disk c v) c = (if v < END_OF_CHAIN then v else END_OF_CHAIN) ∧
    (∀ a, ¬ (fat_entry_offset bs c ≤ a ∧ a < fat_entry_offset bs c + 4) →
          ¬ (fat2_entry_offset bs c ≤ a ∧ a < fat2_entry_offset bs c + 4) →
          write_in_fat bs disk c v a = disk a) := by
  have h1 : fat_entry_offset bs c < 2 ^ 32 := by unfold fat2_entry_offset at hfit; omega
  have hF : fat_entry_offset bs c + 4 ≤ fat2_entry_offset bs c := by
    unfold in_fat at hin; unfold fat2_entry_offset; omega
  have hb1 : ∀ k, k < 4 → write_in_fat bs disk c v (fat_entry_offset bs c + k) = le_byte v k := by
    intro k hk
    rw [write_in_fat_eq bs disk c v hfit, fwrite_outside _ _ _ _ _ (by omega),
      fwrite_inside _ _ _ _ _ hk, le32_mod]
  refine ⟨hb1, ?_, ?_, ?_⟩
  · intro k hk
    rw [write_in_fat_eq bs disk c v hfit, fwrite_inside _ _ _ _ _ hk, le32_mod]
  · unfold get_cluster_info
    simp only [get_fat_address_eq bs c h1, fread32_le32 _ _ v hv hb1]
    split_ifs <;> omega
  · intro a ha1 ha2
    rw [write_in_fat_eq bs disk c v hfit, fwrite_outside _ _ _ _ _ (by omega),
      fwrite_outside _ _ _ _ _ (by omega)]

/-- Witness for C2 (amended): cluster 5 and the value 7 on a volume with 32 reserved
sectors of 512 bytes and a one-sector FAT. -/
theorem write_in_fat_mirrors_witness :
    (7 < 2 ^ 32 ∧ in_fat bs_small 5 ∧ fat2_entry_offset bs_small 5 < 2 ^ 32) ∧
    ((∀ k, k < 4 → write_in_fat bs_small (fun _ => 0) 5 7
        (fat_entry_offset bs_small 5 + k) = le_byte 7 k) ∧
    (∀ k, k < 4 → write_in_fat bs_small (fun _ => 0) 5 7
        (fat2_entry_offset bs_small 5 + k) = le_byte 7 k) ∧
    get_cluster_info bs_small (write_in_fat bs_small (fun _ => 0) 5 7) 5
      = (if 7 < END_OF_CHAIN then 7 else END_OF_CHAIN) ∧
    (∀ a, ¬ (fat_entry_offset bs_small 5 ≤ a ∧ a < fat_entry_offset bs_small 5 + 4) →
          ¬ (fat2_entry_offset bs_small 5 ≤ a ∧ a < fat2_entry_offset bs_small 5 + 4) →
          write_in_fat bs_small (fun _ => 0) 5 7 a = (fun _ => 0) a)) :=
  ⟨⟨by decide, by unfold in_fat; decide, by decide⟩,
   write_in_fat_mirrors bs_small (fun _ => 0) 5 7 (by decide)
    (by unfold in_fat; decide) (by decide)⟩

/-- C2 (as stated) fails: cluster 2 lies inside the first FAT of `bs_wrap`, yet after
`write_in_fat(2, 1)` the byte at the mirrored offset (reserved × bytes-per-sector + 4·2 +
FAT size × bytes-per-sector) still holds 0 instead of the low byte of the value: the 32-bit
`fat2_address` wraps onto the first copy. -/
theorem write_in_fat_mirror_wraps :
    in_fat bs_wrap 2 ∧
    write_in_fat bs_wrap (fun _ => 0) 2 1 (fat2_entry_offset bs_wrap 2) = 0 ∧
    le_byte 1 0 = 1 ∧ fat2_entry_offset bs_wrap 2 = 32 * 512 + 4 * 2 + 8388608 * 512 := by
  unfold in_fat
  decide


/-! ### The allocator -/

theorem free_from_succ (bs : boot_sector) (disk : Disk) (i n : Nat) :
    free_from bs disk i (n + 1) =
      if get_cluster_info bs disk i = FREE_CLUSTER then i :: free_from bs disk (i + 1) n
      else free_from bs disk (i + 1) n := by
  unfold free_from
  rw [List.range'_succ, List.filter_cons]
  by_cases h : get_cluster_info bs disk i = FREE_CLUSTER <;> simp [h]

theorem allocate_scan_eq (bs : boot_sector) (disk : Disk) :
    ∀ (n cc i : Nat), 1 ≤ cc → cc < 2 ^ 32 →
      allocate_scan bs n cc i disk =
        match (free_from bs disk i n).take cc with
        | [] => (FREE_CLUSTER, disk)
        | c :: rest =>
          (c, link_chain bs
            (if cc ≤ (free_from bs disk i n).length then END_OF_CHAIN else FREE_CLUSTER)
            (c :: rest) disk) := by
  intro n
  induction n with
  | zero => intro cc i _ _; simp [allocate_scan, free_from]
  | succ n ih =>
    intro cc i h1 h2
    rw [free_from_succ]
    unfold allocate_scan
    by_cases hfree : get_cluster_info bs disk i = FREE_CLUSTER
    · rw [if_pos hfree, if_pos hfree]
      obtain ⟨m, rfl⟩ : ∃ m, cc = m + 1 := ⟨cc - 1, by omega⟩
      have hm : (m + 1 + 2 ^ 32 - 1) % 2 ^ 32 = m := by
        rw [show m + 1 + 2 ^ 32 - 1 = m + 2 ^ 32 by omega, Nat.add_mod_right]
        exact Nat.mod_eq_of_lt (by omega)
      rw [hm, List.take_succ_cons]
      by_cases hm0 : m = 0
      · subst hm0
        simp [link_chain]
      · rw [if_pos hm0, ih m (i + 1) (by omega) (by omega)]
        cases hfs : (free_from bs disk (i + 1) n).take m with
        | nil =>
          have hlen : (free_from bs disk (i + 1) n).length = 0 := by
            have := congrArg List.length hfs
            simp only [List.length_take, List.length_nil] at this
            omega
          simp [link_chain, hlen, FREE_CLUSTER, hm0]
        | cons c' rest => simp [link_chain]
    · rw [if_neg hfree, if_neg hfree]
      exact ih cc (i + 1) h1 h2

theorem free_from_mem (bs : boot_sector) (disk : Disk) (i n c : Nat) :
    c ∈ free_from bs disk i n ↔
      (i ≤ c ∧ c < i + n) ∧ get_cluster_info bs disk c = FREE_CLUSTER := by
  unfold free_from
  simp [List.mem_filter]

theorem free_from_pairwise (bs : boot_sector) (disk : Disk) (i n : Nat) :
    (free_from bs disk i n).Pairwise (· < ·) :=
  (List.pairwise_lt_range' i n).filter _

theorem in_fat_fit (bs : boot_sector) (c : Nat) (hfit : fats_addressable bs) (hc : in_fat bs c) :
    fat2_entry_offset bs c + 4 ≤ 2 ^ 32 := by
  unfold fats_addressable at hfit
  unfold in_fat at hc
  unfold fat2_entry_offset fat_entry_offset
  omega

theorem write_in_fat_outside (bs : boot_sector) (disk : Disk) (c v a : Nat)
    (hfit : fat2_entry_offset bs c < 2 ^ 32)
    (h1 : ¬ (fat_entry_offset bs c ≤ a ∧ a < fat_entry_offset bs c + 4))
    (h2 : ¬ (fat2_entry_offset bs c ≤ a ∧ a < fat2_entry_offset bs c + 4)) :
    write_in_fat bs disk c v a = disk a := by
  rw [write_in_fat_eq bs disk c v hfit, fwrite_outside _ _ _ _ _ (by omega),
    fwrite_outside _ _ _ _ _ (by omega)]

theorem write_in_fat_first (bs : boot_sector) (disk : Disk) (c v k : Nat)
    (hfit : fat2_entry_offset bs c < 2 ^ 32) (hin : in_fat bs c) (hk : k < 4) :
    write_in_fat bs disk c v (fat_entry_offset bs c + k) = le_byte v k := by
  have hF : fat_entry_offset bs c + 4 ≤ fat2_entry_offset bs c := by
    unfold in_fat at hin; unfold fat2_entry_offset; omega
  rw [write_in_fat_eq bs disk c v hfit, fwrite_outside _ _ _ _ _ (by omega),
    fwrite_inside _ _ _ _ _ hk, le32_mod]

theorem write_in_fat_second (bs : boot_sector) (disk : Disk) (c v k : Nat)
    (hfit : fat2_entry_offset bs c < 2 ^ 32) (hk : k < 4) :
    write_in_fat bs disk c v (fat2_entry_offset bs c + k) = le_byte v k := by
  rw [write_in_fat_eq bs disk c v hfit, fwrite_inside _ _ _ _ _ hk, le32_mod]

/-- Writing the entry of `c` leaves both copies of the entry of another cluster alone. -/
theorem write_in_fat_other (bs : boot_sector) (disk : Disk) (c v j k : Nat)
    (hfit : fats_addressable bs) (hc : in_fat bs c) (hj : in_fat bs j) (hne : j ≠ c) (hk : k < 4) :
    write_in_fat bs disk c v (fat_entry_offset bs j + k) = disk (fat_entry_offset bs j + k) ∧
    write_in_fat bs disk c v (fat2_entry_offset bs j + k) = disk (fat2_entry_offset bs j + k) := by
  have h2 := in_fat_fit bs c hfit hc
  unfold in_fat at hc hj
  constructor <;>
  · apply write_in_fat_outside bs disk c v _ (by omega) <;>
      simp only [fat2_entry_offset, fat_entry_offset] at h2 ⊢ <;> omega

theorem link_chain_cons (bs : boot_sector) (last c : Nat) (rest : List Nat) (disk : Disk) :
    link_chain bs last (c :: rest) disk =
      write_in_fat bs (link_chain bs last rest disk) c (rest.headD last) := by
  cases rest <;> rfl

theorem link_chain_frame (bs : boot_sector) (last : Nat) (disk : Disk) (a : Nat) :
    ∀ cs : List Nat, (∀ c ∈ cs, fat2_entry_offset bs c < 2 ^ 32) →
      (∀ c ∈ cs, ¬ (fat_entry_offset bs c ≤ a ∧ a < fat_entry_offset bs c + 4) ∧
                 ¬ (fat2_entry_offset bs c ≤ a ∧ a < fat2_entry_offset bs c + 4)) →
      link_chain bs last cs disk a = disk a := by
  intro cs
  induction cs with
  | nil => intro _ _; rfl
  | cons c rest ih =>
    intro hfit hout
    rw [link_chain_cons,
      write_in_fat_outside bs _ c _ a (hfit c (List.mem_cons_self _ _))
        (hout c (List.mem_cons_self _ _)).1 (hout c (List.mem_cons_self _ _)).2]
    exact ih (fun x hx => hfit x (List.mem_cons_of_mem _ hx))
      (fun x hx => hout x (List.mem_cons_of_mem _ hx))

theorem getD_one_cons (c last : Nat) (rest : List Nat) :
    (c :: rest).getD 1 last = rest.headD last := by
  cases rest <;> rfl

theorem link_chain_bytes (bs : boot_sector) (last : Nat) (disk : Disk)
    (hfit : fats_addressable bs) :
    ∀ (cs : List Nat), cs.Nodup → (∀ c ∈ cs, in_fat bs c) →
      ∀ k, k < cs.length → ∀ b, b < 4 →
        link_chain bs last cs disk (fat_entry_offset bs (cs.getD k 0) + b)
            = le_byte (cs.getD (k + 1) last) b ∧
        link_chain bs last cs disk (fat2_entry_offset bs (cs.getD k 0) + b)
            = le_byte (cs.getD (k + 1) last) b := by
  intro cs
  induction cs with
  | nil => intro _ _ k hk; simp at hk
  | cons c rest ih =>
    intro hnd hin k hk b hb
    have hc := hin c (List.mem_cons_self _ _)
    have hcfit : fat2_entry_offset bs c < 2 ^ 32 := by
      have := in_fat_fit bs c hfit hc; omega
    rw [link_chain_cons]
    cases k with
    | zero =>
      simp only [List.getD_cons_zero, Nat.zero_add, getD_one_cons]
      exact ⟨write_in_fat_first bs _ c _ b hcfit hc hb, write_in_fat_second bs _ c _ b hcfit hb⟩
    | succ k =>
      simp only [List.getD_cons_succ]
      have hk' : k < rest.length := by simpa using hk
      have hmem : rest.getD k 0 ∈ rest := by
        rw [List.getD_eq_getElem _ _ hk']; exact List.getElem_mem _
      have hne : rest.getD k 0 ≠ c := by
        intro h; rw [h] at hmem; exact (List.nodup_cons.mp hnd).1 hmem
      have hj := hin _ (List.mem_cons_of_mem _ hmem)
      have ho := write_in_fat_other bs (link_chain bs last rest disk) c (rest.headD last)
        (rest.getD k 0) b hfit hc hj hne hb
      rw [ho.1, ho.2]
      exact ih (List.nodup_cons.mp hnd).2 (fun x hx => hin x (List.mem_cons_of_mem _ hx)) k hk' b hb

theorem allocate_clusters_eq (bs : boot_sector) (disk : Disk) (N : Nat)
    (hN : 1 ≤ N) (hN32 : N < 2 ^ 32) (hfree : N ≤ (free_clusters bs disk).length) :
    allocate_clusters bs disk N =
      (((free_clusters bs disk).take N).headD 0,
        link_chain bs END_OF_CHAIN ((free_clusters bs disk).take N) disk) := by
  unfold allocate_clusters allocate_clusters_wrapped
  rw [allocate_scan_eq bs disk _ N 2 hN hN32]
  unfold free_clusters at hfree ⊢
  cases hcs : (free_from bs disk 2 (fat_addresses bs - 2)).take N with
  | nil =>
    have := congrArg List.length hcs
    simp only [List.length_take, List.length_nil] at this
    omega
  | cons c rest => simp [hfree]

theorem in_fat_lt (bs : boot_sector) (c : Nat) (hfit : fats_addressable bs) (hc : in_fat bs c) :
    c < 2 ^ 32 := by
  unfold fats_addressable at hfit
  unfold in_fat at hc
  omega

/-- The allocator where the scan stays inside the FAT: when the `N` lowest free scanned
indices have their entries inside the first FAT, both FAT copies lie below 4 GiB, and at
least `N ≥ 1` scanned entries are free, `allocate_clusters(N)` returns the lowest free index;
the `N` lowest free indices, in ascending order, are linked each to the next in both FAT
copies, the last one holds the end-of-chain marker, every other FAT entry keeps its value,
and so does every byte outside the entries written. -/
theorem allocate_clusters_links (bs : boot_sector) (disk : Disk) (N : Nat)
    (hfit : fats_addressable bs)
    (hin : ∀ c ∈ (free_clusters bs disk).take N, in_fat bs c)
    (hN : 1 ≤ N) (hN32 : N < 2 ^ 32) (hfree : N ≤ (free_clusters bs disk).length) :
    ((free_clusters bs disk).take N).head? = some (allocate_clusters bs disk N).1 ∧
    ((free_clusters bs disk).take N).Pairwise (· < ·) ∧
    (∀ k, k + 1 < N →
      fat_entry bs (allocate_clusters bs disk N).2 (((free_clusters bs disk).take N).getD k 0)
        = ((free_clusters bs disk).take N).getD (k + 1) 0 ∧
      fat2_entry bs (allocate_clusters bs disk N).2 (((free_clusters bs disk).take N).getD k 0)
        = ((free_clusters bs disk).take N).getD (k + 1) 0) ∧
    (fat_entry bs (allocate_clusters bs disk N).2
        (((free_clusters bs disk).take N).getD (N - 1) 0) = END_OF_CHAIN ∧
      fat2_entry bs (allocate_clusters bs disk N).2
        (((free_clusters bs disk).take N).getD (N - 1) 0) = END_OF_CHAIN) ∧
    (∀ j, in_fat bs j → j ∉ (free_clusters bs disk).take N →
      fat_entry bs (allocate_clusters bs disk N).2 j = fat_entry bs disk j ∧
      fat2_entry bs (allocate_clusters bs disk N).2 j = fat2_entry bs disk j) ∧
    (∀ a, (∀ c ∈ (free_clusters bs disk).take N,
          ¬ (fat_entry_offset bs c ≤ a ∧ a < fat_entry_offset bs c + 4) ∧
          ¬ (fat2_entry_offset bs c ≤ a ∧ a < fat2_entry_offset bs c + 4)) →
      (allocate_clusters bs disk N).2 a = disk a) := by
  rw [allocate_clusters_eq bs disk N hN hN32 hfree]
  dsimp only
  have hpw : ((free_clusters bs disk).take N).Pairwise (· < ·) :=
    (free_from_pairwise bs disk 2 (fat_addresses bs - 2)).take
  have hlen : ((free_clusters bs disk).take N).length = N := by
    rw [List.length_take]; omega
  have hnd : ((free_clusters bs disk).take N).Nodup := hpw.imp (fun h => Nat.ne_of_lt h)
  have hfit2 : ∀ c ∈ (free_clusters bs disk).take N, fat2_entry_offset bs c < 2 ^ 32 := by
    intro c hc
    have := in_fat_fit bs c hfit (hin c hc)
    omega
  have hbytes := link_chain_bytes bs END_OF_CHAIN disk hfit _ hnd hin
  have hframe : ∀ a, (∀ c ∈ (free_clusters bs disk).take N,
          ¬ (fat_entry_offset bs c ≤ a ∧ a < fat_entry_offset bs c + 4) ∧
          ¬ (fat2_entry_offset bs c ≤ a ∧ a < fat2_entry_offset bs c + 4)) →
      link_chain bs END_OF_CHAIN ((free_clusters bs disk).take N) disk a = disk a :=
    fun a ha => link_chain_frame bs END_OF_CHAIN disk a _ hfit2 ha
  generalize (free_clusters bs disk).take N = cs at *
  refine ⟨?_, hpw, ?_, ?_, ?_, hframe⟩
  · cases cs with
    | nil => simp at hlen; omega
    | cons c rest => rfl
  · intro k hk
    have hk1 : k + 1 < cs.length := by omega
    have hmem : cs.getD (k + 1) 0 ∈ cs := by
      rw [List.getD_eq_getElem _ _ hk1]; exact List.getElem_mem _
    have hlt := in_fat_lt bs _ hfit (hin _ hmem)
    have hd : cs.getD (k + 1) END_OF_CHAIN = cs.getD (k + 1) 0 := by
      rw [List.getD_eq_getElem _ _ hk1, List.getD_eq_getElem _ _ hk1]
    constructor
    · exact fread32_le32 _ _ _ hlt fun b hb => by
        rw [(hbytes k (by omega) b hb).1, hd]
    · exact fread32_le32 _ _ _ hlt fun b hb => by
        rw [(hbytes k (by omega) b hb).2, hd]
  · have hd : cs.getD (N - 1 + 1) END_OF_CHAIN = END_OF_CHAIN := by
      rw [List.getD_eq_default]; omega
    constructor
    · exact fread32_le32 _ _ _ (by decide) fun b hb => by
        rw [(hbytes (N - 1) (by omega) b hb).1, hd]
    · exact fread32_le32 _ _ _ (by decide) fun b hb => by
        rw [(hbytes (N - 1) (by omega) b hb).2, hd]
  · intro j hj hjn
    have hout : ∀ b, b < 4 → ∀ c ∈ cs,
        (¬ (fat_entry_offset bs c ≤ fat_entry_offset bs j + b ∧
            fat_entry_offset bs j + b < fat_entry_offset bs c + 4) ∧
         ¬ (fat2_entry_offset bs c ≤ fat_entry_offset bs j + b ∧
            fat_entry_offset bs j + b < fat2_entry_offset bs c + 4)) ∧
        (¬ (fat_entry_offset bs c ≤ fat2_entry_offset bs j + b ∧
            fat2_entry_offset bs j + b < fat_entry_offset bs c + 4) ∧
         ¬ (fat2_entry_offset bs c ≤ fat2_entry_offset bs j + b ∧
            fat2_entry_offset bs j + b < fat2_entry_offset bs c + 4)) := by
      intro b hb c hc
      have hne : j ≠ c := fun h => hjn (h ▸ hc)
      have hcin := hin c hc
      unfold in_fat at hcin hj
      simp only [fat2_entry_offset, fat_entry_offset]
      omega
    constructor
    · exact fread32_congr _ _ _ fun b hb => hframe _ fun c hc => (hout b hb c hc).1
    · exact fread32_congr _ _ _ fun b hb => hframe _ fun c hc => (hout b hb c hc).2

/-- An instance of `allocate_clusters_links`: two clusters allocated on `img_two_free`, whose
free scanned entries are 5 and 9. -/
theorem allocate_clusters_links_witness :
    (fats_addressable bs_small ∧
      (∀ c ∈ (free_clusters bs_small img_two_free).take 2, in_fat bs_small c) ∧
      1 ≤ 2 ∧ 2 < 2 ^ 32 ∧ 2 ≤ (free_clusters bs_small img_two_free).length) ∧
    (free_clusters bs_small img_two_free).take 2 = [5, 9] ∧
    (allocate_clusters bs_small img_two_free 2).1 = 5 ∧
    fat_entry bs_small (allocate_clusters bs_small img_two_free 2).2 5 = 9 ∧
    fat_entry bs_small (allocate_clusters bs_small img_two_free 2).2 9 = END_OF_CHAIN := by
  have h := allocate_clusters_links bs_small img_two_free 2
    (by unfold fats_addressable; decide) (by decide) (by decide) (by decide) (by decide)
  have hcs : (free_clusters bs_small img_two_free).take 2 = [5, 9] := by decide
  refine ⟨⟨by unfold fats_addressable; decide, by decide, by decide, by decide, by decide⟩,
    hcs, ?_, ?_, ?_⟩
  · have h1 := h.1
    rw [hcs] at h1
    exact (Option.some.inj h1).symm
  · have h3 := (h.2.2.1 0 (by decide)).1
    rw [hcs] at h3
    exact h3
  · have h4 := h.2.2.2.1.1
    rw [hcs] at h4
    exact h4

/-- C3 (code at the failing input): on the two-sectors-per-cluster volume `bs_spc2` the scan
bound 252, which counts sectors, exceeds the 128 entries of the FAT, so the scanned indices
128..251 read the second FAT copy. With cluster 5 the only free cluster, indices 5 and 133
both read as free, hence two scanned entries are free; `allocate_clusters(2)` returns 5,
but the entry of the second cluster of the chain, 133, holds 133 and not the end-of-chain
marker. -/
theorem allocate_clusters_alias :
    (free_clusters bs_spc2 img_spc2).take 2 = [5, 133] ∧
    2 ≤ (free_clusters bs_spc2 img_spc2).length ∧
    (allocate_clusters bs_spc2 img_spc2 2).1 = 5 ∧
    get_cluster_info bs_spc2 (allocate_clusters bs_spc2 img_spc2 2).2 133 = 133 ∧
    (133 : Nat) ≠ END_OF_CHAIN := by
  decide

/-- C4 (code at the failing input): on `img_two_free` only the scanned entries 5 and 9 are
free, fewer than the 3 requested; `allocate_clusters(3)` nevertheless returns 5 instead of
the free-cluster sentinel, and the entry of cluster 5, free before the call, holds 9
afterwards in both FAT copies. -/
theorem allocate_clusters_partial :
    (free_clusters bs_small img_two_free).length = 2 ∧
    (allocate_clusters bs_small img_two_free 3).1 = 5 ∧
    (5 : Nat) ≠ FREE_CLUSTER ∧
    fat_entry bs_small img_two_free 5 = 0 ∧
    fat_entry bs_small (allocate_clusters bs_small img_two_free 3).2 5 = 9 ∧
    fat2_entry bs_small (allocate_clusters bs_small img_two_free 3).2 5 = 9 := by
  decide

/-! ### The out-of-space path of `touch` -/

set_option maxRecDepth 100000 in
/-- C1 (code at the failing input): the two FAT copies of `img_full_dir` are byte-identical;
after mounting it and running `touch X`, which must grow the full root directory and finds
no second free cluster, entry 0 of the first FAT copy still holds 0x0FFFFFF8 while entry 0
of the second copy holds 0. -/
theorem touch_breaks_fat_mirror :
    (∀ k, k < fat_bytes bs_small →
      img_full_dir (fat_start bs_small + k)
        = img_full_dir (fat_start bs_small + fat_bytes bs_small + k)) ∧
    ((read_disk 5 bs_small img_full_dir).bind fun s => touch 5 bs_small noon s [88]).map
        (fun s => (fat_entry bs_small s.disk 0, fat2_entry bs_small s.disk 0))
      = some (0x0FFFFFF8, 0) := by
  decide

/-- C10 (code at the failing input): on `img_full_dir` the only free scanned entry is 96
and the root directory has neither a deleted slot nor a terminator, so `touch X` allocates
cluster 96 and then must grow the directory. It reports the out-of-space error and returns
0, but the entry of cluster 96 still holds the end-of-chain marker in both copies, and the
`write_in_fat` meant to free it has instead zeroed entry 0 of the second FAT copy and the
first four bytes of the root directory. -/
theorem touch_leaks_cluster :
    free_clusters bs_small img_full_dir = [96] ∧
    ((read_disk 5 bs_small img_full_dir).bind fun s =>
        touch_search (formated [88]) s.directory_stack.entries s.directory_stack.quantity 0 none)
      = some none ∧
    fat_entry bs_small img_full_dir 96 = FREE_CLUSTER ∧
    fat2_entry bs_small img_full_dir 0 = 0x0FFFFFF8 ∧
    fread32 img_full_dir 17408 = 0x20202041 ∧
    ((read_disk 5 bs_small img_full_dir).bind fun s =>
        touch_wrapper 5 bs_small noon s [88] ATTR_ARCHIVE).map
        (fun r => (r.1, r.2.out, fat_entry bs_small r.2.disk 96, fat2_entry bs_small r.2.disk 96,
          fat2_entry bs_small r.2.disk 0, fread32 r.2.disk 17408))
      = some (0, [Msg.unable_to_alocate Command.touch [88]], END_OF_CHAIN, END_OF_CHAIN, 0, 0) := by
  decide

/-! ### Removing a file -/

theorem get_cluster_info_eq (bs : boot_sector) (disk : Disk) (c : Nat)
    (hfit : fats_addressable bs) (hc : in_fat bs c) :
    get_cluster_info bs disk c = clamp (fat_entry bs disk c) := by
  have h := in_fat_fit bs c hfit hc
  have h1 : fat_entry_offset bs c < 2 ^ 32 := by unfold fat2_entry_offset at h; omega
  unfold get_cluster_info clamp fat_entry
  simp only [get_fat_address_eq bs c h1]
  split_ifs <;> first | rfl | omega

/-- An image that agrees with another on the first copy of the entry of `c` reads the same
value there. -/
theorem get_cluster_info_congr (bs : boot_sector) (d d' : Disk) (c : Nat)
    (hfit : fats_addressable bs) (hc : in_fat bs c)
    (h : ∀ k, k < 4 → d' (fat_entry_offset bs c + k) = d (fat_entry_offset bs c + k)) :
    get_cluster_info bs d' c = get_cluster_info bs d c := by
  rw [get_cluster_info_eq bs d' c hfit hc, get_cluster_info_eq bs d c hfit hc]
  unfold fat_entry
  rw [fread32_congr d d' _ h]

theorem linked_congr (bs : boot_sector) (d d' : Disk) :
    ∀ cs : List Nat, (∀ c ∈ cs, get_cluster_info bs d' c = get_cluster_info bs d c) →
      linked bs d' cs = linked bs d cs := by
  intro cs
  induction cs with
  | nil => intro _; rfl
  | cons c rest ih =>
    intro h
    cases rest with
    | nil => simp only [linked, h c (List.mem_cons_self _ _)]
    | cons c' rest' =>
      simp only [linked, h c (List.mem_cons_self _ _)]
      rw [ih (fun x hx => h x (List.mem_cons_of_mem _ hx))]

theorem free_chain_cons (bs : boot_sector) (c : Nat) (rest : List Nat) (disk : Disk) :
    free_chain bs (c :: rest) disk = free_chain bs rest (write_in_fat bs disk c FREE_CLUSTER) :=
  rfl

theorem rm_free_loop_done (bs : boot_sector) (fuel : Nat) (disk : Disk) (curr : Nat) :
    rm_free_loop bs (fuel + 1) disk END_OF_CHAIN curr = some disk := by
  simp [rm_free_loop]

theorem rm_free_loop_chain (bs : boot_sector) (hfit : fats_addressable bs) :
    ∀ (cs : List Nat) (c : Nat) (disk : Disk) (next fuel : Nat),
      next ≠ END_OF_CHAIN → linked bs disk (c :: cs) = true → (c :: cs).Nodup →
      (∀ x ∈ c :: cs, in_fat bs x) → (c :: cs).length < fuel →
      rm_free_loop bs fuel disk next c = some (free_chain bs (c :: cs) disk) := by
  intro cs
  induction cs with
  | nil =>
    intro c disk next fuel hnext hl _ _ hfuel
    obtain ⟨f, rfl⟩ : ∃ f, fuel = f + 2 := ⟨fuel - 2, by simp at hfuel; omega⟩
    have hc : get_cluster_info bs disk c = END_OF_CHAIN := by simpa [linked] using hl
    rw [rm_free_loop, if_neg hnext]
    simp only [hc]
    rw [rm_free_loop_done]
    rfl
  | cons c' rest ih =>
    intro c disk next fuel hnext hl hnd hin hfuel
    obtain ⟨f, rfl⟩ : ∃ f, fuel = f + 1 := ⟨fuel - 1, by simp at hfuel; omega⟩
    simp only [linked, Bool.and_eq_true, beq_iff_eq, bne_iff_ne, ne_eq] at hl
    obtain ⟨⟨hc, hc'⟩, hrest⟩ := hl
    rw [rm_free_loop, if_neg hnext]
    simp only [hc]
    rw [free_chain_cons]
    have hnd' := (List.nodup_cons.mp hnd)
    apply ih c' _ c' f hc' _ hnd'.2 (fun x hx => hin x (List.mem_cons_of_mem _ hx))
      (by simp at hfuel ⊢; omega)
    rw [linked_congr bs disk _ _ ?_]
    · exact hrest
    · intro x hx
      apply get_cluster_info_congr bs _ _ x hfit (hin x (List.mem_cons_of_mem _ hx))
      intro k hk
      have hne : x ≠ c := fun h => hnd'.1 (h ▸ hx)
      exact (write_in_fat_other bs disk c FREE_CLUSTER x k hfit (hin c (List.mem_cons_self _ _))
        (hin x (List.mem_cons_of_mem _ hx)) hne hk).1


theorem le_byte_zero (k : Nat) : le_byte 0 k = 0 := by
  unfold le_byte; simp

theorem entries_disjoint (bs : boot_sector) (c x b : Nat) (hc : in_fat bs c) (hx : in_fat bs x)
    (hne : x ≠ c) (hb : b < 4) :
    ¬ in_entry bs c (fat_entry_offset bs x + b) ∧ ¬ in_entry bs c (fat2_entry_offset bs x + b) := by
  unfold in_fat at hc hx
  unfold in_entry
  simp only [fat2_entry_offset, fat_entry_offset]
  constructor <;> omega

theorem write_in_fat_frame (bs : boot_sector) (disk : Disk) (c v a : Nat)
    (hfit : fat2_entry_offset bs c < 2 ^ 32) (h : ¬ in_entry bs c a) :
    write_in_fat bs disk c v a = disk a := by
  unfold in_entry at h
  exact write_in_fat_outside bs disk c v a hfit (fun h1 => h (Or.inl h1)) (fun h2 => h (Or.inr h2))

theorem free_chain_frame (bs : boot_sector) (a : Nat) :
    ∀ (cs : List Nat) (disk : Disk), (∀ c ∈ cs, fat2_entry_offset bs c < 2 ^ 32) →
      (∀ c ∈ cs, ¬ in_entry bs c a) → free_chain bs cs disk a = disk a := by
  intro cs
  induction cs with
  | nil => intro _ _ _; rfl
  | cons c rest ih =>
    intro disk hfit hout
    rw [free_chain_cons, ih _ (fun x hx => hfit x (List.mem_cons_of_mem _ hx))
      (fun x hx => hout x (List.mem_cons_of_mem _ hx)),
      write_in_fat_frame bs disk c _ a (hfit c (List.mem_cons_self _ _))
        (hout c (List.mem_cons_self _ _))]

theorem free_chain_zero (bs : boot_sector) (hfit : fats_addressable bs) :
    ∀ (cs : List Nat) (disk : Disk), (∀ c ∈ cs, in_fat bs c) →
      ∀ x ∈ cs, ∀ k, k < 4 →
        free_chain bs cs disk (fat_entry_offset bs x + k) = 0 ∧
        free_chain bs cs disk (fat2_entry_offset bs x + k) = 0 := by
  intro cs
  induction cs with
  | nil => intro _ _ x hx; simp at hx
  | cons c rest ih =>
    intro disk hin x hx k hk
    rw [free_chain_cons]
    by_cases hxr : x ∈ rest
    · exact ih _ (fun y hy => hin y (List.mem_cons_of_mem _ hy)) x hxr k hk
    · have hxc : x = c := by
        rcases List.mem_cons.mp hx with h | h
        · exact h
        · exact absurd h hxr
      subst hxc
      have hxin := hin x (List.mem_cons_self _ _)
      have hxfit : fat2_entry_offset bs x < 2 ^ 32 := by
        have := in_fat_fit bs x hfit hxin; omega
      have hrfit : ∀ y ∈ rest, fat2_entry_offset bs y < 2 ^ 32 := by
        intro y hy
        have := in_fat_fit bs y hfit (hin y (List.mem_cons_of_mem _ hy)); omega
      have hdis : ∀ y ∈ rest, ¬ in_entry bs y (fat_entry_offset bs x + k) ∧
          ¬ in_entry bs y (fat2_entry_offset bs x + k) := by
        intro y hy
        have hne : x ≠ y := fun h => hxr (h ▸ hy)
        exact entries_disjoint bs y x k (hin y (List.mem_cons_of_mem _ hy)) hxin hne hk
      rw [free_chain_frame bs _ rest _ hrfit (fun y hy => (hdis y hy).1),
        free_chain_frame bs _ rest _ hrfit (fun y hy => (hdis y hy).2),
        write_in_fat_first bs disk x _ k hxfit hxin hk, write_in_fat_second bs disk x _ k hxfit hk]
      exact ⟨le_byte_zero k, le_byte_zero k⟩

theorem first_cluster_store_zero (e : DirEntry) (v : Nat) :
    first_cluster (store e 0 v) = first_cluster e := by
  unfold first_cluster DIR_FstClusHI DIR_FstClusLO get16 store
  simp

theorem rm_loop_skip (fuel : Nat) (bs : boot_sector) (s : Session) (entry_name : List Nat)
    (name : Nat → Nat) (is_folder : Nat) :
    ∀ (k n i : Nat),
      (∀ j, i ≤ j → j < i + k →
        (s.entry j 0 = 0xE5 ∨ is_long_name (s.entry j) = true ∨
          (s.entry j 0 ≠ 0x00 ∧ name_matches name (s.entry j) = false))) →
      rm_loop fuel bs s entry_name name is_folder (n + k) i
        = rm_loop fuel bs s entry_name name is_folder n (i + k) := by
  intro k
  induction k with
  | zero => intro n i _; rfl
  | succ k ih =>
    intro n i h
    have hi := h i (Nat.le_refl _) (by omega)
    have hrest := ih n (i + 1) (fun j h1 h2 => h j (by omega) (by omega))
    rw [show n + (k + 1) = (n + k) + 1 by omega, show i + (k + 1) = i + 1 + k by omega, ← hrest]
    rw [rm_loop]
    rcases hi with h1 | h1 | ⟨h1, h2⟩
    · simp only [h1, if_true]
    · by_cases h0 : s.entry i 0 = 0xE5
      · simp only [h0, if_true]
      · simp only [h0, h1, if_false, if_true]
    · by_cases h0 : s.entry i 0 = 0xE5
      · simp only [h0, if_true]
      · by_cases h3 : is_long_name (s.entry i) = true
        · simp only [h0, h3, if_false, if_true]
        · simp only [h0, h3, h1, h2, if_false, Bool.false_eq_true]


theorem live_iff (e : DirEntry) :
    live e = true ↔ is_long_name e = false ∧ e 0 ≠ 0x00 ∧ e 0 ≠ 0xE5 := by
  unfold live
  simp [Bool.and_eq_true, and_assoc]

theorem terminator_false_iff (e : DirEntry) :
    terminator e = false ↔ (is_long_name e = true ∨ e 0 ≠ 0x00) := by
  unfold terminator
  cases h : is_long_name e <;> simp

/-- The slots before a live entry that is the first one carrying the name are all passed
over by the search loop of `rm_wrapped`. -/
theorem rm_passes_before (s : Session) (name : Nat → Nat) (p : Nat)
    (hbefore : ∀ i, i < p → terminator (s.entry i) = false)
    (hfirst : ∀ i, i < p → live (s.entry i) = true → name_matches name (s.entry i) = false) :
    ∀ j, 0 ≤ j → j < 0 + p →
      (s.entry j 0 = 0xE5 ∨ is_long_name (s.entry j) = true ∨
        (s.entry j 0 ≠ 0x00 ∧ name_matches name (s.entry j) = false)) := by
  intro j _ hj
  have hj' : j < p := by omega
  by_cases h0 : s.entry j 0 = 0xE5
  · exact Or.inl h0
  · by_cases h1 : is_long_name (s.entry j) = true
    · exact Or.inr (Or.inl h1)
    · have h1' : is_long_name (s.entry j) = false := by simpa using h1
      have h2 : s.entry j 0 ≠ 0x00 := by
        rcases (terminator_false_iff _).mp (hbefore j hj') with h | h
        · exact absurd h h1
        · exact h
      exact Or.inr (Or.inr ⟨h2, hfirst j hj' ((live_iff _).mpr ⟨h1', h2, h0⟩)⟩)

/-- The session `rm` produces when it removes slot `p` whose chain is `cs`. -/
theorem rm_eq (fuel : Nat) (bs : boot_sector) (s : Session) (entry_name : List Nat)
    (p : Nat) (cs : List Nat) (is_folder : Nat)
    (hfit : fats_addressable bs)
    (hname : formated entry_name 0 ≠ 0)
    (hp : p < s.directory_stack.quantity)
    (hbefore : ∀ i, i < p → terminator (s.entry i) = false)
    (hlive : live (s.entry p) = true)
    (hmatch : name_matches (formated entry_name) (s.entry p) = true)
    (hfirst : ∀ i, i < p → live (s.entry i) = true →
      name_matches (formated entry_name) (s.entry i) = false)
    (hkind : is_directory (s.entry p) = decide (is_folder ≠ 0))
    (hhead : cs.head? = some (first_cluster (s.entry p)))
    (hlinked : linked bs s.disk cs = true) (hnodup : cs.Nodup) (hin : ∀ c ∈ cs, in_fat bs c)
    (hpos : fat_start bs + 2 * fat_bytes bs
      ≤ get_entry_disk_position bs s.disk s.directory_stack.cluster p)
    (hfuel : cs.length < fuel) :
    rm_wrapped fuel bs s entry_name is_folder = some
      { s with
        disk := free_chain bs cs (fwrite s.disk
          (get_entry_disk_position bs s.disk s.directory_stack.cluster p) 1
          (fun _ => AVAILABLE_ENTRY_POINTER))
        directory_stack :=
          { s.directory_stack with
            entries := s.directory_stack.entries.set p
              (store (s.entry p) 0 AVAILABLE_ENTRY_POINTER) } } := by
  obtain ⟨hl1, hl2, hl3⟩ := (live_iff _).mp hlive
  unfold rm_wrapped
  simp only [hname, if_false]
  obtain ⟨n, hn⟩ : ∃ n, s.directory_stack.quantity = (n + 1) + p :=
    ⟨s.directory_stack.quantity - p - 1, by omega⟩
  have hq : rm_loop fuel bs s entry_name (formated entry_name) is_folder
      s.directory_stack.quantity 0
      = rm_loop fuel bs s entry_name (formated entry_name) is_folder (n + 1) p := by
    conv_lhs => rw [hn]
    rw [rm_loop_skip fuel bs s entry_name _ is_folder p (n + 1) 0
      (rm_passes_before s _ p hbefore hfirst), Nat.zero_add]
  rw [hq, rm_loop]
  have hkind1 : ¬ (is_directory (s.entry p) = true ∧ is_folder = 0) := by
    rintro ⟨h1, h2⟩
    rw [hkind] at h1
    simp [h2] at h1
  have hkind2 : ¬ (¬ is_directory (s.entry p) = true ∧ is_folder ≠ 0) := by
    rintro ⟨h1, h2⟩
    rw [hkind] at h1
    simp [h2] at h1
  simp only [hl1, hl2, hl3, hmatch, hkind1, hkind2, if_false, if_true, Bool.false_eq_true,
    first_cluster_store_zero]
  cases cs with
  | nil => simp at hhead
  | cons c rest =>
    simp only [List.head?_cons, Option.some.injEq] at hhead
    subst hhead
    have hl : linked bs (fwrite s.disk
        (get_entry_disk_position bs s.disk s.directory_stack.cluster p) 1
        (fun _ => AVAILABLE_ENTRY_POINTER)) (first_cluster (s.entry p) :: rest) = true := by
      rw [linked_congr bs s.disk _ _ ?_]
      · exact hlinked
      · intro x hx
        apply get_cluster_info_congr bs _ _ x hfit (hin x hx)
        intro k hk
        apply fwrite_outside
        have := hin x hx
        unfold in_fat at this
        unfold fat_entry_offset
        omega
    rw [rm_free_loop_chain bs hfit rest _ _ 0 fuel (by decide) hl hnodup hin hfuel]
    rfl


/-- C5: for a live non-directory entry of the current directory, the first one carrying the
encoded name, whose cluster chain `cs` is well formed and whose slot lies beyond the FAT
copies, `rm` returns; it sets the status byte of that slot to 0xE5 in the cache and at the
slot's position on disk, leaves the rest of the cache and of the session alone, sets the
FAT entries of the clusters of the chain to free in both copies, and changes no other FAT
entry and no other byte of the image. -/
theorem rm_marks_and_frees (fuel : Nat) (bs : boot_sector) (s : Session) (entry_name : List Nat)
    (p : Nat) (cs : List Nat)
    (hfit : fats_addressable bs)
    (hname : formated entry_name 0 ≠ 0)
    (hp : p < s.directory_stack.quantity)
    (hbefore : ∀ i, i < p → terminator (s.entry i) = false)
    (hlive : live (s.entry p) = true)
    (hmatch : name_matches (formated entry_name) (s.entry p) = true)
    (hfirst : ∀ i, i < p → live (s.entry i) = true →
      name_matches (formated entry_name) (s.entry i) = false)
    (hfile : is_directory (s.entry p) = false)
    (hhead : cs.head? = some (first_cluster (s.entry p)))
    (hlinked : linked bs s.disk cs = true) (hnodup : cs.Nodup)
    (hin : ∀ c ∈ cs, 2 ≤ c ∧ in_fat bs c)
    (hpos : fat_start bs + 2 * fat_bytes bs
      ≤ get_entry_disk_position bs s.disk s.directory_stack.cluster p)
    (hfuel : cs.length < fuel) :
    ∃ s', rm fuel bs s entry_name = some s' ∧
      s'.directory_stack.entries
        = s.directory_stack.entries.set p (store (s.entry p) 0 0xE5) ∧
      s'.directory_stack.quantity = s.directory_stack.quantity ∧
      s'.directory_stack.cluster = s.directory_stack.cluster ∧
      s'.previous = s.previous ∧
      s'.directory_stack_count = s.directory_stack_count ∧
      s'.disk (get_entry_disk_position bs s.disk s.directory_stack.cluster p) = 0xE5 ∧
      (∀ c ∈ cs, fat_entry bs s'.disk c = FREE_CLUSTER ∧ fat2_entry bs s'.disk c = FREE_CLUSTER) ∧
      (∀ j, in_fat bs j → j ∉ cs →
        fat_entry bs s'.disk j = fat_entry bs s.disk j ∧
        fat2_entry bs s'.disk j = fat2_entry bs s.disk j) ∧
      (∀ a, a ≠ get_entry_disk_position bs s.disk s.directory_stack.cluster p →
        (∀ c ∈ cs, ¬ in_entry bs c a) → s'.disk a = s.disk a) := by
  have hin' : ∀ c ∈ cs, in_fat bs c := fun c hc => (hin c hc).2
  have hfit2 : ∀ c ∈ cs, fat2_entry_offset bs c < 2 ^ 32 := by
    intro c hc
    have := in_fat_fit bs c hfit (hin' c hc); omega
  have hout : ∀ c ∈ cs, ¬ in_entry bs c
      (get_entry_disk_position bs s.disk s.directory_stack.cluster p) := by
    intro c hc
    have := hin' c hc
    simp only [in_entry, fat2_entry_offset, fat_entry_offset]
    omega
  have hframe : ∀ a, a ≠ get_entry_disk_position bs s.disk s.directory_stack.cluster p →
      (∀ c ∈ cs, ¬ in_entry bs c a) →
      free_chain bs cs (fwrite s.disk
        (get_entry_disk_position bs s.disk s.directory_stack.cluster p) 1
        (fun _ => AVAILABLE_ENTRY_POINTER)) a = s.disk a := by
    intro a ha hca
    rw [free_chain_frame bs a cs _ hfit2 hca, fwrite_outside _ _ _ _ _ (by omega)]
  refine ⟨_, rm_eq fuel bs s entry_name p cs 0 hfit hname hp hbefore hlive hmatch hfirst
    (by simp [hfile]) hhead hlinked hnodup hin' hpos hfuel, rfl, rfl, rfl, rfl, rfl, ?_, ?_, ?_,
    hframe⟩
  · show free_chain bs cs _ _ = 0xE5
    rw [free_chain_frame bs _ cs _ hfit2 hout]
    have := fwrite_inside s.disk
      (get_entry_disk_position bs s.disk s.directory_stack.cluster p) 1
      (fun _ => AVAILABLE_ENTRY_POINTER) 0 (by omega)
    simpa [AVAILABLE_ENTRY_POINTER] using this
  · intro c hc
    dsimp only
    have hz := free_chain_zero bs hfit cs (fwrite s.disk
        (get_entry_disk_position bs s.disk s.directory_stack.cluster p) 1
        (fun _ => AVAILABLE_ENTRY_POINTER)) hin' c hc
    exact ⟨fread32_le32 _ _ 0 (by decide) fun k hk => by rw [(hz k hk).1, le_byte_zero],
      fread32_le32 _ _ 0 (by decide) fun k hk => by rw [(hz k hk).2, le_byte_zero]⟩
  · intro j hj hjn
    dsimp only
    have hd : ∀ k, k < 4 → ∀ c ∈ cs, ¬ in_entry bs c (fat_entry_offset bs j + k) ∧
        ¬ in_entry bs c (fat2_entry_offset bs j + k) := by
      intro k hk c hc
      exact entries_disjoint bs c j k (hin' c hc) hj (fun h => hjn (h ▸ hc)) hk
    have hne : ∀ k, k < 4 → fat_entry_offset bs j + k
          ≠ get_entry_disk_position bs s.disk s.directory_stack.cluster p ∧
        fat2_entry_offset bs j + k
          ≠ get_entry_disk_position bs s.disk s.directory_stack.cluster p := by
      intro k hk
      simp only [fat2_entry_offset, fat_entry_offset]
      omega
    exact ⟨fread32_congr _ _ _ fun k hk => hframe _ (hne k hk).1 fun c hc => (hd k hk c hc).1,
      fread32_congr _ _ _ fun k hk => hframe _ (hne k hk).2 fun c hc => (hd k hk c hc).2⟩


/-- Witness for C5: `rm A` on `session_file`, where A is the live file in slot 1 with the
chain 3 → 4. -/
theorem rm_marks_and_frees_witness :
    (fats_addressable bs_small ∧ formated [65] 0 ≠ 0 ∧
      live (session_file.entry 1) = true ∧
      name_matches (formated [65]) (session_file.entry 1) = true ∧
      is_directory (session_file.entry 1) = false ∧
      [3, 4].head? = some (first_cluster (session_file.entry 1)) ∧
      linked bs_small session_file.disk [3, 4] = true) ∧
    ∃ s', rm 5 bs_small session_file [65] = some s' ∧
      s'.disk 17440 = 0xE5 ∧
      fat_entry bs_small s'.disk 3 = FREE_CLUSTER ∧ fat_entry bs_small s'.disk 4 = FREE_CLUSTER := by
  refine ⟨by decide, ?_⟩
  obtain ⟨s', h1, _, _, _, _, _, h2, h3, _, _⟩ :=
    rm_marks_and_frees 5 bs_small session_file [65] 1 [3, 4] (by decide) (by decide) (by decide)
      (by decide) (by decide) (by decide) (by decide) (by decide) (by decide) (by decide)
      (by decide) (by decide) (by decide) (by decide)
  exact ⟨s', h1, h2, (h3 3 (by decide)).1, (h3 4 (by decide)).1⟩

/-! ### Creating a file -/

theorem toupper_le (c : Nat) : toupper c ≤ c := by
  unfold toupper; split_ifs <;> omega

theorem replace_prohibited_lt (c : Nat) (h : c < 256) : replace_prohibited c < 256 := by
  unfold replace_prohibited; split_ifs <;> omega

theorem getD_lt (l : List Nat) (i : Nat) (h : ∀ c ∈ l, c < 256) : l.getD i 0 < 256 := by
  by_cases hi : i < l.length
  · rw [List.getD_eq_getElem _ _ hi]; exact h _ (List.getElem_mem _)
  · rw [List.getD_eq_default _ _ (by omega)]; omega

theorem foldl_store_lt {α : Type} (idx val : α → Nat) (hval : ∀ i, val i < 256) :
    ∀ (l : List α) (name : Nat → Nat), (∀ k, name k < 256) →
      ∀ k, (l.foldl (fun nm i => store nm (idx i) (val i)) name) k < 256 := by
  intro l
  induction l with
  | nil => intro name h k; exact h k
  | cons a l ih =>
    intro name h k
    rw [List.foldl_cons]
    apply ih
    intro k'
    unfold store
    split_ifs
    · exact hval a
    · exact h k'

/-- Every byte of the encoded name is a byte when the characters of the string are. -/
theorem formated_lt (unformatted_name : List Nat) (h : ∀ c ∈ unformatted_name, c < 256) (k : Nat) :
    formated unformatted_name k < 256 := by
  have h0 : ∀ k, store (fun _ => 0) 0 0 k < 256 := by
    intro k; simp [store]
  have hup : ∀ i, toupper (unformatted_name.getD i 0) < 256 := fun i =>
    Nat.lt_of_le_of_lt (toupper_le _) (getD_lt _ _ h)
  unfold formated create_formated_name
  dsimp only
  cases hfd : find_dot unformatted_name 0 none with
  | none => exact h0 k
  | some dot_pos =>
    dsimp only
    by_cases h13 : unformatted_name.length > 13
    · rw [if_pos h13]; exact h0 k
    · rw [if_neg h13]
      by_cases h2 : unformatted_name.length = 13 ∧ dot_pos = none
      · rw [if_pos h2]; exact h0 k
      · rw [if_neg h2]
        cases dot_pos with
        | none =>
          dsimp only
          apply foldl_store_lt (fun j => j) (fun _ => 0x20) (fun _ => by norm_num)
          apply foldl_store_lt (fun j => j) _ (fun i => hup i)
          exact h0
        | some dp =>
          dsimp only
          by_cases h3 : unformatted_name.length - (dp + 1) > 3
          · rw [if_pos h3]; exact h0 k
          · rw [if_neg h3]
            apply foldl_store_lt (fun j => j) (fun _ => 0x20) (fun _ => by norm_num)
            apply foldl_store_lt (fun j => 8 + j) _ (fun i => hup _)
            apply foldl_store_lt (fun j => j) (fun _ => 0x20) (fun _ => by norm_num)
            apply foldl_store_lt (fun j => j) _ (fun i => replace_prohibited_lt _ (hup i))
            exact h0

theorem le16_get (v : Nat) : le_byte v 0 % 256 + 256 * (le_byte v 1 % 256) = v % 65536 := by
  unfold le_byte; norm_num; omega

theorem and_high_shift (c : Nat) (hc : c < 2 ^ 32) : (c &&& 0xFFFF0000) >>> 16 = c / 65536 := by
  apply Nat.eq_of_testBit_eq
  intro j
  have hm : (0xFFFF0000 : Nat) = (2 ^ 16 - 1) <<< 16 := by decide
  rw [show c / 65536 = c >>> 16 by rw [Nat.shiftRight_eq_div_pow], hm]
  simp only [Nat.testBit_shiftRight, Nat.testBit_and, Nat.testBit_shiftLeft,
    Nat.testBit_two_pow_sub_one]
  by_cases hj : j < 16
  · simp [hj]
  · have : c.testBit (16 + j) = false :=
      Nat.testBit_lt_two_pow (Nat.lt_of_lt_of_le hc (Nat.pow_le_pow_right (by decide) (by omega)))
    simp [this]

theorem cluster_halves (c : Nat) (hc : c < 2 ^ 32) :
    ((((c &&& 0xFFFF0000) >>> 16) % 65536) <<< 16 ||| ((c &&& 0x0000FFFF) % 65536)) % 2 ^ 32 = c := by
  rw [and_high_shift c hc]
  have hl : c &&& 0x0000FFFF = c % 65536 := Nat.and_pow_two_sub_one_eq_mod c 16
  rw [hl, Nat.shiftLeft_eq]
  have h1 : c / 65536 % 65536 = c / 65536 := Nat.mod_eq_of_lt (by omega)
  have h2 : c % 65536 % 65536 = c % 65536 := Nat.mod_mod _ _
  rw [h1, h2, Nat.mul_comm, ← Nat.mul_add_lt_is_or (by omega)]
  norm_num
  omega

theorem set16_ne (e : DirEntry) (off v k : Nat) (h1 : k ≠ off) (h2 : k ≠ off + 1) :
    set16 e off v k = e k := by
  unfold set16; rw [if_neg h1, if_neg h2]

theorem set16_lo (e : DirEntry) (off v : Nat) : set16 e off v off = le_byte v 0 := by
  unfold set16; rw [if_pos rfl]

theorem set16_hi (e : DirEntry) (off v : Nat) : set16 e off v (off + 1) = le_byte v 1 := by
  unfold set16; rw [if_neg (by omega), if_pos rfl]

theorem set8_ne (e : DirEntry) (off v k : Nat) (h : k ≠ off) : set8 e off v k = e k := by
  unfold set8; rw [if_neg h]

theorem set8_eq (e : DirEntry) (off v : Nat) : set8 e off v off = v % 256 := by
  unfold set8; rw [if_pos rfl]

theorem set32_ne (e : DirEntry) (off v k : Nat) (h : k < off ∨ off + 4 ≤ k) :
    set32 e off v k = e k := by
  unfold set32; rw [if_neg (by omega)]

theorem set32_eq (e : DirEntry) (off v k : Nat) (h : off ≤ k ∧ k < off + 4) :
    set32 e off v k = le_byte v (k - off) := by
  unfold set32; rw [if_pos h]

theorem set_name_lt (e : DirEntry) (name : Nat → Nat) (k : Nat) (h : k < 11) :
    set_name e name k = name k := by
  unfold set_name; rw [if_pos h]

theorem set_name_ge (e : DirEntry) (name : Nat → Nat) (k : Nat) (h : 11 ≤ k) :
    set_name e name k = e k := by
  unfold set_name; rw [if_neg (by omega)]

/-- The bytes of the slot `touch_wrapper` builds, one per offset. -/
theorem new_entry_bytes (name : Nat → Nat) (attr c date time : Nat) :
    (∀ k, k < 11 → new_entry name attr c date time k = name k) ∧
    new_entry name attr c date time 11 = attr % 256 ∧
    new_entry name attr c date time 12 = 0 ∧
    new_entry name attr c date time 13 = 0 ∧
    new_entry name attr c date time 14 = le_byte time 0 ∧
    new_entry name attr c date time 15 = le_byte time 1 ∧
    new_entry name attr c date time 16 = le_byte date 0 ∧
    new_entry name attr c date time 17 = le_byte date 1 ∧
    new_entry name attr c date time 18 = le_byte date 0 ∧
    new_entry name attr c date time 19 = le_byte date 1 ∧
    new_entry name attr c date time 20 = le_byte ((c &&& 0xFFFF0000) >>> 16) 0 ∧
    new_entry name attr c date time 21 = le_byte ((c &&& 0xFFFF0000) >>> 16) 1 ∧
    new_entry name attr c date time 22 = le_byte time 0 ∧
    new_entry name attr c date time 23 = le_byte time 1 ∧
    new_entry name attr c date time 24 = le_byte date 0 ∧
    new_entry name attr c date time 25 = le_byte date 1 ∧
    new_entry name attr c date time 26 = le_byte (c &&& 0x0000FFFF) 0 ∧
    new_entry name attr c date time 27 = le_byte (c &&& 0x0000FFFF) 1 ∧
    (∀ k, 28 ≤ k → k < 32 → new_entry name attr c date time k = 0) := by
  unfold new_entry
  refine ⟨?_, ?_, ?_, ?_, ?_, ?_, ?_, ?_, ?_, ?_, ?_, ?_, ?_, ?_, ?_, ?_, ?_, ?_, ?_⟩
  · intro k hk
    rw [set16_ne _ _ _ _ (by omega) (by omega), set16_ne _ _ _ _ (by omega) (by omega),
      set16_ne _ _ _ _ (by omega) (by omega), set16_ne _ _ _ _ (by omega) (by omega),
      set16_ne _ _ _ _ (by omega) (by omega), set8_ne _ _ _ _ (by omega),
      set32_ne _ _ _ _ (by omega), set16_ne _ _ _ _ (by omega) (by omega),
      set16_ne _ _ _ _ (by omega) (by omega), set_name_lt _ _ _ hk]
  · rw [set16_ne _ _ _ _ (by decide) (by decide), set16_ne _ _ _ _ (by decide) (by decide),
      set16_ne _ _ _ _ (by decide) (by decide), set16_ne _ _ _ _ (by decide) (by decide),
      set16_ne _ _ _ _ (by decide) (by decide), set8_eq]
  · rw [set16_ne _ _ _ _ (by decide) (by decide), set16_ne _ _ _ _ (by decide) (by decide),
      set16_ne _ _ _ _ (by decide) (by decide), set16_ne _ _ _ _ (by decide) (by decide),
      set16_ne _ _ _ _ (by decide) (by decide), set8_ne _ _ _ _ (by decide),
      set32_ne _ _ _ _ (by decide), set16_ne _ _ _ _ (by decide) (by decide),
      set16_ne _ _ _ _ (by decide) (by decide), set_name_ge _ _ _ (by decide)]
    rfl
  · rw [set16_ne _ _ _ _ (by decide) (by decide), set16_ne _ _ _ _ (by decide) (by decide),
      set16_ne _ _ _ _ (by decide) (by decide), set16_ne _ _ _ _ (by decide) (by decide),
      set16_ne _ _ _ _ (by decide) (by decide), set8_ne _ _ _ _ (by decide),
      set32_ne _ _ _ _ (by decide), set16_ne _ _ _ _ (by decide) (by decide),
      set16_ne _ _ _ _ (by decide) (by decide), set_name_ge _ _ _ (by decide)]
    rfl
  · rw [set16_ne _ _ _ _ (by decide) (by decide), set16_ne _ _ _ _ (by decide) (by decide),
      set16_ne _ _ _ _ (by decide) (by decide), set16_lo]
  · rw [set16_ne _ _ _ _ (by decide) (by decide), set16_ne _ _ _ _ (by decide) (by decide),
      set16_ne _ _ _ _ (by decide) (by decide), set16_hi]
  · rw [set16_ne _ _ _ _ (by decide) (by decide), set16_ne _ _ _ _ (by decide) (by decide),
      set16_ne _ _ _ _ (by decide) (by decide), set16_ne _ _ _ _ (by decide) (by decide),
      set16_lo]
  · rw [set16_ne _ _ _ _ (by decide) (by decide), set16_ne _ _ _ _ (by decide) (by decide),
      set16_ne _ _ _ _ (by decide) (by decide), set16_ne _ _ _ _ (by decide) (by decide),
      set16_hi]
  · rw [set16_lo]
  · rw [set16_hi]
  · rw [set16_ne _ _ _ _ (by decide) (by decide), set16_ne _ _ _ _ (by decide) (by decide),
      set16_ne _ _ _ _ (by decide) (by decide), set16_ne _ _ _ _ (by decide) (by decide),
      set16_ne _ _ _ _ (by decide) (by decide), set8_ne _ _ _ _ (by decide),
      set32_ne _ _ _ _ (by decide), set16_lo]
  · rw [set16_ne _ _ _ _ (by decide) (by decide), set16_ne _ _ _ _ (by decide) (by decide),
      set16_ne _ _ _ _ (by decide) (by decide), set16_ne _ _ _ _ (by decide) (by decide),
      set16_ne _ _ _ _ (by decide) (by decide), set8_ne _ _ _ _ (by decide),
      set32_ne _ _ _ _ (by decide), set16_hi]
  · rw [set16_ne _ _ _ _ (by decide) (by decide), set16_lo]
  · rw [set16_ne _ _ _ _ (by decide) (by decide), set16_hi]
  · rw [set16_ne _ _ _ _ (by decide) (by decide), set16_ne _ _ _ _ (by decide) (by decide),
      set16_lo]
  · rw [set16_ne _ _ _ _ (by decide) (by decide), set16_ne _ _ _ _ (by decide) (by decide),
      set16_hi]
  · rw [set16_ne _ _ _ _ (by decide) (by decide), set16_ne _ _ _ _ (by decide) (by decide),
      set16_ne _ _ _ _ (by decide) (by decide), set16_ne _ _ _ _ (by decide) (by decide),
      set16_ne _ _ _ _ (by decide) (by decide), set8_ne _ _ _ _ (by decide),
      set32_ne _ _ _ _ (by decide), set16_ne _ _ _ _ (by decide) (by decide), set16_lo]
  · rw [set16_ne _ _ _ _ (by decide) (by decide), set16_ne _ _ _ _ (by decide) (by decide),
      set16_ne _ _ _ _ (by decide) (by decide), set16_ne _ _ _ _ (by decide) (by decide),
      set16_ne _ _ _ _ (by decide) (by decide), set8_ne _ _ _ _ (by decide),
      set32_ne _ _ _ _ (by decide), set16_ne _ _ _ _ (by decide) (by decide), set16_hi]
  · intro k h1 h2
    rw [set16_ne _ _ _ _ (by omega) (by omega), set16_ne _ _ _ _ (by omega) (by omega),
      set16_ne _ _ _ _ (by omega) (by omega), set16_ne _ _ _ _ (by omega) (by omega),
      set16_ne _ _ _ _ (by omega) (by omega), set8_ne _ _ _ _ (by omega),
      set32_eq _ _ _ _ ⟨h1, by omega⟩, le_byte_zero]

theorem new_entry_fields (name : Nat → Nat) (attr c date time : Nat)
    (hc : c < 2 ^ 32) (hattr : attr < 256) (hd : date < 65536) (ht : time < 65536) :
    (∀ k, k < 11 → new_entry name attr c date time k = name k) ∧
    DIR_Attr (new_entry name attr c date time) = attr ∧
    DIR_NTRes (new_entry name attr c date time) = 0 ∧
    DIR_CrtTimeTenth (new_entry name attr c date time) = 0 ∧
    DIR_CrtTime (new_entry name attr c date time) = time ∧
    DIR_CrtDate (new_entry name attr c date time) = date ∧
    DIR_LstAccDate (new_entry name attr c date time) = date ∧
    DIR_WrtTime (new_entry name attr c date time) = time ∧
    DIR_WrtDate (new_entry name attr c date time) = date ∧
    DIR_FileSize (new_entry name attr c date time) = 0 ∧
    first_cluster (new_entry name attr c date time) = c := by
  have hd' : date % 65536 = date := Nat.mod_eq_of_lt hd
  have ht' : time % 65536 = time := Nat.mod_eq_of_lt ht
  obtain ⟨b0, b11, b12, b13, b14, b15, b16, b17, b18, b19, b20, b21, b22, b23, b24, b25, b26,
    b27, b28⟩ := new_entry_bytes name attr c date time
  refine ⟨b0, ?_, b12, b13, ?_, ?_, ?_, ?_, ?_, ?_, ?_⟩
  · unfold DIR_Attr; rw [b11]; exact Nat.mod_eq_of_lt hattr
  · unfold DIR_CrtTime get16; rw [b14, b15, le16_get, ht']
  · unfold DIR_CrtDate get16; rw [b16, b17, le16_get, hd']
  · unfold DIR_LstAccDate get16; rw [b18, b19, le16_get, hd']
  · unfold DIR_WrtTime get16; rw [b22, b23, le16_get, ht']
  · unfold DIR_WrtDate get16; rw [b24, b25, le16_get, hd']
  · unfold DIR_FileSize get32
    rw [b28 28 (by decide) (by decide), b28 29 (by decide) (by decide),
      b28 30 (by decide) (by decide), b28 31 (by decide) (by decide)]
  · unfold first_cluster DIR_FstClusHI DIR_FstClusLO get16
    rw [b20, b21, b26, b27, le16_get, le16_get]
    exact cluster_halves c hc

theorem new_entry_lt (name : Nat → Nat) (attr c date time : Nat) (hname : ∀ k, name k < 256)
    (k : Nat) (hk : k < 32) : new_entry name attr c date time k < 256 := by
  obtain ⟨b0, b11, b12, b13, b14, b15, b16, b17, b18, b19, b20, b21, b22, b23, b24, b25, b26,
    b27, b28⟩ := new_entry_bytes name attr c date time
  by_cases h0 : k < 11
  · rw [b0 k h0]; exact hname k
  · by_cases h28 : 28 ≤ k
    · rw [b28 k h28 hk]; decide
    · have hcases : k = 11 ∨ k = 12 ∨ k = 13 ∨ k = 14 ∨ k = 15 ∨ k = 16 ∨ k = 17 ∨ k = 18 ∨
          k = 19 ∨ k = 20 ∨ k = 21 ∨ k = 22 ∨ k = 23 ∨ k = 24 ∨ k = 25 ∨ k = 26 ∨ k = 27 := by
        omega
      rcases hcases with h | h | h | h | h | h | h | h | h | h | h | h | h | h | h | h | h <;>
        subst h <;>
        first
          | (rw [b11]; exact Nat.mod_lt _ (by decide))
          | (rw [b12]; decide)
          | (rw [b13]; decide)
          | (rw [b14]; exact le_byte_lt _ _)
          | (rw [b15]; exact le_byte_lt _ _)
          | (rw [b16]; exact le_byte_lt _ _)
          | (rw [b17]; exact le_byte_lt _ _)
          | (rw [b18]; exact le_byte_lt _ _)
          | (rw [b19]; exact le_byte_lt _ _)
          | (rw [b20]; exact le_byte_lt _ _)
          | (rw [b21]; exact le_byte_lt _ _)
          | (rw [b22]; exact le_byte_lt _ _)
          | (rw [b23]; exact le_byte_lt _ _)
          | (rw [b24]; exact le_byte_lt _ _)
          | (rw [b25]; exact le_byte_lt _ _)
          | (rw [b26]; exact le_byte_lt _ _)
          | (rw [b27]; exact le_byte_lt _ _)

theorem name_matches_iff (name : Nat → Nat) (e : DirEntry) :
    name_matches name e = true ↔ ∀ k, k < 11 → name k = e k := by
  unfold name_matches
  simp [List.all_eq_true]

theorem name_matches_false_of_ne (name : Nat → Nat) (e : DirEntry) (h : name 0 ≠ e 0) :
    name_matches name e = false := by
  cases hm : name_matches name e with
  | false => rfl
  | true => exact absurd ((name_matches_iff name e).mp hm 0 (by decide)) h

theorem usable_false_iff (e : DirEntry) :
    usable e = false ↔ (is_long_name e = true ∨ (e 0 ≠ 0xE5 ∧ e 0 ≠ 0x00)) := by
  unfold usable
  cases h : is_long_name e <;> simp

theorem usable_iff (e : DirEntry) :
    usable e = true ↔ (is_long_name e = false ∧ (e 0 = 0xE5 ∨ e 0 = 0x00)) := by
  unfold usable
  cases h : is_long_name e <;> simp

theorem terminator_usable (e : DirEntry) (h : usable e = false) : terminator e = false := by
  rcases (usable_false_iff e).mp h with h1 | ⟨_, h2⟩
  · exact (terminator_false_iff e).mpr (Or.inl h1)
  · exact (terminator_false_iff e).mpr (Or.inr h2)

theorem touch_search_after (name : Nat → Nat) (entries : List DirEntry) (p : Nat) :
    ∀ (n i : Nat),
      (∀ j, i ≤ j → j < i + n →
        (∀ j', i ≤ j' → j' < j → terminator (entries.getD j' zero_entry) = false) →
        is_long_name (entries.getD j zero_entry) = false → entries.getD j zero_entry 0 ≠ 0x00 →
        name_matches name (entries.getD j zero_entry) = false) →
      touch_search name entries n i (some p) = some (some p) := by
  intro n
  induction n with
  | zero => intro i _; rfl
  | succ n ih =>
    intro i h
    rw [touch_search]
    by_cases hl : is_long_name (entries.getD i zero_entry) = true
    · rw [if_pos hl]
      apply ih
      intro j h1 h2 hpre
      apply h j (by omega) (by omega)
      intro j' h3 h4
      by_cases hj' : j' = i
      · subst hj'; exact (terminator_false_iff _).mpr (Or.inl hl)
      · exact hpre j' (by omega) h4
    · rw [if_neg hl]
      by_cases h0 : entries.getD i zero_entry 0 = 0x00
      · rw [if_pos h0]; rfl
      · rw [if_neg h0, if_neg (by simp)]
        have hm := h i (Nat.le_refl _) (by omega) (fun j' h3 h4 => by omega)
          (by simpa using hl) h0
        rw [hm]
        simp only [Bool.false_eq_true, if_false]
        apply ih
        intro j h1 h2 hpre
        apply h j (by omega) (by omega)
        intro j' h3 h4
        by_cases hj' : j' = i
        · subst hj'; exact (terminator_false_iff _).mpr (Or.inr h0)
        · exact hpre j' (by omega) h4

theorem touch_search_before (name : Nat → Nat) (entries : List DirEntry) :
    ∀ (k n i : Nat),
      (∀ j, i ≤ j → j < i + k →
        usable (entries.getD j zero_entry) = false ∧
        (live (entries.getD j zero_entry) = true →
          name_matches name (entries.getD j zero_entry) = false)) →
      touch_search name entries (n + k) i none = touch_search name entries n (i + k) none := by
  intro k
  induction k with
  | zero => intro n i _; rfl
  | succ k ih =>
    intro n i h
    obtain ⟨hu, hm⟩ := h i (Nat.le_refl _) (by omega)
    have hrest := ih n (i + 1) (fun j h1 h2 => h j (by omega) (by omega))
    rw [show n + (k + 1) = (n + k) + 1 by omega, show i + (k + 1) = i + 1 + k by omega, ← hrest,
      touch_search]
    rcases (usable_false_iff _).mp hu with h1 | ⟨h1, h2⟩
    · rw [if_pos h1]
    · by_cases hl : is_long_name (entries.getD i zero_entry) = true
      · rw [if_pos hl]
      · rw [if_neg hl, if_neg h2, if_neg (fun h => h1 h.1)]
        rw [hm ((live_iff _).mpr ⟨by simpa using hl, h2, h1⟩)]
        simp only [Bool.false_eq_true, if_false]

/-- The search loop of `touch_wrapper` ends with the first usable slot when no live entry
carries the name. -/
theorem touch_search_eq (s : Session) (unformatted_name : List Nat) (p : Nat)
    (hvalid : valid_name unformatted_name) (hslot : first_usable s p)
    (habsent : absent s (formated unformatted_name)) :
    touch_search (formated unformatted_name) s.directory_stack.entries
      s.directory_stack.quantity 0 none = some (some p) := by
  obtain ⟨hp, hu, hbefore⟩ := hslot
  obtain ⟨n, hn⟩ : ∃ n, s.directory_stack.quantity = (n + 1) + p :=
    ⟨s.directory_stack.quantity - p - 1, by omega⟩
  have hpre : ∀ j, j < p → terminator (s.entry j) = false :=
    fun j hj => terminator_usable _ (hbefore j hj)
  have hq : touch_search (formated unformatted_name) s.directory_stack.entries
      s.directory_stack.quantity 0 none
      = touch_search (formated unformatted_name) s.directory_stack.entries (n + 1) p none := by
    conv_lhs => rw [hn]
    rw [touch_search_before _ _ p (n + 1) 0, Nat.zero_add]
    intro j _ hj
    have hj' : j < p := by omega
    exact ⟨hbefore j hj', habsent j (by omega) (fun j' h => hpre j' (by omega))⟩
  rw [hq, touch_search]
  obtain ⟨hl, hst⟩ := (usable_iff _).mp hu
  have hl' : is_long_name (s.directory_stack.entries.getD p zero_entry) = false := hl
  rw [if_neg (by rw [hl']; exact Bool.false_ne_true)]
  by_cases h0 : s.directory_stack.entries.getD p zero_entry 0 = 0x00
  · rw [if_pos h0]; rfl
  · have hE5 : s.directory_stack.entries.getD p zero_entry 0 = 0xE5 := by
      rcases hst with h | h
      · exact h
      · exact absurd h h0
    rw [if_neg h0, if_pos ⟨hE5, rfl⟩]
    apply touch_search_after
    intro j h1 h2 hpre2 hlj h0j
    by_cases hjE5 : s.directory_stack.entries.getD j zero_entry 0 = 0xE5
    · apply name_matches_false_of_ne
      rw [hjE5]; exact hvalid.2
    · apply habsent j (by omega) _ ((live_iff _).mpr ⟨hlj, h0j, hjE5⟩)
      intro j' hj'
      by_cases c1 : j' < p
      · exact hpre j' c1
      · by_cases c2 : j' = p
        · subst c2; exact (terminator_false_iff _).mpr (Or.inr h0)
        · exact hpre2 j' (by omega) hj'


/-- Allocating one cluster: the lowest free scanned index is returned and marked
end-of-chain. -/
theorem allocate_one (bs : boot_sector) (disk : Disk) (c : Nat)
    (hfree : (free_clusters bs disk).head? = some c) :
    allocate_clusters bs disk 1 = (c, write_in_fat bs disk c END_OF_CHAIN) ∧
    2 ≤ c ∧ c < fat_addresses bs ∧ get_cluster_info bs disk c = FREE_CLUSTER := by
  cases hfs : free_clusters bs disk with
  | nil => rw [hfs] at hfree; simp at hfree
  | cons c' rest =>
    rw [hfs] at hfree
    simp only [List.head?_cons, Option.some.injEq] at hfree
    subst hfree
    have hmem : c' ∈ free_from bs disk 2 (fat_addresses bs - 2) := by
      have : c' ∈ free_clusters bs disk := by rw [hfs]; exact List.mem_cons_self _ _
      exact this
    have hm := (free_from_mem bs disk 2 (fat_addresses bs - 2) c').mp hmem
    refine ⟨?_, by omega, by omega, hm.2⟩
    rw [allocate_clusters_eq bs disk 1 (by decide) (by decide) (by rw [hfs]; simp), hfs]
    rfl

/-- The session `touch_wrapper` produces when the directory has a usable slot `p`, the name
is valid and absent, and `c` is the lowest free scanned cluster. -/
theorem touch_wrapper_eq (fuel : Nat) (bs : boot_sector) (now : tm) (s : Session)
    (unformatted_name : List Nat) (attr p c : Nat)
    (hattr : attr = ATTR_ARCHIVE ∨ attr = ATTR_DIRECTORY)
    (hvalid : valid_name unformatted_name) (hslot : first_usable s p)
    (habsent : absent s (formated unformatted_name))
    (hfree : (free_clusters bs s.disk).head? = some c) :
    touch_wrapper fuel bs now s unformatted_name attr = some (1,
      touch_store bs now { s with disk := write_in_fat bs s.disk c END_OF_CHAIN }
        (formated unformatted_name) attr c p) := by
  obtain ⟨halloc, hc2, _, _⟩ := allocate_one bs s.disk c hfree
  have hcne : c ≠ FREE_CLUSTER := by unfold FREE_CLUSTER; omega
  unfold touch_wrapper
  rw [if_neg (by rcases hattr with h | h <;> simp [h])]
  dsimp only
  rw [if_neg hvalid.1, touch_search_eq s unformatted_name p hvalid hslot habsent]
  dsimp only
  rw [halloc]
  dsimp only
  rw [if_neg hcne]

theorem iterate_info_congr (bs : boot_sector) (d d' : Disk) (cluster n : Nat)
    (hagree : ∀ y, in_fat bs y → get_cluster_info bs d y ≠ FREE_CLUSTER →
      get_cluster_info bs d' y = get_cluster_info bs d y)
    (hwalk : ∀ i, i < n → in_fat bs ((get_cluster_info bs d)^[i] cluster) ∧
      get_cluster_info bs d ((get_cluster_info bs d)^[i] cluster) ≠ FREE_CLUSTER) :
    ∀ i, i ≤ n → (get_cluster_info bs d')^[i] cluster = (get_cluster_info bs d)^[i] cluster := by
  intro i
  induction i with
  | zero => intro _; rfl
  | succ i ih =>
    intro hi
    rw [Function.iterate_succ_apply', Function.iterate_succ_apply', ih (by omega)]
    exact hagree _ (hwalk i (by omega)).1 (hwalk i (by omega)).2

/-- The disk position of a slot is the same on two images whose FATs agree on the
allocated clusters, when the hops to the slot go through allocated clusters. -/
theorem get_entry_disk_position_congr (bs : boot_sector) (d d' : Disk) (cluster entry_pos : Nat)
    (hagree : ∀ y, in_fat bs y → get_cluster_info bs d y ≠ FREE_CLUSTER →
      get_cluster_info bs d' y = get_cluster_info bs d y)
    (hwalk : walk_ok bs d cluster entry_pos) :
    get_entry_disk_position bs d' cluster entry_pos
      = get_entry_disk_position bs d cluster entry_pos := by
  unfold get_entry_disk_position
  dsimp only
  rw [iterate_info_congr bs d d' cluster _ hagree (fun i hi => hwalk i (by omega)) _
    (Nat.le_refl _)]

/-- Marking a free cluster leaves the entries of the allocated clusters as they were. -/
theorem write_in_fat_agree (bs : boot_sector) (d : Disk) (c v : Nat)
    (hfit : fats_addressable bs) (hc : in_fat bs c)
    (hcfree : get_cluster_info bs d c = FREE_CLUSTER) :
    ∀ y, in_fat bs y → get_cluster_info bs d y ≠ FREE_CLUSTER →
      get_cluster_info bs (write_in_fat bs d c v) y = get_cluster_info bs d y := by
  intro y hy hne
  have hyc : y ≠ c := fun h => hne (h ▸ hcfree)
  exact get_cluster_info_congr bs _ _ y hfit hy fun k hk =>
    (write_in_fat_other bs d c v y k hfit hc hy hyc hk).1

/-- A write beyond both FAT copies leaves every FAT entry as it was. -/
theorem fwrite_data_info (bs : boot_sector) (d : Disk) (pos len : Nat) (buf : Nat → Nat) (y : Nat)
    (hfit : fats_addressable bs) (hy : in_fat bs y)
    (hpos : fat_start bs + 2 * fat_bytes bs ≤ pos) :
    get_cluster_info bs (fwrite d pos len buf) y = get_cluster_info bs d y := by
  apply get_cluster_info_congr bs _ _ y hfit hy
  intro k hk
  apply fwrite_outside
  unfold fat_entry_offset
  omega

theorem write_in_fat_info_same (bs : boot_sector) (d : Disk) (c v : Nat)
    (hfit : fats_addressable bs) (hc : in_fat bs c) (hv : v < 2 ^ 32) :
    get_cluster_info bs (write_in_fat bs d c v) c = clamp v := by
  have h2 : fat2_entry_offset bs c < 2 ^ 32 := by
    have := in_fat_fit bs c hfit hc; omega
  rw [get_cluster_info_eq bs _ c hfit hc]
  unfold fat_entry
  rw [fread32_le32 _ _ v hv fun k hk => write_in_fat_first bs d c v k h2 hc hk]

theorem getD_set_self (l : List DirEntry) (p : Nat) (e : DirEntry) (h : p < l.length) :
    (l.set p e).getD p zero_entry = e := by
  rw [List.getD_eq_getElem _ _ (by rw [List.length_set]; exact h)]
  simp

theorem getD_set_ne (l : List DirEntry) (p i : Nat) (e : DirEntry) (h : i ≠ p) :
    (l.set p e).getD i zero_entry = l.getD i zero_entry := by
  simp only [List.getD_eq_getElem?_getD]
  rw [List.getElem?_set_ne (Ne.symm h)]

theorem fat_date_lt (now : tm) : fat_date now < 65536 := by
  unfold fat_date
  exact Nat.mod_lt _ (by decide)

theorem fat_time_lt (now : tm) : fat_time now < 65536 := by
  unfold fat_time
  exact Nat.mod_lt _ (by decide)

/-- What `touch` stores for a name whose encoding starts neither with 0x00 nor with 0xE5:
in a directory whose first usable slot is `p` and lies in the data region, for such a name
not present and a FAT whose lowest free cluster is `c`, `touch` returns; slot
`p` of the cache is a short entry with the encoded name, attribute 0x20, size 0, first
cluster `c` (free before, end-of-chain now), the three dates and two times of the clock,
zero in the remaining bytes, and the 32 bytes at the slot's disk position equal it. -/
theorem touch_fills_slot (fuel : Nat) (bs : boot_sector) (now : tm) (s : Session)
    (file_name : List Nat) (p c : Nat)
    (hfit : fats_addressable bs)
    (hlen : s.directory_stack.quantity = s.directory_stack.entries.length)
    (hchars : ∀ ch ∈ file_name, ch < 256)
    (hvalid : valid_name file_name) (hslot : first_usable s p)
    (habsent : absent s (formated file_name))
    (hfree : (free_clusters bs s.disk).head? = some c) (hc : in_fat bs c)
    (hwalk : walk_ok bs s.disk s.directory_stack.cluster p)
    (hpos : fat_start bs + 2 * fat_bytes bs
      ≤ get_entry_disk_position bs s.disk s.directory_stack.cluster p) :
    ∃ s', touch fuel bs now s file_name = some s' ∧
      (∀ i, i ≠ p → s'.entry i = s.entry i) ∧
      s'.directory_stack.quantity = s.directory_stack.quantity ∧
      (∀ k, k < 11 → s'.entry p k = formated file_name k) ∧
      DIR_Attr (s'.entry p) = 0x20 ∧
      DIR_FileSize (s'.entry p) = 0 ∧
      first_cluster (s'.entry p) = c ∧
      get_cluster_info bs s.disk c = FREE_CLUSTER ∧
      get_cluster_info bs s'.disk c = END_OF_CHAIN ∧
      DIR_CrtDate (s'.entry p) = fat_date now ∧
      DIR_CrtTime (s'.entry p) = fat_time now ∧
      DIR_WrtDate (s'.entry p) = fat_date now ∧
      DIR_WrtTime (s'.entry p) = fat_time now ∧
      DIR_LstAccDate (s'.entry p) = fat_date now ∧
      DIR_NTRes (s'.entry p) = 0 ∧
      DIR_CrtTimeTenth (s'.entry p) = 0 ∧
      (∀ k, k < 32 →
        s'.disk (get_entry_disk_position bs s'.disk s'.directory_stack.cluster p + k)
          = s'.entry p k) := by
  obtain ⟨_, _, _, hcfree⟩ := allocate_one bs s.disk c hfree
  have hc32 := in_fat_lt bs c hfit hc
  have hagree := write_in_fat_agree bs s.disk c END_OF_CHAIN hfit hc hcfree
  have hpos1 : get_entry_disk_position bs (write_in_fat bs s.disk c END_OF_CHAIN)
      s.directory_stack.cluster p
      = get_entry_disk_position bs s.disk s.directory_stack.cluster p :=
    get_entry_disk_position_congr bs _ _ _ _ hagree hwalk
  obtain ⟨f0, f1, f2, f3, f4, f5, f6, f7, f8, f9, f10⟩ :=
    new_entry_fields (formated file_name) ATTR_ARCHIVE c (fat_date now) (fat_time now) hc32
      (by decide) (fat_date_lt now) (fat_time_lt now)
  have hp : p < s.directory_stack.entries.length := by rw [← hlen]; exact hslot.1
  have hstore : touch_store bs now { s with disk := write_in_fat bs s.disk c END_OF_CHAIN }
      (formated file_name) ATTR_ARCHIVE c p =
      { s with
        disk := fwrite (write_in_fat bs s.disk c END_OF_CHAIN)
          (get_entry_disk_position bs s.disk s.directory_stack.cluster p) 32
          (new_entry (formated file_name) ATTR_ARCHIVE c (fat_date now) (fat_time now))
        directory_stack :=
          { s.directory_stack with
            entries := s.directory_stack.entries.set p
              (new_entry (formated file_name) ATTR_ARCHIVE c (fat_date now) (fat_time now)) } } := by
    unfold touch_store
    dsimp only
    rw [hpos1, if_neg (by decide)]
  have hentry : Session.entry
      (touch_store bs now { s with disk := write_in_fat bs s.disk c END_OF_CHAIN }
        (formated file_name) ATTR_ARCHIVE c p) p
      = new_entry (formated file_name) ATTR_ARCHIVE c (fat_date now) (fat_time now) := by
    rw [hstore]
    exact getD_set_self _ _ _ hp
  refine ⟨touch_store bs now { s with disk := write_in_fat bs s.disk c END_OF_CHAIN }
        (formated file_name) ATTR_ARCHIVE c p, ?_, ?_, ?_, ?_⟩
  · unfold touch
    rw [touch_wrapper_eq fuel bs now s file_name ATTR_ARCHIVE p c (Or.inl rfl) hvalid hslot
      habsent hfree]
    rfl
  · intro i hi
    rw [hstore]
    exact getD_set_ne _ _ _ _ hi
  · rw [hstore]
  · rw [hentry]
    refine ⟨f0, f1, f9, f10, hcfree, ?_, f5, f4, f8, f7, f6, f2, f3, ?_⟩
    · rw [hstore]
      dsimp only
      rw [fwrite_data_info bs _ _ _ _ c hfit hc hpos,
        write_in_fat_info_same bs s.disk c END_OF_CHAIN hfit hc (by decide)]
      rfl
    · intro k hk
      rw [hstore]
      dsimp only
      have hpos2 : get_entry_disk_position bs
          (fwrite (write_in_fat bs s.disk c END_OF_CHAIN)
            (get_entry_disk_position bs s.disk s.directory_stack.cluster p) 32
            (new_entry (formated file_name) ATTR_ARCHIVE c (fat_date now) (fat_time now)))
          s.directory_stack.cluster p
          = get_entry_disk_position bs s.disk s.directory_stack.cluster p := by
        apply get_entry_disk_position_congr bs _ _ _ _ _ hwalk
        intro y hy hne
        rw [fwrite_data_info bs _ _ _ _ y hfit hy hpos]
        exact hagree y hy hne
      rw [hpos2, fwrite_inside _ _ _ _ _ hk]
      exact Nat.mod_eq_of_lt (new_entry_lt _ _ _ _ _ (formated_lt file_name hchars) k hk)

/-- An instance of `touch_fills_slot`: `touch A` on `session_slot`, whose first usable slot
is the deleted slot 1 and whose lowest free cluster is 3. -/
theorem touch_fills_slot_witness :
    (fats_addressable bs_small ∧ valid_name [65] ∧ first_usable session_slot 1 ∧
      absent session_slot (formated [65]) ∧
      (free_clusters bs_small session_slot.disk).head? = some 3 ∧ in_fat bs_small 3 ∧
      walk_ok bs_small session_slot.disk session_slot.directory_stack.cluster 1) ∧
    ∃ s', touch 5 bs_small noon session_slot [65] = some s' ∧
      DIR_Attr (s'.entry 1) = 0x20 ∧ first_cluster (s'.entry 1) = 3 ∧
      get_cluster_info bs_small s'.disk 3 = END_OF_CHAIN := by
  refine ⟨by decide, ?_⟩
  obtain ⟨s', h1, _, _, _, h2, _, h3, _, h4, _⟩ :=
    touch_fills_slot 5 bs_small noon session_slot [65] 1 3 (by decide) (by decide) (by decide)
      (by decide) (by decide) (by decide) (by decide) (by decide) (by decide) (by decide)
  exact ⟨s', h1, h2, h3, h4⟩

/-! ### `touch` followed by `rm` -/

theorem live_entries_split (A B : List DirEntry) (x : DirEntry)
    (hA : ∀ a ∈ A, terminator a = false) :
    ((A ++ x :: B).takeWhile fun e => !terminator e).filter live
      = A.filter live ++ ((x :: B).takeWhile fun e => !terminator e).filter live := by
  rw [List.takeWhile_append_of_pos (fun a ha => by simp [hA a ha]), List.filter_append]

theorem mem_take_getD (L : List DirEntry) (p : Nat) (a : DirEntry) (h : a ∈ L.take p) :
    ∃ i, i < p ∧ L.getD i zero_entry = a := by
  obtain ⟨n, hn, rfl⟩ := List.getElem_of_mem h
  have hn' : n < p ∧ n < L.length := by
    rw [List.length_take] at hn; omega
  refine ⟨n, hn'.1, ?_⟩
  rw [List.getD_eq_getElem _ _ hn'.2, List.getElem_take]

theorem mem_drop_getD (L : List DirEntry) (p : Nat) (a : DirEntry) (h : a ∈ L.drop (p + 1)) :
    ∃ i, p < i ∧ i < L.length ∧ L.getD i zero_entry = a := by
  obtain ⟨n, hn, rfl⟩ := List.getElem_of_mem h
  have hn' : p + 1 + n < L.length := by
    rw [List.length_drop] at hn; omega
  refine ⟨p + 1 + n, by omega, hn', ?_⟩
  rw [List.getD_eq_getElem _ _ hn', List.getElem_drop]

/-- Replacing a usable slot by a deleted slot keeps the list of live entries, provided no
terminator precedes it and, when the slot was a terminator, no live bytes follow it. -/
theorem live_entries_set (L : List DirEntry) (p : Nat) (y : DirEntry) (name : List Nat)
    (cluster : Nat) (pt : Pointer) (hp : p < L.length)
    (hbefore : ∀ i, i < p → terminator (L.getD i zero_entry) = false)
    (hx : usable (L.getD p zero_entry) = true)
    (hafter : L.getD p zero_entry 0 = 0x00 →
      ∀ i, p < i → i < L.length → L.getD i zero_entry 0 = 0x00)
    (hy2 : y 0 = 0xE5) :
    live_entries
        { entries := L.set p y, quantity := L.length, name := name, cluster := cluster,
          entries_ptr := pt }
      = live_entries
        { entries := L, quantity := L.length, name := name, cluster := cluster,
          entries_ptr := pt } := by
  unfold live_entries
  dsimp only
  have hlen : (L.set p y).length ≤ L.length := by rw [List.length_set]
  rw [List.take_of_length_le hlen, List.take_length]
  have hA : ∀ a ∈ L.take p, terminator a = false := by
    intro a ha
    obtain ⟨i, hi, rfl⟩ := mem_take_getD L p a ha
    exact hbefore i hi
  have hL : L = L.take p ++ L.getD p zero_entry :: L.drop (p + 1) := by
    rw [List.getD_eq_getElem _ _ hp, ← List.drop_eq_getElem_cons hp, List.take_append_drop]
  rw [List.set_eq_take_append_cons_drop, if_pos hp, live_entries_split _ _ _ hA]
  conv_rhs => rw [hL, live_entries_split _ _ _ hA]
  congr 1
  obtain ⟨hxl, hxs⟩ := (usable_iff _).mp hx
  clear hL hx
  generalize L.getD p zero_entry = x at *
  have hyt : terminator y = false := (terminator_false_iff y).mpr (Or.inr (by rw [hy2]; decide))
  have hyl : live y = false := by
    cases h : live y with
    | false => rfl
    | true => exact absurd hy2 ((live_iff y).mp h).2.2
  have hxlive : live x = false := by
    cases h : live x with
    | false => rfl
    | true =>
      have := (live_iff _).mp h
      rcases hxs with h1 | h1
      · exact absurd h1 this.2.2
      · exact absurd h1 this.2.1
  rw [List.takeWhile_cons_of_pos (by simp [hyt]), List.filter_cons_of_neg (by simp [hyl])]
  by_cases h0 : x 0 = 0x00
  · have hxt : terminator x = true := by
      unfold terminator; rw [hxl, h0]; rfl
    rw [List.takeWhile_cons_of_neg (by simp [hxt]), List.filter_nil, List.filter_eq_nil_iff]
    intro b hb
    obtain ⟨i, hi1, hi2, rfl⟩ := mem_drop_getD L p b
      ((List.takeWhile_sublist _).subset hb)
    have := hafter h0 i hi1 hi2
    intro hlive
    exact absurd this ((live_iff _).mp hlive).2.1
  · have hxt : terminator x = false :=
      (terminator_false_iff _).mpr (Or.inr h0)
    rw [List.takeWhile_cons_of_pos (by simp [hxt]), List.filter_cons_of_neg (by simp [hxlive])]


theorem clamp_eq_zero (v : Nat) (h : clamp v = 0) : v = 0 := by
  unfold clamp END_OF_CHAIN at h
  split_ifs at h
  · exact h

theorem not_long_of_attr (e : DirEntry) (a : Nat) (h : DIR_Attr e = a)
    (ha : (a &&& ATTR_LONG_NAME_MASK == ATTR_LONG_NAME) = false) : is_long_name e = false := by
  unfold is_long_name; rw [h]; exact ha

/-- The session after a `touch` that takes the usable slot `p`. -/
theorem touch_eq (fuel : Nat) (bs : boot_sector) (now : tm) (s : Session)
    (unformatted_name : List Nat) (attr p c : Nat)
    (hattr : attr = ATTR_ARCHIVE)
    (hfit : fats_addressable bs)
    (hvalid : valid_name unformatted_name) (hslot : first_usable s p)
    (habsent : absent s (formated unformatted_name))
    (hfree : (free_clusters bs s.disk).head? = some c) (hc : in_fat bs c)
    (hwalk : walk_ok bs s.disk s.directory_stack.cluster p) :
    touch_wrapper fuel bs now s unformatted_name attr = some (1,
      { s with
        disk := fwrite (write_in_fat bs s.disk c END_OF_CHAIN)
          (get_entry_disk_position bs s.disk s.directory_stack.cluster p) 32
          (new_entry (formated unformatted_name) attr c (fat_date now) (fat_time now))
        directory_stack :=
          { s.directory_stack with
            entries := s.directory_stack.entries.set p
              (new_entry (formated unformatted_name) attr c (fat_date now) (fat_time now)) } }) := by
  obtain ⟨_, _, _, hcfree⟩ := allocate_one bs s.disk c hfree
  have hagree := write_in_fat_agree bs s.disk c END_OF_CHAIN hfit hc hcfree
  have hpos1 : get_entry_disk_position bs (write_in_fat bs s.disk c END_OF_CHAIN)
      s.directory_stack.cluster p
      = get_entry_disk_position bs s.disk s.directory_stack.cluster p :=
    get_entry_disk_position_congr bs _ _ _ _ hagree hwalk
  rw [touch_wrapper_eq fuel bs now s unformatted_name attr p c (Or.inl hattr) hvalid hslot
    habsent hfree]
  unfold touch_store
  dsimp only
  rw [hpos1, if_neg (by rw [hattr]; decide)]

/-- After `touch F` in the usable slot `p`, for a name that no live entry carries and whose
encoding starts neither with 0x00 nor with 0xE5, in a directory with an unused tail, `rm F`
returns and leaves the list of live entries of the current directory and every entry of the
FAT as they were before the `touch`. -/
theorem touch_rm_restores_at (fuel : Nat) (bs : boot_sector) (now : tm) (s : Session)
    (file_name : List Nat) (p c : Nat)
    (hfit : fats_addressable bs)
    (hlen : s.directory_stack.quantity = s.directory_stack.entries.length)
    (hvalid : valid_name file_name) (hslot : first_usable s p)
    (habsent : absent s (formated file_name))
    (hclean : unused_after_terminator s)
    (hfree : (free_clusters bs s.disk).head? = some c) (hc : in_fat bs c)
    (hwalk : walk_ok bs s.disk s.directory_stack.cluster p)
    (hpos : fat_start bs + 2 * fat_bytes bs
      ≤ get_entry_disk_position bs s.disk s.directory_stack.cluster p)
    (hfuel : 1 < fuel) :
    ∃ s1 s2, touch fuel bs now s file_name = some s1 ∧ rm fuel bs s1 file_name = some s2 ∧
      live_entries s2.directory_stack = live_entries s.directory_stack ∧
      (∀ j, in_fat bs j → fat_entry bs s2.disk j = fat_entry bs s.disk j) ∧
      (∀ j, in_fat bs j →
        (get_cluster_info bs s2.disk j = FREE_CLUSTER ↔
          get_cluster_info bs s.disk j = FREE_CLUSTER)) := by
  obtain ⟨_, _, _, hcfree⟩ := allocate_one bs s.disk c hfree
  have hc32 := in_fat_lt bs c hfit hc
  have hcfit : fat2_entry_offset bs c < 2 ^ 32 := by
    have := in_fat_fit bs c hfit hc; omega
  have hagree := write_in_fat_agree bs s.disk c END_OF_CHAIN hfit hc hcfree
  obtain ⟨f0, f1, f2, f3, f4, f5, f6, f7, f8, f9, f10⟩ :=
    new_entry_fields (formated file_name) ATTR_ARCHIVE c (fat_date now) (fat_time now) hc32
      (by decide) (fat_date_lt now) (fat_time_lt now)
  have htouch := touch_eq fuel bs now s file_name ATTR_ARCHIVE p c rfl hfit hvalid hslot habsent
    hfree hc hwalk
  obtain ⟨hpq, hpu, hpb⟩ := hslot
  have hp : p < s.directory_stack.entries.length := by rw [← hlen]; exact hpq
  generalize hpos_def : get_entry_disk_position bs s.disk s.directory_stack.cluster p = pos
    at htouch hpos
  generalize he_def : new_entry (formated file_name) ATTR_ARCHIVE c (fat_date now) (fat_time now)
    = e at htouch f0 f1 f2 f3 f4 f5 f6 f7 f8 f9 f10
  have helive : live e = true := by
    refine (live_iff e).mpr ⟨not_long_of_attr e _ f1 (by decide), ?_, ?_⟩
    · rw [f0 0 (by decide)]; exact hvalid.1
    · rw [f0 0 (by decide)]; exact hvalid.2
  have hematch : name_matches (formated file_name) e = true :=
    (name_matches_iff _ _).mpr fun k hk => (f0 k hk).symm
  have hedir : is_directory e = false := by
    unfold is_directory; rw [f1]; decide
  -- the session after touch
  obtain ⟨d, ⟨L, q, nm, cl, pt⟩, prev, cnt, out⟩ := s
  dsimp only at *
  subst hlen
  have hpos2 : get_entry_disk_position bs
      (fwrite (write_in_fat bs d c END_OF_CHAIN) pos 32 e) cl p = pos := by
    rw [← hpos_def]
    apply get_entry_disk_position_congr bs _ _ _ _ _ hwalk
    intro y hy hne
    rw [hpos_def, fwrite_data_info bs _ _ _ _ y hfit hy hpos]
    exact hagree y hy hne
  have hinfo1 : get_cluster_info bs (fwrite (write_in_fat bs d c END_OF_CHAIN) pos 32 e) c
      = END_OF_CHAIN := by
    rw [fwrite_data_info bs _ _ _ _ c hfit hc hpos,
      write_in_fat_info_same bs d c END_OF_CHAIN hfit hc (by decide)]
    rfl
  have hent : ∀ i, Session.entry
      { disk := fwrite (write_in_fat bs d c END_OF_CHAIN) pos 32 e,
        directory_stack := { entries := L.set p e, quantity := L.length, name := nm, cluster := cl, entries_ptr := pt },
        previous := prev, directory_stack_count := cnt, out := out } i
      = (L.set p e).getD i zero_entry := fun i => rfl
  have hrm := rm_eq fuel bs
      { disk := fwrite (write_in_fat bs d c END_OF_CHAIN) pos 32 e,
        directory_stack := { entries := L.set p e, quantity := L.length, name := nm, cluster := cl, entries_ptr := pt },
        previous := prev, directory_stack_count := cnt, out := out }
      file_name p [c] 0 hfit hvalid.1 hpq
      (by
        intro i hi
        rw [hent, getD_set_ne _ _ _ _ (by omega)]
        exact terminator_usable _ (hpb i hi))
      (by rw [hent, getD_set_self _ _ _ hp]; exact helive)
      (by rw [hent, getD_set_self _ _ _ hp]; exact hematch)
      (by
        intro i hi
        rw [hent, getD_set_ne _ _ _ _ (by omega)]
        exact habsent i (Nat.lt_trans hi hpq) (fun j hj => terminator_usable _ (hpb j (by omega))))
      (by rw [hent, getD_set_self _ _ _ hp, hedir]; rfl)
      (by rw [hent, getD_set_self _ _ _ hp, f10]; rfl)
      (by simp only [linked, hinfo1, beq_self_eq_true])
      (by simp)
      (by intro x hx; simp at hx; subst hx; exact hc)
      (by dsimp only; rw [hpos2]; exact hpos)
      (by simpa using hfuel)
  dsimp only at hrm
  rw [hpos2, hent, getD_set_self _ _ _ hp, List.set_set] at hrm
  refine ⟨_, _, ?_, hrm, ?_, ?_, ?_⟩
  · unfold touch; rw [htouch]; rfl
  · exact live_entries_set L p _ nm cl pt hp (fun i hi => terminator_usable _ (hpb i hi)) hpu
      (fun h0 i h1 h2 => hclean i h2 p h1 h0) (by simp [store, AVAILABLE_ENTRY_POINTER])
  all_goals
    have hfat : ∀ j, in_fat bs j → fat_entry bs
        (free_chain bs [c] (fwrite (fwrite (write_in_fat bs d c END_OF_CHAIN) pos 32 e) pos 1
          (fun _ => AVAILABLE_ENTRY_POINTER))) j = fat_entry bs d j := by
      intro j hj
      by_cases hjc : j = c
      · subst hjc
        have hz := free_chain_zero bs hfit [j] (fwrite (fwrite (write_in_fat bs d j END_OF_CHAIN)
          pos 32 e) pos 1 (fun _ => AVAILABLE_ENTRY_POINTER)) (by simpa using hc) j (by simp)
        have h0 : fat_entry bs d j = 0 := by
          apply clamp_eq_zero
          rw [← get_cluster_info_eq bs d j hfit hc]
          exact hcfree
        rw [h0]
        exact fread32_le32 _ _ 0 (by decide) fun k hk => by rw [(hz k hk).1, le_byte_zero]
      · apply fread32_congr
        intro k hk
        have hdis := entries_disjoint bs c j k hc hj hjc hk
        rw [free_chain_frame bs _ [c] _ (by simpa using hcfit) (by simpa using hdis.1),
          fwrite_outside _ _ _ _ _ (by unfold fat_entry_offset; unfold in_fat at hj; omega),
          fwrite_outside _ _ _ _ _ (by unfold fat_entry_offset; unfold in_fat at hj; omega)]
        exact (write_in_fat_other bs d c END_OF_CHAIN j k hfit hc hj hjc hk).1
  · exact hfat
  · intro j hj
    rw [get_cluster_info_eq bs _ j hfit hj, get_cluster_info_eq bs d j hfit hj]
    dsimp only
    rw [hfat j hj]

/-! ### Creating and entering a directory -/

theorem set16_lt (e : DirEntry) (off v : Nat) (h : ∀ k, e k < 256) (k : Nat) :
    set16 e off v k < 256 := by
  unfold set16
  split_ifs
  · exact le_byte_lt _ _
  · exact le_byte_lt _ _
  · exact h k

theorem set8_lt (e : DirEntry) (off v : Nat) (h : ∀ k, e k < 256) (k : Nat) :
    set8 e off v k < 256 := by
  unfold set8
  split_ifs
  · exact Nat.mod_lt _ (by decide)
  · exact h k

theorem set_name_bound (e : DirEntry) (name : Nat → Nat) (h : ∀ k, e k < 256)
    (hn : ∀ k, name k < 256) (k : Nat) : set_name e name k < 256 := by
  unfold set_name
  split_ifs
  · exact hn k
  · exact h k

theorem dot_entry_lt (name : Nat → Nat) (attr cluster date time : Nat)
    (hn : ∀ k, name k < 256) (k : Nat) : dot_entry name attr cluster date time k < 256 := by
  unfold dot_entry
  apply set16_lt; apply set16_lt; apply set16_lt; apply set16_lt; apply set16_lt
  apply set8_lt; apply set16_lt; apply set16_lt
  apply set_name_bound _ _ _ hn
  intro k; unfold zero_entry; decide

theorem dot_entry_fields (name : Nat → Nat) (attr cluster date time : Nat)
    (hc : cluster < 2 ^ 32) :
    (∀ k, k < 11 → dot_entry name attr cluster date time k = name k) ∧
    dot_entry name attr cluster date time 11 = attr % 256 ∧
    first_cluster (dot_entry name attr cluster date time) = cluster := by
  unfold dot_entry
  refine ⟨?_, ?_, ?_⟩
  · intro k hk
    rw [set16_ne _ _ _ _ (by omega) (by omega), set16_ne _ _ _ _ (by omega) (by omega),
      set16_ne _ _ _ _ (by omega) (by omega), set16_ne _ _ _ _ (by omega) (by omega),
      set16_ne _ _ _ _ (by omega) (by omega), set8_ne _ _ _ _ (by omega),
      set16_ne _ _ _ _ (by omega) (by omega), set16_ne _ _ _ _ (by omega) (by omega),
      set_name_lt _ _ _ hk]
  · rw [set16_ne _ _ _ _ (by decide) (by decide), set16_ne _ _ _ _ (by decide) (by decide),
      set16_ne _ _ _ _ (by decide) (by decide), set16_ne _ _ _ _ (by decide) (by decide),
      set16_ne _ _ _ _ (by decide) (by decide), set8_eq]
  · unfold first_cluster DIR_FstClusHI DIR_FstClusLO get16
    rw [set16_ne _ _ _ 20 (by decide) (by decide), set16_ne _ _ _ 20 (by decide) (by decide),
      set16_ne _ _ _ 20 (by decide) (by decide), set16_ne _ _ _ 20 (by decide) (by decide),
      set16_ne _ _ _ 20 (by decide) (by decide), set8_ne _ _ _ 20 (by decide), set16_lo,
      set16_ne _ _ _ (20 + 1) (by decide) (by decide),
      set16_ne _ _ _ (20 + 1) (by decide) (by decide),
      set16_ne _ _ _ (20 + 1) (by decide) (by decide),
      set16_ne _ _ _ (20 + 1) (by decide) (by decide),
      set16_ne _ _ _ (20 + 1) (by decide) (by decide), set8_ne _ _ _ (20 + 1) (by decide),
      set16_hi,
      set16_ne _ _ _ 26 (by decide) (by decide), set16_ne _ _ _ 26 (by decide) (by decide),
      set16_ne _ _ _ 26 (by decide) (by decide), set16_ne _ _ _ 26 (by decide) (by decide),
      set16_ne _ _ _ 26 (by decide) (by decide), set8_ne _ _ _ 26 (by decide),
      set16_ne _ _ _ 26 (by decide) (by decide), set16_lo,
      set16_ne _ _ _ (26 + 1) (by decide) (by decide),
      set16_ne _ _ _ (26 + 1) (by decide) (by decide),
      set16_ne _ _ _ (26 + 1) (by decide) (by decide),
      set16_ne _ _ _ (26 + 1) (by decide) (by decide),
      set16_ne _ _ _ (26 + 1) (by decide) (by decide), set8_ne _ _ _ (26 + 1) (by decide),
      set16_ne _ _ _ (26 + 1) (by decide) (by decide), set16_hi, le16_get, le16_get]
    exact cluster_halves cluster hc

/-- The session after a `mkdir` that takes the usable slot `p`. -/
theorem mkdir_eq (fuel : Nat) (bs : boot_sector) (now : tm) (s : Session)
    (unformatted_name : List Nat) (p c : Nat)
    (hfit : fats_addressable bs)
    (hvalid : valid_name unformatted_name) (hslot : first_usable s p)
    (habsent : absent s (formated unformatted_name))
    (hfree : (free_clusters bs s.disk).head? = some c) (hc : in_fat bs c)
    (hwalk : walk_ok bs s.disk s.directory_stack.cluster p) :
    touch_wrapper fuel bs now s unformatted_name ATTR_DIRECTORY = some (1,
      { s with
        disk := fwrite (fwrite (fwrite (write_in_fat bs s.disk c END_OF_CHAIN)
            (get_entry_disk_position bs s.disk s.directory_stack.cluster p) 32
            (new_entry (formated unformatted_name) ATTR_DIRECTORY c (fat_date now) (fat_time now)))
          (write_dotpos bs c) 32
            (dot_entry dot ATTR_DIRECTORY c (fat_date now) (fat_time now)))
          (write_dotpos bs c + 32) 32
            (dot_entry dotdot ATTR_DIRECTORY s.directory_stack.cluster (fat_date now) (fat_time now))
        directory_stack :=
          { s.directory_stack with
            entries := s.directory_stack.entries.set p
              (new_entry (formated unformatted_name) ATTR_DIRECTORY c (fat_date now)
                (fat_time now)) } }) := by
  obtain ⟨_, _, _, hcfree⟩ := allocate_one bs s.disk c hfree
  have hagree := write_in_fat_agree bs s.disk c END_OF_CHAIN hfit hc hcfree
  have hpos1 : get_entry_disk_position bs (write_in_fat bs s.disk c END_OF_CHAIN)
      s.directory_stack.cluster p
      = get_entry_disk_position bs s.disk s.directory_stack.cluster p :=
    get_entry_disk_position_congr bs _ _ _ _ hagree hwalk
  rw [touch_wrapper_eq fuel bs now s unformatted_name ATTR_DIRECTORY p c (Or.inr rfl) hvalid
    hslot habsent hfree]
  unfold touch_store write_dotpos
  dsimp only
  rw [hpos1, if_pos rfl]


theorem cd_search_skip (name : Nat → Nat) (entries : List DirEntry) :
    ∀ (k n i : Nat),
      (∀ j, i ≤ j → j < i + k →
        entries.getD j zero_entry 0 ≠ 0x00 ∧
        (entries.getD j zero_entry 0 = 0xE5 ∨ is_long_name (entries.getD j zero_entry) = true ∨
          is_directory (entries.getD j zero_entry) = false ∨
          name_matches name (entries.getD j zero_entry) = false)) →
      cd_search name entries (n + k) i = cd_search name entries n (i + k) := by
  intro k
  induction k with
  | zero => intro n i _; rfl
  | succ k ih =>
    intro n i h
    obtain ⟨h0, hc⟩ := h i (Nat.le_refl _) (by omega)
    have hrest := ih n (i + 1) (fun j h1 h2 => h j (by omega) (by omega))
    rw [show n + (k + 1) = (n + k) + 1 by omega, show i + (k + 1) = i + 1 + k by omega, ← hrest,
      cd_search]
    rw [if_neg h0]
    by_cases h1 : entries.getD i zero_entry 0 = 0xE5
    · rw [if_pos h1]
    · rw [if_neg h1]
      by_cases h2 : is_long_name (entries.getD i zero_entry) = true
      · rw [if_pos h2]
      · rw [if_neg h2]
        by_cases h3 : is_directory (entries.getD i zero_entry) = true
        · rw [h3]
          rcases hc with h | h | h | h
          · exact absurd h h1
          · exact absurd h h2
          · rw [h3] at h; exact absurd h (by decide)
          · rw [h]; rfl
        · have h3' : is_directory (entries.getD i zero_entry) = false := by simpa using h3
          rw [h3']; rfl

theorem cd_search_found (name : Nat → Nat) (entries : List DirEntry) (n p : Nat)
    (h0 : entries.getD p zero_entry 0 ≠ 0x00) (h1 : entries.getD p zero_entry 0 ≠ 0xE5)
    (h2 : is_long_name (entries.getD p zero_entry) = false)
    (h3 : is_directory (entries.getD p zero_entry) = true)
    (h4 : name_matches name (entries.getD p zero_entry) = true) :
    cd_search name entries (n + 1) p = some p := by
  rw [cd_search]
  rw [if_neg h0, if_neg h1, h2, h3, h4]
  rfl

theorem read_dir_loop_single (bs : boot_sector) (disk : Disk) (fuel c : Nat)
    (acc : List DirEntry) (hc : c ≠ END_OF_CHAIN)
    (hinfo : get_cluster_info bs disk c = END_OF_CHAIN) (hfuel : 1 < fuel) :
    read_dir_loop bs disk fuel c acc = some (acc ++ cluster_slots bs disk c) := by
  obtain ⟨f, rfl⟩ : ∃ f, fuel = f + 2 := ⟨fuel - 2, by omega⟩
  rw [read_dir_loop, if_neg hc]
  dsimp only
  rw [hinfo, read_dir_loop, if_pos rfl]
  rfl

theorem formated_dot : formated [46] 0 = 0 ∧ formated [46, 46] 0 = 0 := by
  decide

/-- On a fresh frame `read_dir` loads the slots of the chain. -/
theorem read_dir_null (fuel : Nat) (bs : boot_sector) (s : Session)
    (h : s.directory_stack.entries_ptr = Pointer.null) :
    read_dir fuel bs s
      = (read_dir_loop bs s.disk fuel s.directory_stack.cluster []).map fun es =>
        { s with
          directory_stack :=
            { s.directory_stack with
              entries := es
              quantity := es.length
              entries_ptr :=
                if s.directory_stack.cluster = END_OF_CHAIN then Pointer.null
                else Pointer.allocated } } := by
  unfold read_dir
  rw [h]

/-- On a frame whose array is allocated `read_dir` frees the array twice, unless the chain
is empty. -/
theorem read_dir_allocated (fuel : Nat) (bs : boot_sector) (s : Session)
    (h : s.directory_stack.entries_ptr = Pointer.allocated)
    (hc : s.directory_stack.cluster ≠ END_OF_CHAIN) : read_dir fuel bs s = none := by
  unfold read_dir
  rw [h]
  dsimp only
  rw [if_neg hc]

/-- The session after `cd` into the directory found in slot `p`, whose chain is the single
cluster named by the slot. -/
theorem cd_eq (fuel : Nat) (bs : boot_sector) (s : Session) (folder : List Nat) (p : Nat)
    (hname : formated folder 0 ≠ 0)
    (hp : p < s.directory_stack.quantity)
    (hbefore : ∀ j, j < p →
      s.entry j 0 ≠ 0x00 ∧
      (s.entry j 0 = 0xE5 ∨ is_long_name (s.entry j) = true ∨
        is_directory (s.entry j) = false ∨ name_matches (formated folder) (s.entry j) = false))
    (h0 : s.entry p 0 ≠ 0x00) (h1 : s.entry p 0 ≠ 0xE5)
    (h2 : is_long_name (s.entry p) = false) (h3 : is_directory (s.entry p) = true)
    (h4 : name_matches (formated folder) (s.entry p) = true)
    (hc : first_cluster (s.entry p) ≠ END_OF_CHAIN)
    (hinfo : get_cluster_info bs s.disk (first_cluster (s.entry p)) = END_OF_CHAIN)
    (hfuel : 1 < fuel) :
    cd fuel bs s folder = some
      { s with
        directory_stack :=
          { entries := cluster_slots bs s.disk (first_cluster (s.entry p))
            quantity := (cluster_slots bs s.disk (first_cluster (s.entry p))).length
            name := (create_directory_struct (s.entry p)).name
            cluster := first_cluster (s.entry p)
            entries_ptr := Pointer.allocated }
        previous := s.directory_stack :: s.previous
        directory_stack_count := (s.directory_stack_count + 1) % 2 ^ 32 } := by
  have hd1 : folder ≠ [46] := fun h => hname (h ▸ formated_dot.1)
  have hd2 : folder ≠ [46, 46] := fun h => hname (h ▸ formated_dot.2)
  obtain ⟨n, hn⟩ : ∃ n, s.directory_stack.quantity = (n + 1) + p :=
    ⟨s.directory_stack.quantity - p - 1, by omega⟩
  have hq : cd_search (formated folder) s.directory_stack.entries s.directory_stack.quantity 0
      = some p := by
    conv_lhs => rw [hn]
    rw [cd_search_skip _ _ p (n + 1) 0 (fun j _ hj => hbefore j (by omega)), Nat.zero_add]
    exact cd_search_found _ _ n p h0 h1 h2 h3 h4
  unfold cd cd_wrapper
  rw [if_neg hd1, if_neg hd2]
  dsimp only
  rw [if_neg hname, hq]
  dsimp only
  rw [read_dir_null _ _ _ rfl]
  dsimp only
  rw [read_dir_loop_single bs s.disk fuel _ [] hc hinfo hfuel]
  simp only [Option.map_some', create_directory_struct, if_neg hc]
  rfl


theorem first_cluster_congr (e e' : DirEntry) (h : ∀ k, k < 32 → e k = e' k) :
    first_cluster e = first_cluster e' := by
  unfold first_cluster DIR_FstClusHI DIR_FstClusLO get16
  rw [h 20 (by decide), h 21 (by decide), h 26 (by decide), h 27 (by decide)]

theorem cluster_slots_getD (bs : boot_sector) (disk : Disk) (c j : Nat)
    (hj : j < max_dir_entry_per_cluster bs) :
    (cluster_slots bs disk c).getD j zero_entry
      = fread_entry disk (read_dir_position bs c + 32 * j) := by
  unfold cluster_slots
  rw [List.getD_eq_getElem _ _ (by simpa using hj)]
  simp

theorem cluster_slots_length (bs : boot_sector) (disk : Disk) (c : Nat) :
    (cluster_slots bs disk c).length = max_dir_entry_per_cluster bs := by
  unfold cluster_slots; simp

theorem read_dir_position_eq (bs : boot_sector) (c : Nat) (hc : data_cluster bs c)
    (hcb : 64 ≤ cluster_bytes bs) :
    read_dir_position bs c
        = get_cluster_offset bs c * bs.BPB_SecPerClus * bs.BPB_BytsPerSec ∧
    write_dotpos bs c = get_cluster_offset bs c * bs.BPB_SecPerClus * bs.BPB_BytsPerSec := by
  obtain ⟨_, h2⟩ := hc
  have hm : 1 ≤ bs.BPB_SecPerClus * bs.BPB_BytsPerSec := by
    unfold cluster_bytes at hcb
    rw [Nat.mul_comm] at hcb
    omega
  have hg : get_cluster_offset bs c
      ≤ get_cluster_offset bs c * bs.BPB_SecPerClus * bs.BPB_BytsPerSec := by
    rw [Nat.mul_assoc]
    exact Nat.le_mul_of_pos_right _ hm
  unfold read_dir_position write_dotpos
  rw [Nat.mod_eq_of_lt (a := get_cluster_offset bs c) (by omega), Nat.mod_eq_of_lt (by omega),
    Nat.mod_eq_of_lt (by omega)]
  exact ⟨rfl, rfl⟩

/-- A write beyond both FAT copies leaves the bytes of both copies as they were. -/
theorem fwrite_data_fat (bs : boot_sector) (d : Disk) (pos len : Nat) (buf : Nat → Nat) (j : Nat)
    (hj : in_fat bs j) (hpos : fat_start bs + 2 * fat_bytes bs ≤ pos) :
    fat_entry bs (fwrite d pos len buf) j = fat_entry bs d j ∧
    fat2_entry bs (fwrite d pos len buf) j = fat2_entry bs d j := by
  unfold fat_entry fat2_entry
  constructor <;>
  · apply fread32_congr
    intro k hk
    apply fwrite_outside
    simp only [fat2_entry_offset, fat_entry_offset]
    omega


theorem dot_slots (d : Disk) (w : Nat) (A B : DirEntry) (k : Nat) (hk : k < 32) :
    fread_entry (fwrite (fwrite d w 32 A) (w + 32) 32 B) (w + 32 * 0) k = A k % 256 ∧
    fread_entry (fwrite (fwrite d w 32 A) (w + 32) 32 B) (w + 32 * 1) k = B k % 256 := by
  unfold fread_entry
  constructor
  · rw [fwrite_outside _ _ _ _ _ (by omega), Nat.mul_zero, Nat.add_zero,
      fwrite_inside _ _ _ _ _ hk, Nat.mod_mod]
  · rw [Nat.mul_one, fwrite_inside _ _ _ _ _ hk, Nat.mod_mod]

theorem dot_bytes_lt : (∀ k, dot k < 256) ∧ (∀ k, dotdot k < 256) := by
  constructor <;> intro k
  · unfold dot; split_ifs <;> decide
  · unfold dotdot; split_ifs <;> decide

/-- When the bytes of the new cluster `c` end at or below 4 GiB: after a `mkdir` that takes
a usable slot `p` lying in the data region, with `c` the lowest free cluster, exactly the
FAT entry of `c` has changed, from free to end-of-chain; slot `p` of the parent carries the
encoded name with attribute 0x10 and file size 0; and a following `cd` pushes a frame whose
starting cluster is `c`, whose parent is the frame in which `mkdir` ran, whose entry 0 is
named "." with first cluster `c`, and whose entry 1 is named ".." with the starting cluster
of the directory in which `mkdir` ran. -/
theorem mkdir_then_cd (fuel : Nat) (bs : boot_sector) (now : tm) (s : Session)
    (entry_name : List Nat) (p c : Nat)
    (hfit : fats_addressable bs) (hcb : 64 ≤ cluster_bytes bs)
    (hlen : s.directory_stack.quantity = s.directory_stack.entries.length)
    (hparent : s.directory_stack.cluster < 2 ^ 32)
    (hvalid : valid_name entry_name) (hslot : first_usable s p)
    (hnozero : ∀ i, i < p → s.entry i 0 ≠ 0x00)
    (habsent : absent s (formated entry_name))
    (hfree : (free_clusters bs s.disk).head? = some c)
    (hc : in_fat bs c) (hceoc : c ≠ END_OF_CHAIN) (hcdata : data_cluster bs c)
    (hwalk : walk_ok bs s.disk s.directory_stack.cluster p)
    (hpos : fat_start bs + 2 * fat_bytes bs
      ≤ get_entry_disk_position bs s.disk s.directory_stack.cluster p)
    (hfuel : 1 < fuel) :
    ∃ s1 s2, mkdir fuel bs now s entry_name = some s1 ∧ cd fuel bs s1 entry_name = some s2 ∧
      fat_entry bs s.disk c = FREE_CLUSTER ∧ fat_entry bs s1.disk c = END_OF_CHAIN ∧
      (∀ j, in_fat bs j → j ≠ c →
        fat_entry bs s1.disk j = fat_entry bs s.disk j ∧
        fat2_entry bs s1.disk j = fat2_entry bs s.disk j) ∧
      (∀ k, k < 11 → s1.entry p k = formated entry_name k) ∧
      DIR_Attr (s1.entry p) = 0x10 ∧ DIR_FileSize (s1.entry p) = 0 ∧
      s2.directory_stack.cluster = c ∧
      s2.previous = s1.directory_stack :: s1.previous ∧
      s2.directory_stack_count = (s1.directory_stack_count + 1) % 2 ^ 32 ∧
      (∀ k, k < 11 → s2.entry 0 k = dot k) ∧ first_cluster (s2.entry 0) = c ∧
      (∀ k, k < 11 → s2.entry 1 k = dotdot k) ∧
      first_cluster (s2.entry 1) = s.directory_stack.cluster := by
  obtain ⟨_, _, _, hcfree⟩ := allocate_one bs s.disk c hfree
  have hc32 := in_fat_lt bs c hfit hc
  obtain ⟨f0, f1, f2, f3, f4, f5, f6, f7, f8, f9, f10⟩ :=
    new_entry_fields (formated entry_name) ATTR_DIRECTORY c (fat_date now) (fat_time now) hc32
      (by decide) (fat_date_lt now) (fat_time_lt now)
  obtain ⟨g0, _, g2⟩ := dot_entry_fields dot ATTR_DIRECTORY c (fat_date now) (fat_time now) hc32
  obtain ⟨h0, _, h2⟩ := dot_entry_fields dotdot ATTR_DIRECTORY s.directory_stack.cluster
    (fat_date now) (fat_time now) hparent
  have glt := dot_entry_lt dot ATTR_DIRECTORY c (fat_date now) (fat_time now) dot_bytes_lt.1
  have hlt := dot_entry_lt dotdot ATTR_DIRECTORY s.directory_stack.cluster (fat_date now)
    (fat_time now) dot_bytes_lt.2
  have hmk := mkdir_eq fuel bs now s entry_name p c hfit hvalid hslot habsent hfree hc hwalk
  obtain ⟨hrdp, hwdp⟩ := read_dir_position_eq bs c hcdata hcb
  have hepc : 2 ≤ max_dir_entry_per_cluster bs := by
    unfold max_dir_entry_per_cluster; unfold cluster_bytes at hcb; omega
  have hwdata : fat_start bs + 2 * fat_bytes bs ≤ write_dotpos bs c := by
    rw [hwdp]; exact hcdata.1
  obtain ⟨hpq, hpu, hpb⟩ := hslot
  have hp : p < s.directory_stack.entries.length := by rw [← hlen]; exact hpq
  generalize hpos_def : get_entry_disk_position bs s.disk s.directory_stack.cluster p = pos
    at hmk hpos
  generalize he_def : new_entry (formated entry_name) ATTR_DIRECTORY c (fat_date now)
    (fat_time now) = e at hmk f0 f1 f2 f3 f4 f5 f6 f7 f8 f9 f10
  generalize hA_def : dot_entry dot ATTR_DIRECTORY c (fat_date now) (fat_time now) = A
    at hmk g0 g2 glt
  generalize hB_def : dot_entry dotdot ATTR_DIRECTORY s.directory_stack.cluster (fat_date now)
    (fat_time now) = B at hmk h0 h2 hlt
  rw [← hrdp] at hwdp
  generalize write_dotpos bs c = w at hmk hwdp hwdata
  subst hwdp
  have he0 : e 0 ≠ 0x00 := by rw [f0 0 (by decide)]; exact hvalid.1
  have heE5 : e 0 ≠ 0xE5 := by rw [f0 0 (by decide)]; exact hvalid.2
  have helong : is_long_name e = false := not_long_of_attr e _ f1 (by decide)
  have hematch : name_matches (formated entry_name) e = true :=
    (name_matches_iff _ _).mpr fun k hk => (f0 k hk).symm
  have hedir : is_directory e = true := by
    unfold is_directory; rw [f1]; decide
  obtain ⟨d, ⟨L, q, nm, cl, pt⟩, prev, cnt, out⟩ := s
  dsimp only at *
  subst hlen
  have hinfo3 : get_cluster_info bs
      (fwrite (fwrite (fwrite (write_in_fat bs d c END_OF_CHAIN) pos 32 e)
        (read_dir_position bs c) 32 A) (read_dir_position bs c + 32) 32 B) c = END_OF_CHAIN := by
    rw [fwrite_data_info bs _ _ _ _ c hfit hc (by omega),
      fwrite_data_info bs _ _ _ _ c hfit hc hwdata, fwrite_data_info bs _ _ _ _ c hfit hc hpos,
      write_in_fat_info_same bs d c END_OF_CHAIN hfit hc (by decide)]
    rfl
  have hent : ∀ i, Session.entry
      { disk := fwrite (fwrite (fwrite (write_in_fat bs d c END_OF_CHAIN) pos 32 e)
          (read_dir_position bs c) 32 A) (read_dir_position bs c + 32) 32 B,
        directory_stack := { entries := L.set p e, quantity := L.length, name := nm, cluster := cl, entries_ptr := pt },
        previous := prev, directory_stack_count := cnt, out := out } i
      = (L.set p e).getD i zero_entry := fun i => rfl
  have hcd := cd_eq fuel bs
      { disk := fwrite (fwrite (fwrite (write_in_fat bs d c END_OF_CHAIN) pos 32 e)
          (read_dir_position bs c) 32 A) (read_dir_position bs c + 32) 32 B,
        directory_stack := { entries := L.set p e, quantity := L.length, name := nm, cluster := cl, entries_ptr := pt },
        previous := prev, directory_stack_count := cnt, out := out }
      entry_name p hvalid.1 hpq
      (by
        intro j hj
        rw [hent, getD_set_ne _ _ _ _ (by omega)]
        refine ⟨hnozero j hj, ?_⟩
        by_cases c1 : L.getD j zero_entry 0 = 0xE5
        · exact Or.inl c1
        · by_cases c2 : is_long_name (L.getD j zero_entry) = true
          · exact Or.inr (Or.inl c2)
          · refine Or.inr (Or.inr (Or.inr ?_))
            exact habsent j (Nat.lt_trans hj hpq)
              (fun i hi => terminator_usable _ (hpb i (by omega)))
              ((live_iff _).mpr ⟨Bool.eq_false_iff.mpr c2, hnozero j hj, c1⟩))
      (by rw [hent, getD_set_self _ _ _ hp]; exact he0)
      (by rw [hent, getD_set_self _ _ _ hp]; exact heE5)
      (by rw [hent, getD_set_self _ _ _ hp]; exact helong)
      (by rw [hent, getD_set_self _ _ _ hp]; exact hedir)
      (by rw [hent, getD_set_self _ _ _ hp]; exact hematch)
      (by rw [hent, getD_set_self _ _ _ hp, f10]; exact hceoc)
      (by rw [hent, getD_set_self _ _ _ hp, f10]; exact hinfo3)
      hfuel
  rw [hent, getD_set_self _ _ _ hp, f10] at hcd
  dsimp only at hcd
  have hfat1 : ∀ j, in_fat bs j →
      fat_entry bs (fwrite (fwrite (fwrite (write_in_fat bs d c END_OF_CHAIN) pos 32 e)
          (read_dir_position bs c) 32 A) (read_dir_position bs c + 32) 32 B) j
        = fat_entry bs (write_in_fat bs d c END_OF_CHAIN) j ∧
      fat2_entry bs (fwrite (fwrite (fwrite (write_in_fat bs d c END_OF_CHAIN) pos 32 e)
          (read_dir_position bs c) 32 A) (read_dir_position bs c + 32) 32 B) j
        = fat2_entry bs (write_in_fat bs d c END_OF_CHAIN) j := by
    intro j hj
    have a1 := fwrite_data_fat bs (fwrite (fwrite (write_in_fat bs d c END_OF_CHAIN) pos 32 e)
      (read_dir_position bs c) 32 A) (read_dir_position bs c + 32) 32 B j hj (by omega)
    have a2 := fwrite_data_fat bs (fwrite (write_in_fat bs d c END_OF_CHAIN) pos 32 e)
      (read_dir_position bs c) 32 A j hj hwdata
    have a3 := fwrite_data_fat bs (write_in_fat bs d c END_OF_CHAIN) pos 32 e j hj hpos
    exact ⟨a1.1.trans (a2.1.trans a3.1), a1.2.trans (a2.2.trans a3.2)⟩
  have hcfit : fat2_entry_offset bs c < 2 ^ 32 := by
    have := in_fat_fit bs c hfit hc; omega
  refine ⟨_, _, ?_, hcd, ?_, ?_, ?_, ?_, ?_, ?_, rfl, rfl, rfl, ?_, ?_, ?_, ?_⟩
  · unfold mkdir; rw [hmk]; rfl
  · apply clamp_eq_zero
    rw [← get_cluster_info_eq bs d c hfit hc]
    exact hcfree
  · dsimp only
    rw [(hfat1 c hc).1]
    exact fread32_le32 _ _ _ (by decide) fun k hk =>
      write_in_fat_first bs d c END_OF_CHAIN k hcfit hc hk
  · intro j hj hjc
    dsimp only
    rw [(hfat1 j hj).1, (hfat1 j hj).2]
    unfold fat_entry fat2_entry
    exact ⟨fread32_congr _ _ _ fun k hk =>
        (write_in_fat_other bs d c END_OF_CHAIN j k hfit hc hj hjc hk).1,
      fread32_congr _ _ _ fun k hk =>
        (write_in_fat_other bs d c END_OF_CHAIN j k hfit hc hj hjc hk).2⟩
  · intro k hk
    rw [hent, getD_set_self _ _ _ hp]
    exact f0 k hk
  · rw [hent, getD_set_self _ _ _ hp]; exact f1
  · rw [hent, getD_set_self _ _ _ hp]; exact f9
  · intro k hk
    show (cluster_slots bs _ c).getD 0 zero_entry k = dot k
    rw [cluster_slots_getD bs _ c 0 (by omega), (dot_slots _ _ A B k (by omega)).1,
      Nat.mod_eq_of_lt (glt k)]
    exact g0 k hk
  · show first_cluster ((cluster_slots bs _ c).getD 0 zero_entry) = c
    rw [cluster_slots_getD bs _ c 0 (by omega), ← g2]
    apply first_cluster_congr
    intro k hk
    rw [(dot_slots _ _ A B k hk).1, Nat.mod_eq_of_lt (glt k)]
  · intro k hk
    show (cluster_slots bs _ c).getD 1 zero_entry k = dotdot k
    rw [cluster_slots_getD bs _ c 1 (by omega), (dot_slots _ _ A B k (by omega)).2,
      Nat.mod_eq_of_lt (hlt k)]
    exact h0 k hk
  · show first_cluster ((cluster_slots bs _ c).getD 1 zero_entry) = cl
    rw [cluster_slots_getD bs _ c 1 (by omega), ← h2]
    apply first_cluster_congr
    intro k hk
    rw [(dot_slots _ _ A B k hk).2, Nat.mod_eq_of_lt (hlt k)]

/-- An instance of `mkdir_then_cd`: `mkdir D` then `cd D` on `session_slot` (root directory,
cluster 2), whose first usable slot is the deleted slot 1 and whose lowest free cluster
is 3. -/
theorem mkdir_then_cd_witness :
    (fats_addressable bs_small ∧ 64 ≤ cluster_bytes bs_small ∧ valid_name [68] ∧
      first_usable session_slot 1 ∧ absent session_slot (formated [68]) ∧
      (free_clusters bs_small session_slot.disk).head? = some 3 ∧ in_fat bs_small 3 ∧
      data_cluster bs_small 3 ∧
      walk_ok bs_small session_slot.disk session_slot.directory_stack.cluster 1) ∧
    ∃ s1 s2, mkdir 5 bs_small noon session_slot [68] = some s1 ∧
      cd 5 bs_small s1 [68] = some s2 ∧
      fat_entry bs_small s1.disk 3 = END_OF_CHAIN ∧ DIR_Attr (s1.entry 1) = 0x10 ∧
      s2.directory_stack.cluster = 3 ∧
      first_cluster (s2.entry 0) = 3 ∧ first_cluster (s2.entry 1) = 2 := by
  refine ⟨by decide, ?_⟩
  obtain ⟨s1, s2, h1, h2, _, h3, _, _, h4, _, h5, _, _, _, h6, _, h7⟩ :=
    mkdir_then_cd 5 bs_small noon session_slot [68] 1 3 (by decide) (by decide) (by decide)
      (by decide) (by decide) (by decide) (by decide) (by decide) (by decide) (by decide)
      (by decide) (by decide) (by decide) (by decide) (by decide)
  exact ⟨s1, s2, h1, h2, h3, h4, h5, h6, h7⟩

/-! ### Reloading a directory after `mkdir` -/

theorem chain_slots_length (bs : boot_sector) (disk : Disk) (cs : List Nat) :
    (chain_slots bs disk cs).length = cs.length * max_dir_entry_per_cluster bs := by
  induction cs with
  | nil => simp [chain_slots]
  | cons c cs ih =>
    rw [chain_slots, List.length_append, ih, cluster_slots_length, List.length_cons]
    ring

theorem getD_append_left (A B : List DirEntry) (i : Nat) (h : i < A.length) :
    (A ++ B).getD i zero_entry = A.getD i zero_entry := by
  rw [List.getD_eq_getElem?_getD, List.getD_eq_getElem?_getD, List.getElem?_append_left h]

theorem getD_append_right (A B : List DirEntry) (i : Nat) (h : A.length ≤ i) :
    (A ++ B).getD i zero_entry = B.getD (i - A.length) zero_entry := by
  rw [List.getD_eq_getElem?_getD, List.getD_eq_getElem?_getD, List.getElem?_append_right h]

theorem chain_slots_getD (bs : boot_sector) (disk : Disk) :
    ∀ (cs : List Nat) (i : Nat), i < cs.length * max_dir_entry_per_cluster bs →
      (chain_slots bs disk cs).getD i zero_entry
        = fread_entry disk (read_dir_position bs (cs.getD (i / max_dir_entry_per_cluster bs) 0)
            + 32 * (i % max_dir_entry_per_cluster bs)) := by
  intro cs
  induction cs with
  | nil => intro i hi; simp at hi
  | cons c cs ih =>
    intro i hi
    have hepc : 0 < max_dir_entry_per_cluster bs := by
      rcases Nat.eq_zero_or_pos (max_dir_entry_per_cluster bs) with h | h
      · rw [h] at hi; simp at hi
      · exact h
    rw [chain_slots]
    by_cases h : i < max_dir_entry_per_cluster bs
    · rw [getD_append_left _ _ _ (by rw [cluster_slots_length]; exact h),
        cluster_slots_getD bs disk c i h, Nat.div_eq_of_lt h, Nat.mod_eq_of_lt h]
      rfl
    · have hge : max_dir_entry_per_cluster bs ≤ i := Nat.le_of_not_lt h
      rw [getD_append_right _ _ _ (by rw [cluster_slots_length]; exact hge), cluster_slots_length,
        ih (i - max_dir_entry_per_cluster bs) (by
          rw [List.length_cons, Nat.add_mul, Nat.one_mul] at hi; omega)]
      have hdiv : i / max_dir_entry_per_cluster bs
          = (i - max_dir_entry_per_cluster bs) / max_dir_entry_per_cluster bs + 1 := by
        exact Nat.div_eq_sub_div hepc hge
      have hmod : i % max_dir_entry_per_cluster bs
          = (i - max_dir_entry_per_cluster bs) % max_dir_entry_per_cluster bs := by
        rw [← Nat.mod_eq_sub_mod hge]
      rw [hdiv, hmod]
      rfl

theorem read_dir_loop_chain (bs : boot_sector) (disk : Disk) :
    ∀ (cs : List Nat) (fuel x : Nat) (acc : List DirEntry),
      cs.head? = some x → x ≠ END_OF_CHAIN → linked bs disk cs = true → cs.length < fuel →
      read_dir_loop bs disk fuel x acc = some (acc ++ chain_slots bs disk cs) := by
  intro cs
  induction cs with
  | nil => intro fuel x acc h; simp at h
  | cons c cs ih =>
    intro fuel x acc hhead hx hl hfuel
    simp only [List.head?_cons, Option.some.injEq] at hhead
    subst hhead
    cases cs with
    | nil =>
      simp only [linked, beq_iff_eq] at hl
      rw [read_dir_loop_single bs disk fuel c acc hx hl (by simpa using hfuel)]
      simp [chain_slots]
    | cons c' rest =>
      simp only [linked, Bool.and_eq_true, beq_iff_eq, bne_iff_ne, ne_eq] at hl
      obtain ⟨⟨h1, h2⟩, h3⟩ := hl
      obtain ⟨f, rfl⟩ : ∃ f, fuel = f + 1 := ⟨fuel - 1, by
        simp only [List.length_cons] at hfuel; omega⟩
      rw [read_dir_loop, if_neg hx]
      dsimp only
      rw [h1, ih f c' _ rfl h2 h3 (by simp only [List.length_cons] at hfuel ⊢; omega)]
      rw [chain_slots, List.append_assoc]
      rfl

theorem linked_iterate (bs : boot_sector) (disk : Disk) :
    ∀ (cs : List Nat) (x m : Nat), cs.head? = some x → linked bs disk cs = true →
      m < cs.length → (get_cluster_info bs disk)^[m] x = cs.getD m 0 := by
  intro cs
  induction cs with
  | nil => intro x m h; simp at h
  | cons c cs ih =>
    intro x m hhead hl hm
    simp only [List.head?_cons, Option.some.injEq] at hhead
    subst hhead
    cases m with
    | zero => rfl
    | succ m =>
      cases cs with
      | nil => simp at hm
      | cons c' rest =>
        simp only [linked, Bool.and_eq_true, beq_iff_eq, bne_iff_ne, ne_eq] at hl
        obtain ⟨⟨h1, _⟩, h3⟩ := hl
        rw [Function.iterate_succ_apply, h1, ih c' m rfl h3 (by simpa using hm)]
        rfl

theorem get_cluster_offset_eq (bs : boot_sector) (x : Nat) (hx : 2 ≤ x) (hx32 : x < 2 ^ 32)
    (hspc : bs.BPB_SecPerClus < 2 ^ 8) :
    get_cluster_offset bs x = (x - 2) * bs.BPB_SecPerClus + first_data_sector bs := by
  have hf : first_data_sector bs < 2 ^ 32 := Nat.mod_lt _ (by decide)
  have h1 : (x + 2 ^ 64 - 2) % 2 ^ 64 = x - 2 := by omega
  have h2 : (x - 2) * bs.BPB_SecPerClus ≤ 2 ^ 32 * 2 ^ 8 :=
    Nat.mul_le_mul (by omega) (Nat.le_of_lt hspc)
  unfold get_cluster_offset
  rw [h1, Nat.mod_eq_of_lt (by omega)]

theorem data_disjoint_lt (bs : boot_sector) (x y : Nat) (hx : 2 ≤ x) (hy32 : y < 2 ^ 32)
    (hspc : bs.BPB_SecPerClus < 2 ^ 8) (hcb : 64 ≤ cluster_bytes bs) (hlt : x < y) :
    get_cluster_offset bs x * bs.BPB_SecPerClus * bs.BPB_BytsPerSec + cluster_bytes bs
      ≤ get_cluster_offset bs y * bs.BPB_SecPerClus * bs.BPB_BytsPerSec := by
  rw [get_cluster_offset_eq bs x hx (by omega) hspc,
    get_cluster_offset_eq bs y (by omega) hy32 hspc]
  obtain ⟨k, rfl⟩ : ∃ k, y = x + (k + 1) := ⟨y - x - 1, by omega⟩
  have hS : 0 < bs.BPB_SecPerClus := by
    rcases Nat.eq_zero_or_pos bs.BPB_SecPerClus with h | h
    · unfold cluster_bytes at hcb; rw [h] at hcb; simp at hcb
    · exact h
  have e1 : x + (k + 1) - 2 = (x - 2) + (k + 1) := by omega
  have hk : cluster_bytes bs ≤ cluster_bytes bs * ((k + 1) * bs.BPB_SecPerClus) :=
    Nat.le_mul_of_pos_right _ (Nat.mul_pos (Nat.succ_pos k) hS)
  rw [e1]
  unfold cluster_bytes at hk ⊢
  generalize bs.BPB_SecPerClus = S at *
  generalize bs.BPB_BytsPerSec = B at *
  generalize first_data_sector bs = F at *
  generalize x - 2 = X at *
  calc (X * S + F) * S * B + B * S
      ≤ (X * S + F) * S * B + B * S * ((k + 1) * S) := Nat.add_le_add_left hk _
    _ = ((X + (k + 1)) * S + F) * S * B := by ring

theorem data_disjoint (bs : boot_sector) (x y : Nat) (hx : 2 ≤ x) (hy : 2 ≤ y)
    (hx32 : x < 2 ^ 32) (hy32 : y < 2 ^ 32)
    (hspc : bs.BPB_SecPerClus < 2 ^ 8) (hcb : 64 ≤ cluster_bytes bs) (hne : x ≠ y) :
    get_cluster_offset bs x * bs.BPB_SecPerClus * bs.BPB_BytsPerSec + cluster_bytes bs
        ≤ get_cluster_offset bs y * bs.BPB_SecPerClus * bs.BPB_BytsPerSec ∨
    get_cluster_offset bs y * bs.BPB_SecPerClus * bs.BPB_BytsPerSec + cluster_bytes bs
        ≤ get_cluster_offset bs x * bs.BPB_SecPerClus * bs.BPB_BytsPerSec := by
  rcases Nat.lt_or_gt_of_ne hne with h | h
  · exact Or.inl (data_disjoint_lt bs x y hx hy32 hspc hcb h)
  · exact Or.inr (data_disjoint_lt bs y x hy hx32 hspc hcb h)

theorem cluster_bytes_slots (bs : boot_sector) (hdiv : cluster_bytes bs % 32 = 0) :
    cluster_bytes bs = max_dir_entry_per_cluster bs * 32 := by
  unfold max_dir_entry_per_cluster
  unfold cluster_bytes at hdiv ⊢
  omega

theorem getD_mem (cs : List Nat) (m : Nat) (h : m < cs.length) : cs.getD m 0 ∈ cs := by
  rw [List.getD_eq_getElem _ _ h]
  exact List.getElem_mem h

theorem getD_inj (cs : List Nat) (hnodup : cs.Nodup) (a b : Nat) (ha : a < cs.length)
    (hb : b < cs.length) (h : cs.getD a 0 = cs.getD b 0) : a = b := by
  rw [List.getD_eq_getElem _ _ ha, List.getD_eq_getElem _ _ hb] at h
  exact (List.Nodup.getElem_inj_iff hnodup).mp h

theorem entry_position_eq (bs : boot_sector) (d : Disk) (cs : List Nat) (cl p : Nat)
    (hhead : cs.head? = some cl) (hlinked : linked bs d cs = true)
    (hdata : ∀ x ∈ cs, data_cluster bs x)
    (hdiv : cluster_bytes bs % 32 = 0) (hcb : 64 ≤ cluster_bytes bs)
    (hp : p < cs.length * max_dir_entry_per_cluster bs) :
    get_entry_disk_position bs d cl p
      = read_dir_position bs (cs.getD (p / max_dir_entry_per_cluster bs) 0)
        + 32 * (p % max_dir_entry_per_cluster bs) := by
  have hcbs := cluster_bytes_slots bs hdiv
  have hepc : 0 < max_dir_entry_per_cluster bs := by omega
  have hm : p / max_dir_entry_per_cluster bs < cs.length :=
    Nat.div_lt_of_lt_mul (by rw [Nat.mul_comm]; exact hp)
  have hx := hdata _ (getD_mem cs _ hm)
  have hr : p % max_dir_entry_per_cluster bs < max_dir_entry_per_cluster bs := Nat.mod_lt _ hepc
  unfold get_entry_disk_position
  dsimp only
  rw [hcbs, Nat.mul_div_mul_right _ _ (by decide : 0 < 32), Nat.mul_mod_mul_right,
    linked_iterate bs d cs cl _ hhead hlinked hm, (read_dir_position_eq bs _ hx hcb).1]
  obtain ⟨_, h2⟩ := hx
  rw [Nat.mod_eq_of_lt (by omega)]
  omega

theorem mkdir_disk_outside (bs : boot_sector) (d : Disk) (c pos w : Nat) (e A B : DirEntry)
    (a : Nat) (hfit : fats_addressable bs) (hc : in_fat bs c)
    (ha : fat_start bs + 2 * fat_bytes bs ≤ a)
    (h1 : a < pos ∨ pos + 32 ≤ a) (h2 : a < w ∨ w + 64 ≤ a) :
    fwrite (fwrite (fwrite (write_in_fat bs d c END_OF_CHAIN) pos 32 e) w 32 A) (w + 32) 32 B a
      = d a := by
  have hcfit : fat2_entry_offset bs c < 2 ^ 32 := by
    have := in_fat_fit bs c hfit hc; omega
  rw [fwrite_outside _ _ _ _ _ (by omega), fwrite_outside _ _ _ _ _ (by omega),
    fwrite_outside _ _ _ _ _ h1]
  apply write_in_fat_outside bs d c END_OF_CHAIN a hcfit
  · unfold fat_entry_offset; unfold in_fat at hc; omega
  · unfold fat2_entry_offset fat_entry_offset; unfold in_fat at hc; omega

theorem mkdir_disk_slot (bs : boot_sector) (d : Disk) (c pos w : Nat) (e A B : DirEntry)
    (k : Nat) (hk : k < 32) (h : pos + 32 ≤ w ∨ w + 64 ≤ pos) :
    fwrite (fwrite (fwrite (write_in_fat bs d c END_OF_CHAIN) pos 32 e) w 32 A) (w + 32) 32 B
      (pos + k) = e k % 256 := by
  rw [fwrite_outside _ _ _ _ _ (by omega), fwrite_outside _ _ _ _ _ (by omega),
    fwrite_inside _ _ _ _ _ hk]

theorem mkdir_reload_slot (bs : boot_sector) (d : Disk) (cs : List Nat) (c p : Nat)
    (e A B : DirEntry)
    (hfit : fats_addressable bs) (hspc : bs.BPB_SecPerClus < 2 ^ 8)
    (hdiv : cluster_bytes bs % 32 = 0) (hcb : 64 ≤ cluster_bytes bs)
    (hc : in_fat bs c) (hc2 : 2 ≤ c) (hcdata : data_cluster bs c) (hnodup : cs.Nodup)
    (hchain : ∀ x ∈ cs, 2 ≤ x ∧ in_fat bs x ∧ data_cluster bs x ∧ x ≠ c)
    (hp : p < cs.length * max_dir_entry_per_cluster bs)
    (i : Nat) (hi : i < cs.length * max_dir_entry_per_cluster bs) (k : Nat) (hk : k < 32) :
    (chain_slots bs
        (fwrite (fwrite (fwrite (write_in_fat bs d c END_OF_CHAIN)
          (read_dir_position bs (cs.getD (p / max_dir_entry_per_cluster bs) 0)
            + 32 * (p % max_dir_entry_per_cluster bs)) 32 e)
          (read_dir_position bs c) 32 A) (read_dir_position bs c + 32) 32 B)
        cs).getD i zero_entry k
      = if i = p then e k % 256 % 256 else (chain_slots bs d cs).getD i zero_entry k := by
  have hcbs := cluster_bytes_slots bs hdiv
  have hepc : 0 < max_dir_entry_per_cluster bs := by omega
  have hmi : i / max_dir_entry_per_cluster bs < cs.length :=
    Nat.div_lt_of_lt_mul (by rw [Nat.mul_comm]; exact hi)
  have hmp : p / max_dir_entry_per_cluster bs < cs.length :=
    Nat.div_lt_of_lt_mul (by rw [Nat.mul_comm]; exact hp)
  have hri : i % max_dir_entry_per_cluster bs < max_dir_entry_per_cluster bs := Nat.mod_lt _ hepc
  have hrp : p % max_dir_entry_per_cluster bs < max_dir_entry_per_cluster bs := Nat.mod_lt _ hepc
  obtain ⟨hxi2, hxif, hxid, hxic⟩ := hchain _ (getD_mem cs _ hmi)
  obtain ⟨hxp2, hxpf, hxpd, hxpc⟩ := hchain _ (getD_mem cs _ hmp)
  have hdi := data_disjoint bs _ c hxi2 hc2 (in_fat_lt bs _ hfit hxif) (in_fat_lt bs c hfit hc)
    hspc hcb hxic
  have hdp := data_disjoint bs _ c hxp2 hc2 (in_fat_lt bs _ hfit hxpf) (in_fat_lt bs c hfit hc)
    hspc hcb hxpc
  have hsame : i ≠ p → cs.getD (i / max_dir_entry_per_cluster bs) 0
        = cs.getD (p / max_dir_entry_per_cluster bs) 0 →
      i % max_dir_entry_per_cluster bs ≠ p % max_dir_entry_per_cluster bs := by
    intro hip hx hr
    have hq := getD_inj cs hnodup _ _ hmi hmp hx
    apply hip
    rw [← Nat.div_add_mod i (max_dir_entry_per_cluster bs),
      ← Nat.div_add_mod p (max_dir_entry_per_cluster bs), hq, hr]
  have hdiff : cs.getD (i / max_dir_entry_per_cluster bs) 0
        ≠ cs.getD (p / max_dir_entry_per_cluster bs) 0 → _ :=
    data_disjoint bs _ _ hxi2 hxp2 (in_fat_lt bs _ hfit hxif) (in_fat_lt bs _ hfit hxpf) hspc hcb
  rw [chain_slots_getD bs _ cs i hi, chain_slots_getD bs d cs i hi]
  rw [(read_dir_position_eq bs _ hxid hcb).1, (read_dir_position_eq bs _ hxpd hcb).1,
    (read_dir_position_eq bs _ hcdata hcb).1] at *
  unfold fread_entry
  obtain ⟨hxid1, hxid2⟩ := hxid
  obtain ⟨hxpd1, hxpd2⟩ := hxpd
  obtain ⟨hcd1, hcd2⟩ := hcdata
  by_cases hip : i = p
  · subst hip
    rw [if_pos rfl]
    generalize cs.getD (i / max_dir_entry_per_cluster bs) 0 = xi at *
    generalize i % max_dir_entry_per_cluster bs = ri at *
    generalize get_cluster_offset bs xi * bs.BPB_SecPerClus * bs.BPB_BytsPerSec = Di at *
    generalize get_cluster_offset bs c * bs.BPB_SecPerClus * bs.BPB_BytsPerSec = Dc at *
    rw [mkdir_disk_slot bs d c _ _ e A B k hk (by omega)]
  · rw [if_neg hip]
    congr 1
    generalize cs.getD (i / max_dir_entry_per_cluster bs) 0 = xi at *
    generalize cs.getD (p / max_dir_entry_per_cluster bs) 0 = xp at *
    generalize i % max_dir_entry_per_cluster bs = ri at *
    generalize p % max_dir_entry_per_cluster bs = rp at *
    by_cases hx : xi = xp
    · have := hsame hip hx
      subst hx
      generalize get_cluster_offset bs xi * bs.BPB_SecPerClus * bs.BPB_BytsPerSec = Di at *
      generalize get_cluster_offset bs c * bs.BPB_SecPerClus * bs.BPB_BytsPerSec = Dc at *
      exact mkdir_disk_outside bs d c _ _ e A B _ hfit hc (by omega) (by omega) (by omega)
    · have := hdiff hx
      generalize get_cluster_offset bs xi * bs.BPB_SecPerClus * bs.BPB_BytsPerSec = Di at *
      generalize get_cluster_offset bs xp * bs.BPB_SecPerClus * bs.BPB_BytsPerSec = Dp at *
      generalize get_cluster_offset bs c * bs.BPB_SecPerClus * bs.BPB_BytsPerSec = Dc at *
      exact mkdir_disk_outside bs d c _ _ e A B _ hfit hc (by omega) (by omega) (by omega)

/-! ### `rmdir` -/

theorem rmdir_loop_skip (fuel : Nat) (bs : boot_sector) (s : Session) (entry_name : List Nat)
    (name : Nat → Nat) :
    ∀ (k n i : Nat),
      (∀ j, i ≤ j → j < i + k →
        (s.entry j 0 = 0xE5 ∨ is_long_name (s.entry j) = true ∨
          (s.entry j 0 ≠ 0x00 ∧ name_matches name (s.entry j) = false))) →
      rmdir_loop fuel bs s entry_name name (n + k) i
        = rmdir_loop fuel bs s entry_name name n (i + k) := by
  intro k
  induction k with
  | zero => intro n i _; rfl
  | succ k ih =>
    intro n i h
    have hi := h i (Nat.le_refl _) (by omega)
    have hrest := ih n (i + 1) (fun j h1 h2 => h j (by omega) (by omega))
    rw [show n + (k + 1) = (n + k) + 1 by omega, show i + (k + 1) = i + 1 + k by omega, ← hrest]
    rw [rmdir_loop]
    rcases hi with h1 | h1 | ⟨h1, h2⟩
    · simp only [h1, if_true]
    · by_cases h0 : s.entry i 0 = 0xE5
      · simp only [h0, if_true]
      · simp only [h0, h1, if_false, if_true]
    · by_cases h0 : s.entry i 0 = 0xE5
      · simp only [h0, if_true]
      · by_cases h3 : is_long_name (s.entry i) = true
        · simp only [h0, h3, if_false, if_true]
        · simp only [h0, h3, h1, h2, if_false, Bool.false_eq_true]

/-! ### The dot entries above 4 GiB -/

/-- The session after `mkdir` followed by `cd` into the new directory: the frame entered
holds the slots `read_dir` loads for the new cluster `c` from the image `mkdir` left. -/
theorem mkdir_cd_loads (fuel : Nat) (bs : boot_sector) (now : tm) (s : Session)
    (entry_name : List Nat) (p c : Nat)
    (hfit : fats_addressable bs)
    (hlen : s.directory_stack.quantity = s.directory_stack.entries.length)
    (hvalid : valid_name entry_name) (hslot : first_usable s p)
    (hnozero : ∀ i, i < p → s.entry i 0 ≠ 0x00)
    (habsent : absent s (formated entry_name))
    (hfree : (free_clusters bs s.disk).head? = some c)
    (hc : in_fat bs c) (hceoc : c ≠ END_OF_CHAIN)
    (hw : fat_start bs + 2 * fat_bytes bs ≤ write_dotpos bs c)
    (hwalk : walk_ok bs s.disk s.directory_stack.cluster p)
    (hpos : fat_start bs + 2 * fat_bytes bs
      ≤ get_entry_disk_position bs s.disk s.directory_stack.cluster p)
    (hfuel : 1 < fuel) :
    ∃ s1 s2, mkdir fuel bs now s entry_name = some s1 ∧ cd fuel bs s1 entry_name = some s2 ∧
      s1.out = s.out ∧ s2.out = s.out ∧ first_cluster (s1.entry p) = c ∧
      s1.disk = fwrite (fwrite (fwrite (write_in_fat bs s.disk c END_OF_CHAIN)
            (get_entry_disk_position bs s.disk s.directory_stack.cluster p) 32
            (new_entry (formated entry_name) ATTR_DIRECTORY c (fat_date now) (fat_time now)))
          (write_dotpos bs c) 32
            (dot_entry dot ATTR_DIRECTORY c (fat_date now) (fat_time now)))
          (write_dotpos bs c + 32) 32
            (dot_entry dotdot ATTR_DIRECTORY s.directory_stack.cluster (fat_date now)
              (fat_time now)) ∧
      s2.directory_stack.cluster = c ∧
      s2.directory_stack.entries = cluster_slots bs s1.disk c := by
  have hc32 := in_fat_lt bs c hfit hc
  obtain ⟨f0, f1, f2, f3, f4, f5, f6, f7, f8, f9, f10⟩ :=
    new_entry_fields (formated entry_name) ATTR_DIRECTORY c (fat_date now) (fat_time now) hc32
      (by decide) (fat_date_lt now) (fat_time_lt now)
  have hmk := mkdir_eq fuel bs now s entry_name p c hfit hvalid hslot habsent hfree hc hwalk
  obtain ⟨hpq, hpu, hpb⟩ := hslot
  have hp : p < s.directory_stack.entries.length := by rw [← hlen]; exact hpq
  generalize hpos_def : get_entry_disk_position bs s.disk s.directory_stack.cluster p = pos
    at hmk hpos
  generalize he_def : new_entry (formated entry_name) ATTR_DIRECTORY c (fat_date now)
    (fat_time now) = e at hmk f0 f1 f2 f3 f4 f5 f6 f7 f8 f9 f10
  generalize dot_entry dot ATTR_DIRECTORY c (fat_date now) (fat_time now) = A at hmk
  generalize dot_entry dotdot ATTR_DIRECTORY s.directory_stack.cluster (fat_date now)
    (fat_time now) = B at hmk
  generalize write_dotpos bs c = w at hmk hw
  have he0 : e 0 ≠ 0x00 := by rw [f0 0 (by decide)]; exact hvalid.1
  have heE5 : e 0 ≠ 0xE5 := by rw [f0 0 (by decide)]; exact hvalid.2
  have helong : is_long_name e = false := not_long_of_attr e _ f1 (by decide)
  have hematch : name_matches (formated entry_name) e = true :=
    (name_matches_iff _ _).mpr fun k hk => (f0 k hk).symm
  have hedir : is_directory e = true := by
    unfold is_directory; rw [f1]; decide
  obtain ⟨d, ⟨L, q, nm, cl, pt⟩, prev, cnt, out⟩ := s
  dsimp only at *
  subst hlen
  have hinfo3 : get_cluster_info bs
      (fwrite (fwrite (fwrite (write_in_fat bs d c END_OF_CHAIN) pos 32 e) w 32 A) (w + 32) 32 B)
      c = END_OF_CHAIN := by
    rw [fwrite_data_info bs _ _ _ _ c hfit hc (by omega),
      fwrite_data_info bs _ _ _ _ c hfit hc hw, fwrite_data_info bs _ _ _ _ c hfit hc hpos,
      write_in_fat_info_same bs d c END_OF_CHAIN hfit hc (by decide)]
    rfl
  have hent : ∀ i, Session.entry
      { disk := fwrite (fwrite (fwrite (write_in_fat bs d c END_OF_CHAIN) pos 32 e) w 32 A)
          (w + 32) 32 B,
        directory_stack := { entries := L.set p e, quantity := L.length, name := nm, cluster := cl, entries_ptr := pt },
        previous := prev, directory_stack_count := cnt, out := out } i
      = (L.set p e).getD i zero_entry := fun i => rfl
  have hcd := cd_eq fuel bs
      { disk := fwrite (fwrite (fwrite (write_in_fat bs d c END_OF_CHAIN) pos 32 e) w 32 A)
          (w + 32) 32 B,
        directory_stack := { entries := L.set p e, quantity := L.length, name := nm, cluster := cl, entries_ptr := pt },
        previous := prev, directory_stack_count := cnt, out := out }
      entry_name p hvalid.1 hpq
      (by
        intro j hj
        rw [hent, getD_set_ne _ _ _ _ (by omega)]
        refine ⟨hnozero j hj, ?_⟩
        by_cases c1 : L.getD j zero_entry 0 = 0xE5
        · exact Or.inl c1
        · by_cases c2 : is_long_name (L.getD j zero_entry) = true
          · exact Or.inr (Or.inl c2)
          · refine Or.inr (Or.inr (Or.inr ?_))
            exact habsent j (Nat.lt_trans hj hpq)
              (fun i hi => terminator_usable _ (hpb i (by omega)))
              ((live_iff _).mpr ⟨Bool.eq_false_iff.mpr c2, hnozero j hj, c1⟩))
      (by rw [hent, getD_set_self _ _ _ hp]; exact he0)
      (by rw [hent, getD_set_self _ _ _ hp]; exact heE5)
      (by rw [hent, getD_set_self _ _ _ hp]; exact helong)
      (by rw [hent, getD_set_self _ _ _ hp]; exact hedir)
      (by rw [hent, getD_set_self _ _ _ hp]; exact hematch)
      (by rw [hent, getD_set_self _ _ _ hp, f10]; exact hceoc)
      (by rw [hent, getD_set_self _ _ _ hp, f10]; exact hinfo3)
      hfuel
  rw [hent, getD_set_self _ _ _ hp, f10] at hcd
  dsimp only at hcd
  refine ⟨_, _, by unfold mkdir; rw [hmk]; rfl, hcd, rfl, rfl, ?_, rfl, rfl, rfl⟩
  rw [hent, getD_set_self _ _ _ hp]
  exact f10

theorem free_from_head (bs : boot_sector) (disk : Disk) (c : Nat) :
    ∀ (n i : Nat), i ≤ c → c < i + n →
      (∀ j, i ≤ j → j < c → get_cluster_info bs disk j ≠ FREE_CLUSTER) →
      get_cluster_info bs disk c = FREE_CLUSTER →
      (free_from bs disk i n).head? = some c := by
  intro n
  induction n with
  | zero => intro i h1 h2; omega
  | succ n ih =>
    intro i h1 h2 hb hc
    unfold free_from at ih ⊢
    rw [List.range'_succ]
    by_cases hic : i = c
    · subst hic
      rw [List.filter_cons_of_pos (by simpa using hc)]
      rfl
    · rw [List.filter_cons_of_neg (by simpa using hb i (Nat.le_refl i) (by omega))]
      exact ih (i + 1) (by omega) (by omega) (fun j h3 h4 => hb j (by omega) h4) hc

theorem img_4g_allocated (j : Nat) (hj : j < 8388611) :
    get_cluster_info bs_4g img_4g j ≠ FREE_CLUSTER := by
  have hin : in_fat bs_4g j := by
    show 4 * j + 4 ≤ 65540 * 512
    omega
  have h : fat_entry bs_4g img_4g j = 0x0FFFFFF8 :=
    fread32_le32 _ _ _ (by decide) fun k hk => by
      show img_4g (32 * 512 + 4 * j + k) = _
      unfold img_4g
      rw [if_pos (by omega), if_pos (by omega)]
      congr 1
      omega
  rw [get_cluster_info_eq bs_4g img_4g j (by decide) hin, h]
  decide

set_option maxRecDepth 100000 in
/-- C7 fails on `img_4g`, a volume of a little over 4 GiB with an empty root directory
whose lowest free cluster is 8388611. `mkdir D` succeeds: it marks entry 8388611
end-of-chain and writes the dot entries at `write_dotpos`, the 64-bit product
8519721 × 1 × 512 = 4362097152. The `cd D` that follows enters cluster 8388611, but
`read_dir` forms the same product in 32 bits and loads the slots from byte 67129856 (the
bytes of cluster 3), where nothing was written: entry 0 is not named "." and its first
cluster is 0, not 8388611. -/
theorem mkdir_cd_reads_truncated :
    read_disk 5 bs_4g img_4g = some session_4g ∧
    write_dotpos bs_4g 8388611 = 4362097152 ∧ read_dir_position bs_4g 8388611 = 67129856 ∧
    ∃ s1 s2, mkdir 5 bs_4g noon session_4g [68] = some s1 ∧
      cd 5 bs_4g s1 [68] = some s2 ∧ s1.out = [] ∧ s2.out = [] ∧
      first_cluster (s1.entry 0) = 8388611 ∧ s1.disk 4362097152 = 46 ∧
      s2.directory_stack.cluster = 8388611 ∧ s2.entry 0 0 = 0 ∧
      first_cluster (s2.entry 0) = 0 := by
  obtain ⟨s1, s2, h1, h2, h3, h4, h5, h6, h7, h8⟩ :=
    mkdir_cd_loads 5 bs_4g noon session_4g [68] 0 8388611 (by decide) (by decide) (by decide)
      (by decide) (by decide) (by decide)
      (free_from_head bs_4g img_4g 8388611 _ 2 (by decide) (by decide)
        (fun j _ hj => img_4g_allocated j hj) (by decide))
      (by decide) (by decide) (by decide) (by decide) (by decide) (by decide)
  have hw : write_dotpos bs_4g 8388611 = 4362097152 := by decide
  have hr : read_dir_position bs_4g 8388611 = 67129856 := by decide
  have hp : get_entry_disk_position bs_4g session_4g.disk session_4g.directory_stack.cluster 0
      = 67129344 := by decide
  rw [hw, hp] at h6
  have hzero : ∀ k, k < 32 → s2.entry 0 k = 0 := by
    intro k hk
    show s2.directory_stack.entries.getD 0 zero_entry k = 0
    rw [h8, cluster_slots_getD bs_4g _ 8388611 0 (by decide), hr, h6]
    unfold fread_entry
    rw [fwrite_outside _ _ _ _ _ (by omega), fwrite_outside _ _ _ _ _ (by omega),
      fwrite_outside _ _ _ _ _ (by omega),
      write_in_fat_outside bs_4g _ 8388611 _ _ (by decide)
        (by simp only [fat_entry_offset, fat_start, bs_4g]; omega)
        (by simp only [fat2_entry_offset, fat_entry_offset, fat_start, fat_bytes, bs_4g]; omega)]
    show img_4g (67129856 + 32 * 0 + k) % 256 = 0
    unfold img_4g
    rw [if_neg (by omega)]
  refine ⟨?_, hw, hr, s1, s2, h1, h2, h3, h4, h5, ?_, h7, hzero 0 (by decide), ?_⟩
  · unfold read_disk read_dir
    dsimp only
    rw [read_dir_loop_single bs_4g img_4g 5 _ [] (by decide) (by decide) (by decide)]
    rfl
  · rw [h6, fwrite_outside _ _ _ _ _ (by omega),
      show (4362097152 : Nat) = 4362097152 + 0 from rfl, fwrite_inside _ _ _ _ _ (by decide),
      (dot_entry_fields dot ATTR_DIRECTORY 8388611 _ _ (by decide)).1 0 (by decide)]
    rfl
  · rw [first_cluster_congr (s2.entry 0) zero_entry fun k hk => hzero k hk]
    rfl

/-! ### The name codec -/

theorem find_dot_some (s : List Nat) : ∀ (i d : Nat), d ≠ 0 →
    find_dot s i (some d) = if 46 ∈ s then none else some (some d) := by
  induction s with
  | nil => intro i d _; simp [find_dot]
  | cons c rest ih =>
    intro i d hd
    rw [find_dot]
    by_cases hc : c = 46
    · subst hc
      simp
    · have hne : (46 : Nat) ≠ c := fun h => hc h.symm
      simp only [hc, false_and, if_false, Option.some.injEq, hd, ih (i + 1) d hd,
        List.mem_cons, hne, false_or]

theorem find_dot_none (s : List Nat) : ∀ (i : Nat),
    find_dot s i none =
      if 46 ∈ s then
        if i + s.indexOf 46 = 0 then none
        else if 46 ∈ s.drop (s.indexOf 46 + 1) then none
        else some (some (i + s.indexOf 46))
      else some none := by
  induction s with
  | nil => intro i; simp [find_dot]
  | cons c rest ih =>
    intro i
    rw [find_dot]
    by_cases hc : c = 46
    · subst hc
      simp only [ne_eq, not_true_eq_false, and_false, if_false, and_self, if_true,
        Option.some.injEq, List.mem_cons, true_or, List.indexOf_cons_self, Nat.add_zero,
        List.drop_succ_cons, List.drop_zero]
      by_cases hi : i = 0
      · simp [hi]
      · simp only [hi, if_false]
        exact find_dot_some rest (i + 1) i hi
    · have hne : (46 : Nat) ≠ c := fun h => hc h.symm
      have hidx : (c :: rest).indexOf 46 = rest.indexOf 46 + 1 :=
        List.indexOf_cons_ne _ hc
      simp only [hc, false_and, if_false, ih (i + 1), List.mem_cons, hne, false_or, hidx,
        List.drop_succ_cons]
      have e1 : i + 1 + rest.indexOf 46 = i + (rest.indexOf 46 + 1) := by omega
      have e2 : ¬ (i + (rest.indexOf 46 + 1) = 0) := by omega
      rw [e1]
      simp only [e2, if_false, reduceCtorEq]

theorem count_dot_drop (s : List Nat) (h : 1 < s.count 46) :
    46 ∈ s ∧ 46 ∈ s.drop (s.indexOf 46 + 1) := by
  induction s with
  | nil => simp at h
  | cons c rest ih =>
    by_cases hc : c = 46
    · subst hc
      rw [List.count_cons_self] at h
      refine ⟨List.mem_cons_self _ _, ?_⟩
      rw [List.indexOf_cons_self]
      have hpos : 0 < rest.count 46 := by omega
      exact List.count_pos_iff.mp hpos
    · rw [List.count_cons_of_ne (fun h => hc h.symm)] at h
      obtain ⟨h1, h2⟩ := ih h
      refine ⟨List.mem_cons_of_mem _ h1, ?_⟩
      rw [List.indexOf_cons_ne _ hc]
      exact h2

theorem store_zero (name : Nat → Nat) : store name 0 0 0 = 0 := by simp [store]

/-- C16: `create_formated_name` leaves byte 0 of the buffer equal to 0x00 for every string
with more than one dot, or starting with a dot, or with more than 3 characters after its
dot, or longer than 13 characters, or of exactly 13 characters without a dot. -/
theorem create_formated_name_rejects (name : Nat → Nat) (unformatted_name : List Nat)
    (h : 1 < unformatted_name.count 46 ∨ unformatted_name.head? = some 46 ∨
      (46 ∈ unformatted_name ∧
        3 < unformatted_name.length - (unformatted_name.indexOf 46 + 1)) ∨
      13 < unformatted_name.length ∨
      (unformatted_name.length = 13 ∧ 46 ∉ unformatted_name)) :
    create_formated_name name unformatted_name 0 = 0x00 := by
  unfold create_formated_name
  dsimp only
  rw [find_dot_none unformatted_name 0]
  by_cases hmem : 46 ∈ unformatted_name
  · rw [if_pos hmem, Nat.zero_add]
    by_cases h0 : unformatted_name.indexOf 46 = 0
    · rw [if_pos h0]; exact store_zero name
    · rw [if_neg h0]
      by_cases h2 : 46 ∈ unformatted_name.drop (unformatted_name.indexOf 46 + 1)
      · rw [if_pos h2]; exact store_zero name
      · rw [if_neg h2]
        dsimp only
        by_cases h13 : unformatted_name.length > 13
        · rw [if_pos h13]; exact store_zero name
        · rw [if_neg h13, if_neg (by simp)]
          by_cases h3 : unformatted_name.length - (unformatted_name.indexOf 46 + 1) > 3
          · rw [if_pos h3]; exact store_zero name
          · exfalso
            rcases h with h | h | h | h | h
            · exact h2 (count_dot_drop _ h).2
            · apply h0
              cases unformatted_name with
              | nil => simp at h
              | cons c rest =>
                simp only [List.head?_cons, Option.some.injEq] at h
                subst h
                exact List.indexOf_cons_self _ _
            · exact h3 h.2
            · exact h13 h
            · exact h.2 hmem
  · rw [if_neg hmem]
    dsimp only
    by_cases h13 : unformatted_name.length > 13
    · rw [if_pos h13]; exact store_zero name
    · rw [if_neg h13]
      by_cases h13' : unformatted_name.length = 13
      · rw [if_pos ⟨h13', rfl⟩]; exact store_zero name
      · exfalso
        rcases h with h | h | h | h | h
        · exact hmem (count_dot_drop _ h).1
        · apply hmem
          cases unformatted_name with
          | nil => simp at h
          | cons c rest =>
            simp only [List.head?_cons, Option.some.injEq] at h
            subst h
            exact List.mem_cons_self _ _
        · exact hmem h.1
        · exact h13 h
        · exact h13' h.1

/-- Witness for C16: the string "A.B.C" has two dots. -/
theorem create_formated_name_rejects_witness :
    1 < [65, 46, 66, 46, 67].count 46 ∧
    create_formated_name (fun _ => 7) [65, 46, 66, 46, 67] 0 = 0x00 :=
  ⟨by decide, create_formated_name_rejects _ _ (Or.inl (by decide))⟩
theorem store_apply (name : Nat → Nat) (i v k : Nat) :
    store name i v k = if k = i then v else name k := rfl

theorem foldl_store_shift (a : Nat) (val : Nat → Nat) (name : Nat → Nat) :
    ∀ (n k : Nat), ((List.range n).foldl (fun nm i => store nm (a + i) (val i)) name) k
      = if a ≤ k ∧ k < a + n then val (k - a) else name k := by
  intro n
  induction n with
  | zero =>
    intro k
    rw [List.range_zero, List.foldl_nil, if_neg (by omega)]
  | succ n ih =>
    intro k
    rw [List.range_succ, List.foldl_append, List.foldl_cons, List.foldl_nil, store_apply]
    by_cases hk : k = a + n
    · subst hk
      rw [if_pos rfl, if_pos (by omega), Nat.add_sub_cancel_left]
    · rw [if_neg hk, ih k]
      by_cases h : a ≤ k ∧ k < a + n
      · rw [if_pos h, if_pos (by omega)]
      · rw [if_neg h, if_neg (by omega)]

theorem foldl_store_range (val : Nat → Nat) (name : Nat → Nat) (n k : Nat) :
    ((List.range n).foldl (fun nm i => store nm i (val i)) name) k
      = if k < n then val k else name k := by
  have h := foldl_store_shift 0 val name n k
  simp only [Nat.zero_add, Nat.zero_le, true_and, Nat.sub_zero] at h
  exact h

theorem foldl_store_range' (a m : Nat) (val : Nat → Nat) (name : Nat → Nat) (k : Nat) :
    ((List.range' a m).foldl (fun nm i => store nm i (val i)) name) k
      = if a ≤ k ∧ k < a + m then val k else name k := by
  rw [List.range'_eq_map_range, List.foldl_map]
  have h := foldl_store_shift a (fun i => val (a + i)) name m k
  rw [h]
  by_cases hk : a ≤ k ∧ k < a + m
  · rw [if_pos hk, if_pos hk]
    show val (a + (k - a)) = val k
    rw [Nat.add_sub_cancel' hk.1]
  · rw [if_neg hk, if_neg hk]

theorem base_part_eq (s : List Nat) : base_part s = s.take (s.indexOf 46) := by
  unfold base_part
  induction s with
  | nil => rfl
  | cons c rest ih =>
    by_cases hc : c = 46
    · subst hc
      rw [List.indexOf_cons_self]
      simp
    · rw [List.indexOf_cons_ne _ hc, List.take_succ_cons,
        List.takeWhile_cons_of_pos (by simpa using hc), ih]

theorem ext_part_eq (s : List Nat) : ext_part s = s.drop (s.indexOf 46 + 1) := by
  unfold ext_part
  induction s with
  | nil => rfl
  | cons c rest ih =>
    by_cases hc : c = 46
    · subst hc
      rw [List.indexOf_cons_self]
      simp
    · rw [List.indexOf_cons_ne _ hc, List.drop_succ_cons,
        List.dropWhile_cons_of_pos (by simpa using hc), ih]

theorem indexOf_dot_lt (s : List Nat) (h : 46 ∈ s) : s.indexOf 46 < s.length :=
  List.indexOf_lt_length.mpr h

theorem indexOf_dot_eq (s : List Nat) (h : 46 ∉ s) : s.indexOf 46 = s.length :=
  List.indexOf_eq_length.mpr h

theorem getD_take_lt (s : List Nat) (n k : Nat) (h : k < n) :
    (s.take n).getD k 0 = s.getD k 0 := by
  rw [List.getD_eq_getElem?_getD, List.getD_eq_getElem?_getD, List.getElem?_take_of_lt h]

theorem getD_drop_add (s : List Nat) (n k : Nat) :
    (s.drop n).getD k 0 = s.getD (n + k) 0 := by
  rw [List.getD_eq_getElem?_getD, List.getD_eq_getElem?_getD, List.getElem?_drop]

theorem toupper_not_prohibited (c : Nat) (h : c ∉ prohibited) : toupper c ∉ prohibited := by
  unfold toupper
  split_ifs with hc
  · unfold prohibited
    simp only [List.mem_cons, List.mem_singleton, List.not_mem_nil, or_false]
    omega
  · exact h

theorem replace_prohibited_of_not_mem (c : Nat) (h : c ∉ prohibited) :
    replace_prohibited c = c := by
  unfold replace_prohibited
  rw [if_neg h]

theorem count_dot_two (s : List Nat) (h1 : 46 ∈ s) (h2 : 46 ∈ s.drop (s.indexOf 46 + 1)) :
    1 < s.count 46 := by
  induction s with
  | nil => simp at h1
  | cons c rest ih =>
    by_cases hc : c = 46
    · subst hc
      rw [List.indexOf_cons_self] at h2
      rw [List.count_cons_self]
      have : 0 < rest.count 46 := List.count_pos_iff.mpr h2
      omega
    · rw [List.indexOf_cons_ne _ hc] at h2
      rw [List.count_cons_of_ne (fun h => hc h.symm)]
      rcases List.mem_cons.mp h1 with h | h
      · exact absurd h.symm hc
      · exact ih h h2

/-- The bytes of the buffer after `create_formated_name` accepts a string with a dot. -/
theorem create_formated_name_dot (name : Nat → Nat) (s : List Nat) (k : Nat)
    (hmem : 46 ∈ s) (h0 : s.indexOf 46 ≠ 0) (h1 : s.count 46 ≤ 1) (h13 : s.length ≤ 13)
    (h3 : s.length - (s.indexOf 46 + 1) ≤ 3) :
    create_formated_name name s k =
      if 8 + (s.length - (s.indexOf 46 + 1)) ≤ k ∧ k < 11 then 0x20
      else if 8 ≤ k ∧ k < 8 + (s.length - (s.indexOf 46 + 1)) then
        toupper (s.getD (s.indexOf 46 + 1 + (k - 8)) 0)
      else if s.indexOf 46 ≤ k ∧ k < 8 then 0x20
      else if k < s.indexOf 46 then replace_prohibited (toupper (s.getD k 0))
      else store name 0 0 k := by
  have h2 : 46 ∉ s.drop (s.indexOf 46 + 1) := fun h => by
    have := count_dot_two s hmem h; omega
  unfold create_formated_name
  dsimp only
  rw [find_dot_none s 0, if_pos hmem, Nat.zero_add, if_neg h0, if_neg h2]
  dsimp only
  rw [if_neg (by omega), if_neg (by simp), if_neg (by omega)]
  rw [foldl_store_range' _ _ (fun _ => 0x20),
    foldl_store_shift 8 (fun j => toupper (s.getD (s.indexOf 46 + 1 + j) 0)),
    foldl_store_range' _ _ (fun _ => 0x20),
    foldl_store_range (fun i => replace_prohibited (toupper (s.getD i 0)))]
  generalize s.indexOf 46 = dp at *
  generalize s.length = len at *
  by_cases c1 : 8 + (len - (dp + 1)) ≤ k ∧ k < 11
  · rw [if_pos (by omega), if_pos c1]
  · rw [if_neg (by omega), if_neg c1]
    by_cases c2 : 8 ≤ k ∧ k < 8 + (len - (dp + 1))
    · rw [if_pos c2, if_pos c2]
    · rw [if_neg c2, if_neg c2]
      by_cases c3 : dp ≤ k ∧ k < 8
      · rw [if_pos (by omega), if_pos c3]
      · rw [if_neg (by omega), if_neg c3]

/-- The bytes of the buffer after `create_formated_name` accepts a string without a dot. -/
theorem create_formated_name_plain (name : Nat → Nat) (s : List Nat) (k : Nat)
    (hmem : 46 ∉ s) (h13 : s.length < 13) :
    create_formated_name name s k =
      if s.length ≤ k ∧ k < 11 then 0x20
      else if k < s.length then toupper (s.getD k 0)
      else store name 0 0 k := by
  unfold create_formated_name
  dsimp only
  rw [find_dot_none s 0, if_neg hmem]
  dsimp only
  rw [if_neg (by omega), if_neg (by omega)]
  rw [foldl_store_range' _ _ (fun _ => 0x20),
    foldl_store_range (fun i => toupper (s.getD i 0))]
  by_cases c1 : s.length ≤ k ∧ k < 11
  · rw [if_pos (by omega), if_pos c1]
  · rw [if_neg (by omega), if_neg c1]

theorem base_part_length (s : List Nat) :
    (base_part s).length = s.indexOf 46 := by
  rw [base_part_eq, List.length_take]
  have : s.indexOf 46 ≤ s.length := List.indexOf_le_length
  omega

/-- C18: for a valid 8.3 name without a prohibited character in its base,
`create_formated_name` stores the base upper-cased and padded with 0x20 in bytes 0 to 7,
the extension upper-cased and padded with 0x20 in bytes 8 to 10, and no other byte. -/
theorem create_formated_name_encodes (name : Nat → Nat) (s : List Nat)
    (hvalid : valid_8_3 s) (hbase : ∀ c ∈ base_part s, c ∉ prohibited) :
    (∀ k, k < 8 → create_formated_name name s k
      = if k < (base_part s).length then toupper ((base_part s).getD k 0) else 0x20) ∧
    (∀ k, k < 3 → create_formated_name name s (8 + k)
      = if k < (ext_part s).length then toupper ((ext_part s).getD k 0) else 0x20) ∧
    (∀ k, 11 ≤ k → create_formated_name name s k = name k) := by
  obtain ⟨hcount, hb1, hb8, he3⟩ := hvalid
  rw [base_part_length] at hb1 hb8
  have hext : (ext_part s).length = s.length - (s.indexOf 46 + 1) := by
    rw [ext_part_eq, List.length_drop]
  rw [hext] at he3
  have hbget : ∀ k, k < s.indexOf 46 → (base_part s).getD k 0 = s.getD k 0 := fun k hk => by
    rw [base_part_eq]; exact getD_take_lt s _ k hk
  have heget : ∀ k, (ext_part s).getD k 0 = s.getD (s.indexOf 46 + 1 + k) 0 := fun k => by
    rw [ext_part_eq]; exact getD_drop_add s _ k
  have hbmem : ∀ k, k < s.indexOf 46 → s.getD k 0 ∉ prohibited := fun k hk => by
    apply hbase
    rw [← hbget k hk, List.getD_eq_getElem _ _ (by rw [base_part_length]; exact hk)]
    exact List.getElem_mem _
  rw [base_part_length, hext]
  by_cases hmem : 46 ∈ s
  · have hlt := indexOf_dot_lt s hmem
    have h13 : s.length ≤ 13 := by omega
    refine ⟨fun k hk => ?_, fun k hk => ?_, fun k hk => ?_⟩
    · rw [create_formated_name_dot name s k hmem (by omega) hcount h13 he3,
        if_neg (by omega), if_neg (by omega)]
      by_cases hkd : k < s.indexOf 46
      · rw [if_neg (by omega), if_pos hkd, if_pos hkd, hbget k hkd,
          replace_prohibited_of_not_mem _ (toupper_not_prohibited _ (hbmem k hkd))]
      · rw [if_pos (by omega), if_neg hkd]
    · rw [create_formated_name_dot name s (8 + k) hmem (by omega) hcount h13 he3]
      by_cases hke : k < s.length - (s.indexOf 46 + 1)
      · rw [if_neg (by omega), if_pos (by omega), if_pos hke, heget, Nat.add_sub_cancel_left]
      · rw [if_pos (by omega), if_neg hke]
    · rw [create_formated_name_dot name s k hmem (by omega) hcount h13 he3,
        if_neg (by omega), if_neg (by omega), if_neg (by omega), if_neg (by omega), store_apply,
        if_neg (by omega)]
  · have heq := indexOf_dot_eq s hmem
    rw [heq] at hb1 hb8 hbget hbmem ⊢
    refine ⟨fun k hk => ?_, fun k hk => ?_, fun k hk => ?_⟩
    · rw [create_formated_name_plain name s k hmem (by omega)]
      by_cases hkd : k < s.length
      · rw [if_neg (by omega), if_pos hkd, if_pos hkd, hbget k hkd]
      · rw [if_pos (by omega), if_neg hkd]
    · rw [create_formated_name_plain name s (8 + k) hmem (by omega), if_pos (by omega),
        if_neg (by omega)]
    · rw [create_formated_name_plain name s k hmem (by omega), if_neg (by omega),
        if_neg (by omega), store_apply, if_neg (by omega)]

/-- Witness for C18: the string "ab.c" is encoded as "AB      C  ". -/
theorem create_formated_name_encodes_witness :
    (valid_8_3 [97, 98, 46, 99] ∧ ∀ c ∈ base_part [97, 98, 46, 99], c ∉ prohibited) ∧
    (List.range 11).map (create_formated_name (fun _ => 7) [97, 98, 46, 99])
      = [65, 66, 32, 32, 32, 32, 32, 32, 67, 32, 32] ∧
    create_formated_name (fun _ => 7) [97, 98, 46, 99] 11 = 7 := by
  have h := create_formated_name_encodes (fun _ => 7) [97, 98, 46, 99] (by decide) (by decide)
  refine ⟨by decide, by decide, h.2.2 11 (Nat.le_refl 11)⟩
/-- C17 fails: `create_formated_name` accepts "ABCDEFGHI", whose base has 9 characters, and
"ABCDEFGHI.T", whose base has 9 characters before the dot: byte 0 of the result is 'A', not
0x00. No test of the source compares the base length with 8; in the second string the
extension overwrites byte 8 of the base. -/
theorem create_formated_name_long_base :
    (base_part [65, 66, 67, 68, 69, 70, 71, 72, 73]).length = 9 ∧
    (List.range 11).map (formated [65, 66, 67, 68, 69, 70, 71, 72, 73])
      = [65, 66, 67, 68, 69, 70, 71, 72, 73, 32, 32] ∧
    (base_part [65, 66, 67, 68, 69, 70, 71, 72, 73, 46, 84]).length = 9 ∧
    (List.range 11).map (formated [65, 66, 67, 68, 69, 70, 71, 72, 73, 46, 84])
      = [65, 66, 67, 68, 69, 70, 71, 72, 84, 32, 32] := by
  decide

/-- C19 fails for names without a dot: "A+B" is accepted and encoded as "A+B" followed by
spaces, the prohibited '+' (43) of the base is kept. The replacement loop of the source is
inside the branch for names with a dot only: "A+B.T" is encoded with '_' (95). -/
theorem create_formated_name_keeps_prohibited :
    43 ∈ prohibited ∧ base_part [65, 43, 66] = [65, 43, 66] ∧
    (List.range 11).map (formated [65, 43, 66])
      = [65, 43, 66, 32, 32, 32, 32, 32, 32, 32, 32] ∧
    (List.range 11).map (formated [65, 43, 66, 46, 84])
      = [65, 95, 66, 32, 32, 32, 32, 32, 84, 32, 32] := by
  decide

/-- C20 fails for extensions of one or two characters: "A.T" is a valid 8.3 name and is
encoded as "A       T  ", for which `print_name` emits "A.T" followed by two spaces. The
extension loop of the source stops at a byte equal to 20, not 0x20. -/
theorem print_name_pads_extension :
    valid_8_3 [65, 46, 84] ∧ base_part [65, 46, 84] = [65] ∧ ext_part [65, 46, 84] = [84] ∧
    (List.range 11).map (formated [65, 46, 84]) = [65, 32, 32, 32, 32, 32, 32, 32, 84, 32, 32] ∧
    print_name (formated [65, 46, 84]) = [65, 46, 84, 32, 32] ∧
    print_name (formated [65, 46, 84, 88, 84]) = [65, 46, 84, 88, 84] := by
  decide

/-! ### Error returns of `rm`, `rmdir`, `touch` and `mkdir` -/

theorem formated_valid_of_match (entry_name : List Nat) (e : DirEntry)
    (hlive : live e = true) (hmatch : name_matches (formated entry_name) e = true) :
    formated entry_name 0 ≠ 0 := by
  rw [(name_matches_iff _ _).mp hmatch 0 (by decide)]
  exact ((live_iff e).mp hlive).2.1

/-- C14: when the first live entry named `entry_name` is slot `p`, `rm` on a directory and
`rmdir` on a non-directory return after printing one line; the session is otherwise the
one before the call (image, hence FAT, cached entries and directory stack included). -/
theorem wrong_kind_rejected (fuel : Nat) (bs : boot_sector) (s : Session)
    (entry_name : List Nat) (p : Nat)
    (hp : p < s.directory_stack.quantity)
    (hbefore : ∀ i, i < p → terminator (s.entry i) = false)
    (hlive : live (s.entry p) = true)
    (hmatch : name_matches (formated entry_name) (s.entry p) = true)
    (hfirst : ∀ i, i < p → live (s.entry i) = true →
      name_matches (formated entry_name) (s.entry i) = false) :
    (is_directory (s.entry p) = true →
      rm fuel bs s entry_name = some (s.print (Msg.cant_remove_folder entry_name))) ∧
    (is_directory (s.entry p) = false →
      rmdir fuel bs s entry_name = some (s.print (Msg.cant_remove_file entry_name))) := by
  have hname := formated_valid_of_match entry_name _ hlive hmatch
  obtain ⟨hl1, hl2, hl3⟩ := (live_iff _).mp hlive
  obtain ⟨n, hn⟩ : ∃ n, s.directory_stack.quantity = (n + 1) + p :=
    ⟨s.directory_stack.quantity - p - 1, by omega⟩
  have hskip := rm_passes_before s (formated entry_name) p hbefore hfirst
  constructor
  · intro hdir
    unfold rm rm_wrapped
    simp only [hname, if_false]
    rw [hn, rm_loop_skip fuel bs s entry_name _ 0 p (n + 1) 0 hskip, Nat.zero_add, rm_loop]
    simp only [hl1, hl2, hl3, hmatch, hdir, if_false, if_true, Bool.false_eq_true, and_self]
  · intro hdir
    unfold rmdir
    simp only [hname, if_false]
    rw [hn, rmdir_loop_skip fuel bs s entry_name _ p (n + 1) 0 hskip, Nat.zero_add, rmdir_loop]
    simp only [hl1, hl2, hl3, hmatch, hdir, if_false, if_true, Bool.false_eq_true,
      Bool.not_false]

theorem touch_search_exists (name : Nat → Nat) (entries : List DirEntry) (i : Nat)
    (hlive : live (entries.getD i zero_entry) = true)
    (hmatch : name_matches name (entries.getD i zero_entry) = true) :
    ∀ (n j : Nat) (entry_pos : Option Nat), j ≤ i → i < j + n →
      (∀ k, j ≤ k → k < i → terminator (entries.getD k zero_entry) = false) →
      touch_search name entries n j entry_pos = none := by
  obtain ⟨hl1, hl2, hl3⟩ := (live_iff _).mp hlive
  intro n
  induction n with
  | zero => intro j _ h1 h2; omega
  | succ n ih =>
    intro j entry_pos h1 h2 hb
    rw [touch_search]
    by_cases hji : j = i
    · subst hji
      simp only [hl1, hl2, hl3, hmatch, if_false, if_true, Bool.false_eq_true, false_and]
    · have hrec : ∀ ep, touch_search name entries n (j + 1) ep = none := fun ep =>
        ih (j + 1) ep (by omega) (by omega) (fun k hk1 hk2 => hb k (by omega) hk2)
      have ht := (terminator_false_iff _).mp (hb j (Nat.le_refl j) (by omega))
      split_ifs with c1 c2 c3 c4
      · exact hrec _
      · rcases ht with h | h
        · exact absurd h c1
        · exact absurd c2 h
      · exact hrec _
      · rfl
      · exact hrec _


/-- C15: when a live entry that is part of the current directory (no terminator before it)
carries the encoding of `file_name`, `touch` and `mkdir` print "Already exists" and return
0; the image (hence the FAT), the cached entries and the stack are the ones before the
call, and `allocate_clusters` has not run. -/
theorem create_existing_rejected (fuel : Nat) (bs : boot_sector) (now : tm) (s : Session)
    (file_name : List Nat) (i : Nat)
    (hi : i < s.directory_stack.quantity)
    (hbefore : ∀ j, j < i → terminator (s.entry j) = false)
    (hlive : live (s.entry i) = true)
    (hmatch : name_matches (formated file_name) (s.entry i) = true) :
    touch_wrapper fuel bs now s file_name ATTR_ARCHIVE
      = some (0, s.print (Msg.already_exists Command.touch file_name)) ∧
    touch_wrapper fuel bs now s file_name ATTR_DIRECTORY
      = some (0, s.print (Msg.already_exists Command.mkdir file_name)) ∧
    touch fuel bs now s file_name
      = some (s.print (Msg.already_exists Command.touch file_name)) ∧
    mkdir fuel bs now s file_name
      = some (s.print (Msg.already_exists Command.mkdir file_name)) := by
  have hname := formated_valid_of_match file_name _ hlive hmatch
  have hsearch : touch_search (formated file_name) s.directory_stack.entries
      s.directory_stack.quantity 0 none = none :=
    touch_search_exists _ _ i hlive hmatch _ 0 none (Nat.zero_le i) (by omega)
      (fun k _ hk => hbefore k hk)
  have h1 : touch_wrapper fuel bs now s file_name ATTR_ARCHIVE
      = some (0, s.print (Msg.already_exists Command.touch file_name)) := by
    unfold touch_wrapper
    rw [if_neg (by decide)]
    simp only [hname, if_false, hsearch, if_true]
  have h2 : touch_wrapper fuel bs now s file_name ATTR_DIRECTORY
      = some (0, s.print (Msg.already_exists Command.mkdir file_name)) := by
    unfold touch_wrapper
    rw [if_neg (by decide)]
    simp only [hname, if_false, hsearch]
    rfl
  refine ⟨h1, h2, ?_, ?_⟩
  · unfold touch; rw [h1]; rfl
  · unfold mkdir; rw [h2]; rfl

/-- Witness for C15: `session_file` holds the live file A in slot 1. -/
theorem create_existing_rejected_witness :
    (live (session_file.entry 1) = true ∧
      name_matches (formated [65]) (session_file.entry 1) = true) ∧
    touch 5 bs_small noon session_file [65]
      = some (session_file.print (Msg.already_exists Command.touch [65])) ∧
    mkdir 5 bs_small noon session_file [65]
      = some (session_file.print (Msg.already_exists Command.mkdir [65])) :=
  ⟨by decide, (create_existing_rejected 5 bs_small noon session_file [65] 1 (by decide)
    (by decide) (by decide) (by decide)).2.2⟩

/-! ### `rename` -/

theorem rename_search_skip_none (entry_name new_name : List Nat) (old_name new_entry_name : Nat → Nat)
    (entries : List DirEntry) :
    ∀ (k n i : Nat),
      (∀ j, i ≤ j → j < i + k →
        (entries.getD j zero_entry 0 = 0xE5 ∨ is_long_name (entries.getD j zero_entry) = true ∨
          (entries.getD j zero_entry 0 ≠ 0x00 ∧
            name_matches old_name (entries.getD j zero_entry) = false ∧
            name_matches new_entry_name (entries.getD j zero_entry) = false))) →
      rename_search entry_name new_name old_name new_entry_name entries (n + k) i none
        = rename_search entry_name new_name old_name new_entry_name entries n (i + k) none := by
  intro k
  induction k with
  | zero => intro n i _; rfl
  | succ k ih =>
    intro n i h
    have hi := h i (Nat.le_refl _) (by omega)
    have hrest := ih n (i + 1) (fun j h1 h2 => h j (by omega) (by omega))
    rw [show n + (k + 1) = (n + k) + 1 by omega, show i + (k + 1) = i + 1 + k by omega, ← hrest]
    rw [rename_search]
    rcases hi with h1 | h1 | ⟨h1, h2, h3⟩
    · simp only [h1, if_true]
    · by_cases h0 : entries.getD i zero_entry 0 = 0xE5
      · simp only [h0, if_true]
      · simp only [h0, h1, if_false, if_true]
    · by_cases h0 : entries.getD i zero_entry 0 = 0xE5
      · simp only [h0, if_true]
      · by_cases h4 : is_long_name (entries.getD i zero_entry) = true
        · simp only [h0, h4, if_false, if_true]
        · simp only [h0, h4, h1, h2, h3, if_false, Bool.false_eq_true, false_and]

theorem rename_search_skip_some (entry_name new_name : List Nat) (old_name new_entry_name : Nat → Nat)
    (entries : List DirEntry) (p : Nat) :
    ∀ (k i : Nat),
      (∀ j, i ≤ j → j < i + k →
        (entries.getD j zero_entry 0 = 0xE5 ∨ is_long_name (entries.getD j zero_entry) = true ∨
          (name_matches old_name (entries.getD j zero_entry) = false ∧
            name_matches new_entry_name (entries.getD j zero_entry) = false))) →
      rename_search entry_name new_name old_name new_entry_name entries k i (some p)
        = Sum.inr (some p) := by
  intro k
  induction k with
  | zero => intro i _; rfl
  | succ k ih =>
    intro i h
    have hi := h i (Nat.le_refl _) (by omega)
    have hrest := ih (i + 1) (fun j h1 h2 => h j (by omega) (by omega))
    rw [rename_search]
    rcases hi with h1 | h1 | ⟨h2, h3⟩
    · simp only [h1, if_true]; exact hrest
    · by_cases h0 : entries.getD i zero_entry 0 = 0xE5
      · simp only [h0, if_true]; exact hrest
      · simp only [h0, h1, if_false, if_true]; exact hrest
    · by_cases h0 : entries.getD i zero_entry 0 = 0xE5
      · simp only [h0, if_true]; exact hrest
      · by_cases h4 : is_long_name (entries.getD i zero_entry) = true
        · simp only [h0, h4, if_false, if_true]; exact hrest
        · simp only [h0, h4, h2, h3, if_false, Bool.false_eq_true, reduceCtorEq, and_false]
          exact hrest

/-- The session `rename_dir_entry` produces when slot `p` is the only slot, deleted and
long-name slots apart, that carries the old name, no such slot carries the new name and no
0x00 slot comes before `p`. -/
theorem rename_eq (bs : boot_sector) (now : tm) (s : Session) (entry_name new_name : List Nat)
    (p : Nat)
    (hold : formated entry_name 0 ≠ 0) (hnew : formated new_name 0 ≠ 0)
    (hdiff : name_matches (formated entry_name) (formated new_name) = false)
    (hp : p < s.directory_stack.quantity)
    (hzero : ∀ j, j < p → is_long_name (s.entry j) = false → s.entry j 0 ≠ 0x00)
    (h1 : s.entry p 0 ≠ 0xE5) (h2 : is_long_name (s.entry p) = false)
    (hmatch : name_matches (formated entry_name) (s.entry p) = true)
    (honly : ∀ j, j < s.directory_stack.quantity → j ≠ p →
      s.entry j 0 = 0xE5 ∨ is_long_name (s.entry j) = true ∨
        name_matches (formated entry_name) (s.entry j) = false)
    (hfresh : ∀ j, j < s.directory_stack.quantity →
      s.entry j 0 = 0xE5 ∨ is_long_name (s.entry j) = true ∨
        name_matches (formated new_name) (s.entry j) = false) :
    rename_dir_entry bs now s entry_name new_name = some
      { s with
        disk := fwrite s.disk
          (get_entry_disk_position bs s.disk s.directory_stack.cluster p) 32
          (renamed_entry (s.entry p) (formated new_name) (fat_date now) (fat_time now))
        directory_stack :=
          { s.directory_stack with
            entries := s.directory_stack.entries.set p
              (renamed_entry (s.entry p) (formated new_name) (fat_date now) (fat_time now)) } } := by
  have h0 : s.entry p 0 ≠ 0x00 := by
    rw [← (name_matches_iff _ _).mp hmatch 0 (by decide)]; exact hold
  have hnewp : name_matches (formated new_name) (s.entry p) = false := by
    rcases hfresh p hp with h | h | h
    · exact absurd h h1
    · rw [h2] at h; exact absurd h (by decide)
    · exact h
  obtain ⟨n, hn⟩ : ∃ n, s.directory_stack.quantity = (n + 1) + p :=
    ⟨s.directory_stack.quantity - p - 1, by omega⟩
  have hsearch : rename_search entry_name new_name (formated entry_name) (formated new_name)
      s.directory_stack.entries s.directory_stack.quantity 0 none = Sum.inr (some p) := by
    rw [hn, rename_search_skip_none entry_name new_name _ _ _ p (n + 1) 0, Nat.zero_add,
      rename_search]
    · have e1 : s.directory_stack.entries.getD p zero_entry = s.entry p := rfl
      simp only [e1, h1, h2, h0, hmatch, hnewp, if_false, if_true, Bool.false_eq_true, false_and]
      apply rename_search_skip_some
      intro j hj1 hj2
      have hjq : j < s.directory_stack.quantity := by omega
      rcases honly j hjq (by omega) with h | h | h
      · exact Or.inl h
      · exact Or.inr (Or.inl h)
      · rcases hfresh j hjq with h' | h' | h'
        · exact Or.inl h'
        · exact Or.inr (Or.inl h')
        · exact Or.inr (Or.inr ⟨h, h'⟩)
    · intro j _ hj
      have hjp : j < p := by omega
      have hjq : j < s.directory_stack.quantity := by omega
      by_cases c1 : s.entry j 0 = 0xE5
      · exact Or.inl c1
      · by_cases c2 : is_long_name (s.entry j) = true
        · exact Or.inr (Or.inl c2)
        · refine Or.inr (Or.inr ⟨hzero j hjp (Bool.eq_false_iff.mpr c2), ?_, ?_⟩)
          · rcases honly j hjq (by omega) with h | h | h
            · exact absurd h c1
            · exact absurd h c2
            · exact h
          · rcases hfresh j hjq with h | h | h
            · exact absurd h c1
            · exact absurd h c2
            · exact h
  unfold rename_dir_entry
  simp only [hold, hnew, hdiff, if_false, Bool.false_eq_true, hsearch]

theorem renamed_entry_bytes (e : DirEntry) (name : Nat → Nat) (date time : Nat) :
    (∀ k, k < 11 → renamed_entry e name date time k = name k) ∧
    (∀ k, 11 ≤ k → k < 22 ∨ 26 ≤ k → renamed_entry e name date time k = e k) ∧
    renamed_entry e name date time 22 = le_byte time 0 ∧
    renamed_entry e name date time 23 = le_byte time 1 ∧
    renamed_entry e name date time 24 = le_byte date 0 ∧
    renamed_entry e name date time 25 = le_byte date 1 := by
  unfold renamed_entry
  refine ⟨fun k hk => ?_, fun k h1 h2 => ?_, ?_, ?_, ?_, ?_⟩
  · rw [set16_ne _ _ _ _ (by omega) (by omega), set16_ne _ _ _ _ (by omega) (by omega),
      set_name_lt _ _ _ hk]
  · rw [set16_ne _ _ _ _ (by omega) (by omega), set16_ne _ _ _ _ (by omega) (by omega),
      set_name_ge _ _ _ h1]
  · rw [set16_lo]
  · rw [set16_hi]
  · rw [set16_ne _ _ _ _ (by decide) (by decide), set16_lo]
  · rw [set16_ne _ _ _ _ (by decide) (by decide), set16_hi]

theorem renamed_entry_fields (e : DirEntry) (name : Nat → Nat) (date time : Nat)
    (hd : date < 65536) (ht : time < 65536) :
    DIR_WrtDate (renamed_entry e name date time) = date ∧
    DIR_WrtTime (renamed_entry e name date time) = time ∧
    DIR_Attr (renamed_entry e name date time) = DIR_Attr e ∧
    DIR_NTRes (renamed_entry e name date time) = DIR_NTRes e ∧
    DIR_CrtTimeTenth (renamed_entry e name date time) = DIR_CrtTimeTenth e ∧
    DIR_CrtTime (renamed_entry e name date time) = DIR_CrtTime e ∧
    DIR_CrtDate (renamed_entry e name date time) = DIR_CrtDate e ∧
    DIR_LstAccDate (renamed_entry e name date time) = DIR_LstAccDate e ∧
    DIR_FstClusHI (renamed_entry e name date time) = DIR_FstClusHI e ∧
    DIR_FstClusLO (renamed_entry e name date time) = DIR_FstClusLO e ∧
    DIR_FileSize (renamed_entry e name date time) = DIR_FileSize e := by
  obtain ⟨_, b, b22, b23, b24, b25⟩ := renamed_entry_bytes e name date time
  unfold DIR_WrtDate DIR_WrtTime DIR_Attr DIR_NTRes DIR_CrtTimeTenth DIR_CrtTime DIR_CrtDate
    DIR_LstAccDate DIR_FstClusHI DIR_FstClusLO DIR_FileSize get16 get32
  refine ⟨?_, ?_, ?_, ?_, ?_, ?_, ?_, ?_, ?_, ?_, ?_⟩
  · rw [b24, b25, le16_get, Nat.mod_eq_of_lt hd]
  · rw [b22, b23, le16_get, Nat.mod_eq_of_lt ht]
  · exact b 11 (by decide) (by decide)
  · exact b 12 (by decide) (by decide)
  · exact b 13 (by decide) (by decide)
  · rw [b 14 (by decide) (by decide), b 15 (by decide) (by decide)]
  · rw [b 16 (by decide) (by decide), b 17 (by decide) (by decide)]
  · rw [b 18 (by decide) (by decide), b 19 (by decide) (by decide)]
  · rw [b 20 (by decide) (by decide), b 21 (by decide) (by decide)]
  · rw [b 26 (by decide) (by decide), b 27 (by decide) (by decide)]
  · rw [b 28 (by decide) (by decide), b 29 (by decide) (by decide),
      b 30 (by decide) (by decide), b 31 (by decide) (by decide)]

/-- What a `rename` does when slot `p` is the only slot, deleted and long-name slots apart,
that carries the old name and no such slot carries the new name: it prints nothing; slot
`p` gets the new name and the write date and time of the clock and keeps its other fields;
the other cached slots, the stack and, for a slot in the data region, every FAT entry are
unchanged. -/
theorem rename_updates_entry (bs : boot_sector) (now : tm) (s : Session)
    (entry_name new_name : List Nat) (p : Nat)
    (hlen : s.directory_stack.quantity = s.directory_stack.entries.length)
    (hold : formated entry_name 0 ≠ 0) (hnew : formated new_name 0 ≠ 0)
    (hdiff : name_matches (formated entry_name) (formated new_name) = false)
    (hp : p < s.directory_stack.quantity)
    (hzero : ∀ j, j < p → is_long_name (s.entry j) = false → s.entry j 0 ≠ 0x00)
    (h1 : s.entry p 0 ≠ 0xE5) (h2 : is_long_name (s.entry p) = false)
    (hmatch : name_matches (formated entry_name) (s.entry p) = true)
    (honly : ∀ j, j < s.directory_stack.quantity → j ≠ p →
      s.entry j 0 = 0xE5 ∨ is_long_name (s.entry j) = true ∨
        name_matches (formated entry_name) (s.entry j) = false)
    (hfresh : ∀ j, j < s.directory_stack.quantity →
      s.entry j 0 = 0xE5 ∨ is_long_name (s.entry j) = true ∨
        name_matches (formated new_name) (s.entry j) = false)
    (hpos : fat_start bs + 2 * fat_bytes bs
      ≤ get_entry_disk_position bs s.disk s.directory_stack.cluster p) :
    ∃ s', rename_dir_entry bs now s entry_name new_name = some s' ∧ s'.out = s.out ∧
      (∀ k, k < 11 → s'.entry p k = formated new_name k) ∧
      DIR_WrtDate (s'.entry p) = fat_date now ∧ DIR_WrtTime (s'.entry p) = fat_time now ∧
      DIR_Attr (s'.entry p) = DIR_Attr (s.entry p) ∧
      DIR_CrtTime (s'.entry p) = DIR_CrtTime (s.entry p) ∧
      DIR_CrtDate (s'.entry p) = DIR_CrtDate (s.entry p) ∧
      DIR_LstAccDate (s'.entry p) = DIR_LstAccDate (s.entry p) ∧
      DIR_FstClusHI (s'.entry p) = DIR_FstClusHI (s.entry p) ∧
      DIR_FstClusLO (s'.entry p) = DIR_FstClusLO (s.entry p) ∧
      DIR_FileSize (s'.entry p) = DIR_FileSize (s.entry p) ∧
      (∀ i, i ≠ p → s'.entry i = s.entry i) ∧
      s'.directory_stack.quantity = s.directory_stack.quantity ∧
      s'.directory_stack.cluster = s.directory_stack.cluster ∧ s'.previous = s.previous ∧
      (∀ j, in_fat bs j →
        fat_entry bs s'.disk j = fat_entry bs s.disk j ∧
        fat2_entry bs s'.disk j = fat2_entry bs s.disk j) := by
  have hren := rename_eq bs now s entry_name new_name p hold hnew hdiff hp hzero h1 h2 hmatch
    honly hfresh
  obtain ⟨g0, g1, g2, g3, g4, g5, g6, g7, g8, g9, g10⟩ :=
    renamed_entry_fields (s.entry p) (formated new_name) (fat_date now) (fat_time now)
      (fat_date_lt now) (fat_time_lt now)
  have gname := (renamed_entry_bytes (s.entry p) (formated new_name) (fat_date now)
    (fat_time now)).1
  generalize renamed_entry (s.entry p) (formated new_name) (fat_date now) (fat_time now) = e
    at hren g0 g1 g2 g3 g4 g5 g6 g7 g8 g9 g10 gname
  have hpl : p < s.directory_stack.entries.length := by rw [← hlen]; exact hp
  have hent : Session.entry
      { s with
        disk := fwrite s.disk
          (get_entry_disk_position bs s.disk s.directory_stack.cluster p) 32 e
        directory_stack :=
          { s.directory_stack with entries := s.directory_stack.entries.set p e } } p = e :=
    getD_set_self _ _ _ hpl
  refine ⟨_, hren, rfl, ?_, ?_, ?_, ?_, ?_, ?_, ?_, ?_, ?_, ?_, ?_, rfl, rfl, rfl, ?_⟩
  · rw [hent]; exact gname
  · rw [hent]; exact g0
  · rw [hent]; exact g1
  · rw [hent]; exact g2
  · rw [hent]; exact g5
  · rw [hent]; exact g6
  · rw [hent]; exact g7
  · rw [hent]; exact g8
  · rw [hent]; exact g9
  · rw [hent]; exact g10
  · intro i hi
    exact getD_set_ne _ _ _ _ hi
  · intro j hj
    exact fwrite_data_fat bs s.disk _ 32 e j hj hpos

/-- An instance of `rename_updates_entry`: renaming the live file A of `session_file`
(slot 1, first cluster 3) to C. -/
theorem rename_updates_entry_witness :
    ∃ s', rename_dir_entry bs_small noon session_file [65] [67] = some s' ∧
      s'.entry 1 0 = 67 ∧ first_cluster (s'.entry 1) = 3 ∧ s'.entry 0 = session_file.entry 0 := by
  obtain ⟨s', h1, _, h2, _, _, _, _, _, _, h3, h4, _, h5, _⟩ :=
    rename_updates_entry bs_small noon session_file [65] [67] 1 (by decide) (by decide)
      (by decide) (by decide) (by decide) (by decide) (by decide) (by decide) (by decide)
      (by decide) (by decide) (by decide)
  refine ⟨s', h1, ?_, ?_, h5 0 (by decide)⟩
  · rw [h2 0 (by decide)]; decide
  · unfold first_cluster
    rw [h3, h4]
    decide

set_option maxRecDepth 100000 in
/-- C11 fails on `img_twin`: the only live entry of the root directory is the file A in
slot 0, the terminator is slot 1, and slot 2 holds stale bytes that carry the name A too.
`rename A B` prints nothing, but the loop goes on after the terminator once it has found A
and the last match wins: slot 2 is renamed and flushed, the live entry keeps the name A. -/
theorem rename_changes_stale_slot :
    (read_disk 5 bs_small img_twin).map
        (fun s => (live_entries s.directory_stack).map fun e => (e 0, first_cluster e))
      = some [(65, 0)] ∧
    ((read_disk 5 bs_small img_twin).bind fun s =>
        rename_dir_entry bs_small noon s [65] [66]).map
      (fun s => (s.out, [s.entry 0 0, s.entry 1 0, s.entry 2 0, first_cluster (s.entry 2),
        s.disk 17408, s.disk 17472]))
      = some ([], [65, 0, 66, 5, 65, 66]) := by
  decide

set_option maxRecDepth 100000 in
/-- C12 fails on `img_full_dir`: the 16 slots of the root directory are the live files
A to P, so the directory has no 0x00 slot and no entry named X. The loop of
`rename X Y` ends with `entry_pos == -1` without an error line, and the function goes on
to store the new name through `entries[-1]`. -/
theorem rename_missing_unreported :
    (read_disk 5 bs_small img_full_dir).map
        (fun s => ([s.directory_stack.quantity, (live_entries s.directory_stack).length],
          (List.range 16).all fun i => !name_matches (formated [88]) (s.entry i),
          rename_search [88] [89] (formated [88]) (formated [89]) s.directory_stack.entries
            s.directory_stack.quantity 0 none))
      = some ([16, 16], true, Sum.inr none) ∧
    formated [88] 0 ≠ 0 ∧ formated [89] 0 ≠ 0 ∧
    name_matches (formated [88]) (formated [89]) = false ∧
    ((read_disk 5 bs_small img_full_dir).bind fun s =>
        rename_dir_entry bs_small noon s [88] [89]).isNone = true := by
  decide

/-! ### Entering a directory along its chain -/

/-- The session after `cd` into the directory of slot `p` whose cluster chain is `ds`. -/
theorem cd_eq_chain (fuel : Nat) (bs : boot_sector) (s : Session) (folder : List Nat)
    (p : Nat) (ds : List Nat)
    (hname : formated folder 0 ≠ 0)
    (hp : p < s.directory_stack.quantity)
    (hbefore : ∀ j, j < p →
      s.entry j 0 ≠ 0x00 ∧
      (s.entry j 0 = 0xE5 ∨ is_long_name (s.entry j) = true ∨
        is_directory (s.entry j) = false ∨ name_matches (formated folder) (s.entry j) = false))
    (h0 : s.entry p 0 ≠ 0x00) (h1 : s.entry p 0 ≠ 0xE5)
    (h2 : is_long_name (s.entry p) = false) (h3 : is_directory (s.entry p) = true)
    (h4 : name_matches (formated folder) (s.entry p) = true)
    (hhead : ds.head? = some (first_cluster (s.entry p)))
    (hc : first_cluster (s.entry p) ≠ END_OF_CHAIN)
    (hlinked : linked bs s.disk ds = true)
    (hfuel : ds.length < fuel) :
    cd fuel bs s folder = some
      { s with
        directory_stack :=
          { entries := chain_slots bs s.disk ds
            quantity := (chain_slots bs s.disk ds).length
            name := (create_directory_struct (s.entry p)).name
            cluster := first_cluster (s.entry p)
            entries_ptr := Pointer.allocated }
        previous := s.directory_stack :: s.previous
        directory_stack_count := (s.directory_stack_count + 1) % 2 ^ 32 } := by
  have hd1 : folder ≠ [46] := fun h => hname (h ▸ formated_dot.1)
  have hd2 : folder ≠ [46, 46] := fun h => hname (h ▸ formated_dot.2)
  obtain ⟨n, hn⟩ : ∃ n, s.directory_stack.quantity = (n + 1) + p :=
    ⟨s.directory_stack.quantity - p - 1, by omega⟩
  have hq : cd_search (formated folder) s.directory_stack.entries s.directory_stack.quantity 0
      = some p := by
    conv_lhs => rw [hn]
    rw [cd_search_skip _ _ p (n + 1) 0 (fun j _ hj => hbefore j (by omega)), Nat.zero_add]
    exact cd_search_found _ _ n p h0 h1 h2 h3 h4
  unfold cd cd_wrapper
  rw [if_neg hd1, if_neg hd2]
  dsimp only
  rw [if_neg hname, hq]
  dsimp only
  rw [read_dir_null _ _ _ rfl]
  dsimp only
  rw [read_dir_loop_chain bs s.disk ds fuel _ [] hhead hc hlinked hfuel]
  simp only [Option.map_some', create_directory_struct, if_neg hc]
  rfl

set_option maxRecDepth 100000 in
/-- Witness for C14: on `session_tree`, `rm D` meets the directory D in slot 1 and
`rmdir F` meets the file F in slot 0. -/
theorem wrong_kind_rejected_witness :
    (live (session_tree.entry 1) = true ∧ is_directory (session_tree.entry 1) = true ∧
      name_matches (formated [68]) (session_tree.entry 1) = true ∧
      live (session_tree.entry 0) = true ∧ is_directory (session_tree.entry 0) = false ∧
      name_matches (formated [70]) (session_tree.entry 0) = true) ∧
    rm 5 bs_small session_tree [68] = some (session_tree.print (Msg.cant_remove_folder [68])) ∧
    rmdir 5 bs_small session_tree [70]
      = some (session_tree.print (Msg.cant_remove_file [70])) :=
  ⟨by decide,
    (wrong_kind_rejected 5 bs_small session_tree [68] 1 (by decide) (by decide) (by decide)
      (by decide) (by decide)).1 (by decide),
    (wrong_kind_rejected 5 bs_small session_tree [70] 0 (by decide) (by decide) (by decide)
      (by decide) (by decide)).2 (by decide)⟩

/-! ### The read-only commands -/

set_option maxRecDepth 100000 in
/-- C24 (code at the failing input): at the root `pwd` prints "/" and a newline. After
`mkdir x; cd x` (a valid one-character name without extension) `pwd` prints "/", "X", seven
NUL bytes and the newline: `print_name` is applied to the NUL-terminated `name` of the frame
and stops its base loop only at a space or at index 8. A name of eight characters is printed
without extra bytes. -/
theorem pwd_prints_nul_bytes :
    (read_disk 5 bs_small img_slot).bind pwd = some [47, 10] ∧
    valid_8_3 [120] ∧ ext_part [120] = [] ∧
    (((read_disk 5 bs_small img_slot).bind fun s => mkdir 5 bs_small noon s [120]).bind
        fun s => (cd 5 bs_small s [120]).bind pwd)
      = some [47, 88, 0, 0, 0, 0, 0, 0, 0, 10] ∧
    (((read_disk 5 bs_small img_slot).bind fun s =>
        mkdir 5 bs_small noon s [97, 98, 99, 100, 101, 102, 103, 104]).bind
        fun s => (cd 5 bs_small s [97, 98, 99, 100, 101, 102, 103, 104]).bind pwd)
      = some [47, 65, 66, 67, 68, 69, 70, 71, 72, 10] := by
  decide

set_option maxRecDepth 100000 in
/-- C25 (as stated) fails: the root directory of `img_label` holds a volume label (attribute
0x08) in slot 0 and zero bytes after it. `ls` prints the header and then a line for the
label, flagged as a file: its loop skips deleted and long-name slots only. -/
theorem ls_lists_volume_label :
    (read_disk 5 bs_small img_label).map
        (fun s => (s.entry 0 0, DIR_Attr (s.entry 0), is_long_name (s.entry 0),
          (List.range' 1 15).all fun i => s.entry i 0 == 0x00))
      = some (76, 0x08, false, true) ∧
    (read_disk 5 bs_small img_label).map ls
      = some [LsLine.header,
          LsLine.entry [0, 0, 1980] [0, 0, 0] [0, 0, 1980] [0, 0, 0] [0, 0, 1980] 0 false [76]] := by
  decide

set_option maxRecDepth 100000 in
/-- C26 (code at the failing input): on `bs_small` data cluster 2 (the root directory of
`img_tree`) starts at byte 17408, where the name of the file F is stored. `cluster 2` dumps
the 512 bytes that start at byte 2 × 512 = 1024 of the image, which are zero: the code
seeks to `i * BPB_SecPerClus * BPB_BytsPerSec`, without the `− 2` and without the start of
the data region. -/
theorem cluster_dumps_from_image_start :
    data_cluster_offset bs_small 2 = 17408 ∧
    (List.range 12).map (fun k => img_tree (data_cluster_offset bs_small 2 + k))
      = [70, 32, 32, 32, 32, 32, 32, 32, 32, 32, 32, 32] ∧
    (cluster bs_small img_tree 2).map (fun l => l.1)
      = (List.range 32).map (fun linha =>
          (List.range 16).map fun coluna => img_tree (1024 + (linha * 16 + coluna))) ∧
    (cluster bs_small img_tree 2).map (fun l => l.1)
      = List.replicate 32 (List.replicate 16 0) := by
  decide

/-- C27 (code at the failing input): with two sectors per cluster the slot 0 of the
directory starting at cluster 2 belongs at byte `cluster_byte_offset 2` = 17408, and slot 1
of cluster 3 at 18464. `get_entry_disk_position` returns 34816 and 36896, and `read_dir`
loads the clusters from 34816 and 36864: both multiply the sector number of the cluster by
`BPB_SecPerClus * BPB_BytsPerSec` instead of `BPB_BytsPerSec`. -/
theorem entry_position_scales_twice :
    cluster_byte_offset bs_spc2 2 + 0 * 32 % cluster_bytes bs_spc2 = 17408 ∧
    get_entry_disk_position bs_spc2 img_spc2 2 0 = 34816 ∧
    read_dir_position bs_spc2 2 = 34816 ∧
    cluster_byte_offset bs_spc2 3 + 1 * 32 % cluster_bytes bs_spc2 = 18464 ∧
    get_entry_disk_position bs_spc2 img_spc2 3 1 = 36896 ∧
    read_dir_position bs_spc2 3 = 36864 := by
  decide

set_option maxRecDepth 100000 in
/-- C28 (code at the failing input): `img_full_dir` is an 80 KiB image whose root directory
is the well-formed chain [2], and after mounting the cache is what `read_dir` loads. The
failing `touch X` (directory full, one free cluster) prints the out-of-space line and leaves
the cache as it was, with the file A in slot 0; but the image now holds zeros in the first
four bytes of that slot, so `read_dir` on a fresh frame (a new mount of the image) loads a
slot 0 whose name starts with 0x00. -/
theorem failed_touch_breaks_cache :
    bs_small.BPB_TotSec32 * bs_small.BPB_BytsPerSec < 2 ^ 32 ∧
    directory_chain bs_small img_full_dir [2] ∧
    (read_disk 5 bs_small img_full_dir).map
        (fun s => decide (coherent bs_small s [2])) = some true ∧
    (((read_disk 5 bs_small img_full_dir).bind fun s => touch 5 bs_small noon s [88]).bind
        fun s => (read_disk 5 bs_small s.disk).map fun s' =>
          (s.out, (List.range 4).map (s.entry 0), (List.range 4).map (s'.entry 0)))
      = some ([Msg.unable_to_alocate Command.touch [88]], [65, 32, 32, 32], [0, 0, 0, 0]) := by
  decide

/-! ### The path stack -/

theorem toupper_eq_dot (c : Nat) : toupper c = 46 ↔ c = 46 := by
  unfold toupper
  split_ifs with h <;> omega

theorem toupper_idem (c : Nat) : toupper (toupper c) = toupper c := by
  unfold toupper
  split_ifs <;> omega

theorem find_dot_toupper : ∀ (s : List Nat) (i : Nat) (d : Option Nat),
    find_dot (s.map toupper) i d = find_dot s i d := by
  intro s
  induction s with
  | nil => intro i d; rfl
  | cons c rest ih =>
    intro i d
    rw [List.map_cons, find_dot, find_dot]
    simp only [toupper_eq_dot, ih]

theorem getD_map_toupper (s : List Nat) (i : Nat) :
    (s.map toupper).getD i 0 = toupper (s.getD i 0) := by
  induction s generalizing i with
  | nil => simp [toupper]
  | cons c rest ih =>
    cases i with
    | zero => simp
    | succ i => simpa using ih i

theorem create_formated_name_toupper (name : Nat → Nat) (s : List Nat) :
    create_formated_name name (s.map toupper) = create_formated_name name s := by
  unfold create_formated_name
  simp only [find_dot_toupper, List.length_map, getD_map_toupper, toupper_idem]

/-- Names that differ only in letter case have the same encoding. -/
theorem formated_case (s s' : List Nat) (h : s'.map toupper = s.map toupper) :
    formated s' = formated s := by
  unfold formated
  rw [← create_formated_name_toupper _ s', h, create_formated_name_toupper]

theorem cd_search_none (name : Nat → Nat) (entries : List DirEntry) :
    ∀ (n i : Nat),
      (∀ j, i ≤ j → j < i + n →
        (∀ j', i ≤ j' → j' < j → entries.getD j' zero_entry 0 ≠ 0x00) →
        entries.getD j zero_entry 0 ≠ 0x00 → entries.getD j zero_entry 0 ≠ 0xE5 →
        is_long_name (entries.getD j zero_entry) = false →
        is_directory (entries.getD j zero_entry) = true →
        name_matches name (entries.getD j zero_entry) = false) →
      cd_search name entries n i = none := by
  intro n
  induction n with
  | zero => intro i _; rfl
  | succ n ih =>
    intro i h
    have hrec : entries.getD i zero_entry 0 ≠ 0x00 →
        cd_search name entries n (i + 1) = none := by
      intro h0
      apply ih
      intro j hj1 hj2 hbefore
      apply h j (by omega) (by omega)
      intro j' hj'1 hj'2
      by_cases hji : j' = i
      · rw [hji]; exact h0
      · exact hbefore j' (by omega) hj'2
    rw [cd_search]
    split_ifs with c0 c1 c2 c3 c4
    · rfl
    · exact hrec c0
    · exact hrec c0
    · exact hrec c0
    · exfalso
      have hl : is_long_name (entries.getD i zero_entry) = false := Bool.eq_false_iff.mpr c2
      have hd : is_directory (entries.getD i zero_entry) = true := by
        cases hv : is_directory (entries.getD i zero_entry)
        · rw [hv] at c3; simp at c3
        · rfl
      have := h i (Nat.le_refl i) (by omega) (fun j' h1 h2 => by omega) c0 c1 hl hd
      rw [this] at c4
      exact Bool.false_ne_true c4
    · exact hrec c0

/-- C22: for a name other than "." and "..", `cd` pushes one frame exactly when the cached
directory has a slot that `cd_target` describes. If `p` is the first such slot and the
chain of its first cluster is well formed, `cd` returns with the former current frame as
parent of the new one, whose cluster is `(DIR_FstClusHI << 16) | DIR_FstClusLO` of slot `p`
and whose slots are loaded along that chain. If there is no such slot, `cd` returns with
the current frame, its parents, the count and the image as they were. Names that differ
only in letter case have the same encoding, so they resolve alike. -/
theorem cd_pushes_iff_directory_entry (fuel : Nat) (bs : boot_sector) (s : Session)
    (folder : List Nat) (hdot : folder ≠ [46]) (hdotdot : folder ≠ [46, 46]) :
    (∀ (p : Nat) (ds : List Nat), cd_target s (formated folder) p →
      (∀ j, j < p → ¬ cd_target s (formated folder) j) →
      ds.head? = some (first_cluster (s.entry p)) →
      first_cluster (s.entry p) ≠ END_OF_CHAIN →
      linked bs s.disk ds = true → ds.length < fuel →
      ∃ s', cd fuel bs s folder = some s' ∧
        s'.previous = s.directory_stack :: s.previous ∧
        s'.directory_stack.cluster
          = ((DIR_FstClusHI (s.entry p) <<< 16) ||| DIR_FstClusLO (s.entry p)) % 2 ^ 32 ∧
        s'.directory_stack.entries = chain_slots bs s.disk ds ∧
        s'.directory_stack.quantity = ds.length * max_dir_entry_per_cluster bs ∧
        s'.directory_stack_count = (s.directory_stack_count + 1) % 2 ^ 32 ∧
        s'.disk = s.disk ∧ s'.out = s.out) ∧
    ((∀ i, ¬ cd_target s (formated folder) i) →
      ∃ s', cd fuel bs s folder = some s' ∧
        s'.directory_stack = s.directory_stack ∧ s'.previous = s.previous ∧
        s'.directory_stack_count = s.directory_stack_count ∧ s'.disk = s.disk) ∧
    (∀ folder' : List Nat, folder'.map toupper = folder.map toupper →
      formated folder' = formated folder) := by
  refine ⟨?_, ?_, fun folder' h => formated_case folder folder' h⟩
  · intro p ds ht hfirst hhead hne hlinked hfuel
    obtain ⟨hp, hzero, h0, h1, h2, h3, h4⟩ := ht
    have hname : formated folder 0 ≠ 0 := by
      have := (name_matches_iff _ _).mp h4 0 (by omega)
      rw [this]; exact h0
    have hbefore : ∀ j, j < p →
        s.entry j 0 ≠ 0x00 ∧
        (s.entry j 0 = 0xE5 ∨ is_long_name (s.entry j) = true ∨
          is_directory (s.entry j) = false ∨
          name_matches (formated folder) (s.entry j) = false) := by
      intro j hj
      refine ⟨hzero j hj, ?_⟩
      by_contra hcon
      push_neg at hcon
      obtain ⟨a1, a2, a3, a4⟩ := hcon
      apply hfirst j hj
      refine ⟨by omega, fun j' hj' => hzero j' (by omega), hzero j hj, a1, ?_, ?_, ?_⟩
      · simpa using a2
      · simpa using a3
      · simpa using a4
    refine ⟨_, cd_eq_chain fuel bs s folder p ds hname hp hbefore h0 h1 h2 h3 h4 hhead hne
      hlinked hfuel, rfl, rfl, rfl, ?_, rfl, rfl, rfl⟩
    exact chain_slots_length bs s.disk ds
  · intro hnone
    unfold cd cd_wrapper
    rw [if_neg hdot, if_neg hdotdot]
    dsimp only
    by_cases hname : formated folder 0 = 0
    · rw [if_pos hname]
      exact ⟨_, rfl, rfl, rfl, rfl, rfl⟩
    · rw [if_neg hname]
      have hq : cd_search (formated folder) s.directory_stack.entries
          s.directory_stack.quantity 0 = none := by
        apply cd_search_none
        intro j _ hj hbefore h0 h1 h2 h3
        by_contra hm
        apply hnone j
        exact ⟨by omega, fun j' hj' => hbefore j' (Nat.zero_le _) hj', h0, h1, h2, h3,
          Bool.eq_true_of_not_eq_false hm⟩
      rw [hq]
      exact ⟨_, rfl, rfl, rfl, rfl, rfl⟩

set_option maxRecDepth 100000 in
/-- C22 at work on `img_tree`: `cd d` enters the directory D of slot 1 (first cluster 3);
F is a file, so `cd f` changes nothing. -/
theorem cd_pushes_iff_directory_entry_witness :
    ([100] ≠ [46] ∧ [100] ≠ [46, 46] ∧ cd_target session_tree (formated [100]) 1 ∧
      (∀ i, ¬ cd_target session_tree (formated [102]) i)) ∧
    (∃ s', cd 5 bs_small session_tree [100] = some s' ∧
      s'.previous = [session_tree.directory_stack] ∧ s'.directory_stack.cluster = 3 ∧
      s'.directory_stack_count = 1) ∧
    (∃ s', cd 5 bs_small session_tree [102] = some s' ∧
      s'.directory_stack = session_tree.directory_stack ∧ s'.previous = [] ∧
      s'.directory_stack_count = 0) := by
  have hno : ∀ i, ¬ cd_target session_tree (formated [102]) i := by
    intro i ⟨hi, _, _, _, _, h3, h4⟩
    have hi16 : i < 16 := hi
    interval_cases i <;> revert h3 h4 <;> decide
  refine ⟨⟨by decide, by decide, by decide, hno⟩, ?_, ?_⟩
  · obtain ⟨s', h, h1, h2, _, _, h3, _⟩ :=
      (cd_pushes_iff_directory_entry 5 bs_small session_tree [100] (by decide) (by decide)).1
        1 [3] (by decide) (by decide) (by decide) (by decide) (by decide) (by decide)
    exact ⟨s', h, h1, h2.trans (by decide), h3.trans (by decide)⟩
  · obtain ⟨s', h, h1, h2, h3, _⟩ :=
      (cd_pushes_iff_directory_entry 5 bs_small session_tree [102] (by decide) (by decide)).2.1
        hno
    exact ⟨s', h, h1, h2, h3⟩

/-! ### Two free clusters -/

/-- If an image `d'` holds the bytes of `e` in slot `p` of a directory chain and agrees
with `d` on every other byte of the clusters of the chain, the slots `read_dir` loads from
`d'` are those it loads from `d`, except slot `p`, which is `e`. -/
theorem reload_slot_frame (bs : boot_sector) (d d' : Disk) (cs : List Nat) (p : Nat)
    (e : DirEntry)
    (hfit : fats_addressable bs) (hspc : bs.BPB_SecPerClus < 2 ^ 8)
    (hdiv : cluster_bytes bs % 32 = 0) (hcb : 64 ≤ cluster_bytes bs) (hnodup : cs.Nodup)
    (hchain : ∀ x ∈ cs, 2 ≤ x ∧ in_fat bs x ∧ data_cluster bs x)
    (hp : p < cs.length * max_dir_entry_per_cluster bs)
    (hslot : ∀ k, k < 32 →
      d' (read_dir_position bs (cs.getD (p / max_dir_entry_per_cluster bs) 0)
        + 32 * (p % max_dir_entry_per_cluster bs) + k) = e k % 256)
    (hframe : ∀ x ∈ cs, ∀ a,
      get_cluster_offset bs x * bs.BPB_SecPerClus * bs.BPB_BytsPerSec ≤ a →
      a < get_cluster_offset bs x * bs.BPB_SecPerClus * bs.BPB_BytsPerSec + cluster_bytes bs →
      (a < read_dir_position bs (cs.getD (p / max_dir_entry_per_cluster bs) 0)
          + 32 * (p % max_dir_entry_per_cluster bs) ∨
        read_dir_position bs (cs.getD (p / max_dir_entry_per_cluster bs) 0)
          + 32 * (p % max_dir_entry_per_cluster bs) + 32 ≤ a) →
      d' a = d a)
    (i : Nat) (hi : i < cs.length * max_dir_entry_per_cluster bs) (k : Nat) (hk : k < 32) :
    (chain_slots bs d' cs).getD i zero_entry k
      = if i = p then e k % 256 % 256 else (chain_slots bs d cs).getD i zero_entry k := by
  have hcbs := cluster_bytes_slots bs hdiv
  have hepc : 0 < max_dir_entry_per_cluster bs := by omega
  have hmi : i / max_dir_entry_per_cluster bs < cs.length :=
    Nat.div_lt_of_lt_mul (by rw [Nat.mul_comm]; exact hi)
  have hmp : p / max_dir_entry_per_cluster bs < cs.length :=
    Nat.div_lt_of_lt_mul (by rw [Nat.mul_comm]; exact hp)
  have hri : i % max_dir_entry_per_cluster bs < max_dir_entry_per_cluster bs := Nat.mod_lt _ hepc
  have hrp : p % max_dir_entry_per_cluster bs < max_dir_entry_per_cluster bs := Nat.mod_lt _ hepc
  have hmemi := getD_mem cs _ hmi
  obtain ⟨hxi2, hxif, hxid⟩ := hchain _ hmemi
  obtain ⟨hxp2, hxpf, hxpd⟩ := hchain _ (getD_mem cs _ hmp)
  have hsame : i ≠ p → cs.getD (i / max_dir_entry_per_cluster bs) 0
        = cs.getD (p / max_dir_entry_per_cluster bs) 0 →
      i % max_dir_entry_per_cluster bs ≠ p % max_dir_entry_per_cluster bs := by
    intro hip hx hr
    have hq := getD_inj cs hnodup _ _ hmi hmp hx
    apply hip
    rw [← Nat.div_add_mod i (max_dir_entry_per_cluster bs),
      ← Nat.div_add_mod p (max_dir_entry_per_cluster bs), hq, hr]
  have hdiff : cs.getD (i / max_dir_entry_per_cluster bs) 0
        ≠ cs.getD (p / max_dir_entry_per_cluster bs) 0 → _ :=
    data_disjoint bs _ _ hxi2 hxp2 (in_fat_lt bs _ hfit hxif) (in_fat_lt bs _ hfit hxpf) hspc hcb
  rw [chain_slots_getD bs _ cs i hi, chain_slots_getD bs d cs i hi]
  unfold fread_entry
  by_cases hip : i = p
  · subst hip
    rw [if_pos rfl, hslot k hk]
  · rw [if_neg hip]
    congr 1
    have hfr := hframe _ hmemi
    rw [(read_dir_position_eq bs _ hxid hcb).1, (read_dir_position_eq bs _ hxpd hcb).1] at *
    generalize cs.getD (i / max_dir_entry_per_cluster bs) 0 = xi at *
    generalize cs.getD (p / max_dir_entry_per_cluster bs) 0 = xp at *
    generalize i % max_dir_entry_per_cluster bs = ri at *
    generalize p % max_dir_entry_per_cluster bs = rp at *
    by_cases hx : xi = xp
    · have := hsame hip hx
      subst hx
      generalize get_cluster_offset bs xi * bs.BPB_SecPerClus * bs.BPB_BytsPerSec = Di at *
      exact hfr _ (by omega) (by omega) (by omega)
    · have := hdiff hx
      generalize get_cluster_offset bs xi * bs.BPB_SecPerClus * bs.BPB_BytsPerSec = Di at *
      generalize get_cluster_offset bs xp * bs.BPB_SecPerClus * bs.BPB_BytsPerSec = Dp at *
      exact hfr _ (by omega) (by omega) (by omega)

/-- The slots `read_dir` loads along the chain after `touch` stored `e` in slot `p`. -/
theorem touch_reload_slot (bs : boot_sector) (d : Disk) (cs : List Nat) (c p : Nat)
    (e : DirEntry)
    (hfit : fats_addressable bs) (hspc : bs.BPB_SecPerClus < 2 ^ 8)
    (hdiv : cluster_bytes bs % 32 = 0) (hcb : 64 ≤ cluster_bytes bs)
    (hc : in_fat bs c) (hnodup : cs.Nodup)
    (hchain : ∀ x ∈ cs, 2 ≤ x ∧ in_fat bs x ∧ data_cluster bs x)
    (hp : p < cs.length * max_dir_entry_per_cluster bs)
    (i : Nat) (hi : i < cs.length * max_dir_entry_per_cluster bs) (k : Nat) (hk : k < 32) :
    (chain_slots bs
        (fwrite (write_in_fat bs d c END_OF_CHAIN)
          (read_dir_position bs (cs.getD (p / max_dir_entry_per_cluster bs) 0)
            + 32 * (p % max_dir_entry_per_cluster bs)) 32 e)
        cs).getD i zero_entry k
      = if i = p then e k % 256 % 256 else (chain_slots bs d cs).getD i zero_entry k := by
  have hcfit : fat2_entry_offset bs c < 2 ^ 32 := by
    have := in_fat_fit bs c hfit hc; omega
  apply reload_slot_frame bs d _ cs p e hfit hspc hdiv hcb hnodup hchain hp _ _ i hi k hk
  · intro k hk
    exact fwrite_inside _ _ _ _ _ hk
  · intro x hx a ha1 _ hout
    have hd := (hchain x hx).2.2.1
    rw [fwrite_outside _ _ _ _ _ hout]
    apply write_in_fat_outside bs d c END_OF_CHAIN a hcfit
    · unfold fat_entry_offset; unfold in_fat at hc; omega
    · unfold fat2_entry_offset fat_entry_offset; unfold in_fat at hc; omega

theorem unused_after_zero_set (L L' : List DirEntry) (p v : Nat)
    (hlen : L'.length = L.length)
    (hL' : ∀ i, i < L.length →
      L'.getD i zero_entry 0 = if i = p then v else L.getD i zero_entry 0)
    (hv : v ≠ 0x00) (hnz : ∀ i, i < p → L.getD i zero_entry 0 ≠ 0x00)
    (hinv : unused_after_zero L) : unused_after_zero L' := by
  intro j hj i hij h0
  rw [hlen] at hj
  rw [hL' i (by omega)] at h0
  by_cases hip : i = p
  · rw [if_pos hip] at h0
    exact absurd h0 hv
  · rw [if_neg hip] at h0
    have hpi : p < i := by
      by_contra hcon
      exact hnz i (by omega) h0
    rw [hL' j hj, if_neg (by omega)]
    exact hinv j hj i hij h0

/-! ### The cache after a stored slot -/

/-- The cache and the image agree again after slot `p` was set to `e` in both, and the
directory keeps its unused tail when no slot before `p` has status byte 0x00. -/
theorem cache_after_store (bs : boot_sector) (s : Session) (D : Disk) (cs : List Nat)
    (p : Nat) (e : DirEntry)
    (hcoh : coherent bs s cs) (hp : p < s.directory_stack.quantity)
    (helt : ∀ k, k < 32 → e k < 256) (he0 : e 0 ≠ 0x00)
    (hslots : ∀ i, i < cs.length * max_dir_entry_per_cluster bs → ∀ k, k < 32 →
      (chain_slots bs D cs).getD i zero_entry k
        = if i = p then e k % 256 % 256 else (chain_slots bs s.disk cs).getD i zero_entry k)
    (hnozero : ∀ i, i < p → s.entry i 0 ≠ 0x00)
    (hinv : unused_after_zero (chain_slots bs s.disk cs)) :
    coherent bs
      { s with
        disk := D
        directory_stack :=
          { s.directory_stack with entries := s.directory_stack.entries.set p e } } cs ∧
    unused_after_zero (chain_slots bs D cs) := by
  obtain ⟨hlen, hq, hcohb⟩ := hcoh
  have hmod : ∀ k, k < 32 → e k % 256 % 256 = e k := fun k hk => by
    rw [Nat.mod_mod, Nat.mod_eq_of_lt (helt k hk)]
  refine ⟨⟨?_, hq, ?_⟩, ?_⟩
  · show s.directory_stack.quantity = (s.directory_stack.entries.set p e).length
    rw [List.length_set]
    exact hlen
  · intro i hi k hk
    have hi' : i < cs.length * max_dir_entry_per_cluster bs := by rw [← hq]; exact hi
    show (s.directory_stack.entries.set p e).getD i zero_entry k
      = (chain_slots bs D cs).getD i zero_entry k
    rw [hslots i hi' k hk]
    by_cases hip : i = p
    · rw [if_pos hip, hip, getD_set_self _ _ _ (by rw [← hlen]; exact hp), hmod k hk]
    · rw [if_neg hip, getD_set_ne _ _ _ _ hip]
      exact hcohb i hi k hk
  · apply unused_after_zero_set (chain_slots bs s.disk cs) (chain_slots bs D cs) p (e 0)
    · rw [chain_slots_length, chain_slots_length]
    · intro i hi
      rw [chain_slots_length] at hi
      rw [hslots i hi 0 (by decide), hmod 0 (by decide)]
    · exact he0
    · intro i hi
      rw [← hcohb i (by omega) 0 (by decide)]
      exact hnozero i hi
    · exact hinv

/-! ### Reuse of a deleted slot -/

/-- With one sector per cluster the offsets the code uses are the ones of the spec: for a
well-formed chain in the data region below 4 GiB, `get_entry_disk_position` returns
`cluster_byte_offset` of the cluster reached plus the offset inside the cluster, and
`read_dir` loads that cluster from `cluster_byte_offset`. -/
theorem entry_position_one_sector (bs : boot_sector) (d : Disk) (cs : List Nat) (cl p : Nat)
    (hspc : bs.BPB_SecPerClus = 1)
    (hfds : bs.BPB_RsvdSecCnt + bs.BPB_NumFATs * bs.BPB_FATSz32 < 2 ^ 32)
    (hhead : cs.head? = some cl) (hlinked : linked bs d cs = true)
    (hdata : ∀ x ∈ cs, data_cluster bs x ∧ 2 ≤ x ∧ x < 2 ^ 32)
    (hdiv : cluster_bytes bs % 32 = 0) (hcb : 64 ≤ cluster_bytes bs)
    (hp : p < cs.length * max_dir_entry_per_cluster bs) :
    get_entry_disk_position bs d cl p
      = cluster_byte_offset bs ((get_cluster_info bs d)^[p * 32 / cluster_bytes bs] cl)
        + p * 32 % cluster_bytes bs ∧
    read_dir_position bs ((get_cluster_info bs d)^[p * 32 / cluster_bytes bs] cl)
      = cluster_byte_offset bs ((get_cluster_info bs d)^[p * 32 / cluster_bytes bs] cl) := by
  have hcbs := cluster_bytes_slots bs hdiv
  have hm : p / max_dir_entry_per_cluster bs < cs.length :=
    Nat.div_lt_of_lt_mul (by rw [Nat.mul_comm]; exact hp)
  obtain ⟨hx, hx2, hx32⟩ := hdata _ (getD_mem cs _ hm)
  have hfd : first_data_sector bs = bs.BPB_RsvdSecCnt + bs.BPB_NumFATs * bs.BPB_FATSz32 := by
    unfold first_data_sector
    rw [Nat.mod_eq_of_lt (a := bs.BPB_NumFATs * bs.BPB_FATSz32) (by omega),
      Nat.mod_eq_of_lt hfds]
  have hr : read_dir_position bs (cs.getD (p / max_dir_entry_per_cluster bs) 0)
      = cluster_byte_offset bs (cs.getD (p / max_dir_entry_per_cluster bs) 0) := by
    rw [(read_dir_position_eq bs _ hx hcb).1,
      get_cluster_offset_eq bs _ hx2 hx32 (by rw [hspc]; decide), hfd]
    unfold cluster_byte_offset
    rw [hspc, Nat.mul_one, Nat.mul_one]
  have hidx : p * 32 / cluster_bytes bs = p / max_dir_entry_per_cluster bs := by
    rw [hcbs, Nat.mul_div_mul_right _ _ (by decide : 0 < 32)]
  have hoff : p * 32 % cluster_bytes bs = 32 * (p % max_dir_entry_per_cluster bs) := by
    rw [hcbs, Nat.mul_mod_mul_right, Nat.mul_comm]
  rw [hidx, linked_iterate bs d cs cl _ hhead hlinked hm, hoff, ← hr]
  exact ⟨entry_position_eq bs d cs cl p hhead hlinked (fun x hxm => (hdata x hxm).1) hdiv hcb hp,
    rfl⟩

/-! ### Safety of the allocator, of removal and of the name codec -/

/-- C33 (code at the failing input): `bs_pad` has 50 data clusters, numbered 2 to 51, and
on `img_pad` all of them are allocated; the FAT sector has room for 128 entries and the
entries above 51 are zero. `allocate_clusters(1)` scans the indices below
`fat_addresses` = 100, the number of data sectors, and returns 52: not a data cluster of
the volume, whose last one is 51; the bytes of cluster 52 would start at the end of the
image. -/
theorem allocate_clusters_beyond_volume :
    fat_addresses bs_pad = 100 ∧
    (bs_pad.BPB_TotSec32 - (bs_pad.BPB_RsvdSecCnt + bs_pad.BPB_NumFATs * bs_pad.BPB_FATSz32))
      / bs_pad.BPB_SecPerClus + 1 = 51 ∧
    (List.range' 2 50).all (fun c => get_cluster_info bs_pad img_pad c != FREE_CLUSTER) = true ∧
    (allocate_clusters bs_pad img_pad 1).1 = 52 ∧
    data_cluster_offset bs_pad 52 = bs_pad.BPB_TotSec32 * bs_pad.BPB_BytsPerSec := by
  decide

set_option maxRecDepth 100000 in
/-- C34 (code at the failing input): in `img_file` the live file B of slot 0 has first
cluster 0; `rm B` prints nothing, marks the slot deleted and sets FAT entry 0, which held
0x0FFFFFF8, to zero in both copies. In `img_dangling` the live file G has first cluster 5,
whose entry is free; `rm G` follows the value 0 read there and zeroes FAT entry 0 as
well. -/
theorem rm_clears_reserved_entry :
    (live (session_file.entry 0) = true ∧ first_cluster (session_file.entry 0) = 0 ∧
      fat_entry bs_small session_file.disk 0 = 0x0FFFFFF8 ∧
      (rm 5 bs_small session_file [66]).map
          (fun s => (s.out, s.entry 0 0, fat_entry bs_small s.disk 0,
            fat2_entry bs_small s.disk 0))
        = some ([], 0xE5, 0, 0)) ∧
    ((read_disk 5 bs_small img_dangling).map
          (fun s => (live (s.entry 0), first_cluster (s.entry 0),
            fat_entry bs_small s.disk 5, fat_entry bs_small s.disk 0))
        = some (true, 5, 0, 0x0FFFFFF8) ∧
      ((read_disk 5 bs_small img_dangling).bind fun s => rm 5 bs_small s [71]).map
          (fun s => (s.out, s.entry 0 0, fat_entry bs_small s.disk 0,
            fat2_entry bs_small s.disk 0))
        = some ([], 0xE5, 0, 0)) := by
  decide

/-- C35 (code at the failing input): for the 12-character name "ABCDEFGHIJKL" (no dot) and
for "ABCDEFGHIJKL." the copy loop of the base stores the twelfth character at index 11 of
the buffer, whatever was there; index 12 is not written. -/
theorem create_formated_name_writes_index_11 :
    (List.range 13).map (create_formated_name (fun _ => 7)
        [65, 66, 67, 68, 69, 70, 71, 72, 73, 74, 75, 76])
      = [65, 66, 67, 68, 69, 70, 71, 72, 73, 74, 75, 76, 7] ∧
    (List.range 13).map (create_formated_name (fun _ => 7)
        [65, 66, 67, 68, 69, 70, 71, 72, 73, 74, 75, 76, 46])
      = [65, 66, 67, 68, 69, 70, 71, 72, 32, 32, 32, 76, 7] := by
  decide

/-! ### Termination of the allocator -/

theorem allocate_loop_eq (bs : boot_sector)
    (call : Nat → Nat → Disk → Option (Nat × Disk)) :
    ∀ (n i cluster_count : Nat) (disk : Disk),
      (∀ (cc j : Nat) (d : Disk), i < j → j ≤ i + n →
        call cc j d = some (allocate_scan bs (i + n - j) cc j d)) →
      allocate_loop bs call n cluster_count i disk
        = some (allocate_scan bs n cluster_count i disk) := by
  intro n
  induction n with
  | zero => intro i cc disk _; rfl
  | succ n ih =>
    intro i cc disk hcall
    rw [allocate_loop, allocate_scan]
    by_cases hfree : get_cluster_info bs disk i = FREE_CLUSTER
    · rw [if_pos hfree, if_pos hfree]
      by_cases hcc : (cc + 2 ^ 32 - 1) % 2 ^ 32 ≠ 0
      · simp only [if_pos hcc]
        rw [hcall _ (i + 1) disk (by omega) (by omega)]
        have : i + (n + 1) - (i + 1) = n := by omega
        rw [this]
        rfl
      · simp only [if_neg hcc]
        rfl
    · rw [if_neg hfree, if_neg hfree]
      apply ih
      intro cc' j d hj1 hj2
      rw [hcall cc' j d (by omega) (by omega)]
      have : i + (n + 1) - j = i + 1 + n - j := by omega
      rw [this]

theorem allocate_clusters_nested_eq (bs : boot_sector) :
    ∀ (depth cluster_count last_cluster : Nat) (disk : Disk),
      fat_addresses bs - last_cluster ≤ depth →
      allocate_clusters_nested bs depth cluster_count last_cluster disk
        = some (allocate_clusters_wrapped bs disk cluster_count last_cluster) := by
  intro depth
  induction depth with
  | zero =>
    intro cc last disk h
    have h0 : fat_addresses bs - last = 0 := by omega
    unfold allocate_clusters_nested allocate_clusters_wrapped
    rw [h0]
    rfl
  | succ depth ih =>
    intro cc last disk h
    unfold allocate_clusters_nested allocate_clusters_wrapped
    apply allocate_loop_eq
    intro cc' j d hj1 hj2
    have hn : last + (fat_addresses bs - last) - j = fat_addresses bs - j := by omega
    rw [hn]
    exact ih cc' j d (by omega)

/-- C36: the call `allocate_clusters_wrapped(cluster_count, last_cluster)` returns for
every cluster count (0 included, where the count wraps to 2^32 − 1), every start index and
every image, with a nesting of recursive calls that never exceeds the number of scanned
indices `fat_addresses − last_cluster`: run with room for that many nested calls, or more,
the recursion gives the result of the allocator, and so does `allocate_clusters`, whose
scan starts at index 2. -/
theorem allocate_clusters_wrapped_returns (bs : boot_sector) (disk : Disk)
    (cluster_count last_cluster extra : Nat) :
    allocate_clusters_nested bs (fat_addresses bs - last_cluster + extra) cluster_count
        last_cluster disk
      = some (allocate_clusters_wrapped bs disk cluster_count last_cluster) ∧
    allocate_clusters_nested bs (fat_addresses bs - 2 + extra) cluster_count 2 disk
      = some (allocate_clusters bs disk cluster_count) :=
  ⟨allocate_clusters_nested_eq bs _ cluster_count last_cluster disk (by omega),
    allocate_clusters_nested_eq bs _ cluster_count 2 disk (by omega)⟩

/-! ### The date and time words -/

theorem or_shiftLeft_eq_add (a b n : Nat) (h : a < 2 ^ n) : a ||| b <<< n = a + b * 2 ^ n := by
  rw [Nat.shiftLeft_eq, Nat.or_comm, Nat.mul_comm, ← Nat.mul_add_lt_is_or h, Nat.add_comm]

theorem fat_date_eq (now : tm) (hd : now.tm_mday ≤ 31) (hm : now.tm_mon ≤ 11)
    (hy : 80 ≤ now.tm_year ∧ now.tm_year ≤ 207) :
    fat_date now = now.tm_mday + (now.tm_mon + 1) * 32 + (now.tm_year - 80) * 512 := by
  have e1 : (0 ||| now.tm_mday) % 2 ^ 16 = now.tm_mday := by
    rw [Nat.zero_or]; omega
  have e2 : (now.tm_mday ||| (now.tm_mon + 1) <<< 5) % 2 ^ 16
      = now.tm_mday + (now.tm_mon + 1) * 32 := by
    rw [or_shiftLeft_eq_add _ _ 5 (by omega)]; omega
  have e3 : (now.tm_mday + (now.tm_mon + 1) * 32 ||| (now.tm_year - 80) <<< 9) % 2 ^ 16
      = now.tm_mday + (now.tm_mon + 1) * 32 + (now.tm_year - 80) * 512 := by
    rw [or_shiftLeft_eq_add _ _ 9 (by omega)]; omega
  unfold fat_date
  dsimp only
  rw [e1, e2, e3]

theorem fat_time_eq (now : tm) (hh : now.tm_hour ≤ 23) (hmin : now.tm_min ≤ 59) :
    fat_time now = min now.tm_sec 58 / 2 + now.tm_min * 32 + now.tm_hour * 2048 := by
  have hs : (if now.tm_sec ≥ 58 then 58 else now.tm_sec) = min now.tm_sec 58 := by
    split_ifs with h <;> omega
  have hs2 : min now.tm_sec 58 / 2 ≤ 29 := by omega
  have e1 : (0 ||| min now.tm_sec 58 >>> 1) % 2 ^ 16 = min now.tm_sec 58 / 2 := by
    rw [Nat.zero_or, Nat.shiftRight_eq_div_pow]; omega
  have e2 : (min now.tm_sec 58 / 2 ||| now.tm_min <<< 5) % 2 ^ 16
      = min now.tm_sec 58 / 2 + now.tm_min * 32 := by
    rw [or_shiftLeft_eq_add _ _ 5 (by omega)]; omega
  have e3 : (min now.tm_sec 58 / 2 + now.tm_min * 32 ||| now.tm_hour <<< 11) % 2 ^ 16
      = min now.tm_sec 58 / 2 + now.tm_min * 32 + now.tm_hour * 2048 := by
    rw [or_shiftLeft_eq_add _ _ 11 (by omega)]; omega
  unfold fat_time
  dsimp only
  rw [hs, e1, e2, e3]

theorem and_mask (x n : Nat) : x &&& (2 ^ n - 1) = x % 2 ^ n := Nat.and_pow_two_sub_one_eq_mod x n

theorem print_date_eq (date : Nat) :
    print_date date = [date % 32, date / 32 % 16, (1980 + date / 512 % 128) % 2 ^ 16] := by
  unfold print_date
  have h1 : date &&& 0b11111 = date % 32 := and_mask date 5
  have h2 : (date >>> 5) &&& 0b1111 = date / 32 % 16 := by
    rw [Nat.shiftRight_eq_div_pow]; exact and_mask _ 4
  have h3 : (date >>> 9) &&& 0b1111111 = date / 512 % 128 := by
    rw [Nat.shiftRight_eq_div_pow]; exact and_mask _ 7
  rw [h1, h2, h3]

theorem print_time_eq (time : Nat) :
    print_time time = [time / 2048 % 32, time / 32 % 64, (time % 32 * 2 ^ 1) % 2 ^ 16] := by
  unfold print_time
  have h1 : time &&& 0b11111 = time % 32 := and_mask time 5
  have h2 : (time >>> 5) &&& 0b111111 = time / 32 % 64 := by
    rw [Nat.shiftRight_eq_div_pow]; exact and_mask _ 6
  have h3 : (time >>> 11) &&& 0b11111 = time / 2048 % 32 := by
    rw [Nat.shiftRight_eq_div_pow]; exact and_mask _ 5
  rw [h1, h2, h3, Nat.shiftLeft_eq]

theorem get16_le16 (e : DirEntry) (off v : Nat) (hv : v < 65536)
    (h0 : e off = le_byte v 0) (h1 : e (off + 1) = le_byte v 1) : get16 e off = v := by
  unfold get16
  rw [h0, h1, le16_get, Nat.mod_eq_of_lt hv]

/-- C32: for a broken-down local time with year 1980 to 2107 (`tm_year` 80 to 207), month
1 to 12 (`tm_mon` 0 to 11), day 1 to 31, hour 0 to 23, minute 0 to 59 and second 0 to 60,
the date word is `day | month << 5 | (year − 1980) << 9` and the time word is
`(min(second, 58) / 2) | minute << 5 | hour << 11`; `print_date` and `print_time` decode
them to the same day, month, year, hour and minute and to the even second
`2 × (min(second, 58) / 2)`, at most 58. These are the words `touch` and `mkdir` store in
the creation, write and access fields of the new slot, and `rename` in the write fields. -/
theorem date_time_words (now : tm) (name : Nat → Nat) (attr c : Nat) (e : DirEntry)
    (hy : 80 ≤ now.tm_year ∧ now.tm_year ≤ 207) (hm : now.tm_mon ≤ 11)
    (hd : 1 ≤ now.tm_mday ∧ now.tm_mday ≤ 31) (hh : now.tm_hour ≤ 23)
    (hmin : now.tm_min ≤ 59) (hs : now.tm_sec ≤ 60) :
    fat_date now
      = now.tm_mday ||| (now.tm_mon + 1) <<< 5 ||| (now.tm_year + 1900 - 1980) <<< 9 ∧
    fat_time now = min now.tm_sec 58 / 2 ||| now.tm_min <<< 5 ||| now.tm_hour <<< 11 ∧
    print_date (fat_date now) = [now.tm_mday, now.tm_mon + 1, now.tm_year + 1900] ∧
    print_time (fat_time now) = [now.tm_hour, now.tm_min, 2 * (min now.tm_sec 58 / 2)] ∧
    2 * (min now.tm_sec 58 / 2) ≤ 58 ∧
    (DIR_CrtDate (new_entry name attr c (fat_date now) (fat_time now)) = fat_date now ∧
      DIR_CrtTime (new_entry name attr c (fat_date now) (fat_time now)) = fat_time now ∧
      DIR_WrtDate (new_entry name attr c (fat_date now) (fat_time now)) = fat_date now ∧
      DIR_WrtTime (new_entry name attr c (fat_date now) (fat_time now)) = fat_time now ∧
      DIR_LstAccDate (new_entry name attr c (fat_date now) (fat_time now)) = fat_date now) ∧
    (DIR_WrtDate (renamed_entry e name (fat_date now) (fat_time now)) = fat_date now ∧
      DIR_WrtTime (renamed_entry e name (fat_date now) (fat_time now)) = fat_time now) := by
  have hdate := fat_date_eq now hd.2 hm hy
  have htime := fat_time_eq now hh hmin
  have hs2 : min now.tm_sec 58 / 2 ≤ 29 := by omega
  have hb := new_entry_bytes name attr c (fat_date now) (fat_time now)
  obtain ⟨_, _, _, _, b14, b15, b16, b17, b18, b19, _, _, b22, b23, b24, b25, _⟩ := hb
  have hr := renamed_entry_fields e name (fat_date now) (fat_time now) (fat_date_lt now)
    (fat_time_lt now)
  refine ⟨?_, ?_, ?_, ?_, by omega, ⟨?_, ?_, ?_, ?_, ?_⟩, hr.1, hr.2.1⟩
  · rw [hdate, or_shiftLeft_eq_add _ _ 5 (by omega), or_shiftLeft_eq_add _ _ 9 (by omega)]
    omega
  · rw [htime, or_shiftLeft_eq_add _ _ 5 (by omega), or_shiftLeft_eq_add _ _ 11 (by omega)]
    omega
  · rw [print_date_eq, hdate]
    have a1 : (now.tm_mday + (now.tm_mon + 1) * 32 + (now.tm_year - 80) * 512) % 32
        = now.tm_mday := by omega
    have a2 : (now.tm_mday + (now.tm_mon + 1) * 32 + (now.tm_year - 80) * 512) / 32 % 16
        = now.tm_mon + 1 := by omega
    have a3 : (1980 + (now.tm_mday + (now.tm_mon + 1) * 32 + (now.tm_year - 80) * 512)
        / 512 % 128) % 2 ^ 16 = now.tm_year + 1900 := by omega
    rw [a1, a2, a3]
  · rw [print_time_eq, htime]
    have a1 : (min now.tm_sec 58 / 2 + now.tm_min * 32 + now.tm_hour * 2048) / 2048 % 32
        = now.tm_hour := by omega
    have a2 : (min now.tm_sec 58 / 2 + now.tm_min * 32 + now.tm_hour * 2048) / 32 % 64
        = now.tm_min := by omega
    have a3 : ((min now.tm_sec 58 / 2 + now.tm_min * 32 + now.tm_hour * 2048) % 32 * 2 ^ 1)
        % 2 ^ 16 = 2 * (min now.tm_sec 58 / 2) := by omega
    rw [a1, a2, a3]
  · exact get16_le16 _ 16 _ (fat_date_lt now) b16 b17
  · exact get16_le16 _ 14 _ (fat_time_lt now) b14 b15
  · exact get16_le16 _ 24 _ (fat_date_lt now) b24 b25
  · exact get16_le16 _ 22 _ (fat_time_lt now) b22 b23
  · exact get16_le16 _ 18 _ (fat_date_lt now) b18 b19

/-- C32 at work at 23:59:60 on 31 December 2107, the last instant of the range: the words
are 0xFF9F and 0xBF7D and decode to 31/12/2107 23:59:58. -/
theorem date_time_words_witness :
    ((80 ≤ last_instant.tm_year ∧ last_instant.tm_year ≤ 207) ∧ last_instant.tm_mon ≤ 11 ∧
      (1 ≤ last_instant.tm_mday ∧ last_instant.tm_mday ≤ 31) ∧ last_instant.tm_hour ≤ 23 ∧
      last_instant.tm_min ≤ 59 ∧ last_instant.tm_sec ≤ 60) ∧
    fat_date last_instant = 0xFF9F ∧ fat_time last_instant = 0xBF7D ∧
    print_date (fat_date last_instant) = [31, 12, 2107] ∧
    print_time (fat_time last_instant) = [23, 59, 58] := by
  obtain ⟨h1, h2, h3, h4, _⟩ := date_time_words last_instant (fun _ => 0) 0 0 zero_entry
    (by decide) (by decide) (by decide) (by decide) (by decide) (by decide)
  exact ⟨by decide, h1.trans (by decide), h2.trans (by decide), h3.trans (by decide),
    h4.trans (by decide)⟩

/-! ### The searches of `touch` and `rename` -/

theorem name_matches_comm (a b : Nat → Nat) : name_matches a b = name_matches b a := by
  apply Bool.eq_iff_iff.mpr
  rw [name_matches_iff, name_matches_iff]
  exact ⟨fun h k hk => (h k hk).symm, fun h k hk => (h k hk).symm⟩

theorem name_matches_left_congr (a a' : Nat → Nat) (b : DirEntry)
    (h : ∀ k, k < 11 → a k = a' k) : name_matches a b = name_matches a' b := by
  apply Bool.eq_iff_iff.mpr
  rw [name_matches_iff, name_matches_iff]
  exact ⟨fun hm k hk => (h k hk).symm.trans (hm k hk), fun hm k hk => (h k hk).trans (hm k hk)⟩

/-- What a result of the search loop of `touch_wrapper` other than "Already exists" tells:
the slot returned is the first usable one when none was chosen before, and no live entry
before the terminator carries the name. -/
theorem touch_search_spec (name : Nat → Nat) (entries : List DirEntry) :
    ∀ (n i : Nat) (ep r : Option Nat), touch_search name entries n i ep = some r →
      ((∃ x, ep = some x ∧ r = some x) ∨
        (ep = none ∧ r = none ∧
          ∀ j, i ≤ j → j < i + n → usable (entries.getD j zero_entry) = false) ∨
        (ep = none ∧ ∃ p, r = some p ∧ i ≤ p ∧ p < i + n ∧
          usable (entries.getD p zero_entry) = true ∧
          ∀ j, i ≤ j → j < p → usable (entries.getD j zero_entry) = false)) ∧
      (∀ j, i ≤ j → j < i + n →
        (∀ m, i ≤ m → m < j → terminator (entries.getD m zero_entry) = false) →
        live (entries.getD j zero_entry) = true →
        name_matches name (entries.getD j zero_entry) = false) := by
  intro n
  induction n with
  | zero =>
    intro i ep r h
    rw [touch_search] at h
    simp only [Option.some.injEq] at h
    subst h
    refine ⟨?_, fun j h1 h2 => by omega⟩
    cases ep with
    | none => exact Or.inr (Or.inl ⟨rfl, rfl, fun j h1 h2 => by omega⟩)
    | some x => exact Or.inl ⟨x, rfl, rfl⟩
  | succ n ih =>
    intro i ep r h
    rw [touch_search] at h
    by_cases hlong : is_long_name (entries.getD i zero_entry) = true
    · -- a long-name slot is passed over
      simp only [hlong, if_true] at h
      obtain ⟨h1, h2⟩ := ih (i + 1) ep r h
      have hu : usable (entries.getD i zero_entry) = false :=
        (usable_false_iff _).mpr (Or.inl hlong)
      have hl : live (entries.getD i zero_entry) = false := by
        cases hv : live (entries.getD i zero_entry)
        · rfl
        · rw [((live_iff _).mp hv).1] at hlong
          exact absurd hlong Bool.false_ne_true
      refine ⟨?_, ?_⟩
      · rcases h1 with h1 | ⟨e1, e2, e3⟩ | ⟨e1, p, e2, e3, e4, e5, e6⟩
        · exact Or.inl h1
        · refine Or.inr (Or.inl ⟨e1, e2, fun j hj1 hj2 => ?_⟩)
          by_cases hji : j = i
          · rw [hji]; exact hu
          · exact e3 j (by omega) (by omega)
        · refine Or.inr (Or.inr ⟨e1, p, e2, by omega, by omega, e5, fun j hj1 hj2 => ?_⟩)
          by_cases hji : j = i
          · rw [hji]; exact hu
          · exact e6 j (by omega) hj2
      · intro j hj1 hj2 hterm hlive
        by_cases hji : j = i
        · rw [hji, hl] at hlive
          exact absurd hlive Bool.false_ne_true
        · exact h2 j (by omega) (by omega) (fun m hm1 hm2 => hterm m (by omega) hm2) hlive
    · have hlong' : is_long_name (entries.getD i zero_entry) = false :=
        Bool.eq_false_iff.mpr hlong
      simp only [hlong', Bool.false_eq_true, if_false] at h
      by_cases h0 : entries.getD i zero_entry 0 = 0x00
      · -- the terminator
        simp only [h0, if_true, Option.some.injEq] at h
        have hu : usable (entries.getD i zero_entry) = true :=
          (usable_iff _).mpr ⟨hlong', Or.inr h0⟩
        have hterm0 : terminator (entries.getD i zero_entry) = true := by
          unfold terminator
          rw [hlong', h0]
          rfl
        refine ⟨?_, ?_⟩
        · cases ep with
          | none =>
            simp only [if_true] at h
            exact Or.inr (Or.inr ⟨rfl, i, h.symm, Nat.le_refl i, by omega, hu,
              fun j hj1 hj2 => by omega⟩)
          | some x =>
            simp only [reduceCtorEq, if_false] at h
            exact Or.inl ⟨x, rfl, h.symm⟩
        · intro j hj1 hj2 hterm hlive
          by_cases hji : j = i
          · rw [hji] at hlive
            exact absurd h0 ((live_iff _).mp hlive).2.1
          · have := hterm i (Nat.le_refl i) (by omega)
            rw [hterm0] at this
            exact absurd this (by decide)
      · simp only [h0, if_false] at h
        by_cases hE5 : entries.getD i zero_entry 0 = 0xE5 ∧ ep = none
        · -- a deleted slot, the first one
          simp only [hE5, and_self, if_true] at h
          obtain ⟨h1, h2⟩ := ih (i + 1) (some i) r h
          have hu : usable (entries.getD i zero_entry) = true :=
            (usable_iff _).mpr ⟨hlong', Or.inl hE5.1⟩
          have hr : r = some i := by
            rcases h1 with ⟨x, e1, e2⟩ | ⟨e1, _⟩ | ⟨e1, _⟩
            · simp only [Option.some.injEq] at e1
              rw [e2, e1]
            · exact absurd e1 (by simp)
            · exact absurd e1 (by simp)
          refine ⟨Or.inr (Or.inr ⟨hE5.2, i, hr, Nat.le_refl i, by omega, hu,
            fun j hj1 hj2 => by omega⟩), ?_⟩
          intro j hj1 hj2 hterm hlive
          by_cases hji : j = i
          · rw [hji] at hlive
            exact absurd hE5.1 ((live_iff _).mp hlive).2.2
          · exact h2 j (by omega) (by omega) (fun m hm1 hm2 => hterm m (by omega) hm2) hlive
        · rw [if_neg hE5] at h
          by_cases hmatch : name_matches name (entries.getD i zero_entry) = true
          · simp only [hmatch, if_true] at h
            exact absurd h (by simp)
          · have hmatch' : name_matches name (entries.getD i zero_entry) = false :=
              Bool.eq_false_iff.mpr hmatch
            simp only [hmatch', Bool.false_eq_true, if_false] at h
            obtain ⟨h1, h2⟩ := ih (i + 1) ep r h
            refine ⟨?_, ?_⟩
            · rcases h1 with h1 | ⟨e1, e2, e3⟩ | ⟨e1, p, e2, e3, e4, e5, e6⟩
              · exact Or.inl h1
              · have hu : usable (entries.getD i zero_entry) = false :=
                  (usable_false_iff _).mpr (Or.inr ⟨fun h => hE5 ⟨h, e1⟩, h0⟩)
                refine Or.inr (Or.inl ⟨e1, e2, fun j hj1 hj2 => ?_⟩)
                by_cases hji : j = i
                · rw [hji]; exact hu
                · exact e3 j (by omega) (by omega)
              · have hu : usable (entries.getD i zero_entry) = false :=
                  (usable_false_iff _).mpr (Or.inr ⟨fun h => hE5 ⟨h, e1⟩, h0⟩)
                refine Or.inr (Or.inr ⟨e1, p, e2, by omega, by omega, e5, fun j hj1 hj2 => ?_⟩)
                by_cases hji : j = i
                · rw [hji]; exact hu
                · exact e6 j (by omega) hj2
            · intro j hj1 hj2 hterm hlive
              by_cases hji : j = i
              · rw [hji]; exact hmatch'
              · exact h2 j (by omega) (by omega) (fun m hm1 hm2 => hterm m (by omega) hm2)
                  hlive

/-- What a successful search of `rename_dir_entry` tells: the slot returned carries the old
name, and no slot that is neither deleted nor a long-name slot carries the new one. -/
theorem rename_search_spec (entry_name new_name : List Nat) (old_name new_entry_name : Nat → Nat)
    (entries : List DirEntry) :
    ∀ (n i : Nat) (ep : Option Nat) (p : Nat),
      rename_search entry_name new_name old_name new_entry_name entries n i ep
        = Sum.inr (some p) →
      (ep = some p ∨
        (i ≤ p ∧ p < i + n ∧ name_matches old_name (entries.getD p zero_entry) = true)) ∧
      (∀ j, i ≤ j → j < i + n → entries.getD j zero_entry 0 ≠ 0xE5 →
        is_long_name (entries.getD j zero_entry) = false →
        name_matches new_entry_name (entries.getD j zero_entry) = false) := by
  intro n
  induction n with
  | zero =>
    intro i ep p h
    rw [rename_search] at h
    simp only [Sum.inr.injEq] at h
    exact ⟨Or.inl h, fun j h1 h2 => by omega⟩
  | succ n ih =>
    intro i ep p h
    rw [rename_search] at h
    by_cases hE5 : entries.getD i zero_entry 0 = 0xE5
    · simp only [hE5, if_true] at h
      obtain ⟨h1, h2⟩ := ih (i + 1) ep p h
      refine ⟨h1.imp id (fun h => ⟨by omega, by omega, h.2.2⟩),
        fun j hj1 hj2 hjE hjl => ?_⟩
      by_cases hji : j = i
      · rw [hji] at hjE; exact absurd hE5 hjE
      · exact h2 j (by omega) (by omega) hjE hjl
    · simp only [hE5, if_false] at h
      by_cases hlong : is_long_name (entries.getD i zero_entry) = true
      · simp only [hlong, if_true] at h
        obtain ⟨h1, h2⟩ := ih (i + 1) ep p h
        refine ⟨h1.imp id (fun h => ⟨by omega, by omega, h.2.2⟩),
          fun j hj1 hj2 hjE hjl => ?_⟩
        by_cases hji : j = i
        · rw [hji, hlong] at hjl; exact absurd hjl (by decide)
        · exact h2 j (by omega) (by omega) hjE hjl
      · have hlong' : is_long_name (entries.getD i zero_entry) = false :=
          Bool.eq_false_iff.mpr hlong
        simp only [hlong', Bool.false_eq_true, if_false] at h
        by_cases hz : entries.getD i zero_entry 0 = 0x00 ∧ ep = none
        · rw [if_pos hz] at h
          exact absurd h (by simp)
        · rw [if_neg hz] at h
          by_cases hnew : name_matches new_entry_name (entries.getD i zero_entry) = true
          · simp only [hnew, if_true] at h
            exact absurd h (by simp)
          · have hnew' : name_matches new_entry_name (entries.getD i zero_entry) = false :=
              Bool.eq_false_iff.mpr hnew
            simp only [hnew', Bool.false_eq_true, if_false] at h
            obtain ⟨h1, h2⟩ := ih (i + 1) _ p h
            refine ⟨?_, fun j hj1 hj2 hjE hjl => ?_⟩
            · by_cases hold : name_matches old_name (entries.getD i zero_entry) = true
              · rw [if_pos hold] at h1
                rcases h1 with h1 | h1
                · simp only [Option.some.injEq] at h1
                  rw [← h1]
                  exact Or.inr ⟨Nat.le_refl i, by omega, hold⟩
                · exact Or.inr ⟨by omega, by omega, h1.2.2⟩
              · rw [if_neg hold] at h1
                exact h1.imp id (fun h => ⟨by omega, by omega, h.2.2⟩)
            · by_cases hji : j = i
              · rw [hji]; exact hnew'
              · exact h2 j (by omega) (by omega) hjE hjl

/-- Once the old name is found, the search of `rename_dir_entry` ends with a message or
with a slot. -/
theorem rename_search_found (entry_name new_name : List Nat) (old_name new_entry_name : Nat → Nat)
    (entries : List DirEntry) :
    ∀ (n i x : Nat),
      rename_search entry_name new_name old_name new_entry_name entries n i (some x)
        ≠ Sum.inr none := by
  intro n
  induction n with
  | zero => intro i x h; rw [rename_search] at h; simp at h
  | succ n ih =>
    intro i x
    rw [rename_search]
    dsimp only
    split_ifs <;> first | exact ih _ _ | simp

/-- With a terminator slot in the range, the search of `rename_dir_entry` ends with a
message or with a slot. -/
theorem rename_search_returns (entry_name new_name : List Nat)
    (old_name new_entry_name : Nat → Nat) (entries : List DirEntry) :
    ∀ (n i t : Nat), i ≤ t → t < i + n → terminator (entries.getD t zero_entry) = true →
      rename_search entry_name new_name old_name new_entry_name entries n i none
        ≠ Sum.inr none := by
  intro n
  induction n with
  | zero => intro i t h1 h2; omega
  | succ n ih =>
    intro i t h1 h2 ht
    have htl : is_long_name (entries.getD t zero_entry) = false ∧
        entries.getD t zero_entry 0 = 0x00 := by
      unfold terminator at ht
      simp only [Bool.and_eq_true, Bool.not_eq_true', beq_iff_eq] at ht
      exact ht
    rw [rename_search]
    by_cases hE5 : entries.getD i zero_entry 0 = 0xE5
    · simp only [hE5, if_true]
      have hti : t ≠ i := by
        intro h; rw [h, hE5] at htl; exact absurd htl.2 (by decide)
      exact ih (i + 1) t (by omega) (by omega) ht
    · simp only [hE5, if_false]
      by_cases hlong : is_long_name (entries.getD i zero_entry) = true
      · simp only [hlong, if_true]
        have hti : t ≠ i := by
          intro h; rw [h, hlong] at htl; exact absurd htl.1 (by decide)
        exact ih (i + 1) t (by omega) (by omega) ht
      · have hlong' : is_long_name (entries.getD i zero_entry) = false :=
          Bool.eq_false_iff.mpr hlong
        simp only [hlong', Bool.false_eq_true, if_false]
        by_cases hz : entries.getD i zero_entry 0 = 0x00
        · rw [if_pos ⟨hz, trivial⟩]
          simp
        · rw [if_neg (fun h => hz h.1)]
          have hti : t ≠ i := by
            intro h; rw [h] at htl; exact hz htl.2
          by_cases hnew : name_matches new_entry_name (entries.getD i zero_entry) = true
          · simp only [hnew, if_true]
            simp
          · simp only [hnew, if_false]
            by_cases hold : name_matches old_name (entries.getD i zero_entry) = true
            · simp only [hold, if_true]
              exact rename_search_found _ _ _ _ _ _ _ _
            · simp only [hold, if_false]
              exact ih (i + 1) t (by omega) (by omega) ht

/-- Storing a slot `e` at `p` keeps the names unique when no other live entry of the
directory carries the name of `e` and the slot replaced was no terminator in front of a
live slot. -/
theorem unique_names_store (s s' : Session) (p : Nat) (e : DirEntry)
    (hq : s'.directory_stack.quantity = s.directory_stack.quantity)
    (he : s'.directory_stack.entries = s.directory_stack.entries.set p e)
    (hp : p < s.directory_stack.entries.length)
    (huniq : unique_names s)
    (hT : ∀ j, p < j → j < s.directory_stack.quantity → live (s.entry j) = true →
      terminator (s.entry p) = false)
    (hB : ∀ k, k < s.directory_stack.quantity → k ≠ p → live (s.entry k) = true →
      (∀ m, m < k → terminator (s.entry m) = false) → name_matches e (s.entry k) = false) :
    unique_names s' := by
  have hself : s'.entry p = e := by
    show s'.directory_stack.entries.getD p zero_entry = e
    rw [he]; exact getD_set_self _ _ _ hp
  have hother : ∀ k, k ≠ p → s'.entry k = s.entry k := by
    intro k hk
    show s'.directory_stack.entries.getD k zero_entry = _
    rw [he]; exact getD_set_ne _ _ _ _ hk
  intro j hj i hij hterm hli hlj
  rw [hq] at hj
  -- the terminators of `s` before a slot below `j`
  have hterm_s : ∀ k, k ≤ j → k ≠ p → live (s.entry k) = true → ∀ m, m < k →
      terminator (s.entry m) = false := by
    intro k hk hkp hlk m hm
    by_cases hmp : m = p
    · rw [hmp]
      exact hT k (by omega) (by omega) hlk
    · rw [← hother m hmp]
      exact hterm m (by omega)
  by_cases hip : i = p
  · have hjp : j ≠ p := by omega
    rw [hip, hself, hother j hjp]
    rw [hother j hjp] at hlj
    exact hB j hj hjp hlj (hterm_s j (Nat.le_refl j) hjp hlj)
  · rw [hother i hip] at hli ⊢
    by_cases hjp : j = p
    · rw [hjp, hself, name_matches_comm]
      exact hB i (by omega) hip hli (hterm_s i (by omega) hip hli)
    · rw [hother j hjp] at hlj ⊢
      exact huniq j hj i hij (hterm_s j (Nat.le_refl j) hjp hlj) hli hlj

theorem unique_names_congr (s s' : Session) (h : s'.directory_stack = s.directory_stack)
    (huniq : unique_names s) : unique_names s' := by
  intro j hj i hij hterm hli hlj
  have he : ∀ k, s'.entry k = s.entry k := fun k => by
    show s'.directory_stack.entries.getD k zero_entry = _
    rw [h]; rfl
  rw [h] at hj
  simp only [he] at hterm hli hlj ⊢
  exact huniq j hj i hij hterm hli hlj

/-- Every session `rename_dir_entry` returns has unique names. -/
theorem rename_unique (bs : boot_sector) (now : tm) (s : Session) (old new : List Nat)
    (hlen : s.directory_stack.quantity = s.directory_stack.entries.length)
    (huniq : unique_names s) (s' : Session)
    (h : rename_dir_entry bs now s old new = some s') : unique_names s' := by
  unfold rename_dir_entry at h
  dsimp only at h
  by_cases hold : formated old 0 = 0
  · rw [if_pos hold] at h
    simp only [Option.some.injEq] at h
    subst h
    exact unique_names_congr s _ rfl huniq
  rw [if_neg hold] at h
  by_cases hnew : formated new 0 = 0
  · rw [if_pos hnew] at h
    simp only [Option.some.injEq] at h
    subst h
    exact unique_names_congr s _ rfl huniq
  rw [if_neg hnew] at h
  by_cases hsame : name_matches (formated old) (formated new) = true
  · rw [if_pos hsame] at h
    simp only [Option.some.injEq] at h
    subst h
    exact huniq
  rw [if_neg hsame] at h
  cases hsearch : rename_search old new (formated old) (formated new) s.directory_stack.entries
      s.directory_stack.quantity 0 none with
  | inl m =>
    rw [hsearch] at h
    simp only [Option.some.injEq] at h
    subst h
    exact unique_names_congr s _ rfl huniq
  | inr r =>
    rw [hsearch] at h
    cases r with
    | none => exact absurd h (by simp)
    | some p =>
      simp only [Option.some.injEq] at h
      subst h
      obtain ⟨hfound, hsound⟩ := rename_search_spec old new (formated old) (formated new)
        s.directory_stack.entries s.directory_stack.quantity 0 none p hsearch
      have hfound : p < s.directory_stack.quantity ∧
          name_matches (formated old) (s.entry p) = true := by
        rcases hfound with e | ⟨_, e2, e3⟩
        · exact absurd e (by simp)
        · exact ⟨by omega, e3⟩
      refine unique_names_store s _ p _ rfl rfl (by rw [← hlen]; exact hfound.1) huniq ?_ ?_
      · intro j _ _ _
        have h0 := (name_matches_iff _ _).mp hfound.2 0 (by omega)
        exact (terminator_false_iff _).mpr (Or.inr (fun hz => hold (by rw [h0]; exact hz)))
      · intro k hk hkp hlive hterm
        obtain ⟨hl1, hl2, hl3⟩ := (live_iff _).mp hlive
        rw [name_matches_left_congr _ (formated new) _ (renamed_entry_bytes _ _ _ _).1]
        exact hsound k (Nat.zero_le k) (by omega) hl3 hl1

/-- The call `rename_dir_entry` returns when the directory has a terminator slot. -/
theorem rename_returns (bs : boot_sector) (now : tm) (s : Session) (old new : List Nat)
    (t : Nat) (ht : t < s.directory_stack.quantity) (hterm : terminator (s.entry t) = true) :
    (rename_dir_entry bs now s old new).isSome = true := by
  unfold rename_dir_entry
  dsimp only
  split_ifs
  · rfl
  · rfl
  · rfl
  · have := rename_search_returns old new (formated old) (formated new)
      s.directory_stack.entries s.directory_stack.quantity 0 t (Nat.zero_le t) (by omega) hterm
    cases hsearch : rename_search old new (formated old) (formated new)
        s.directory_stack.entries s.directory_stack.quantity 0 none with
    | inl m => rfl
    | inr r =>
      cases r with
      | none => exact absurd hsearch this
      | some p => rfl

/-! ### Re-reading a loaded directory -/

/-- What `read_dir` leaves untouched. -/
theorem read_dir_some (fuel : Nat) (bs : boot_sector) (s s' : Session)
    (h : read_dir fuel bs s = some s') :
    s'.previous = s.previous ∧ s'.directory_stack_count = s.directory_stack_count ∧
    s'.disk = s.disk ∧ s'.out = s.out := by
  unfold read_dir at h
  cases hp : s.directory_stack.entries_ptr with
  | null =>
    rw [hp] at h
    dsimp only at h
    cases hl : read_dir_loop bs s.disk fuel s.directory_stack.cluster [] with
    | none => rw [hl] at h; exact absurd h (by simp)
    | some es =>
      rw [hl] at h
      simp only [Option.map_some', Option.some.injEq] at h
      subst h
      exact ⟨rfl, rfl, rfl, rfl⟩
  | allocated =>
    rw [hp] at h
    dsimp only at h
    by_cases hc : s.directory_stack.cluster = END_OF_CHAIN
    · rw [if_pos hc] at h
      simp only [Option.some.injEq] at h
      subst h
      exact ⟨rfl, rfl, rfl, rfl⟩
    · rw [if_neg hc] at h
      exact absurd h (by simp)
  | freed =>
    rw [hp] at h
    exact absurd h (by simp)

/-- Below the root, `cd ..` re-reads the parent frame: when the array of that frame is
allocated and its chain is not empty, the array is freed twice. -/
theorem cd_dotdot_none (fuel : Nat) (bs : boot_sector) (s : Session) (parent : directory_t)
    (rest : List directory_t)
    (hcount : s.directory_stack_count ≠ 0) (hprev : s.previous = parent :: rest)
    (hptr : parent.entries_ptr = Pointer.allocated) (hcl : parent.cluster ≠ END_OF_CHAIN) :
    cd fuel bs s [46, 46] = none := by
  unfold cd cd_wrapper
  rw [if_neg (by decide), if_pos rfl, if_neg hcount, hprev]
  dsimp only
  rw [read_dir_allocated fuel bs _ hptr hcl]
  rfl

/-- The frame `cd` leaves below the top when it enters the directory of slot `p`. -/
theorem cd_enters (fuel : Nat) (bs : boot_sector) (s s' : Session) (folder : List Nat) (p : Nat)
    (hname : formated folder 0 ≠ 0)
    (hp : p < s.directory_stack.quantity)
    (hbefore : ∀ j, j < p →
      s.entry j 0 ≠ 0x00 ∧
      (s.entry j 0 = 0xE5 ∨ is_long_name (s.entry j) = true ∨
        is_directory (s.entry j) = false ∨ name_matches (formated folder) (s.entry j) = false))
    (h0 : s.entry p 0 ≠ 0x00) (h1 : s.entry p 0 ≠ 0xE5)
    (h2 : is_long_name (s.entry p) = false) (h3 : is_directory (s.entry p) = true)
    (h4 : name_matches (formated folder) (s.entry p) = true)
    (hcd : cd fuel bs s folder = some s') :
    s'.previous = s.directory_stack :: s.previous ∧
    s'.directory_stack_count = (s.directory_stack_count + 1) % 2 ^ 32 := by
  have hd1 : folder ≠ [46] := fun h => hname (h ▸ formated_dot.1)
  have hd2 : folder ≠ [46, 46] := fun h => hname (h ▸ formated_dot.2)
  obtain ⟨n, hn⟩ : ∃ n, s.directory_stack.quantity = (n + 1) + p :=
    ⟨s.directory_stack.quantity - p - 1, by omega⟩
  have hq : cd_search (formated folder) s.directory_stack.entries s.directory_stack.quantity 0
      = some p := by
    conv_lhs => rw [hn]
    rw [cd_search_skip _ _ p (n + 1) 0 (fun j _ hj => hbefore j (by omega)), Nat.zero_add]
    exact cd_search_found _ _ n p h0 h1 h2 h3 h4
  unfold cd cd_wrapper at hcd
  rw [if_neg hd1, if_neg hd2] at hcd
  dsimp only at hcd
  rw [if_neg hname, hq] at hcd
  dsimp only at hcd
  cases hr : read_dir fuel bs
      { s with
        directory_stack := { (create_directory_struct (s.entry p)) with
          cluster := first_cluster (s.entry p) }
        previous := s.directory_stack :: s.previous
        directory_stack_count := (s.directory_stack_count + 1) % 2 ^ 32 } with
  | none => rw [hr] at hcd; exact absurd hcd (by simp)
  | some s2 =>
    rw [hr] at hcd
    simp only [Option.map_some', Option.some.injEq] at hcd
    subst hcd
    obtain ⟨e1, e2, _, _⟩ := read_dir_some fuel bs _ _ hr
    exact ⟨e1, e2⟩

/-- For a directory entry, `rmdir` enters the directory and comes back with `cd ..`, which
frees the array of the current frame twice: no path through the slot of a directory ends
with a defined result. -/
theorem rmdir_directory_none (fuel : Nat) (bs : boot_sector) (s : Session)
    (entry_name : List Nat) (p : Nat)
    (hptr : s.directory_stack.entries_ptr = Pointer.allocated)
    (hcl : s.directory_stack.cluster ≠ END_OF_CHAIN)
    (hcount : (s.directory_stack_count + 1) % 2 ^ 32 ≠ 0)
    (hname : formated entry_name 0 ≠ 0)
    (hp : p < s.directory_stack.quantity)
    (hbefore : ∀ j, j < p →
      s.entry j 0 ≠ 0x00 ∧
      (s.entry j 0 = 0xE5 ∨ is_long_name (s.entry j) = true ∨
        name_matches (formated entry_name) (s.entry j) = false))
    (h0 : s.entry p 0 ≠ 0x00) (h1 : s.entry p 0 ≠ 0xE5)
    (h2 : is_long_name (s.entry p) = false) (h3 : is_directory (s.entry p) = true)
    (h4 : name_matches (formated entry_name) (s.entry p) = true) :
    rmdir fuel bs s entry_name = none := by
  unfold rmdir
  simp only [hname, if_false]
  obtain ⟨n, hn⟩ : ∃ n, s.directory_stack.quantity = (n + 1) + p :=
    ⟨s.directory_stack.quantity - p - 1, by omega⟩
  have hskip : ∀ j, 0 ≤ j → j < 0 + p →
      (s.entry j 0 = 0xE5 ∨ is_long_name (s.entry j) = true ∨
        (s.entry j 0 ≠ 0x00 ∧ name_matches (formated entry_name) (s.entry j) = false)) := by
    intro j _ hj
    obtain ⟨hz, hc⟩ := hbefore j (by omega)
    rcases hc with hc | hc | hc
    · exact Or.inl hc
    · exact Or.inr (Or.inl hc)
    · exact Or.inr (Or.inr ⟨hz, hc⟩)
  rw [hn, rmdir_loop_skip fuel bs s entry_name _ p (n + 1) 0 hskip, Nat.zero_add, rmdir_loop]
  simp only [h0, h1, h2, h3, h4, if_false, if_true, Bool.false_eq_true, Bool.not_true]
  cases hcd : cd fuel bs s entry_name with
  | none => rfl
  | some s2 =>
    dsimp only
    obtain ⟨e1, e2⟩ := cd_enters fuel bs s s2 entry_name p hname hp
      (fun j hj => ⟨(hbefore j hj).1, by
        rcases (hbefore j hj).2 with hc | hc | hc
        · exact Or.inl hc
        · exact Or.inr (Or.inl hc)
        · exact Or.inr (Or.inr (Or.inr hc))⟩)
      h0 h1 h2 h3 h4 hcd
    have hup : ∀ m, cd fuel bs (s2.print m) [46, 46] = none := fun m =>
      cd_dotdot_none fuel bs (s2.print m) s.directory_stack s.previous
        (by show s2.directory_stack_count ≠ 0; rw [e2]; exact hcount) e1 hptr hcl
    have hup2 : cd fuel bs s2 [46, 46] = none :=
      cd_dotdot_none fuel bs s2 s.directory_stack s.previous
        (by rw [e2]; exact hcount) e1 hptr hcl
    split_ifs
    · exact hup _
    · rw [hup2]

/-! ### What a successful `touch` or `mkdir` tells -/

/-- The session `touch_wrapper` produces when its search ends with slot `p`, for a name it
accepts, and `c` is the lowest free scanned cluster. -/
theorem touch_wrapper_found (fuel : Nat) (bs : boot_sector) (now : tm) (s : Session)
    (unformatted_name : List Nat) (attr p c : Nat)
    (hattr : attr = ATTR_ARCHIVE ∨ attr = ATTR_DIRECTORY)
    (hname : formated unformatted_name 0 ≠ 0)
    (hsearch : touch_search (formated unformatted_name) s.directory_stack.entries
      s.directory_stack.quantity 0 none = some (some p))
    (hfree : (free_clusters bs s.disk).head? = some c) :
    touch_wrapper fuel bs now s unformatted_name attr = some (1,
      touch_store bs now { s with disk := write_in_fat bs s.disk c END_OF_CHAIN }
        (formated unformatted_name) attr c p) := by
  obtain ⟨halloc, hc2, _, _⟩ := allocate_one bs s.disk c hfree
  have hcne : c ≠ FREE_CLUSTER := by unfold FREE_CLUSTER; omega
  unfold touch_wrapper
  rw [if_neg (by rcases hattr with h | h <;> simp [h])]
  dsimp only
  rw [if_neg hname, hsearch]
  dsimp only
  rw [halloc]
  dsimp only
  rw [if_neg hcne]

/-- The allocator finds a cluster only when a scanned entry is free. -/
theorem allocate_one_found (bs : boot_sector) (disk : Disk)
    (h : (allocate_clusters bs disk 1).1 ≠ FREE_CLUSTER) :
    ∃ c, (free_clusters bs disk).head? = some c := by
  cases hfs : free_clusters bs disk with
  | nil =>
    exfalso
    apply h
    unfold allocate_clusters allocate_clusters_wrapped
    rw [allocate_scan_eq bs disk _ 1 2 (by decide) (by decide)]
    unfold free_clusters at hfs
    rw [hfs]
    rfl
  | cons c rest => exact ⟨c, rfl⟩

/-- The search of `touch_wrapper` that ends with a slot ends with the first usable slot, and
no live entry of the directory carries the name. -/
theorem touch_search_slot (s : Session) (name : Nat → Nat) (p : Nat)
    (hsearch : touch_search name s.directory_stack.entries s.directory_stack.quantity 0 none
      = some (some p)) :
    first_usable s p ∧ absent s name := by
  obtain ⟨hres, hsound⟩ := touch_search_spec name s.directory_stack.entries
    s.directory_stack.quantity 0 none (some p) hsearch
  refine ⟨?_, ?_⟩
  · rcases hres with ⟨x, e1, _⟩ | ⟨_, e2, _⟩ | ⟨_, p', e2, _, e4, e5, e6⟩
    · exact absurd e1 (by simp)
    · exact absurd e2 (by simp)
    · simp only [Option.some.injEq] at e2
      subst e2
      exact ⟨by omega, e5, fun i hi => e6 i (Nat.zero_le i) hi⟩
  · intro i hi hterm hlive
    exact hsound i (Nat.zero_le i) (by omega) (fun m _ hm => hterm m hm) hlive

/-- The search of `touch_wrapper` that ends without a slot has met no usable slot. -/
theorem touch_search_no_slot (s : Session) (name : Nat → Nat)
    (hsearch : touch_search name s.directory_stack.entries s.directory_stack.quantity 0 none
      = some none) :
    ∀ i, i < s.directory_stack.quantity → usable (s.entry i) = false := by
  obtain ⟨hres, _⟩ := touch_search_spec name s.directory_stack.entries
    s.directory_stack.quantity 0 none none hsearch
  rcases hres with ⟨x, e1, _⟩ | ⟨_, _, e3⟩ | ⟨_, p', e2, _⟩
  · exact absurd e1 (by simp)
  · exact fun i hi => e3 i (Nat.zero_le i) (by omega)
  · exact absurd e2 (by simp)

/-- In a directory whose array is allocated, `touch_wrapper` returns 1 only through a usable
slot: the name is accepted, the search ends with the first usable slot `p`, no live entry
carries the name, a scanned cluster `c` is free, and the session returned is the one with the
entry stored in slot `p`. A call that has to grow the directory re-reads it, which frees the
array twice. -/
theorem touch_wrapper_success (fuel : Nat) (bs : boot_sector) (now : tm) (s : Session)
    (unformatted_name : List Nat) (attr : Nat)
    (hptr : s.directory_stack.entries_ptr = Pointer.allocated)
    (hcl : s.directory_stack.cluster ≠ END_OF_CHAIN)
    (hsucc : (touch_wrapper fuel bs now s unformatted_name attr).map (fun r => r.1) = some 1) :
    (attr = ATTR_ARCHIVE ∨ attr = ATTR_DIRECTORY) ∧ formated unformatted_name 0 ≠ 0 ∧
    ∃ p c, first_usable s p ∧ absent s (formated unformatted_name) ∧
      touch_search (formated unformatted_name) s.directory_stack.entries
        s.directory_stack.quantity 0 none = some (some p) ∧
      (free_clusters bs s.disk).head? = some c ∧
      touch_wrapper fuel bs now s unformatted_name attr = some (1,
        touch_store bs now { s with disk := write_in_fat bs s.disk c END_OF_CHAIN }
          (formated unformatted_name) attr c p) := by
  have hne : ∀ (x : Session), Option.map (fun r : Nat × Session => r.1) (some (0, x)) ≠ some 1 := by
    intro x h
    simp at h
  by_cases hattr : attr ≠ ATTR_ARCHIVE ∧ attr ≠ ATTR_DIRECTORY
  · unfold touch_wrapper at hsucc
    rw [if_pos hattr] at hsucc
    exact absurd hsucc (hne _)
  have hattr' : attr = ATTR_ARCHIVE ∨ attr = ATTR_DIRECTORY := by
    by_cases h : attr = ATTR_ARCHIVE
    · exact Or.inl h
    · exact Or.inr (Classical.byContradiction fun h' => hattr ⟨h, h'⟩)
  by_cases hname : formated unformatted_name 0 = 0
  · unfold touch_wrapper at hsucc
    rw [if_neg hattr] at hsucc
    dsimp only at hsucc
    rw [if_pos hname] at hsucc
    exact absurd hsucc (hne _)
  refine ⟨hattr', hname, ?_⟩
  cases hsearch : touch_search (formated unformatted_name) s.directory_stack.entries
      s.directory_stack.quantity 0 none with
  | none =>
    unfold touch_wrapper at hsucc
    rw [if_neg hattr] at hsucc
    dsimp only at hsucc
    rw [if_neg hname, hsearch] at hsucc
    exact absurd hsucc (hne _)
  | some r =>
    by_cases halloc : (allocate_clusters bs s.disk 1).1 = FREE_CLUSTER
    · unfold touch_wrapper at hsucc
      rw [if_neg hattr] at hsucc
      dsimp only at hsucc
      rw [if_neg hname, hsearch] at hsucc
      dsimp only at hsucc
      rw [if_pos halloc] at hsucc
      exact absurd hsucc (hne _)
    obtain ⟨c, hfree⟩ := allocate_one_found bs s.disk halloc
    cases r with
    | some p =>
      obtain ⟨hslot, habsent⟩ := touch_search_slot s _ p hsearch
      exact ⟨p, c, hslot, habsent, rfl, hfree,
        touch_wrapper_found fuel bs now s unformatted_name attr p c hattr' hname hsearch hfree⟩
    | none =>
      exfalso
      unfold touch_wrapper at hsucc
      rw [if_neg hattr] at hsucc
      dsimp only at hsucc
      rw [if_neg hname, hsearch] at hsucc
      dsimp only at hsucc
      rw [if_neg halloc] at hsucc
      cases hlast : get_last_cluster_in_chain fuel bs (allocate_clusters bs s.disk 1).2
          s.directory_stack.cluster with
      | none =>
        rw [hlast] at hsucc
        exact absurd hsucc (by simp)
      | some last =>
        rw [hlast] at hsucc
        dsimp only at hsucc
        by_cases h2 : (allocate_clusters bs (allocate_clusters bs s.disk 1).2 1).1 = FREE_CLUSTER
        · rw [if_pos h2] at hsucc
          exact absurd hsucc (hne _)
        · have hrd : ∀ d, read_dir fuel bs { s with disk := d } = none := fun d =>
            read_dir_allocated fuel bs _ hptr hcl
          rw [if_neg h2, hrd] at hsucc
          exact absurd hsucc (by simp)

/-- In a directory whose array is allocated and which has no usable slot, `touch_wrapper`
never returns 1. -/
theorem touch_wrapper_full (fuel : Nat) (bs : boot_sector) (now : tm) (s : Session)
    (unformatted_name : List Nat) (attr : Nat)
    (hptr : s.directory_stack.entries_ptr = Pointer.allocated)
    (hcl : s.directory_stack.cluster ≠ END_OF_CHAIN)
    (hfull : ∀ i, i < s.directory_stack.quantity → usable (s.entry i) = false) :
    (touch_wrapper fuel bs now s unformatted_name attr).map (fun r => r.1) ≠ some 1 := by
  intro hsucc
  obtain ⟨_, _, p, _, hslot, _⟩ :=
    touch_wrapper_success fuel bs now s unformatted_name attr hptr hcl hsucc
  have := hfull p hslot.1
  rw [hslot.2.1] at this
  exact absurd this (by decide)

/-- In a directory whose array is allocated and which has no usable slot, `touch_wrapper`
for an accepted name that no live entry carries, with two free scanned clusters, links the
new cluster and re-reads the directory: the array is freed twice. -/
theorem touch_wrapper_grow_none (fuel : Nat) (bs : boot_sector) (now : tm) (s : Session)
    (unformatted_name : List Nat) (attr : Nat)
    (hattr : attr = ATTR_ARCHIVE ∨ attr = ATTR_DIRECTORY)
    (hptr : s.directory_stack.entries_ptr = Pointer.allocated)
    (hcl : s.directory_stack.cluster ≠ END_OF_CHAIN)
    (hname : formated unformatted_name 0 ≠ 0)
    (hsearch : touch_search (formated unformatted_name) s.directory_stack.entries
      s.directory_stack.quantity 0 none = some none)
    (h1 : (allocate_clusters bs s.disk 1).1 ≠ FREE_CLUSTER)
    (h2 : (allocate_clusters bs (allocate_clusters bs s.disk 1).2 1).1 ≠ FREE_CLUSTER) :
    touch_wrapper fuel bs now s unformatted_name attr = none := by
  unfold touch_wrapper
  rw [if_neg (by rcases hattr with h | h <;> simp [h])]
  dsimp only
  rw [if_neg hname, hsearch]
  dsimp only
  rw [if_neg h1]
  cases hlast : get_last_cluster_in_chain fuel bs (allocate_clusters bs s.disk 1).2
      s.directory_stack.cluster with
  | none => rfl
  | some last =>
    dsimp only
    have hrd : ∀ d, read_dir fuel bs { s with disk := d } = none := fun d =>
      read_dir_allocated fuel bs _ hptr hcl
    rw [if_neg h2, hrd]

/-! ### Commands that re-read the current directory -/

theorem mount_tree : read_disk 5 bs_small img_tree = some session_tree := rfl

theorem mount_slot : read_disk 5 bs_small img_slot = some session_slot := rfl

theorem mount_full_two : read_disk 5 bs_small img_full_two = some session_full_two := rfl

theorem mount_label : read_disk 5 bs_small img_label = some session_label := rfl

/-- A property decided on the value of an option holds of that value. -/
theorem of_map_decide {α : Type} (x : Option α) (P : α → Prop) [DecidablePred P]
    (h : x.map (fun a => decide (P a)) = some true) (a : α) (hx : x = some a) : P a := by
  subst hx
  simp only [Option.map_some', Option.some.injEq, decide_eq_true_eq] at h
  exact h

set_option maxRecDepth 100000 in
/-- C23 (code at the failing input): `cd .` returns every session as it is, and so does
`cd ..` at the root of `img_tree`, where the count is 0. After mounting and `cd D` the stack
count is 1, the current frame is D (cluster 3) and the frame below it is the root, whose
array of 16 slots is allocated. `cd ..` makes the root the current frame again and calls
`read_dir` on it: the first line of `read_dir` frees the array, and the first pass of the
loop frees the same pointer once more before storing the new one. Whatever the fuel, the
call has no defined result. -/
theorem cd_dotdot_frees_twice :
    (∀ fuel bs s, cd fuel bs s [46] = some s) ∧
    (∀ fuel, ((read_disk 5 bs_small img_tree).bind fun s => cd fuel bs_small s [46, 46])
      = read_disk 5 bs_small img_tree) ∧
    ((read_disk 5 bs_small img_tree).bind fun s => cd 5 bs_small s [68]).map
        (fun s => (s.directory_stack_count, s.directory_stack.cluster,
          s.previous.map fun d => (d.cluster, d.quantity, d.entries_ptr)))
      = some (1, 3, [(2, 16, Pointer.allocated)]) ∧
    ∀ fuel, (((read_disk 5 bs_small img_tree).bind fun s => cd 5 bs_small s [68]).bind
        fun s => cd fuel bs_small s [46, 46]) = none := by
  refine ⟨fun fuel bs s => ?_, fun fuel => ?_, by decide, fun fuel => ?_⟩
  · unfold cd cd_wrapper
    rw [if_pos rfl]
    rfl
  · rw [mount_tree]
    rfl
  cases hx : (read_disk 5 bs_small img_tree).bind fun s => cd 5 bs_small s [68] with
  | none => rfl
  | some s =>
    have hP := of_map_decide _
      (fun s : Session => s.directory_stack_count ≠ 0 ∧
        (s.previous.head?.map fun d => (d.entries_ptr, decide (d.cluster ≠ END_OF_CHAIN)))
          = some (Pointer.allocated, true))
      (by decide) s hx
    obtain ⟨hcount, hhead⟩ := hP
    cases hprev : s.previous with
    | nil => rw [hprev] at hhead; exact absurd hhead (by simp)
    | cons parent rest =>
      rw [hprev] at hhead
      simp only [List.head?_cons, Option.map_some', Option.some.injEq, Prod.mk.injEq,
        decide_eq_true_eq] at hhead
      exact cd_dotdot_none fuel bs_small s parent rest hcount hprev hhead.1 hhead.2

set_option maxRecDepth 100000 in
/-- C13 (code at the failing input): the root directory of `img_tree` holds the directory D
(slot 1), which contains a file besides its dot entries, and the empty directory E (slot
2); after mounting, the array of the root frame is allocated. `rmdir D` and `rmdir E` enter
the directory, count its entries and come back with `cd ..`, which calls `read_dir` on the
root frame and frees its array twice. Whatever the fuel, neither call has a defined result:
no "Directory not empty" return with the directory stack restored, and no removal. -/
theorem rmdir_frees_twice :
    (read_disk 5 bs_small img_tree).map
        (fun s => (s.directory_stack.entries_ptr, s.directory_stack_count,
          (List.range 4).map fun i => (s.entry i 0, is_directory (s.entry i))))
      = some (Pointer.allocated, 0, [(70, false), (68, true), (69, true), (0, false)]) ∧
    (read_disk 5 bs_small img_tree).map
        (fun s => [(cd 5 bs_small s [68]).map fun s' =>
            live_before_zero s'.directory_stack.entries,
          (cd 5 bs_small s [69]).map fun s' => live_before_zero s'.directory_stack.entries])
      = some [some 3, some 2] ∧
    (∀ fuel, ((read_disk 5 bs_small img_tree).bind fun s => rmdir fuel bs_small s [68]) = none) ∧
    (∀ fuel, ((read_disk 5 bs_small img_tree).bind fun s => rmdir fuel bs_small s [69]) = none) := by
  refine ⟨by decide, by decide, fun fuel => ?_, fun fuel => ?_⟩
  · rw [mount_tree]
    exact rmdir_directory_none fuel bs_small session_tree [68] 1 (by decide) (by decide)
      (by decide) (by decide) (by decide) (by decide) (by decide) (by decide) (by decide)
      (by decide) (by decide)
  · rw [mount_tree]
    exact rmdir_directory_none fuel bs_small session_tree [69] 2 (by decide) (by decide)
      (by decide) (by decide) (by decide) (by decide) (by decide) (by decide) (by decide)
      (by decide) (by decide)

set_option maxRecDepth 100000 in
/-- C9 (code at the failing input): on `img_slot`, whose free clusters hold zero bytes,
`mkdir D` succeeds without printing anything and stores D in slot 1 of the root. The
`rmdir D` that follows enters D, finds only the two dot entries and comes back with
`cd ..`, which calls `read_dir` on the root frame and frees its array twice. Whatever the
fuel, the call has no defined result. -/
theorem mkdir_rmdir_frees_twice :
    ((read_disk 5 bs_small img_slot).bind fun s =>
        touch_wrapper 5 bs_small noon s [68] ATTR_DIRECTORY).map
      (fun r => (r.1, r.2.out, r.2.directory_stack.entries_ptr)) = some (1, [], Pointer.allocated) ∧
    ((read_disk 5 bs_small img_slot).bind fun s => mkdir 5 bs_small noon s [68]).map
      (fun s => (s.entry 1 0, is_directory (s.entry 1),
        (cd 5 bs_small s [68]).map fun s' => live_before_zero s'.directory_stack.entries))
      = some (68, true, some 2) ∧
    ∀ fuel, (((read_disk 5 bs_small img_slot).bind fun s =>
        mkdir 5 bs_small noon s [68]).bind fun s => rmdir fuel bs_small s [68]) = none := by
  refine ⟨by decide, by decide, fun fuel => ?_⟩
  cases hx : (read_disk 5 bs_small img_slot).bind fun s => mkdir 5 bs_small noon s [68] with
  | none => rfl
  | some s =>
    have hP := of_map_decide _
      (fun s : Session => s.directory_stack.entries_ptr = Pointer.allocated ∧
        s.directory_stack.cluster ≠ END_OF_CHAIN ∧
        (s.directory_stack_count + 1) % 2 ^ 32 ≠ 0 ∧
        1 < s.directory_stack.quantity ∧
        (∀ j, j < 1 →
          s.entry j 0 ≠ 0x00 ∧
          (s.entry j 0 = 0xE5 ∨ is_long_name (s.entry j) = true ∨
            name_matches (formated [68]) (s.entry j) = false)) ∧
        s.entry 1 0 ≠ 0x00 ∧ s.entry 1 0 ≠ 0xE5 ∧ is_long_name (s.entry 1) = false ∧
        is_directory (s.entry 1) = true ∧ name_matches (formated [68]) (s.entry 1) = true)
      (by decide) s hx
    obtain ⟨a1, a2, a3, a4, a5, a6, a7, a8, a9, a10⟩ := hP
    exact rmdir_directory_none fuel bs_small s [68] 1 a1 a2 a3 (by decide) a4 a5 a6 a7 a8 a9 a10

set_option maxRecDepth 100000 in
/-- C29 (code at the failing input): the root directory of `img_full_two` is full (no slot
is usable), clusters 96 and 97 are free, and after mounting the array of the root frame is
allocated. `touch X` and `mkdir X` allocate cluster 96 for the entry and cluster 97 for
the directory, write 97 into the FAT entry of the last cluster of the directory, and call
`read_dir` on the current frame, which frees its array twice. Whatever the fuel, the call
has no defined result: no reloaded cache and no stored entry. -/
theorem touch_growth_frees_twice :
    (read_disk 5 bs_small img_full_two).map
        (fun s => (s.directory_stack.entries_ptr, s.directory_stack.quantity,
          decide (∀ i, i < s.directory_stack.quantity → usable (s.entry i) = false),
          free_clusters bs_small s.disk))
      = some (Pointer.allocated, 16, true, [96, 97]) ∧
    (∀ fuel, ((read_disk 5 bs_small img_full_two).bind fun s =>
      touch_wrapper fuel bs_small noon s [88] ATTR_ARCHIVE) = none) ∧
    (∀ fuel, ((read_disk 5 bs_small img_full_two).bind fun s =>
      touch_wrapper fuel bs_small noon s [88] ATTR_DIRECTORY) = none) := by
  refine ⟨by decide, fun fuel => ?_, fun fuel => ?_⟩
  · rw [mount_full_two]
    exact touch_wrapper_grow_none fuel bs_small noon session_full_two [88] ATTR_ARCHIVE
      (Or.inl rfl) (by decide) (by decide) (by decide) (by decide) (by decide) (by decide)
  · rw [mount_full_two]
    exact touch_wrapper_grow_none fuel bs_small noon session_full_two [88] ATTR_DIRECTORY
      (Or.inr rfl) (by decide) (by decide) (by decide) (by decide) (by decide) (by decide)

set_option maxRecDepth 100000 in
/-- C6 (code at the failing input): the root directory of `img_deleted` holds two deleted
slots and nothing else; the name bytes of slot 1 are 0xE5 0xA4 and nine spaces. The name
0xE5 0xA4 is accepted by `create_formated_name`, no live entry carries it, slot 0 is usable
and cluster 3 is free. `touch` takes slot 0 as the place for the new entry, goes on to slot
1, which it does not skip because a slot is already chosen, compares the names and returns
0 with "Already exists": no entry is stored and no cluster is allocated. -/
theorem touch_rejects_deleted_name :
    (read_disk 5 bs_small img_deleted).map
        (fun s => (decide (first_usable s 0), decide (absent s (formated [0xE5, 0xA4])),
          formated [0xE5, 0xA4] 0, (free_clusters bs_small s.disk).head?))
      = some (true, true, 0xE5, some 3) ∧
    (read_disk 5 bs_small img_deleted).map
        (fun s => (List.range 3).map fun i => (s.entry i 0, s.entry i 1))
      = some [(0xE5, 65), (0xE5, 0xA4), (0, 0)] ∧
    ((read_disk 5 bs_small img_deleted).bind fun s =>
        touch_wrapper 5 bs_small noon s [0xE5, 0xA4] ATTR_ARCHIVE).map
      (fun r => (r.1, r.2.out, (List.range 3).map (fun i => (r.2.entry i 0, r.2.entry i 1)),
        fat_entry bs_small r.2.disk 3))
      = some (0, [Msg.already_exists Command.touch [0xE5, 0xA4]],
          [(0xE5, 65), (0xE5, 0xA4), (0, 0)], 0) := by
  decide

/-! ### The listing of a volume label -/

/-- The loop of `ls` passes over deleted slots. -/
theorem ls_loop_skip (entries : List DirEntry) :
    ∀ (k n i : Nat), (∀ j, i ≤ j → j < i + k → entries.getD j zero_entry 0 = 0xE5) →
      ls_loop entries (n + k) i = ls_loop entries n (i + k) := by
  intro k
  induction k with
  | zero => intro n i _; rfl
  | succ k ih =>
    intro n i h
    have hi := h i (Nat.le_refl _) (by omega)
    have hrest := ih n (i + 1) (fun j h1 h2 => h j (by omega) (by omega))
    rw [show n + (k + 1) = (n + k) + 1 by omega, show i + (k + 1) = i + 1 + k by omega, ← hrest]
    rw [ls_loop]
    simp only [hi, if_true]
    rw [if_neg (by decide)]

/-- The loop of `ls` ends at a terminator or at the end of the array. -/
theorem ls_loop_end (entries : List DirEntry) (n t : Nat)
    (h : 0 < n → entries.getD t zero_entry 0 = 0x00) : ls_loop entries n t = [] := by
  cases n with
  | zero => rfl
  | succ n =>
    rw [ls_loop]
    simp only [h (Nat.succ_pos n), if_true]

/-- C25 (amended): in a directory whose slots before the terminator `t` (or before the end of
the array when it has no terminator) are all deleted except slot `p`, a volume-label entry
(attribute 0x08), `ls` prints the header line followed by exactly one entry line, the one of
the label: its dates, times and size, the flag of a file and its name. -/
theorem ls_prints_volume_label (s : Session) (p t : Nat)
    (hp : p < t) (ht : t ≤ s.directory_stack.quantity)
    (hterm : t < s.directory_stack.quantity → s.entry t 0 = 0x00)
    (hlabel : DIR_Attr (s.entry p) = ATTR_VOLUME_ID)
    (h0 : s.entry p 0 ≠ 0x00) (h1 : s.entry p 0 ≠ 0xE5)
    (hfree : ∀ j, j < t → j ≠ p → s.entry j 0 = 0xE5) :
    ls s = [LsLine.header,
      LsLine.entry (print_date (DIR_CrtDate (s.entry p))) (print_time (DIR_CrtTime (s.entry p)))
        (print_date (DIR_WrtDate (s.entry p))) (print_time (DIR_WrtTime (s.entry p)))
        (print_date (DIR_LstAccDate (s.entry p))) (DIR_FileSize (s.entry p)) false
        (print_name (s.entry p))] := by
  have hlong : is_long_name (s.entry p) = false := by
    unfold is_long_name
    rw [hlabel]
    decide
  have hflag : (DIR_Attr (s.entry p) &&& (ATTR_DIRECTORY ||| ATTR_VOLUME_ID) == ATTR_DIRECTORY)
      = false := by
    rw [hlabel]
    decide
  unfold ls
  congr 1
  -- the deleted slots before the label
  have e1 : s.directory_stack.quantity = (s.directory_stack.quantity - p) + p := by omega
  rw [e1, ls_loop_skip _ p _ 0 (fun j _ hj => hfree j (by omega) (by omega)), Nat.zero_add]
  -- the label
  obtain ⟨m, hm⟩ : ∃ m, s.directory_stack.quantity - p = m + 1 :=
    ⟨s.directory_stack.quantity - p - 1, by omega⟩
  rw [hm, ls_loop]
  have h0' : s.directory_stack.entries.getD p zero_entry 0 ≠ 0x00 := h0
  have h1' : s.directory_stack.entries.getD p zero_entry 0 ≠ 0xE5 := h1
  have hlong' : is_long_name (s.directory_stack.entries.getD p zero_entry) = false := hlong
  have hflag' : (DIR_Attr (s.directory_stack.entries.getD p zero_entry)
      &&& (ATTR_DIRECTORY ||| ATTR_VOLUME_ID) == ATTR_DIRECTORY) = false := hflag
  simp only [h0', h1', hlong', hflag', if_false, Bool.false_eq_true]
  congr 1
  -- the deleted slots after the label, up to the terminator
  · have e2 : m = (m - (t - p - 1)) + (t - p - 1) := by omega
    rw [e2, ls_loop_skip _ (t - p - 1) _ (p + 1) (fun j h1 h2 => hfree j (by omega) (by omega))]
    apply ls_loop_end
    intro hpos
    rw [show p + 1 + (t - p - 1) = t by omega]
    exact hterm (by omega)

set_option maxRecDepth 100000 in
/-- C25 (amended) at work on `session_label`, the mounted `img_label`: slot 0 is the label L
and slot 1 the terminator; `ls` prints the header and the line of L. -/
theorem ls_prints_volume_label_witness :
    ((0 : Nat) < 1 ∧ 1 ≤ session_label.directory_stack.quantity ∧
      session_label.entry 1 0 = 0x00 ∧ DIR_Attr (session_label.entry 0) = ATTR_VOLUME_ID ∧
      session_label.entry 0 0 ≠ 0x00 ∧ session_label.entry 0 0 ≠ 0xE5) ∧
    ls session_label = [LsLine.header,
      LsLine.entry [0, 0, 1980] [0, 0, 0] [0, 0, 1980] [0, 0, 0] [0, 0, 1980] 0 false [76]] := by
  refine ⟨by decide, ?_⟩
  have h := ls_prints_volume_label session_label 0 1 (by decide) (by decide)
    (fun _ => by decide) (by decide) (by decide) (by decide) (fun j hj hne => by omega)
  rw [h]
  decide

/-! ### The slot a `touch` takes -/

set_option maxRecDepth 100000 in
/-- C8 (as stated) fails in two ways. On `img_stale` slot 0 is the terminator and stale
bytes follow it: the directory has no live entry before `touch A; rm A` and one live entry,
starting with Z, after it. On `img_slot` the name with the bytes 0xE5 0xA4 is accepted and
no entry carries it: `touch` succeeds and allocates cluster 3, but the entry it stores
starts with 0xE5 and reads as deleted, so `rm` of the same name prints "No such file" and
cluster 3 stays allocated: clusters 3 and 4 were the lowest free ones before, 4 and 5 are
afterwards. -/
theorem touch_rm_changes_state :
    ((read_disk 5 bs_small img_stale).map
        (fun s => (live_entries s.directory_stack).map fun e => e 0) = some [] ∧
      ((read_disk 5 bs_small img_stale).bind fun s =>
          touch_wrapper 5 bs_small noon s [65] ATTR_ARCHIVE).map (fun r => r.1) = some 1 ∧
      (((read_disk 5 bs_small img_stale).bind fun s =>
          touch 5 bs_small noon s [65]).bind fun s => rm 5 bs_small s [65]).map
        (fun s => (live_entries s.directory_stack).map fun e => e 0) = some [90]) ∧
    ((read_disk 5 bs_small img_slot).map
        (fun s => (decide (absent s (formated [0xE5, 0xA4])), formated [0xE5, 0xA4] 0,
          (free_clusters bs_small s.disk).take 2)) = some (true, 0xE5, [3, 4]) ∧
      ((read_disk 5 bs_small img_slot).bind fun s =>
          touch_wrapper 5 bs_small noon s [0xE5, 0xA4] ATTR_ARCHIVE).map
        (fun r => (r.1, r.2.out)) = some (1, []) ∧
      (((read_disk 5 bs_small img_slot).bind fun s =>
          touch 5 bs_small noon s [0xE5, 0xA4]).bind fun s => rm 5 bs_small s [0xE5, 0xA4]).map
        (fun s => (s.out, (free_clusters bs_small s.disk).take 2, fat_entry bs_small s.disk 3))
        = some ([Msg.no_such_file Command.rm [0xE5, 0xA4]], [4, 5], 0x0FFFFFF8)) := by
  decide

/-- C8 (amended): in a current directory whose array is allocated and in which every slot
after a 0x00 slot also has status byte 0x00, whenever `touch F` returns 1 for a name whose
encoding does not start with 0xE5, the `rm F` that follows returns and leaves the list of
live entries of the current directory and every entry of the FAT, hence the set of free
clusters, as they were before the `touch`. The FAT copies lie below 4 GiB, the cluster
allocated has its entry inside the first FAT, and the slot used is reached through
allocated clusters into the data region. -/
theorem touch_rm_restores (fuel : Nat) (bs : boot_sector) (now : tm) (s : Session)
    (file_name : List Nat)
    (hfit : fats_addressable bs)
    (hlen : s.directory_stack.quantity = s.directory_stack.entries.length)
    (hptr : s.directory_stack.entries_ptr = Pointer.allocated)
    (hcl : s.directory_stack.cluster ≠ END_OF_CHAIN)
    (hE5 : formated file_name 0 ≠ 0xE5)
    (hclean : unused_after_terminator s)
    (hc : ∀ c, (free_clusters bs s.disk).head? = some c → in_fat bs c)
    (hwalk : ∀ p, first_usable s p →
      walk_ok bs s.disk s.directory_stack.cluster p ∧
      fat_start bs + 2 * fat_bytes bs
        ≤ get_entry_disk_position bs s.disk s.directory_stack.cluster p)
    (hfuel : 1 < fuel)
    (hsucc : (touch_wrapper fuel bs now s file_name ATTR_ARCHIVE).map (fun r => r.1) = some 1) :
    ∃ s1 s2, touch fuel bs now s file_name = some s1 ∧ rm fuel bs s1 file_name = some s2 ∧
      live_entries s2.directory_stack = live_entries s.directory_stack ∧
      (∀ j, in_fat bs j → fat_entry bs s2.disk j = fat_entry bs s.disk j) ∧
      (∀ j, in_fat bs j →
        (get_cluster_info bs s2.disk j = FREE_CLUSTER ↔
          get_cluster_info bs s.disk j = FREE_CLUSTER)) := by
  obtain ⟨_, hname, p, c, hslot, habsent, _, hfree, _⟩ :=
    touch_wrapper_success fuel bs now s file_name ATTR_ARCHIVE hptr hcl hsucc
  exact touch_rm_restores_at fuel bs now s file_name p c hfit hlen ⟨hname, hE5⟩ hslot habsent
    hclean hfree (hc c hfree) (hwalk p hslot).1 (hwalk p hslot).2 hfuel

set_option maxRecDepth 100000 in
/-- C8 (amended) at work on `session_slot`: `touch A` returns 1 and `rm A` undoes it. -/
theorem touch_rm_restores_witness :
    (fats_addressable bs_small ∧
      session_slot.directory_stack.entries_ptr = Pointer.allocated ∧
      formated [65] 0 ≠ 0xE5 ∧ unused_after_terminator session_slot ∧
      (free_clusters bs_small session_slot.disk).head? = some 3 ∧ in_fat bs_small 3 ∧
      first_usable session_slot 1 ∧
      (touch_wrapper 5 bs_small noon session_slot [65] ATTR_ARCHIVE).map (fun r => r.1)
        = some 1) ∧
    ∃ s1 s2, touch 5 bs_small noon session_slot [65] = some s1 ∧
      rm 5 bs_small s1 [65] = some s2 ∧
      live_entries s2.directory_stack = live_entries session_slot.directory_stack ∧
      fat_entry bs_small s2.disk 3 = fat_entry bs_small session_slot.disk 3 := by
  refine ⟨by decide, ?_⟩
  have hone : ∀ p, first_usable session_slot p → p = 1 := by
    intro p hp
    have h1u : first_usable session_slot 1 := by decide
    rcases Nat.lt_trichotomy p 1 with hlt | heq | hgt
    · exact absurd (h1u.2.2 p hlt) (by rw [hp.2.1]; decide)
    · exact heq
    · exact absurd (hp.2.2 1 hgt) (by rw [h1u.2.1]; decide)
  obtain ⟨s1, s2, h1, h2, h3, h4, _⟩ :=
    touch_rm_restores 5 bs_small noon session_slot [65] (by decide) (by decide) (by decide)
      (by decide) (by decide) (by decide)
      (fun c hc => by
        have h3 : (free_clusters bs_small session_slot.disk).head? = some 3 := by decide
        rw [h3] at hc
        rw [← Option.some.inj hc]
        decide)
      (fun p hp => by
        have hp1 := hone p hp
        subst hp1
        exact ⟨by decide, by decide⟩)
      (by decide) (by decide)
  exact ⟨s1, s2, h1, h2, h3, h4 3 (by decide)⟩

/-! ### The unused tail of a directory -/

/-- The session after a `touch` whose search ends with slot `p`. -/
theorem touch_found_eq (fuel : Nat) (bs : boot_sector) (now : tm) (s : Session)
    (unformatted_name : List Nat) (attr p c : Nat)
    (hattr : attr = ATTR_ARCHIVE)
    (hfit : fats_addressable bs)
    (hname : formated unformatted_name 0 ≠ 0)
    (hsearch : touch_search (formated unformatted_name) s.directory_stack.entries
      s.directory_stack.quantity 0 none = some (some p))
    (hfree : (free_clusters bs s.disk).head? = some c) (hc : in_fat bs c)
    (hwalk : walk_ok bs s.disk s.directory_stack.cluster p) :
    touch_wrapper fuel bs now s unformatted_name attr = some (1,
      { s with
        disk := fwrite (write_in_fat bs s.disk c END_OF_CHAIN)
          (get_entry_disk_position bs s.disk s.directory_stack.cluster p) 32
          (new_entry (formated unformatted_name) attr c (fat_date now) (fat_time now))
        directory_stack :=
          { s.directory_stack with
            entries := s.directory_stack.entries.set p
              (new_entry (formated unformatted_name) attr c (fat_date now) (fat_time now)) } }) := by
  obtain ⟨_, _, _, hcfree⟩ := allocate_one bs s.disk c hfree
  have hagree := write_in_fat_agree bs s.disk c END_OF_CHAIN hfit hc hcfree
  have hpos1 : get_entry_disk_position bs (write_in_fat bs s.disk c END_OF_CHAIN)
      s.directory_stack.cluster p
      = get_entry_disk_position bs s.disk s.directory_stack.cluster p :=
    get_entry_disk_position_congr bs _ _ _ _ hagree hwalk
  rw [touch_wrapper_found fuel bs now s unformatted_name attr p c (Or.inl hattr) hname hsearch
    hfree]
  unfold touch_store
  dsimp only
  rw [hpos1, if_neg (by rw [hattr]; decide)]

/-- The session after a `mkdir` whose search ends with slot `p`. -/
theorem mkdir_found_eq (fuel : Nat) (bs : boot_sector) (now : tm) (s : Session)
    (unformatted_name : List Nat) (p c : Nat)
    (hfit : fats_addressable bs)
    (hname : formated unformatted_name 0 ≠ 0)
    (hsearch : touch_search (formated unformatted_name) s.directory_stack.entries
      s.directory_stack.quantity 0 none = some (some p))
    (hfree : (free_clusters bs s.disk).head? = some c) (hc : in_fat bs c)
    (hwalk : walk_ok bs s.disk s.directory_stack.cluster p) :
    touch_wrapper fuel bs now s unformatted_name ATTR_DIRECTORY = some (1,
      { s with
        disk := fwrite (fwrite (fwrite (write_in_fat bs s.disk c END_OF_CHAIN)
            (get_entry_disk_position bs s.disk s.directory_stack.cluster p) 32
            (new_entry (formated unformatted_name) ATTR_DIRECTORY c (fat_date now) (fat_time now)))
          (write_dotpos bs c) 32
            (dot_entry dot ATTR_DIRECTORY c (fat_date now) (fat_time now)))
          (write_dotpos bs c + 32) 32
            (dot_entry dotdot ATTR_DIRECTORY s.directory_stack.cluster (fat_date now) (fat_time now))
        directory_stack :=
          { s.directory_stack with
            entries := s.directory_stack.entries.set p
              (new_entry (formated unformatted_name) ATTR_DIRECTORY c (fat_date now)
                (fat_time now)) } }) := by
  obtain ⟨_, _, _, hcfree⟩ := allocate_one bs s.disk c hfree
  have hagree := write_in_fat_agree bs s.disk c END_OF_CHAIN hfit hc hcfree
  have hpos1 : get_entry_disk_position bs (write_in_fat bs s.disk c END_OF_CHAIN)
      s.directory_stack.cluster p
      = get_entry_disk_position bs s.disk s.directory_stack.cluster p :=
    get_entry_disk_position_congr bs _ _ _ _ hagree hwalk
  rw [touch_wrapper_found fuel bs now s unformatted_name ATTR_DIRECTORY p c (Or.inr rfl) hname
    hsearch hfree]
  unfold touch_store write_dotpos
  dsimp only
  rw [hpos1, if_pos rfl]


/-- The unused tail after a `touch` or `mkdir` whose search ends with the usable slot `p`:
the current directory read back from the image keeps it, the cache still equals what
`read_dir` loads, and the new directory of a `mkdir` has one when the slots of its cluster
from the third on had one beforehand. -/
theorem touch_keeps_tail_at (fuel : Nat) (bs : boot_sector) (now : tm) (s : Session)
    (entry_name : List Nat) (attr p c : Nat) (cs : List Nat)
    (hattr : attr = ATTR_ARCHIVE ∨ attr = ATTR_DIRECTORY)
    (hfit : fats_addressable bs) (hspc : bs.BPB_SecPerClus < 2 ^ 8)
    (hdiv : cluster_bytes bs % 32 = 0) (hcb : 64 ≤ cluster_bytes bs)
    (hhead : cs.head? = some s.directory_stack.cluster)
    (hchain : directory_chain bs s.disk cs) (hcoh : coherent bs s cs)
    (hchars : ∀ ch ∈ entry_name, ch < 256)
    (hname : formated entry_name 0 ≠ 0) (hslot : first_usable s p)
    (hsearch : touch_search (formated entry_name) s.directory_stack.entries
      s.directory_stack.quantity 0 none = some (some p))
    (hnozero : ∀ i, i < p → s.entry i 0 ≠ 0x00)
    (hfree : (free_clusters bs s.disk).head? = some c)
    (hc : in_fat bs c) (hceoc : c ≠ END_OF_CHAIN)
    (hcdata : attr = ATTR_DIRECTORY → data_cluster bs c)
    (hinv : unused_after_zero (chain_slots bs s.disk cs))
    (hnew : attr = ATTR_DIRECTORY → ∀ j, j < max_dir_entry_per_cluster bs → ∀ i, 2 ≤ i → i < j →
      (cluster_slots bs s.disk c).getD i zero_entry 0 = 0x00 →
      (cluster_slots bs s.disk c).getD j zero_entry 0 = 0x00)
    (hfuel : cs.length < fuel) :
    ∃ s1, touch_wrapper fuel bs now s entry_name attr = some (1, s1) ∧
      read_dir_loop bs s1.disk fuel s1.directory_stack.cluster []
        = some (chain_slots bs s1.disk cs) ∧
      coherent bs s1 cs ∧
      unused_after_zero (chain_slots bs s1.disk cs) ∧
      (attr = ATTR_DIRECTORY →
        first_cluster (s1.entry p) = c ∧
        read_dir_loop bs s1.disk fuel c [] = some (cluster_slots bs s1.disk c) ∧
        unused_after_zero (cluster_slots bs s1.disk c)) := by
  obtain ⟨hlinked, hnodup, hx⟩ := hchain
  have hcoh' := hcoh
  obtain ⟨hlen, hq, hcohb⟩ := hcoh'
  obtain ⟨_, hc2, _, hcfree⟩ := allocate_one bs s.disk c hfree
  have hc32 := in_fat_lt bs c hfit hc
  have hcbs := cluster_bytes_slots bs hdiv
  have hepc : 2 ≤ max_dir_entry_per_cluster bs := by omega
  have hslot' := hslot
  obtain ⟨hpq, hpu, hpb⟩ := hslot'
  have hpc : p < cs.length * max_dir_entry_per_cluster bs := by rw [← hq]; exact hpq
  have hmp : p / max_dir_entry_per_cluster bs < cs.length :=
    Nat.div_lt_of_lt_mul (by rw [Nat.mul_comm]; exact hpc)
  have hxne : ∀ x ∈ cs, 2 ≤ x ∧ in_fat bs x ∧ data_cluster bs x ∧ x ≠ c := fun x hxm =>
    ⟨(hx x hxm).1, (hx x hxm).2.2.1, (hx x hxm).2.2.2.1, fun h => (hx x hxm).2.2.2.2 (h ▸ hcfree)⟩
  have hclne : s.directory_stack.cluster ≠ END_OF_CHAIN :=
    (hx _ (List.mem_of_mem_head? hhead)).2.1
  have hcs1 : 1 ≤ cs.length := by
    cases cs with
    | nil => simp at hhead
    | cons a l => simp
  have hwalk : walk_ok bs s.disk s.directory_stack.cluster p := by
    intro i hi
    have him : i < cs.length := by
      rw [hcbs, Nat.mul_div_mul_right _ _ (by decide : 0 < 32)] at hi; omega
    rw [linked_iterate bs s.disk cs _ i hhead hlinked him]
    exact ⟨(hx _ (getD_mem cs i him)).2.2.1, (hx _ (getD_mem cs i him)).2.2.2.2⟩
  have hposeq := entry_position_eq bs s.disk cs s.directory_stack.cluster p hhead hlinked
    (fun x hm => (hx x hm).2.2.2.1) hdiv hcb hpc
  have hxp := hxne _ (getD_mem cs _ hmp)
  have hrp : p % max_dir_entry_per_cluster bs < max_dir_entry_per_cluster bs :=
    Nat.mod_lt _ (by omega)
  have hposval := (read_dir_position_eq bs _ hxp.2.2.1 hcb).1
  have hpos : fat_start bs + 2 * fat_bytes bs
      ≤ get_entry_disk_position bs s.disk s.directory_stack.cluster p := by
    rw [hposeq, hposval]
    have := hxp.2.2.1.1
    omega
  have hagree := write_in_fat_agree bs s.disk c END_OF_CHAIN hfit hc hcfree
  have hattr256 : attr < 256 := by rcases hattr with h | h <;> rw [h] <;> decide
  obtain ⟨f0, _, _, _, _, _, _, _, _, _, f10⟩ :=
    new_entry_fields (formated entry_name) attr c (fat_date now) (fat_time now) hc32
      hattr256 (fat_date_lt now) (fat_time_lt now)
  have elt := new_entry_lt (formated entry_name) attr c (fat_date now) (fat_time now)
    (formated_lt entry_name hchars)
  have he0 : new_entry (formated entry_name) attr c (fat_date now) (fat_time now) 0 ≠ 0x00 := by
    rw [f0 0 (by decide)]; exact hname
  rcases hattr with hA | hD
  · -- a file
    have hmk := touch_found_eq fuel bs now s entry_name attr p c hA hfit hname hsearch hfree
      hc hwalk
    have hslots := touch_reload_slot bs s.disk cs c p
      (new_entry (formated entry_name) attr c (fat_date now) (fat_time now))
      hfit hspc hdiv hcb hc hnodup (fun x hm => ⟨(hxne x hm).1, (hxne x hm).2.1, (hxne x hm).2.2.1⟩)
      hpc
    rw [← hposeq] at hslots
    have hinfoD : ∀ y, in_fat bs y → get_cluster_info bs s.disk y ≠ FREE_CLUSTER →
        get_cluster_info bs (fwrite (write_in_fat bs s.disk c END_OF_CHAIN)
          (get_entry_disk_position bs s.disk s.directory_stack.cluster p) 32
          (new_entry (formated entry_name) attr c (fat_date now) (fat_time now))) y
        = get_cluster_info bs s.disk y := by
      intro y hy hne
      rw [fwrite_data_info bs _ _ _ _ y hfit hy hpos]
      exact hagree y hy hne
    have hlinkedD := (linked_congr bs s.disk _ cs fun x hxm =>
      hinfoD x (hx x hxm).2.2.1 (hx x hxm).2.2.2.2).trans hlinked
    obtain ⟨hc1, hc2'⟩ := cache_after_store bs s _ cs p _ hcoh hpq elt he0 hslots hnozero hinv
    refine ⟨_, hmk, ?_, hc1, hc2', ?_⟩
    · exact read_dir_loop_chain bs _ cs fuel _ [] hhead hclne hlinkedD hfuel
    · intro h
      rw [hA] at h
      exact absurd h (by decide)
  · -- a directory
    subst hD
    have hcd := hcdata rfl
    have hmk := mkdir_found_eq fuel bs now s entry_name p c hfit hname hsearch hfree hc hwalk
    obtain ⟨hrdp, hwdp⟩ := read_dir_position_eq bs c hcd hcb
    have hwdata : fat_start bs + 2 * fat_bytes bs ≤ write_dotpos bs c := by
      rw [hwdp]; exact hcd.1
    have hslots := mkdir_reload_slot bs s.disk cs c p
      (new_entry (formated entry_name) ATTR_DIRECTORY c (fat_date now) (fat_time now))
      (dot_entry dot ATTR_DIRECTORY c (fat_date now) (fat_time now))
      (dot_entry dotdot ATTR_DIRECTORY s.directory_stack.cluster (fat_date now) (fat_time now))
      hfit hspc hdiv hcb hc hc2 hcd hnodup hxne hpc
    have hwr : write_dotpos bs c = read_dir_position bs c := hwdp.trans hrdp.symm
    rw [← hposeq] at hslots
    rw [hwr] at hmk hwdata
    have hd := data_disjoint bs _ c hxp.1 hc2 (in_fat_lt bs _ hfit hxp.2.1) hc32 hspc hcb
      hxp.2.2.2
    have hold : ∀ j, 2 ≤ j → j < max_dir_entry_per_cluster bs →
        (cluster_slots bs
          (fwrite (fwrite (fwrite (write_in_fat bs s.disk c END_OF_CHAIN)
            (get_entry_disk_position bs s.disk s.directory_stack.cluster p) 32
            (new_entry (formated entry_name) ATTR_DIRECTORY c (fat_date now) (fat_time now)))
            (read_dir_position bs c) 32
            (dot_entry dot ATTR_DIRECTORY c (fat_date now) (fat_time now)))
            (read_dir_position bs c + 32) 32
            (dot_entry dotdot ATTR_DIRECTORY s.directory_stack.cluster (fat_date now)
              (fat_time now))) c).getD j zero_entry 0
          = (cluster_slots bs s.disk c).getD j zero_entry 0 := by
      intro j hj2 hj
      rw [cluster_slots_getD bs _ c j hj, cluster_slots_getD bs _ c j hj]
      unfold fread_entry
      rw [mkdir_disk_outside bs s.disk c _ _ _ _ _ _ hfit hc
        (by rw [hrdp]; have := hcd.1; omega)
        (by rw [hposeq, hposval, hrdp]; have := hcd.2; omega)
        (by omega)]
    have hdots : ∀ j, j < 2 →
        (cluster_slots bs
          (fwrite (fwrite (fwrite (write_in_fat bs s.disk c END_OF_CHAIN)
            (get_entry_disk_position bs s.disk s.directory_stack.cluster p) 32
            (new_entry (formated entry_name) ATTR_DIRECTORY c (fat_date now) (fat_time now)))
            (read_dir_position bs c) 32
            (dot_entry dot ATTR_DIRECTORY c (fat_date now) (fat_time now)))
            (read_dir_position bs c + 32) 32
            (dot_entry dotdot ATTR_DIRECTORY s.directory_stack.cluster (fat_date now)
              (fat_time now))) c).getD j zero_entry 0 = 46 := by
      intro j hj
      rw [cluster_slots_getD bs _ c j (by omega)]
      have hds := dot_slots (fwrite (write_in_fat bs s.disk c END_OF_CHAIN)
        (get_entry_disk_position bs s.disk s.directory_stack.cluster p) 32
        (new_entry (formated entry_name) ATTR_DIRECTORY c (fat_date now) (fat_time now)))
        (read_dir_position bs c)
        (dot_entry dot ATTR_DIRECTORY c (fat_date now) (fat_time now))
        (dot_entry dotdot ATTR_DIRECTORY s.directory_stack.cluster (fat_date now) (fat_time now))
        0 (by decide)
      have hj01 : j = 0 ∨ j = 1 := by omega
      rcases hj01 with rfl | rfl
      · rw [hds.1, (dot_entry_fields dot ATTR_DIRECTORY c (fat_date now) (fat_time now) hc32).1 0
          (by decide)]
        rfl
      · rw [hds.2, (dot_entry_fields dotdot ATTR_DIRECTORY s.directory_stack.cluster
          (fat_date now) (fat_time now) (in_fat_lt bs _ hfit
            (hx _ (List.mem_of_mem_head? hhead)).2.2.1)).1 0 (by decide)]
        rfl
    generalize hpos_def : get_entry_disk_position bs s.disk s.directory_stack.cluster p = pos
      at hmk hpos hslots hold hdots
    generalize he_def : new_entry (formated entry_name) ATTR_DIRECTORY c (fat_date now)
      (fat_time now) = e at hmk f0 f10 elt he0 hslots hold hdots
    generalize dot_entry dot ATTR_DIRECTORY c (fat_date now) (fat_time now) = A
      at hmk hslots hold hdots
    generalize dot_entry dotdot ATTR_DIRECTORY s.directory_stack.cluster (fat_date now)
      (fat_time now) = B at hmk hslots hold hdots
    generalize hD3 : fwrite (fwrite (fwrite (write_in_fat bs s.disk c END_OF_CHAIN) pos 32 e)
      (read_dir_position bs c) 32 A) (read_dir_position bs c + 32) 32 B = D3
      at hmk hslots hold hdots
    have hagree3 : ∀ y, in_fat bs y → get_cluster_info bs s.disk y ≠ FREE_CLUSTER →
        get_cluster_info bs D3 y = get_cluster_info bs s.disk y := by
      intro y hy hne
      rw [← hD3, fwrite_data_info bs _ _ _ _ y hfit hy (by omega),
        fwrite_data_info bs _ _ _ _ y hfit hy hwdata, fwrite_data_info bs _ _ _ _ y hfit hy hpos]
      exact hagree y hy hne
    have hinfo3 : get_cluster_info bs D3 c = END_OF_CHAIN := by
      rw [← hD3, fwrite_data_info bs _ _ _ _ c hfit hc (by omega),
        fwrite_data_info bs _ _ _ _ c hfit hc hwdata, fwrite_data_info bs _ _ _ _ c hfit hc hpos,
        write_in_fat_info_same bs s.disk c END_OF_CHAIN hfit hc (by decide)]
      rfl
    have hlinked3 : linked bs D3 cs = true := by
      rw [linked_congr bs s.disk D3 cs fun x hxm => hagree3 x (hx x hxm).2.2.1 (hx x hxm).2.2.2.2]
      exact hlinked
    obtain ⟨hc1, hc2'⟩ := cache_after_store bs s D3 cs p e hcoh hpq elt he0 hslots hnozero hinv
    refine ⟨_, hmk, ?_, hc1, hc2', fun _ => ⟨?_, ?_, ?_⟩⟩
    · exact read_dir_loop_chain bs _ cs fuel _ [] hhead hclne hlinked3 hfuel
    · show first_cluster ((s.directory_stack.entries.set p e).getD p zero_entry) = c
      rw [getD_set_self _ _ _ (by rw [← hlen]; exact hpq)]
      exact f10
    · have := read_dir_loop_single bs D3 fuel c [] hceoc hinfo3 (by omega)
      rw [List.nil_append] at this
      exact this
    · intro j hj i hij h0
      rw [cluster_slots_length] at hj
      have hi2 : 2 ≤ i := by
        by_contra hcon
        rw [hdots i (by omega)] at h0
        exact absurd h0 (by decide)
      rw [hold i hi2 (by omega)] at h0
      rw [hold j (by omega) hj]
      exact hnew rfl j hj i hi2 hij h0

set_option maxRecDepth 100000 in
/-- C30 (as stated) fails. On `img_gap` the only directory is the empty root, so every
directory has an unused tail. `mkdir D` succeeds and takes the free cluster 3, whose fourth
slot holds stale bytes; the new directory, read back by `cd D`, has the status bytes
46, 46, 0x00, 90: a slot in use after a 0x00 slot. On `img_long_zero` slot 0 of the root
is a long-name slot with status byte 0x00 and every later slot is zero; `touch X` passes
over slot 0, stores X in slot 1, and the directory read back has the status bytes
0x00, 88, 0x00. On `img_full_two` the root directory is full and two clusters are free:
`touch X` and `mkdir X` have to grow the directory and re-read it, which frees the array of
the current frame twice; whatever the fuel, they do not succeed and return no session. -/
theorem create_exposes_stale_slots :
    ((read_disk 5 bs_small img_gap).map
        (fun s => decide (unused_after_zero s.directory_stack.entries)) = some true ∧
      ((read_disk 5 bs_small img_gap).bind fun s =>
          touch_wrapper 5 bs_small noon s [68] ATTR_DIRECTORY).map (fun r => (r.1, r.2.out))
        = some (1, []) ∧
      (((read_disk 5 bs_small img_gap).bind fun s => mkdir 5 bs_small noon s [68]).bind
          fun s => cd 5 bs_small s [68]).map
        (fun s => ((List.range 5).map fun i => s.entry i 0,
          decide (unused_after_zero s.directory_stack.entries)))
        = some ([46, 46, 0, 90, 0], false)) ∧
    ((read_disk 5 bs_small img_long_zero).map
        (fun s => (decide (unused_after_zero s.directory_stack.entries),
          is_long_name (s.entry 0), (List.range 3).map fun i => s.entry i 0))
        = some (true, true, [0, 0, 0]) ∧
      ((read_disk 5 bs_small img_long_zero).bind fun s =>
          touch_wrapper 5 bs_small noon s [88] ATTR_ARCHIVE).map (fun r => (r.1, r.2.out))
        = some (1, []) ∧
      (((read_disk 5 bs_small img_long_zero).bind fun s => touch 5 bs_small noon s [88]).bind
          fun s => read_disk 5 bs_small s.disk).map
        (fun s => ((List.range 3).map fun i => s.entry i 0,
          decide (unused_after_zero s.directory_stack.entries)))
        = some ([0, 88, 0], false)) ∧
    ((read_disk 5 bs_small img_full_two).map
        (fun s => decide (unused_after_zero s.directory_stack.entries)) = some true ∧
      (∀ fuel, ((read_disk 5 bs_small img_full_two).bind fun s =>
        touch_wrapper fuel bs_small noon s [88] ATTR_ARCHIVE) = none) ∧
      (∀ fuel, ((read_disk 5 bs_small img_full_two).bind fun s =>
        touch_wrapper fuel bs_small noon s [88] ATTR_DIRECTORY) = none)) := by
  refine ⟨by decide, by decide, by decide, fun fuel => ?_, fun fuel => ?_⟩
  · rw [mount_full_two]
    exact touch_wrapper_grow_none fuel bs_small noon session_full_two [88] ATTR_ARCHIVE
      (Or.inl rfl) (by decide) (by decide) (by decide) (by decide) (by decide) (by decide)
  · rw [mount_full_two]
    exact touch_wrapper_grow_none fuel bs_small noon session_full_two [88] ATTR_DIRECTORY
      (Or.inr rfl) (by decide) (by decide) (by decide) (by decide) (by decide) (by decide)

/-- C30 (amended): in a current directory whose array is allocated and holds what `read_dir`
loads from the image along the well-formed chain `cs`, with every slot after a 0x00 slot
also at 0x00 and no 0x00 status byte before its first usable slot, whenever `touch` or
`mkdir` returns 1 (which it does only without growing the directory) the current directory
read back from the image still has that property and the cache still equals what
`read_dir` loads. For `mkdir`, the new directory read back from the image (the slots of the
allocated cluster `c`) has the property provided the slots of `c` from the third on had it
beforehand, for instance when `c` was zero. -/
theorem touch_keeps_unused_tail (fuel : Nat) (bs : boot_sector) (now : tm) (s : Session)
    (entry_name : List Nat) (attr c : Nat) (cs : List Nat)
    (hfit : fats_addressable bs) (hspc : bs.BPB_SecPerClus < 2 ^ 8)
    (hdiv : cluster_bytes bs % 32 = 0) (hcb : 64 ≤ cluster_bytes bs)
    (hhead : cs.head? = some s.directory_stack.cluster)
    (hchain : directory_chain bs s.disk cs) (hcoh : coherent bs s cs)
    (hptr : s.directory_stack.entries_ptr = Pointer.allocated)
    (hchars : ∀ ch ∈ entry_name, ch < 256)
    (hnozero : ∀ p, first_usable s p → ∀ i, i < p → s.entry i 0 ≠ 0x00)
    (hfree : (free_clusters bs s.disk).head? = some c)
    (hc : in_fat bs c) (hceoc : c ≠ END_OF_CHAIN)
    (hcdata : attr = ATTR_DIRECTORY → data_cluster bs c)
    (hinv : unused_after_zero (chain_slots bs s.disk cs))
    (hnew : attr = ATTR_DIRECTORY → ∀ j, j < max_dir_entry_per_cluster bs → ∀ i, 2 ≤ i → i < j →
      (cluster_slots bs s.disk c).getD i zero_entry 0 = 0x00 →
      (cluster_slots bs s.disk c).getD j zero_entry 0 = 0x00)
    (hfuel : cs.length < fuel)
    (hsucc : (touch_wrapper fuel bs now s entry_name attr).map (fun r => r.1) = some 1) :
    ∃ s1, touch_wrapper fuel bs now s entry_name attr = some (1, s1) ∧
      read_dir_loop bs s1.disk fuel s1.directory_stack.cluster []
        = some (chain_slots bs s1.disk cs) ∧
      coherent bs s1 cs ∧
      unused_after_zero (chain_slots bs s1.disk cs) ∧
      (attr = ATTR_DIRECTORY →
        ∃ p, first_usable s p ∧ first_cluster (s1.entry p) = c ∧
        read_dir_loop bs s1.disk fuel c [] = some (cluster_slots bs s1.disk c) ∧
        unused_after_zero (cluster_slots bs s1.disk c)) := by
  have hclne : s.directory_stack.cluster ≠ END_OF_CHAIN :=
    (hchain.2.2 _ (List.mem_of_mem_head? hhead)).2.1
  obtain ⟨hattr, hname, p, c2, hslot, _, hsearch, hfree2, _⟩ :=
    touch_wrapper_success fuel bs now s entry_name attr hptr hclne hsucc
  obtain ⟨s1, h1, h2, h3, h4, h5⟩ :=
    touch_keeps_tail_at fuel bs now s entry_name attr p c cs hattr hfit hspc hdiv hcb hhead
      hchain hcoh hchars hname hslot hsearch (hnozero p hslot) hfree hc hceoc hcdata hinv hnew
      hfuel
  exact ⟨s1, h1, h2, h3, h4, fun hd => ⟨p, hslot, h5 hd⟩⟩

set_option maxRecDepth 100000 in
/-- C30 (amended) at work on `img_slot`, whose free cluster 3 is zero: `mkdir D` returns 1,
and afterwards the root directory and the new directory both have an unused tail when read
from the image. -/
theorem touch_keeps_unused_tail_witness :
    (fats_addressable bs_small ∧ directory_chain bs_small session_slot.disk [2] ∧
      coherent bs_small session_slot [2] ∧
      session_slot.directory_stack.entries_ptr = Pointer.allocated ∧
      (free_clusters bs_small session_slot.disk).head? = some 3 ∧
      unused_after_zero (chain_slots bs_small session_slot.disk [2]) ∧
      (touch_wrapper 5 bs_small noon session_slot [68] ATTR_DIRECTORY).map (fun r => r.1)
        = some 1) ∧
    ∃ s1, touch_wrapper 5 bs_small noon session_slot [68] ATTR_DIRECTORY = some (1, s1) ∧
      coherent bs_small s1 [2] ∧
      unused_after_zero (chain_slots bs_small s1.disk [2]) ∧
      first_cluster (s1.entry 1) = 3 ∧
      unused_after_zero (cluster_slots bs_small s1.disk 3) := by
  refine ⟨⟨by decide, by decide, by decide, by decide, by decide, by decide, by decide⟩, ?_⟩
  have hone : ∀ p, first_usable session_slot p → p = 1 := by
    intro p hp
    have h1u : first_usable session_slot 1 := by decide
    rcases Nat.lt_trichotomy p 1 with hlt | heq | hgt
    · exact absurd (h1u.2.2 p hlt) (by rw [hp.2.1]; decide)
    · exact heq
    · exact absurd (hp.2.2 1 hgt) (by rw [h1u.2.1]; decide)
  obtain ⟨s1, h, _, h1, h2, h3⟩ :=
    touch_keeps_unused_tail 5 bs_small noon session_slot [68] ATTR_DIRECTORY 3 [2]
      (by decide) (by decide) (by decide) (by decide) (by decide) (by decide) (by decide)
      (by decide) (by decide)
      (fun p hp i hi => by
        have hp1 := hone p hp
        subst hp1
        have hi0 : i = 0 := by omega
        subst hi0
        decide)
      (by decide) (by decide) (by decide)
      (fun _ => by decide) (by decide) (fun _ => by decide) (by decide) (by decide)
  obtain ⟨p, hp, h4, _, h5⟩ := h3 rfl
  have hp1 := hone p hp
  subst hp1
  exact ⟨s1, h, h1, h2, h4, h5⟩

/-! ### Names stay unique: `touch`, `mkdir` and `rename` -/

set_option maxRecDepth 100000 in
/-- C31 (as stated) fails. On `img_twin` the root directory holds the file A and its
terminator, with the stale bytes of a file A in the slot after the terminator, so the names
of its live entries are pairwise different; `touch B` and `mkdir B` succeed and store B
over the terminator: slots 0 and 2 of the directory are then both live and both named A.
On `img_full_two` the root directory is full and two clusters are free: `touch X` and
`mkdir X` have to grow the directory and re-read it, which frees the array of the current
frame twice; whatever the fuel, no session is returned for which the property could
hold. -/
theorem touch_duplicates_stale_name :
    ((read_disk 5 bs_small img_twin).map
        (fun s => (decide (unique_names s), s.directory_stack.quantity)) = some (true, 16) ∧
      ((read_disk 5 bs_small img_twin).bind fun s =>
          touch_wrapper 5 bs_small noon s [66] ATTR_ARCHIVE).map
        (fun r => (r.1, r.2.out, [decide (in_directory r.2 0), decide (in_directory r.2 2),
          name_matches (r.2.entry 0) (r.2.entry 2), decide (unique_names r.2)]))
        = some (1, [], [true, true, true, false]) ∧
      ((read_disk 5 bs_small img_twin).bind fun s =>
          touch_wrapper 5 bs_small noon s [66] ATTR_DIRECTORY).map
        (fun r => (r.1, r.2.out, [decide (in_directory r.2 0), decide (in_directory r.2 2),
          name_matches (r.2.entry 0) (r.2.entry 2), decide (unique_names r.2)]))
        = some (1, [], [true, true, true, false])) ∧
    ((read_disk 5 bs_small img_full_two).map
        (fun s => (decide (unique_names s),
          decide (∀ i, i < s.directory_stack.quantity → usable (s.entry i) = false)))
        = some (true, true) ∧
      (∀ fuel, ((read_disk 5 bs_small img_full_two).bind fun s =>
        touch fuel bs_small noon s [88]) = none) ∧
      (∀ fuel, ((read_disk 5 bs_small img_full_two).bind fun s =>
        mkdir fuel bs_small noon s [88]) = none)) := by
  refine ⟨by decide, by decide, fun fuel => ?_, fun fuel => ?_⟩
  · rw [mount_full_two]
    show (touch_wrapper fuel bs_small noon session_full_two [88] ATTR_ARCHIVE).map _ = none
    rw [touch_wrapper_grow_none fuel bs_small noon session_full_two [88] ATTR_ARCHIVE
      (Or.inl rfl) (by decide) (by decide) (by decide) (by decide) (by decide) (by decide)]
    rfl
  · rw [mount_full_two]
    show (touch_wrapper fuel bs_small noon session_full_two [88] ATTR_DIRECTORY).map _ = none
    rw [touch_wrapper_grow_none fuel bs_small noon session_full_two [88] ATTR_DIRECTORY
      (Or.inr rfl) (by decide) (by decide) (by decide) (by decide) (by decide) (by decide)]
    rfl

/-- Every session `touch_wrapper` returns, with or without an error line, has unique names
when the array of the directory is allocated and the directory has an unused tail. -/
theorem touch_wrapper_unique (fuel : Nat) (bs : boot_sector) (now : tm) (s : Session)
    (name : List Nat) (attr : Nat)
    (hlen : s.directory_stack.quantity = s.directory_stack.entries.length)
    (hptr : s.directory_stack.entries_ptr = Pointer.allocated)
    (hcl : s.directory_stack.cluster ≠ END_OF_CHAIN)
    (huniq : unique_names s) (htail : unused_after_terminator s)
    (r : Nat × Session) (h : touch_wrapper fuel bs now s name attr = some r) :
    unique_names r.2 := by
  unfold touch_wrapper at h
  by_cases hattr : attr ≠ ATTR_ARCHIVE ∧ attr ≠ ATTR_DIRECTORY
  · rw [if_pos hattr] at h
    simp only [Option.some.injEq] at h
    subst h
    exact huniq
  rw [if_neg hattr] at h
  dsimp only at h
  by_cases hname : formated name 0 = 0
  · rw [if_pos hname] at h
    simp only [Option.some.injEq] at h
    subst h
    exact unique_names_congr s _ rfl huniq
  rw [if_neg hname] at h
  cases hsearch : touch_search (formated name) s.directory_stack.entries
      s.directory_stack.quantity 0 none with
  | none =>
    rw [hsearch] at h
    simp only [Option.some.injEq] at h
    subst h
    exact unique_names_congr s _ rfl huniq
  | some slot =>
    rw [hsearch] at h
    dsimp only at h
    by_cases halloc : (allocate_clusters bs s.disk 1).1 = FREE_CLUSTER
    · rw [if_pos halloc] at h
      simp only [Option.some.injEq] at h
      subst h
      exact unique_names_congr s _ rfl huniq
    rw [if_neg halloc] at h
    cases slot with
    | some p =>
      dsimp only at h
      simp only [Option.some.injEq] at h
      subst h
      obtain ⟨⟨hp, hu, hbefore⟩, habsent⟩ := touch_search_slot s _ p hsearch
      refine unique_names_store s _ p _ rfl rfl (by rw [← hlen]; exact hp) huniq ?_ ?_
      · intro j hpj hj hlive
        cases hterm : terminator (s.entry p) with
        | false => rfl
        | true =>
          exfalso
          unfold terminator at hterm
          simp only [Bool.and_eq_true, Bool.not_eq_true', beq_iff_eq] at hterm
          exact ((live_iff _).mp hlive).2.1 (htail j hj p hpj hterm.2)
      · intro k hk hkp hlive hterm
        rw [name_matches_left_congr _ (formated name) _ (new_entry_bytes _ _ _ _ _).1]
        exact habsent k hk hterm hlive
    | none =>
      dsimp only at h
      cases hlast : get_last_cluster_in_chain fuel bs (allocate_clusters bs s.disk 1).2
          s.directory_stack.cluster with
      | none => rw [hlast] at h; exact absurd h (by simp)
      | some last =>
        rw [hlast] at h
        dsimp only at h
        by_cases h2 : (allocate_clusters bs (allocate_clusters bs s.disk 1).2 1).1 = FREE_CLUSTER
        · rw [if_pos h2] at h
          simp only [Option.some.injEq] at h
          subst h
          exact unique_names_congr s _ rfl huniq
        · have hrd : ∀ d, read_dir fuel bs { s with disk := d } = none := fun d =>
            read_dir_allocated fuel bs _ hptr hcl
          rw [if_neg h2, hrd] at h
          exact absurd h (by simp)

/-- With a usable slot in the directory `touch_wrapper` returns. -/
theorem touch_wrapper_returns (fuel : Nat) (bs : boot_sector) (now : tm) (s : Session)
    (name : List Nat) (attr p : Nat) (hslot : first_usable s p) :
    (touch_wrapper fuel bs now s name attr).isSome = true := by
  unfold touch_wrapper
  by_cases hattr : attr ≠ ATTR_ARCHIVE ∧ attr ≠ ATTR_DIRECTORY
  · rw [if_pos hattr]; rfl
  rw [if_neg hattr]
  dsimp only
  by_cases hname : formated name 0 = 0
  · rw [if_pos hname]; rfl
  rw [if_neg hname]
  cases hsearch : touch_search (formated name) s.directory_stack.entries
      s.directory_stack.quantity 0 none with
  | none => rfl
  | some slot =>
    dsimp only
    by_cases halloc : (allocate_clusters bs s.disk 1).1 = FREE_CLUSTER
    · rw [if_pos halloc]; rfl
    rw [if_neg halloc]
    cases slot with
    | some q => rfl
    | none =>
      have := touch_search_no_slot s _ hsearch p hslot.1
      rw [hslot.2.1] at this
      exact absurd this (by decide)

/-- C31 (amended). In a current directory whose array is allocated (as `read_dir` leaves it
after a mount or a `cd`) and whose cached live short entries have pairwise different names:
when every slot after a slot with status byte 0x00 also has status byte 0x00, every session
that `touch` or `mkdir` of any name returns, with or without an error line, still has
pairwise different names, and both return whenever the directory has a usable slot (a
call that has to grow the directory returns an error or has no defined result); every
session `rename_dir_entry` returns has that property; and `rename_dir_entry` returns
whenever the directory has a terminator slot. -/
theorem names_stay_unique (fuel : Nat) (bs : boot_sector) (now : tm) (s : Session)
    (hlen : s.directory_stack.quantity = s.directory_stack.entries.length)
    (hptr : s.directory_stack.entries_ptr = Pointer.allocated)
    (hcl : s.directory_stack.cluster ≠ END_OF_CHAIN)
    (huniq : unique_names s) :
    (unused_after_terminator s → ∀ name,
      (∀ s', touch fuel bs now s name = some s' → unique_names s') ∧
      (∀ s', mkdir fuel bs now s name = some s' → unique_names s') ∧
      ((∃ p, first_usable s p) →
        (touch fuel bs now s name).isSome = true ∧ (mkdir fuel bs now s name).isSome = true)) ∧
    (∀ old new s', rename_dir_entry bs now s old new = some s' → unique_names s') ∧
    (∀ old new t, t < s.directory_stack.quantity → terminator (s.entry t) = true →
      (rename_dir_entry bs now s old new).isSome = true) := by
  refine ⟨fun htail name => ⟨?_, ?_, ?_⟩,
    fun old new s' h => rename_unique bs now s old new hlen huniq s' h,
    fun old new t ht hterm => rename_returns bs now s old new t ht hterm⟩
  · intro s' h
    unfold touch at h
    cases hr : touch_wrapper fuel bs now s name ATTR_ARCHIVE with
    | none => rw [hr] at h; exact absurd h (by simp)
    | some r =>
      rw [hr] at h
      simp only [Option.map_some', Option.some.injEq] at h
      subst h
      exact touch_wrapper_unique fuel bs now s name ATTR_ARCHIVE hlen hptr hcl huniq htail r hr
  · intro s' h
    unfold mkdir at h
    cases hr : touch_wrapper fuel bs now s name ATTR_DIRECTORY with
    | none => rw [hr] at h; exact absurd h (by simp)
    | some r =>
      rw [hr] at h
      simp only [Option.map_some', Option.some.injEq] at h
      subst h
      exact touch_wrapper_unique fuel bs now s name ATTR_DIRECTORY hlen hptr hcl huniq htail r hr
  · rintro ⟨p, hslot⟩
    have h1 := touch_wrapper_returns fuel bs now s name ATTR_ARCHIVE p hslot
    have h2 := touch_wrapper_returns fuel bs now s name ATTR_DIRECTORY p hslot
    have hm : ∀ x : Option (Nat × Session), x.isSome = true →
        (x.map fun r => r.2).isSome = true := by
      intro x hx
      cases x with
      | none => exact absurd hx (by decide)
      | some r => rfl
    exact ⟨hm _ h1, hm _ h2⟩

set_option maxRecDepth 100000 in
/-- C31 (amended) at work on `session_slot` (slot 0 is the file B, slot 1 is deleted, slot 2
is the terminator): `touch A`, `touch B` (which reports "Already exists"), `mkdir A` and
`rename B C` all return a session whose names are pairwise different. -/
theorem names_stay_unique_witness :
    (session_slot.directory_stack.quantity = session_slot.directory_stack.entries.length ∧
      session_slot.directory_stack.entries_ptr = Pointer.allocated ∧
      session_slot.directory_stack.cluster ≠ END_OF_CHAIN ∧
      unique_names session_slot ∧ first_usable session_slot 1 ∧
      unused_after_terminator session_slot ∧ terminator (session_slot.entry 2) = true) ∧
    (∃ s', touch 5 bs_small noon session_slot [65] = some s' ∧ unique_names s') ∧
    (∃ s', touch 5 bs_small noon session_slot [66] = some s' ∧ unique_names s') ∧
    (∃ s', mkdir 5 bs_small noon session_slot [65] = some s' ∧ unique_names s') ∧
    (∃ s', rename_dir_entry bs_small noon session_slot [66] [67] = some s' ∧
      unique_names s') := by
  have h := names_stay_unique 5 bs_small noon session_slot (by decide) (by decide) (by decide)
    (by decide)
  have some_of : ∀ (x : Option Session), x.isSome = true →
      (∀ s', x = some s' → unique_names s') → ∃ s', x = some s' ∧ unique_names s' := by
    intro x hx hall
    cases x with
    | none => exact absurd hx (by decide)
    | some s' => exact ⟨s', rfl, hall s' rfl⟩
  refine ⟨⟨by decide, by decide, by decide, by decide, by decide, by decide, by decide⟩,
    ?_, ?_, ?_, ?_⟩
  · exact some_of _ ((h.1 (by decide) [65]).2.2 ⟨1, by decide⟩).1 (h.1 (by decide) [65]).1
  · exact some_of _ ((h.1 (by decide) [66]).2.2 ⟨1, by decide⟩).1 (h.1 (by decide) [66]).1
  · exact some_of _ ((h.1 (by decide) [65]).2.2 ⟨1, by decide⟩).2 (h.1 (by decide) [65]).2.1
  · exact some_of _ (h.2.2 [66] [67] 2 (by decide) (by decide)) (h.2.1 [66] [67])

end Fat32
